import Mathlib

/-! # Soft3d: voxel world, mesher, collision resolver, block raycaster, projection and clipping

A shallow embedding of `demo/mc.c`, of the face loop and main loop of
`demo/model_demo.c` and of `draw_triangle` of `src/shapes.c`.  C `float` values
are modelled as exact rationals (`ℚ`; `INFINITY` as the top element of
`WithTop ℚ`), C `int` values as unbounded integers (`ℤ`), except where rounding
or wrap-around decides a property: the product `max_faces` of `rebuild_faces`
wraps to 32 bits, and the float code of `raycast_block`, of the near-clip
interpolation and of the scan range of `resolve_collisions` is given a second
time with every float operation rounded by a function `fl`, which is the
identity for exact arithmetic and `f32` for IEEE 754 binary32.  The `blocks`
and `faces` arrays are
modelled as total maps from the flat index to the stored element.  The linear
algebra core (`mat4_mul_v4`, `mat4_perspective`, `norm_to_screen`) is not among
the sources: the face code takes the two matrix products and `norm_to_screen`
as parameters.  The C library functions `sinf`, `cosf`, `sqrtf` and the helpers
`sort_by_y`, `draw_linei` enter as parameters as well.
-/

namespace Soft3d

/-! ## Data model -/

/-- The `v2f` value type: two float components. -/
structure v2f where
  x : ℚ
  y : ℚ
deriving DecidableEq, Repr

/-- The `v3f` value type: three float components. -/
structure v3f where
  x : ℚ
  y : ℚ
  z : ℚ
deriving DecidableEq, Repr

/-- The `Camera` struct. -/
structure Camera where
  pos : v3f
  yaw : ℚ
  pitch : ℚ
deriving DecidableEq, Repr

/-- The `BlockType` enum. -/
inductive BlockType where
  | BLOCK_AIR
  | BLOCK_GRASS
  | BLOCK_DIRT
  | BLOCK_STONE
deriving DecidableEq, Repr

/-- The two textures a `Face` can point at (`&demo->dirt_tex`, `&demo->stone_tex`). -/
inductive TexRef where
  | dirt_tex
  | stone_tex
deriving DecidableEq, Repr

/-- The `Vertex3D` struct as it is built in `add_face`: a position and a UV. -/
structure Vertex3D where
  pos : v3f
  uv : v2f
deriving DecidableEq, Repr

/-- The `Face` struct: `v[0]`, `v[1]`, `v[2]` and the texture pointer. -/
structure Face where
  v0 : Vertex3D
  v1 : Vertex3D
  v2 : Vertex3D
  tex : TexRef
deriving DecidableEq, Repr

/-- The simulation part of the `Demo` struct.  `faces = none` is the null pointer. -/
structure Demo where
  camera : Camera
  wireframe : Bool
  noclip : Bool
  velocity : v3f
  grounded : Bool
  near_plane : ℚ
  faces : Option (ℤ → Face)
  face_count : ℤ
  face_cap : ℤ
  blocks : ℤ → BlockType
  size_x : ℤ
  size_y : ℤ
  size_z : ℤ
  mesh_dirty : Bool

/-! ## Grid accessors -/

/-- The C function `block_index`. -/
def block_index (demo : Demo) (x y z : ℤ) : ℤ :=
  (y * demo.size_z + z) * demo.size_x + x

/-- The guard shared by `block_get` and `block_set`:
`x < 0 || x >= size_x || y < 0 || y >= size_y || z < 0 || z >= size_z`. -/
def out_of_range (demo : Demo) (x y z : ℤ) : Prop :=
  x < 0 ∨ x ≥ demo.size_x ∨ y < 0 ∨ y ≥ demo.size_y ∨ z < 0 ∨ z ≥ demo.size_z

instance (demo : Demo) (x y z : ℤ) : Decidable (out_of_range demo x y z) := by
  unfold out_of_range; infer_instance

/-- The C function `block_get`. -/
def block_get (demo : Demo) (x y z : ℤ) : BlockType :=
  if out_of_range demo x y z then BlockType.BLOCK_AIR
  else demo.blocks (block_index demo x y z)

/-- The C function `block_set`. -/
def block_set (demo : Demo) (x y z : ℤ) (t : BlockType) : Demo :=
  if out_of_range demo x y z then demo
  else
    { demo with
      blocks := Function.update demo.blocks (block_index demo x y z) t
      mesh_dirty := true }

/-! ## Loops -/

/-- The C loop `for (int i = lo; i < hi; i++) body(i)` run on a state:
a fold of the body over `lo, lo + 1, …, hi - 1` (no iteration when `hi ≤ lo`). -/
def for_loop {σ : Type} (lo hi : ℤ) (body : ℤ → σ → σ) (s : σ) : σ :=
  (List.range (hi - lo).toNat).foldl (fun st (k : ℕ) => body (lo + (k : ℤ)) st) s

/-! ## Mesher -/

/-- The C function `add_face`: writes two triangles at `faces[*count]` and
`faces[*count + 1]` and advances `*count` by two.  Returns the buffer and the
new count. -/
def add_face (faces : ℤ → Face) (count : ℤ) (tex : TexRef) (p0 p1 p2 p3 : v3f) :
    (ℤ → Face) × ℤ :=
  let faces1 := Function.update faces count
    { v0 := ⟨p0, ⟨0, 1⟩⟩, v1 := ⟨p1, ⟨1, 1⟩⟩, v2 := ⟨p2, ⟨1, 0⟩⟩, tex := tex }
  let count1 := count + 1
  let faces2 := Function.update faces1 count1
    { v0 := ⟨p0, ⟨0, 1⟩⟩, v1 := ⟨p2, ⟨1, 0⟩⟩, v2 := ⟨p3, ⟨0, 0⟩⟩, tex := tex }
  (faces2, count1 + 1)

/-- The macro `IS_SOLID(ix, iy, iz)` of `rebuild_faces`. -/
def IS_SOLID (demo : Demo) (ix iy iz : ℤ) : Prop :=
  block_get demo ix iy iz ≠ BlockType.BLOCK_AIR

instance (demo : Demo) (ix iy iz : ℤ) : Decidable (IS_SOLID demo ix iy iz) := by
  unfold IS_SOLID; infer_instance

/-- The body of the innermost loop of `rebuild_faces` for the cell `(x, y, z)`,
acting on the face buffer and `face_count`. -/
def rebuild_faces_body (demo : Demo) (x z y : ℤ) (st : (ℤ → Face) × ℤ) :
    (ℤ → Face) × ℤ :=
  let type := block_get demo x y z
  if type = BlockType.BLOCK_AIR then st
  else
    let tex := if type = BlockType.BLOCK_DIRT then TexRef.dirt_tex else TexRef.stone_tex
    let bx : ℚ := (x : ℚ) - ((demo.size_x : ℚ) * (1 / 2)) + 1 / 2
    let by_ : ℚ := -(y : ℚ) - 1 / 2
    let bz : ℚ := (z : ℚ) - ((demo.size_z : ℚ) * (1 / 2)) + 1 / 2
    let x0 := bx - 1 / 2
    let x1 := bx + 1 / 2
    let y0 := by_ - 1 / 2
    let y1 := by_ + 1 / 2
    let z0 := bz - 1 / 2
    let z1 := bz + 1 / 2
    let st1 := if ¬ IS_SOLID demo x (y - 1) z then
        add_face st.1 st.2 tex ⟨x0, y1, z1⟩ ⟨x1, y1, z1⟩ ⟨x1, y1, z0⟩ ⟨x0, y1, z0⟩
      else st
    let st2 := if ¬ IS_SOLID demo x (y + 1) z then
        add_face st1.1 st1.2 tex ⟨x0, y0, z0⟩ ⟨x1, y0, z0⟩ ⟨x1, y0, z1⟩ ⟨x0, y0, z1⟩
      else st1
    let st3 := if ¬ IS_SOLID demo x y (z + 1) then
        add_face st2.1 st2.2 tex ⟨x0, y0, z1⟩ ⟨x1, y0, z1⟩ ⟨x1, y1, z1⟩ ⟨x0, y1, z1⟩
      else st2
    let st4 := if ¬ IS_SOLID demo x y (z - 1) then
        add_face st3.1 st3.2 tex ⟨x1, y0, z0⟩ ⟨x0, y0, z0⟩ ⟨x0, y1, z0⟩ ⟨x1, y1, z0⟩
      else st3
    let st5 := if ¬ IS_SOLID demo (x - 1) y z then
        add_face st4.1 st4.2 tex ⟨x0, y0, z0⟩ ⟨x0, y0, z1⟩ ⟨x0, y1, z1⟩ ⟨x0, y1, z0⟩
      else st4
    let st6 := if ¬ IS_SOLID demo (x + 1) y z then
        add_face st5.1 st5.2 tex ⟨x1, y0, z1⟩ ⟨x1, y0, z0⟩ ⟨x1, y1, z0⟩ ⟨x1, y1, z1⟩
      else st5
    st6

/-- The contents of a freshly allocated face buffer (`malloc`); the C contents
are indeterminate, the model fixes one value. -/
def malloc_faces : ℤ → Face :=
  fun _ => { v0 := ⟨⟨0, 0, 0⟩, ⟨0, 0⟩⟩, v1 := ⟨⟨0, 0, 0⟩, ⟨0, 0⟩⟩,
             v2 := ⟨⟨0, 0, 0⟩, ⟨0, 0⟩⟩, tex := TexRef.dirt_tex }

/-- The value a C `int` expression takes when its mathematical value is `n`:
the two's-complement wrap to 32 bits.  (Signed overflow is undefined in C; the
wrap is what the compiled code computes.) -/
def wrap_int (n : ℤ) : ℤ := (n + 2 ^ 31) % 2 ^ 32 - 2 ^ 31

/-- The C product `a * b` of two `int` values. -/
def int_mul (a b : ℤ) : ℤ := wrap_int (a * b)

/-- The local `max_faces` of `rebuild_faces`:
`demo->size_x * demo->size_y * demo->size_z * 12`, evaluated in `int`. -/
def max_faces (demo : Demo) : ℤ :=
  int_mul (int_mul (int_mul demo.size_x demo.size_y) demo.size_z) 12

/-- The C function `rebuild_faces` (allocation is assumed to succeed). -/
def rebuild_faces (demo : Demo) : Demo :=
  let max_faces := max_faces demo
  let grow : Bool := demo.faces.isNone || decide (demo.face_cap < max_faces)
  let faces : ℤ → Face := if grow then malloc_faces else demo.faces.getD malloc_faces
  let face_cap : ℤ := if grow then max_faces else demo.face_cap
  let st := for_loop 0 demo.size_x (fun x =>
      for_loop 0 demo.size_z (fun z =>
        for_loop 0 demo.size_y (fun y => rebuild_faces_body demo x z y))) (faces, 0)
  { demo with
    faces := some st.1
    face_count := st.2
    face_cap := face_cap
    mesh_dirty := false }

/-- Following the spec's words: the six neighbour directions of a cell. -/
def axis_dirs : Finset (ℤ × ℤ × ℤ) :=
  {(0, -1, 0), (0, 1, 0), (0, 0, 1), (0, 0, -1), (-1, 0, 0), (1, 0, 0)}

/-- Following the spec's words: the pairs (in-range solid cell, axis direction)
whose neighbour in that direction reads as `Air` through `block_get`. -/
def exposed_pairs (demo : Demo) : Finset ((ℤ × ℤ × ℤ) × (ℤ × ℤ × ℤ)) :=
  ((Finset.Ico 0 demo.size_x ×ˢ Finset.Ico 0 demo.size_y ×ˢ Finset.Ico 0 demo.size_z)
      ×ˢ axis_dirs).filter
    (fun p =>
      block_get demo p.1.1 p.1.2.1 p.1.2.2 ≠ BlockType.BLOCK_AIR ∧
      block_get demo (p.1.1 + p.2.1) (p.1.2.1 + p.2.2.1) (p.1.2.2 + p.2.2.2)
        = BlockType.BLOCK_AIR)

/-- The number of quads the body of `rebuild_faces` emits for the cell
`(x, y, z)`: one per `!IS_SOLID` test that succeeds, none for an `Air` cell. -/
def quads_at (demo : Demo) (x y z : ℤ) : ℤ :=
  if block_get demo x y z = BlockType.BLOCK_AIR then 0
  else
    (if IS_SOLID demo x (y - 1) z then 0 else 1) +
    (if IS_SOLID demo x (y + 1) z then 0 else 1) +
    (if IS_SOLID demo x y (z + 1) then 0 else 1) +
    (if IS_SOLID demo x y (z - 1) then 0 else 1) +
    (if IS_SOLID demo (x - 1) y z then 0 else 1) +
    (if IS_SOLID demo (x + 1) y z then 0 else 1)

/-! ## Collision resolver -/

/-- The constant `PLAYER_RADIUS` (0.3f). -/
def PLAYER_RADIUS : ℚ := 3 / 10

/-- The constant `PLAYER_HEIGHT` (1.6f). -/
def PLAYER_HEIGHT : ℚ := 8 / 5

/-- The state `resolve_collisions` works on: the `Demo` and the local
variables that hold the player box and its centre. -/
structure ResolveState where
  demo : Demo
  pmin_x : ℚ
  pmax_x : ℚ
  pmin_y : ℚ
  pmax_y : ℚ
  pmin_z : ℚ
  pmax_z : ℚ
  pcx : ℚ
  pcy : ℚ
  pcz : ℚ

/-- The local `bmin_x` of `resolve_collisions` for the cell column `x`. -/
def bmin_x (demo : Demo) (x : ℤ) : ℚ := (x : ℚ) - (demo.size_x : ℚ) * (1 / 2)

/-- The local `bmax_x`. -/
def bmax_x (demo : Demo) (x : ℤ) : ℚ := bmin_x demo x + 1

/-- The local `bmin_z`. -/
def bmin_z (demo : Demo) (z : ℤ) : ℚ := (z : ℚ) - (demo.size_z : ℚ) * (1 / 2)

/-- The local `bmax_z`. -/
def bmax_z (demo : Demo) (z : ℤ) : ℚ := bmin_z demo z + 1

/-- The local `bmin_y`. -/
def bmin_y (y : ℤ) : ℚ := -(((y + 1 : ℤ)) : ℚ)

/-- The local `bmax_y`. -/
def bmax_y (y : ℤ) : ℚ := -((y : ℤ) : ℚ)

/-- The local `ox`: extent of the intersection of box and cell along x. -/
def overlap_x (st : ResolveState) (x : ℤ) : ℚ :=
  min st.pmax_x (bmax_x st.demo x) - max st.pmin_x (bmin_x st.demo x)

/-- The local `oy`. -/
def overlap_y (st : ResolveState) (y : ℤ) : ℚ :=
  min st.pmax_y (bmax_y y) - max st.pmin_y (bmin_y y)

/-- The local `oz`. -/
def overlap_z (st : ResolveState) (z : ℤ) : ℚ :=
  min st.pmax_z (bmax_z st.demo z) - max st.pmin_z (bmin_z st.demo z)

/-- The x branch of the resolution: `camera.pos.x`, `pmin_x`, `pmax_x` and
`pcx` all move by `dir`. -/
def push_x (st : ResolveState) (dir : ℚ) : ResolveState :=
  { st with
    demo := { st.demo with
      camera := { st.demo.camera with
        pos := { st.demo.camera.pos with x := st.demo.camera.pos.x + dir } } }
    pmin_x := st.pmin_x + dir
    pmax_x := st.pmax_x + dir
    pcx := st.pcx + dir }

/-- The y branch of the resolution: the box moves by `dir`, `velocity.y` is
zeroed, and `grounded` is set when `dir > 0`. -/
def push_y (st : ResolveState) (dir : ℚ) : ResolveState :=
  { st with
    demo := { st.demo with
      camera := { st.demo.camera with
        pos := { st.demo.camera.pos with y := st.demo.camera.pos.y + dir } }
      velocity := { st.demo.velocity with y := 0 }
      grounded := if 0 < dir then true else st.demo.grounded }
    pmin_y := st.pmin_y + dir
    pmax_y := st.pmax_y + dir
    pcy := st.pcy + dir }

/-- The z branch of the resolution. -/
def push_z (st : ResolveState) (dir : ℚ) : ResolveState :=
  { st with
    demo := { st.demo with
      camera := { st.demo.camera with
        pos := { st.demo.camera.pos with z := st.demo.camera.pos.z + dir } } }
    pmin_z := st.pmin_z + dir
    pmax_z := st.pmax_z + dir
    pcz := st.pcz + dir }

/-- The body of the innermost loop of `resolve_collisions` for the cell
`(x, y, z)`. -/
def resolve_collisions_body (x z y : ℤ) (st : ResolveState) : ResolveState :=
  if block_get st.demo x y z = BlockType.BLOCK_AIR then st
  else
    let ox := overlap_x st x
    let oy := overlap_y st y
    let oz := overlap_z st z
    if 0 < ox ∧ 0 < oy ∧ 0 < oz then
      if ox ≤ oy ∧ ox ≤ oz then
        let dir := if st.pcx < (bmin_x st.demo x + bmax_x st.demo x) * (1 / 2) then -ox else ox
        push_x st dir
      else if oy ≤ ox ∧ oy ≤ oz then
        let dir := if st.pcy < (bmin_y y + bmax_y y) * (1 / 2) then -oy else oy
        push_y st dir
      else
        let dir := if st.pcz < (bmin_z st.demo z + bmax_z st.demo z) * (1 / 2) then -oz else oz
        push_z st dir
    else st

/-- The clamp `if (i < 0) i = 0;` applied to a lower loop bound. -/
def clamp_lo (i : ℤ) : ℤ := if i < 0 then 0 else i

/-- The clamp `if (i >= size) i = size - 1;` applied to an upper loop bound. -/
def clamp_hi (i size : ℤ) : ℤ := if i ≥ size then size - 1 else i

/-- The locals of `resolve_collisions` on entry to the loops, with `grounded`
already reset. -/
def resolve_init (demo : Demo) : ResolveState :=
  let pmin_x := demo.camera.pos.x - PLAYER_RADIUS
  let pmax_x := demo.camera.pos.x + PLAYER_RADIUS
  let pmin_y := demo.camera.pos.y - PLAYER_HEIGHT
  let pmax_y := demo.camera.pos.y
  let pmin_z := demo.camera.pos.z - PLAYER_RADIUS
  let pmax_z := demo.camera.pos.z + PLAYER_RADIUS
  { demo := { demo with grounded := false }
    pmin_x := pmin_x
    pmax_x := pmax_x
    pmin_y := pmin_y
    pmax_y := pmax_y
    pmin_z := pmin_z
    pmax_z := pmax_z
    pcx := (pmin_x + pmax_x) * (1 / 2)
    pcy := (pmin_y + pmax_y) * (1 / 2)
    pcz := (pmin_z + pmax_z) * (1 / 2) }

/-- The C function `resolve_collisions`. -/
def resolve_collisions (demo : Demo) : Demo :=
  let st0 := resolve_init demo
  let ix_min := clamp_lo ⌊st0.pmin_x + (demo.size_x : ℚ) * (1 / 2)⌋
  let ix_max := clamp_hi ⌊st0.pmax_x + (demo.size_x : ℚ) * (1 / 2)⌋ demo.size_x
  let iz_min := clamp_lo ⌊st0.pmin_z + (demo.size_z : ℚ) * (1 / 2)⌋
  let iz_max := clamp_hi ⌊st0.pmax_z + (demo.size_z : ℚ) * (1 / 2)⌋ demo.size_z
  let iy_min := clamp_lo ⌊-st0.pmax_y⌋
  let iy_max := clamp_hi ⌊-st0.pmin_y⌋ demo.size_y
  (for_loop ix_min (ix_max + 1) (fun x =>
    for_loop iz_min (iz_max + 1) (fun z =>
      for_loop iy_min (iy_max + 1) (fun y => resolve_collisions_body x z y))) st0).demo

/-- The test `ox > 0 && oy > 0 && oz > 0`: the box of `st` intersects the
cell `(x, y, z)`. -/
def intersects (st : ResolveState) (x y z : ℤ) : Prop :=
  0 < overlap_x st x ∧ 0 < overlap_y st y ∧ 0 < overlap_z st z

instance (st : ResolveState) (x y z : ℤ) : Decidable (intersects st x y z) := by
  unfold intersects; infer_instance

/-! ## Block raycaster -/

/-- The out-parameters `*hx`, `*hy`, `*hz`, `*hnormal` of a `raycast_block`
call that returns true. -/
structure RayHit where
  hx : ℤ
  hy : ℤ
  hz : ℤ
  hnormal : v3f
deriving DecidableEq, Repr

/-- The locals of `raycast_block` that stay fixed during the traversal. -/
structure RaySetup where
  stepX : ℤ
  stepY : ℤ
  stepZ : ℤ
  invX : WithTop ℚ
  invY : WithTop ℚ
  invZ : WithTop ℚ

/-- The locals of `raycast_block` that the traversal loop updates. -/
structure RayState where
  ix : ℤ
  iy : ℤ
  iz : ℤ
  tMaxX : WithTop ℚ
  tMaxY : WithTop ℚ
  tMaxZ : WithTop ℚ
  normal : v3f
  t : WithTop ℚ

/-- The expression `(gd > 0.0f) ? 1 : -1` that sets `stepX`, `stepY`, `stepZ`. -/
def step_of (gd : ℚ) : ℤ := if 0 < gd then 1 else -1

/-- The expression `(gd != 0.0f) ? (1.0f / fabsf(gd)) : INFINITY`. -/
def inv_of (gd : ℚ) : WithTop ℚ := if gd ≠ 0 then ((1 / |gd| : ℚ) : WithTop ℚ) else ⊤

/-- The initial `tMax` of one axis:
`(gd != 0) ? ((step > 0 ? ((float)(i + 1) - g) : (g - (float)i)) * inv) : INFINITY`. -/
def tMax_of (gd g : ℚ) (i step : ℤ) : WithTop ℚ :=
  if gd ≠ 0 then
    (((if step > 0 then (((i + 1 : ℤ) : ℚ) - g) else (g - (i : ℚ))) * (1 / |gd|) : ℚ) :
      WithTop ℚ)
  else ⊤

/-- The `if (tMaxX < tMaxY) … else …` block of the loop: advance along the axis
with the smallest `tMax` and record the normal of the face crossed. -/
def raycast_advance (c : RaySetup) (st : RayState) : RayState :=
  if st.tMaxX < st.tMaxY then
    if st.tMaxX < st.tMaxZ then
      { st with
        t := st.tMaxX
        tMaxX := st.tMaxX + c.invX
        ix := st.ix + c.stepX
        normal := ⟨((-c.stepX : ℤ) : ℚ), 0, 0⟩ }
    else
      { st with
        t := st.tMaxZ
        tMaxZ := st.tMaxZ + c.invZ
        iz := st.iz + c.stepZ
        normal := ⟨0, 0, ((-c.stepZ : ℤ) : ℚ)⟩ }
  else
    if st.tMaxY < st.tMaxZ then
      { st with
        t := st.tMaxY
        tMaxY := st.tMaxY + c.invY
        iy := st.iy + c.stepY
        normal := ⟨0, ((-c.stepY : ℤ) : ℚ), 0⟩ }
    else
      { st with
        t := st.tMaxZ
        tMaxZ := st.tMaxZ + c.invZ
        iz := st.iz + c.stepZ
        normal := ⟨0, 0, ((-c.stepZ : ℤ) : ℚ)⟩ }

/-- The loop `while (t <= max_dist) { … }` of `raycast_block` followed by
`return false`, run for at most `fuel` iterations.  The outer `none` means the
fuel ran out; `some none` is the return value false; `some (some h)` is the
return value true with out-parameters `h`. -/
def raycast_loop (demo : Demo) (max_dist : ℚ) (c : RaySetup) :
    ℕ → RayState → Option (Option RayHit)
  | 0, _ => none
  | fuel + 1, st =>
    if st.t ≤ (max_dist : WithTop ℚ) then
      if (st.ix ≥ 0 ∧ st.ix < demo.size_x ∧ st.iy ≥ 0 ∧ st.iy < demo.size_y ∧
           st.iz ≥ 0 ∧ st.iz < demo.size_z) ∧
          block_get demo st.ix st.iy st.iz ≠ BlockType.BLOCK_AIR then
        some (some { hx := st.ix, hy := st.iy, hz := st.iz, hnormal := st.normal })
      else
        let st' := raycast_advance c st
        if (max_dist : WithTop ℚ) < st'.t then some none
        else raycast_loop demo max_dist c fuel st'
    else some none

/-- The local `gx` of `raycast_block`: the ray origin in grid units along x. -/
def gx (demo : Demo) (origin : v3f) : ℚ := origin.x + (demo.size_x : ℚ) * (1 / 2)

/-- The local `gy`: grid y grows downward, so it is minus the world y. -/
def gy (origin : v3f) : ℚ := -origin.y

/-- The local `gz`. -/
def gz (demo : Demo) (origin : v3f) : ℚ := origin.z + (demo.size_z : ℚ) * (1 / 2)

/-- The C function `raycast_block`, with a bound `fuel` on the number of loop
iterations. -/
def raycast_block (fuel : ℕ) (demo : Demo) (origin dir : v3f) (max_dist : ℚ) :
    Option (Option RayHit) :=
  let gdx := dir.x
  let gdy := -dir.y
  let gdz := dir.z
  let ix : ℤ := ⌊gx demo origin⌋
  let iy : ℤ := ⌊gy origin⌋
  let iz : ℤ := ⌊gz demo origin⌋
  let c : RaySetup :=
    { stepX := step_of gdx, stepY := step_of gdy, stepZ := step_of gdz,
      invX := inv_of gdx, invY := inv_of gdy, invZ := inv_of gdz }
  raycast_loop demo max_dist c fuel
    { ix := ix, iy := iy, iz := iz,
      tMaxX := tMax_of gdx (gx demo origin) ix c.stepX,
      tMaxY := tMax_of gdy (gy origin) iy c.stepY,
      tMaxZ := tMax_of gdz (gz demo origin) iz c.stepZ,
      normal := ⟨0, 0, 0⟩, t := 0 }

/-- Two intervals `[pmin, pmax]` and `[bmin, bmax]` are staggered when neither
lies strictly inside the other: one of them is at or beyond the other at both
ends. -/
def staggered (pmin pmax bmin bmax : ℚ) : Prop :=
  (pmin ≤ bmin ∧ pmax ≤ bmax) ∨ (bmin ≤ pmin ∧ bmax ≤ pmax)

instance (pmin pmax bmin bmax : ℚ) : Decidable (staggered pmin pmax bmin bmax) := by
  unfold staggered; infer_instance

/-- The centre locals agree with the box locals, as they do on entry to the
loops of `resolve_collisions` and after every push. -/
def centred (st : ResolveState) : Prop :=
  st.pcx = (st.pmin_x + st.pmax_x) * (1 / 2) ∧
  st.pcy = (st.pmin_y + st.pmax_y) * (1 / 2) ∧
  st.pcz = (st.pmin_z + st.pmax_z) * (1 / 2)

instance (st : ResolveState) : Decidable (centred st) := by
  unfold centred; infer_instance

/-! ## Sample states -/

/-- A state with the camera, near plane and flags `demo_init` sets up, an
unallocated face list, and the given grid dimensions and contents. -/
def sample_demo (size_x size_y size_z : ℤ) (blocks : ℤ → BlockType) : Demo :=
  { camera := { pos := ⟨0, 3 / 2, 6⟩, yaw := 0, pitch := 0 }
    wireframe := false
    noclip := false
    velocity := ⟨0, 0, 0⟩
    grounded := false
    near_plane := 1 / 10
    faces := none
    face_count := 0
    face_cap := 0
    blocks := blocks
    size_x := size_x
    size_y := size_y
    size_z := size_z
    mesh_dirty := true }

/-- The sample state with the camera moved to `pos`. -/
def sample_player (pos : v3f) (size_x size_y size_z : ℤ) (blocks : ℤ → BlockType) : Demo :=
  { sample_demo size_x size_y size_z blocks with
    camera := { pos := pos, yaw := 0, pitch := 0 } }

/-- Locals on entry to the loops for a player standing 1/10 deep in the top of
the single stone cell of a 1x1x1 grid. -/
def landing_state (blocks : ℤ → BlockType) : ResolveState :=
  resolve_init (sample_player ⟨0, 3 / 2, 0⟩ 1 1 1 blocks)

/-- Locals on entry to the loops for a player whose x and z extents lie inside
those of the single stone cell of a 1x1x1 grid. -/
def nested_state (blocks : ℤ → BlockType) : ResolveState :=
  resolve_init (sample_player ⟨-1 / 10, 7 / 10, 0⟩ 1 1 1 blocks)

/-- A grid in which every cell holds stone. -/
def all_stone : ℤ → BlockType := fun _ => BlockType.BLOCK_STONE

/-! ## Block raycaster: traversal sequence and click handler -/

/-- The fixed locals `stepX … invZ` that `raycast_block` computes from `dir`. -/
def raycast_setup (dir : v3f) : RaySetup :=
  { stepX := step_of dir.x, stepY := step_of (-dir.y), stepZ := step_of dir.z,
    invX := inv_of dir.x, invY := inv_of (-dir.y), invZ := inv_of dir.z }

/-- The loop locals of `raycast_block` on entry to the `while` loop. -/
def raycast_init (demo : Demo) (origin dir : v3f) : RayState :=
  { ix := ⌊gx demo origin⌋, iy := ⌊gy origin⌋, iz := ⌊gz demo origin⌋,
    tMaxX := tMax_of dir.x (gx demo origin) ⌊gx demo origin⌋ (step_of dir.x),
    tMaxY := tMax_of (-dir.y) (gy origin) ⌊gy origin⌋ (step_of (-dir.y)),
    tMaxZ := tMax_of dir.z (gz demo origin) ⌊gz demo origin⌋ (step_of dir.z),
    normal := ⟨0, 0, 0⟩, t := 0 }

/-- The loop locals after `n` executions of the advance block: the `n`-th state
of the traversal, whose cell `(ix, iy, iz)` is the `n`-th cell visited. -/
def raycast_visit (c : RaySetup) (st : RayState) (n : ℕ) : RayState :=
  (raycast_advance c)^[n] st

/-- The number of further advances along one axis that can leave `t` at or
below `max_dist`: a bound used to show that the loop ends. -/
def axis_steps (max_dist : ℚ) (tMax inv : WithTop ℚ) : ℕ :=
  match tMax with
  | none => 0
  | some τ =>
    if max_dist < τ then 0
    else
      match inv with
      | none => 1
      | some i => (⌊(max_dist - τ) / i⌋).toNat + 1

/-- The sum of `axis_steps` over the three axes. -/
def ray_steps (max_dist : ℚ) (c : RaySetup) (st : RayState) : ℕ :=
  axis_steps max_dist st.tMaxX c.invX + axis_steps max_dist st.tMaxY c.invY +
    axis_steps max_dist st.tMaxZ c.invZ

/-- The C cast `(int)f` of a float: truncation toward zero. -/
def float_to_int (f : ℚ) : ℤ := if 0 ≤ f then ⌊f⌋ else ⌈f⌉

/-- The mouse buttons `demo_handle_event` distinguishes. -/
inductive MouseButton where
  | SDL_BUTTON_LEFT
  | SDL_BUTTON_RIGHT
  | SDL_BUTTON_MIDDLE
deriving DecidableEq, Repr

/-- The `SDL_MOUSEBUTTONDOWN` case of `demo_handle_event`.  The value of
`camera_forward(&demo->camera)` is the parameter `forward` (it is built from
`sinf` and `cosf`); `none` means the raycast ran out of `fuel`. -/
def demo_handle_event_mouse_button (fuel : ℕ) (forward : v3f) (button : MouseButton)
    (demo : Demo) : Option Demo :=
  if button = MouseButton.SDL_BUTTON_LEFT ∨ button = MouseButton.SDL_BUTTON_RIGHT then
    match raycast_block fuel demo demo.camera.pos forward 6 with
    | none => none
    | some none => some demo
    | some (some h) =>
      if button = MouseButton.SDL_BUTTON_LEFT then
        if block_get demo h.hx h.hy h.hz ≠ BlockType.BLOCK_AIR then
          some (block_set demo h.hx h.hy h.hz BlockType.BLOCK_AIR)
        else some demo
      else
        let tx := h.hx + float_to_int h.hnormal.x
        let ty := h.hy + float_to_int h.hnormal.y
        let tz := h.hz + float_to_int h.hnormal.z
        if block_get demo tx ty tz = BlockType.BLOCK_AIR then
          some (block_set demo tx ty tz BlockType.BLOCK_DIRT)
        else some demo
  else some demo

/-- A grid in which every cell holds `Air`. -/
def all_air : ℤ → BlockType := fun _ => BlockType.BLOCK_AIR

/-! ## Projection and clipping stage

The per-face code of `demo_frame` (mc.c) and of `model_demo_frame`
(model_demo.c).  The two loops run the same statements from the computation of
`view_pos4` on; they differ in how the world position and the texture of a face
are obtained and in the counters that only `demo_frame` keeps. -/

/-- The `v4f` value type: four float components. -/
structure v4f where
  x : ℚ
  y : ℚ
  z : ℚ
  w : ℚ
deriving DecidableEq, Repr

/-- The `v2i` value type: two int components. -/
structure v2i where
  x : ℤ
  y : ℤ
deriving DecidableEq, Repr

/-- The `ClipVert` struct. -/
structure ClipVert where
  view_pos : v3f
  uv : v2f
deriving DecidableEq, Repr

/-- The `VertexPC` struct as the frame loops fill it: screen position, UV,
`inv_w` and depth. -/
structure VertexPC where
  pos : v2i
  uv : v2f
  inv_w : ℚ
  depth : ℚ
deriving DecidableEq, Repr

/-- The local struct `CachedVertex` of the frame loops. -/
structure CachedVertex where
  screen : v2i
  uv : v2f
  view_pos : v3f
  inv_w : ℚ
  depth : ℚ
  clip_mask : ℕ
  depth_ok : Bool
deriving DecidableEq, Repr

/-- What the per-face code reads from its surroundings.  `mv_mul` stands for
`mat4_mul_v4(mv, ·)` (`mat4_mul_v4(view, ·)` in the mesh viewer), `proj_mul` for
`mat4_mul_v4(proj, ·)` and `norm_to_screen` for the function of that name: they
are declared in headers that are not among the sources and enter as parameters. -/
structure FrameEnv where
  mv_mul : v4f → v4f
  proj_mul : v4f → v4f
  norm_to_screen : v2f → ℤ → ℤ → v2i
  render_w : ℤ
  render_h : ℤ
  near_plane : ℚ
  wireframe : Bool

/-- A call to the rasteriser: `draw_triangle(…, WHITE, WIREFRAME)` with three
screen positions, or `draw_textured_triangle` with a texture and three
projected vertices. -/
inductive DrawCall (τ : Type) where
  | draw_triangle (p0 p1 p2 : v2i)
  | draw_textured_triangle (tex : τ) (pv0 pv1 pv2 : VertexPC)

/-- The effect of the loop body for one face: how often `culled_faces_count++`
ran and the rasteriser calls made, in order (`rendered_faces_count++` runs once
after each call). -/
structure FaceResult (τ : Type) where
  culled : ℕ
  draws : List (DrawCall τ)

/-- Modelled from the spec: `v3_sub` of the linear algebra core (math.h is not
among the sources), the componentwise difference of two vectors. -/
def v3_sub (a b : v3f) : v3f := ⟨a.x - b.x, a.y - b.y, a.z - b.z⟩

/-- Modelled from the spec: `v3_cross` of the linear algebra core (math.h is not
among the sources), the cross product. -/
def v3_cross (a b : v3f) : v3f :=
  ⟨a.y * b.z - a.z * b.y, a.z * b.x - a.x * b.z, a.x * b.y - a.y * b.x⟩

/-- Modelled from the spec: `v3_dot` of the linear algebra core (math.h is not
among the sources), the dot product. -/
def v3_dot (a b : v3f) : ℚ := a.x * b.x + a.y * b.y + a.z * b.z

/-- The outcode computation shared by `project_vertex` and the vertex loops of
both frame loops: `mask |= 1` if `x < -w`, `2` if `x > w`, `4` if `y < -w`,
`8` if `y > w`, `16` if `z < 0`, `32` if `z > w`. -/
def clip_mask (clip : v4f) : ℕ :=
  let mask := 0
  let mask := if clip.x < -clip.w then mask ||| 1 else mask
  let mask := if clip.x > clip.w then mask ||| 2 else mask
  let mask := if clip.y < -clip.w then mask ||| 4 else mask
  let mask := if clip.y > clip.w then mask ||| 8 else mask
  let mask := if clip.z < 0 then mask ||| 16 else mask
  let mask := if clip.z > clip.w then mask ||| 32 else mask
  mask

/-- The C function `project_vertex` (the same in mc.c and model_demo.c):
`none` is the return value false, otherwise the filled `*out` and `*mask_out`. -/
def project_vertex (env : FrameEnv) (cv : ClipVert) : Option (VertexPC × ℕ) :=
  let clip := env.proj_mul ⟨cv.view_pos.x, cv.view_pos.y, cv.view_pos.z, 1⟩
  if clip.w = 0 then none
  else
    let mask := clip_mask clip
    let inv_w := 1 / clip.w
    let ndc : v3f := ⟨clip.x * inv_w, clip.y * inv_w, clip.z * inv_w⟩
    some ({ pos := env.norm_to_screen ⟨ndc.x, ndc.y⟩ env.render_w env.render_h,
            uv := cv.uv, inv_w := inv_w, depth := 1 / 2 * (ndc.z + 1) }, mask)

/-- One iteration of the vertex loop `for (int j = 0; j < 3; j++)` of the frame
loops for the world position `world` and UV `uv`; `none` is the exit through
`skip = true; break` when `clip.w == 0`. -/
def cache_vertex (env : FrameEnv) (world : v4f) (uv : v2f) : Option CachedVertex :=
  let view_pos4 := env.mv_mul world
  let clip := env.proj_mul view_pos4
  if clip.w = 0 then none
  else
    let mask := clip_mask clip
    let inv_w := 1 / clip.w
    let ndc : v3f := ⟨clip.x * inv_w, clip.y * inv_w, clip.z * inv_w⟩
    some { uv := uv,
           view_pos := ⟨view_pos4.x, view_pos4.y, view_pos4.z⟩,
           clip_mask := mask,
           inv_w := inv_w,
           depth_ok := decide (ndc.z ≥ 0 ∧ ndc.z ≤ 1),
           screen := env.norm_to_screen ⟨ndc.x, ndc.y⟩ env.render_w env.render_h,
           depth := 1 / 2 * (ndc.z + 1) }

/-- The interpolation parameter `t` of the near-clip walk for the edge `a → b`. -/
def clip_t (near_plane : ℚ) (a b : ClipVert) : ℚ :=
  (-near_plane - a.view_pos.z) / (b.view_pos.z - a.view_pos.z)

/-- The vertex `inter` of the near-clip walk for the edge `a → b`. -/
def clip_inter (near_plane : ℚ) (a b : ClipVert) : ClipVert :=
  let t := clip_t near_plane a b
  { view_pos := ⟨a.view_pos.x + (b.view_pos.x - a.view_pos.x) * t,
                 a.view_pos.y + (b.view_pos.y - a.view_pos.y) * t,
                 -near_plane⟩,
    uv := ⟨a.uv.x + (b.uv.x - a.uv.x) * t, a.uv.y + (b.uv.y - a.uv.y) * t⟩ }

/-- One iteration of the near-clip walk: the vertices appended to `out_poly`
for the edge `a → b`. -/
def clip_edge (near_plane : ℚ) (a b : ClipVert) : List ClipVert :=
  let a_in := a.view_pos.z ≤ -near_plane
  let b_in := b.view_pos.z ≤ -near_plane
  if a_in ∧ b_in then [b]
  else if a_in ∧ ¬ b_in then [clip_inter near_plane a b]
  else if ¬ a_in ∧ b_in then [clip_inter near_plane a b, b]
  else []

/-- The near-clip walk `for (int v = 0; v < in_count; v++)` over the three
edges `v0 → v1`, `v1 → v2`, `v2 → v0`: the contents of `out_poly`, whose length
is `out_count`. -/
def near_clip_walk (near_plane : ℚ) (v0 v1 v2 : ClipVert) : List ClipVert :=
  clip_edge near_plane v0 v1 ++ clip_edge near_plane v1 v2 ++ clip_edge near_plane v2 v0

/-- The rasteriser call at the end of both paths: wireframe or textured. -/
def draw_call {τ : Type} (env : FrameEnv) (tex : τ) (pv0 pv1 pv2 : VertexPC) : DrawCall τ :=
  if env.wireframe then DrawCall.draw_triangle pv0.pos pv1.pos pv2.pos
  else DrawCall.draw_textured_triangle tex pv0 pv1 pv2

/-- The body of the loop `for (int t = 0; t < tri_total; t++)` for the
sub-triangle `a, b, c` of `out_poly`: backface test, re-projection through
`project_vertex`, outcode test, rasteriser call. -/
def clipped_triangle {τ : Type} (env : FrameEnv) (tex : τ) (a b c : ClipVert) :
    List (DrawCall τ) :=
  let edge1 := v3_sub b.view_pos a.view_pos
  let edge2 := v3_sub c.view_pos a.view_pos
  let normal := v3_cross edge1 edge2
  if v3_dot normal a.view_pos ≥ 0 then []
  else
    match project_vertex env a, project_vertex env b, project_vertex env c with
    | some (pv0, m0), some (pv1, m1), some (pv2, m2) =>
      if (m0 &&& m1 &&& m2) ≠ 0 then []
      else [draw_call env tex pv0 pv1 pv2]
    | _, _, _ => []

/-- The near-clipping branch of the face code: the walk, the test
`out_count < 3`, and the one or two sub-triangles `(0,1,2)`, `(0,2,3)`. -/
def clip_path {τ : Type} (env : FrameEnv) (tex : τ) (v0 v1 v2 : ClipVert) :
    List (DrawCall τ) :=
  match near_clip_walk env.near_plane v0 v1 v2 with
  | [a, b, c, d] => clipped_triangle env tex a b c ++ clipped_triangle env tex a c d
  | a :: b :: c :: _ => clipped_triangle env tex a b c
  | _ => []

/-- The face code of both frame loops from the vertex loop on, for a face with
world positions `w0 w1 w2`, UVs `uv0 uv1 uv2` and texture `tex`. -/
def face_pipeline {τ : Type} (env : FrameEnv) (tex : τ) (w0 w1 w2 : v4f)
    (uv0 uv1 uv2 : v2f) : FaceResult τ :=
  match cache_vertex env w0 uv0, cache_vertex env w1 uv1, cache_vertex env w2 uv2 with
  | some t0, some t1, some t2 =>
    if (t0.clip_mask &&& t1.clip_mask &&& t2.clip_mask) ≠ 0 then
      { culled := 1, draws := [] }
    else
      let near_in0 := t0.view_pos.z ≤ -env.near_plane
      let near_in1 := t1.view_pos.z ≤ -env.near_plane
      let near_in2 := t2.view_pos.z ≤ -env.near_plane
      let needs_clip := ¬ (near_in0 ∧ near_in1 ∧ near_in2)
      if ¬ needs_clip then
        if t0.depth_ok = false ∨ t1.depth_ok = false ∨ t2.depth_ok = false then
          { culled := 0, draws := [] }
        else
          let edge1 := v3_sub t1.view_pos t0.view_pos
          let edge2 := v3_sub t2.view_pos t0.view_pos
          let normal := v3_cross edge1 edge2
          if v3_dot normal t0.view_pos ≥ 0 then { culled := 0, draws := [] }
          else
            { culled := 0,
              draws := [draw_call env tex
                { pos := t0.screen, uv := t0.uv, inv_w := t0.inv_w, depth := t0.depth }
                { pos := t1.screen, uv := t1.uv, inv_w := t1.inv_w, depth := t1.depth }
                { pos := t2.screen, uv := t2.uv, inv_w := t2.inv_w, depth := t2.depth }] }
      else
        { culled := 0,
          draws := clip_path env tex
            { view_pos := t0.view_pos, uv := t0.uv }
            { view_pos := t1.view_pos, uv := t1.uv }
            { view_pos := t2.view_pos, uv := t2.uv } }
  | _, _, _ => { culled := 0, draws := [] }

/-- The body of the face loop of `demo_frame` for `face`: the world position of
a vertex is its position with `w = 1`, the texture is `face->tex`. -/
def demo_frame_face (env : FrameEnv) (face : Face) : FaceResult TexRef :=
  face_pipeline env face.tex
    ⟨face.v0.pos.x, face.v0.pos.y, face.v0.pos.z, 1⟩
    ⟨face.v1.pos.x, face.v1.pos.y, face.v1.pos.z, 1⟩
    ⟨face.v2.pos.x, face.v2.pos.y, face.v2.pos.z, 1⟩
    face.v0.uv face.v1.uv face.v2.uv

/-- The fields of `ModelDemo` that place the mesh in the world. -/
structure ModelPlacement where
  model_center : v3f
  model_scale : ℚ
  model_pos : v3f

/-- An `ObjFace` as `model_demo_frame` reads it: three vertices and the diffuse
texture of its material, if it has one. -/
structure ObjFace (τ : Type) where
  v0 : Vertex3D
  v1 : Vertex3D
  v2 : Vertex3D
  diffuse : Option τ

/-- The world position `model_demo_frame` computes for a vertex position:
`(pos - model_center) * model_scale + model_pos`, with `w = 1`. -/
def model_world (m : ModelPlacement) (pos : v3f) : v4f :=
  ⟨(pos.x - m.model_center.x) * m.model_scale + m.model_pos.x,
   (pos.y - m.model_center.y) * m.model_scale + m.model_pos.y,
   (pos.z - m.model_center.z) * m.model_scale + m.model_pos.z, 1⟩

/-- The body of the face loop of `model_demo_frame` for `face`; it keeps no
counters, so only the rasteriser calls are returned. -/
def model_demo_frame_face {τ : Type} (env : FrameEnv) (m : ModelPlacement)
    (fallback_tex : τ) (face : ObjFace τ) : List (DrawCall τ) :=
  (face_pipeline env (face.diffuse.getD fallback_tex)
    (model_world m face.v0.pos) (model_world m face.v1.pos) (model_world m face.v2.pos)
    face.v0.uv face.v1.uv face.v2.uv).draws

/-- The C function `clear_depth` on a buffer of `count` floats. -/
def clear_depth (depth : ℕ → ℚ) (count : ℕ) : ℕ → ℚ :=
  (List.range count).foldl (fun d (i : ℕ) => Function.update d i 1) depth

/-- The `dt` computation of `main` in mc.c from the two `Uint32` tick values
`now` and `last_ticks`: the difference wraps modulo `2^32`, is divided by 1000
and clamped to 0.1. -/
def mc_main_dt (now last_ticks : ℕ) : ℚ :=
  let dt : ℚ := (((now + 2 ^ 32 - last_ticks % 2 ^ 32) % 2 ^ 32 : ℕ) : ℚ) / 1000
  if dt > 1 / 10 then 1 / 10 else dt

/-- The `dt` computation of `main` in model_demo.c: the wrapped difference
divided by 1000, with no clamp. -/
def model_demo_main_dt (now last_ticks : ℕ) : ℚ :=
  (((now + 2 ^ 32 - last_ticks % 2 ^ 32) % 2 ^ 32 : ℕ) : ℚ) / 1000

/-! ## Frustum planes and sample projection -/

/-- The six frustum planes tested by the outcode. -/
inductive FrustumPlane where
  | left
  | right
  | bottom
  | top
  | near
  | far
deriving DecidableEq, Repr

/-- A clip coordinate violates a frustum plane: `x < -w`, `x > w`, `y < -w`,
`y > w`, `z < 0`, `z > w`. -/
def violates (p : FrustumPlane) (clip : v4f) : Prop :=
  match p with
  | FrustumPlane.left => clip.x < -clip.w
  | FrustumPlane.right => clip.x > clip.w
  | FrustumPlane.bottom => clip.y < -clip.w
  | FrustumPlane.top => clip.y > clip.w
  | FrustumPlane.near => clip.z < 0
  | FrustumPlane.far => clip.z > clip.w

instance (p : FrustumPlane) (clip : v4f) : Decidable (violates p clip) := by
  cases p <;> unfold violates <;> infer_instance

/-- A clip coordinate lies inside the frustum:
`-w ≤ x ≤ w`, `-w ≤ y ≤ w`, `0 ≤ z ≤ w`. -/
def inside_frustum (clip : v4f) : Prop :=
  -clip.w ≤ clip.x ∧ clip.x ≤ clip.w ∧ -clip.w ≤ clip.y ∧ clip.y ≤ clip.w ∧
    0 ≤ clip.z ∧ clip.z ≤ clip.w

/-- The bit of the outcode that records a violation of the plane. -/
def plane_bit (p : FrustumPlane) : ℕ :=
  match p with
  | FrustumPlane.left => 0
  | FrustumPlane.right => 1
  | FrustumPlane.bottom => 2
  | FrustumPlane.top => 3
  | FrustumPlane.near => 4
  | FrustumPlane.far => 5

instance (clip : v4f) : Decidable (inside_frustum clip) := by
  unfold inside_frustum
  infer_instance

/-- Modelled from the spec: the product `mat4_mul_v4(proj, v)` with the matrix of
`perspective(fov, aspect, near, far)` (math.h is not among the sources).  The
spec requires that it map camera-space `z = -near` to clip-space `z = 0` and
`z = -far` to clip-space `z = w`; with `w = -z` and a clip `z` affine in the
camera-space `z` that fixes the third row.  `sx` and `sy` are the scale factors
of x and y, which depend on `fov` and `aspect`. -/
def perspective_mul (sx sy near far : ℚ) (v : v4f) : v4f :=
  ⟨sx * v.x, sy * v.y,
   far / (near - far) * v.z + near * far / (near - far) * v.w,
   -v.z⟩

/-- Modelled from the spec: `norm_to_screen` (not among the sources),
`screen = (ndc * 0.5 + 0.5) * renderSize` with y flipped, cut to an integer. -/
def norm_to_screen (ndc : v2f) (render_w render_h : ℤ) : v2i :=
  ⟨⌊(ndc.x * (1 / 2) + 1 / 2) * (render_w : ℚ)⌋,
   ⌊(1 / 2 - ndc.y * (1 / 2)) * (render_h : ℚ)⌋⟩

/-- A sample frame: the camera at the origin looking down `-z` (the view
matrix is the identity), a perspective projection with near plane 0.1 and far
plane 100 as in `demo_frame`, unit x and y scale, a 480 x 270 render target,
textured drawing. -/
def sample_env : FrameEnv :=
  { mv_mul := fun v => v
    proj_mul := perspective_mul 1 1 (1 / 10) 100
    norm_to_screen := norm_to_screen
    render_w := 480
    render_h := 270
    near_plane := 1 / 10
    wireframe := false }

/-- A face built from three positions, with the UVs of the first triangle of
`add_face` and the dirt texture. -/
def sample_face (p0 p1 p2 : v3f) : Face :=
  { v0 := ⟨p0, ⟨0, 1⟩⟩, v1 := ⟨p1, ⟨1, 1⟩⟩, v2 := ⟨p2, ⟨1, 0⟩⟩, tex := TexRef.dirt_tex }

/-! ## Camera direction -/

/-- The functions `sinf`, `cosf` and `sqrtf` of the C library.  They are not
part of the repository and have no exact rational model, so the code that calls
them takes them as parameters. -/
structure LibM where
  sinf : ℚ → ℚ
  cosf : ℚ → ℚ
  sqrtf : ℚ → ℚ

/-- Modelled from the spec: `v3_normalize` of the linear algebra core (math.h is
not among the sources), the vector divided by its Euclidean length
`sqrtf(dot(v, v))`. -/
def v3_normalize (m : LibM) (v : v3f) : v3f :=
  let len := m.sqrtf (v3_dot v v)
  ⟨v.x / len, v.y / len, v.z / len⟩

/-- The C function `camera_forward` (the same in mc.c and model_demo.c). -/
def camera_forward (m : LibM) (cam : Camera) : v3f :=
  let cy := m.cosf cam.yaw
  let sy := m.sinf cam.yaw
  let cp := m.cosf cam.pitch
  let sp := m.sinf cam.pitch
  v3_normalize m ⟨sy * cp, sp, -cy * cp⟩

/-- A sample of the library functions with exact rational values: the rational
parametrisation of the circle for `sinf` and `cosf` (it satisfies
`sinf a ^ 2 + cosf a ^ 2 = 1`, `sinf 0 = 0`, `cosf 0 = 1`), and a `sqrtf` that is
exact at 0 and 1. -/
def sample_libm : LibM :=
  { sinf := fun a => 2 * a / (1 + a ^ 2)
    cosf := fun a => (1 - a ^ 2) / (1 + a ^ 2)
    sqrtf := fun q => if q = 1 then 1 else 0 }

/-! ## Mesher: the statements of the loop body and bounds-checked writes -/

/-- One statement `if (!IS_SOLID(nx, ny, nz)) add_face(…, p0, p1, p2, p3)` of
the body of `rebuild_faces`: the neighbour cell tested and the four corners
passed to `add_face`. -/
structure QuadStmt where
  nx : ℤ
  ny : ℤ
  nz : ℤ
  p0 : v3f
  p1 : v3f
  p2 : v3f
  p3 : v3f

/-- The six `if (!IS_SOLID(…)) add_face(…)` statements of the body of
`rebuild_faces` for the cell `(x, y, z)`, in source order: top, bottom, front,
back, left, right. -/
def face_quads (demo : Demo) (x y z : ℤ) : List QuadStmt :=
  let bx : ℚ := (x : ℚ) - ((demo.size_x : ℚ) * (1 / 2)) + 1 / 2
  let by_ : ℚ := -(y : ℚ) - 1 / 2
  let bz : ℚ := (z : ℚ) - ((demo.size_z : ℚ) * (1 / 2)) + 1 / 2
  let x0 := bx - 1 / 2
  let x1 := bx + 1 / 2
  let y0 := by_ - 1 / 2
  let y1 := by_ + 1 / 2
  let z0 := bz - 1 / 2
  let z1 := bz + 1 / 2
  [ ⟨x, y - 1, z, ⟨x0, y1, z1⟩, ⟨x1, y1, z1⟩, ⟨x1, y1, z0⟩, ⟨x0, y1, z0⟩⟩,
    ⟨x, y + 1, z, ⟨x0, y0, z0⟩, ⟨x1, y0, z0⟩, ⟨x1, y0, z1⟩, ⟨x0, y0, z1⟩⟩,
    ⟨x, y, z + 1, ⟨x0, y0, z1⟩, ⟨x1, y0, z1⟩, ⟨x1, y1, z1⟩, ⟨x0, y1, z1⟩⟩,
    ⟨x, y, z - 1, ⟨x1, y0, z0⟩, ⟨x0, y0, z0⟩, ⟨x0, y1, z0⟩, ⟨x1, y1, z0⟩⟩,
    ⟨x - 1, y, z, ⟨x0, y0, z0⟩, ⟨x0, y0, z1⟩, ⟨x0, y1, z1⟩, ⟨x0, y1, z0⟩⟩,
    ⟨x + 1, y, z, ⟨x1, y0, z1⟩, ⟨x1, y0, z0⟩, ⟨x1, y1, z0⟩, ⟨x1, y1, z1⟩⟩ ]

/-- The texture the body of `rebuild_faces` picks for a block type. -/
def block_tex (type : BlockType) : TexRef :=
  if type = BlockType.BLOCK_DIRT then TexRef.dirt_tex else TexRef.stone_tex

/-- One statement of the body run on the buffer and count. -/
def quad_stmt (demo : Demo) (tex : TexRef) (st : (ℤ → Face) × ℤ) (q : QuadStmt) :
    (ℤ → Face) × ℤ :=
  if ¬ IS_SOLID demo q.nx q.ny q.nz then add_face st.1 st.2 tex q.p0 q.p1 q.p2 q.p3
  else st

/-- The C function `add_face` on a buffer of `cap` entries: `none` when one of
the two writes `faces[*count]` would fall outside `[0, cap)`. -/
def add_face_checked (cap : ℤ) (faces : ℤ → Face) (count : ℤ) (tex : TexRef)
    (p0 p1 p2 p3 : v3f) : Option ((ℤ → Face) × ℤ) :=
  if 0 ≤ count ∧ count < cap then
    if 0 ≤ count + 1 ∧ count + 1 < cap then some (add_face faces count tex p0 p1 p2 p3)
    else none
  else none

/-- One statement of the body with bounds-checked writes. -/
def quad_stmt_checked (cap : ℤ) (demo : Demo) (tex : TexRef)
    (st : Option ((ℤ → Face) × ℤ)) (q : QuadStmt) : Option ((ℤ → Face) × ℤ) :=
  match st with
  | none => none
  | some s =>
    if ¬ IS_SOLID demo q.nx q.ny q.nz then
      add_face_checked cap s.1 s.2 tex q.p0 q.p1 q.p2 q.p3
    else some s

/-- The body of the innermost loop of `rebuild_faces` with bounds-checked
writes into a buffer of `cap` entries. -/
def rebuild_faces_body_checked (cap : ℤ) (demo : Demo) (x z y : ℤ)
    (st : Option ((ℤ → Face) × ℤ)) : Option ((ℤ → Face) × ℤ) :=
  let type := block_get demo x y z
  if type = BlockType.BLOCK_AIR then st
  else (face_quads demo x y z).foldl (quad_stmt_checked cap demo (block_tex type)) st

/-- The C function `rebuild_faces` with bounds-checked writes into the face
buffer of `face_cap` entries: `none` when a write falls outside the buffer. -/
def rebuild_faces_checked (demo : Demo) : Option Demo :=
  let max_faces := max_faces demo
  let grow : Bool := demo.faces.isNone || decide (demo.face_cap < max_faces)
  let faces : ℤ → Face := if grow then malloc_faces else demo.faces.getD malloc_faces
  let face_cap : ℤ := if grow then max_faces else demo.face_cap
  let st := for_loop 0 demo.size_x (fun x =>
      for_loop 0 demo.size_z (fun z =>
        for_loop 0 demo.size_y (fun y => rebuild_faces_body_checked face_cap demo x z y)))
      (some (faces, 0))
  match st with
  | none => none
  | some s =>
    some { demo with
      faces := some s.1
      face_count := s.2
      face_cap := face_cap
      mesh_dirty := false }

/-- The world-space direction from a cell to the neighbour at grid offset
`(dx, dy, dz)`: grid y grows downward, so the y component changes sign. -/
def world_dir (dx dy dz : ℤ) : v3f := ⟨(dx : ℚ), -(dy : ℚ), (dz : ℚ)⟩

/-! ## Filled triangles -/

/-- The two values of `mode` that `draw_triangle` distinguishes. -/
inductive DrawMode where
  | WIREFRAME
  | FILLED
deriving DecidableEq, Repr

/-- Modelled from the spec: `sort_by_y` (utils.h is not among the sources),
which orders three points by ascending y; here three compare-and-swap steps. -/
def sort_by_y (t : v2i × v2i × v2i) : v2i × v2i × v2i :=
  let a := t.1
  let b := t.2.1
  let c := t.2.2
  let a1 := if b.y < a.y then b else a
  let b1 := if b.y < a.y then a else b
  let b2 := if c.y < b1.y then c else b1
  let c2 := if c.y < b1.y then b1 else c
  let a3 := if b2.y < a1.y then b2 else a1
  let b3 := if b2.y < a1.y then a1 else b2
  (a3, b3, c2)

/-- The body of the scanline loop `for (int y = y_start; y < y_end; y++)` of
`draw_triangle` for the sorted points `p1 p2 p3`: the positions passed to
`set_pixel` are appended to `px`. -/
def draw_triangle_scanline (w h : ℤ) (p1 p2 p3 : v2i) (y : ℤ) (px : List v2i) : List v2i :=
  let xa : ℚ := (p1.x : ℚ) +
    (((p3.x - p1.x : ℤ) : ℚ) * ((y - p1.y : ℤ) : ℚ)) / ((p3.y - p1.y : ℤ) : ℚ)
  let xb : ℚ :=
    if y < p2.y then
      (p1.x : ℚ) + (((p2.x - p1.x : ℤ) : ℚ) * ((y - p1.y : ℤ) : ℚ)) / ((p2.y - p1.y : ℤ) : ℚ)
    else
      (p2.x : ℚ) + (((p3.x - p2.x : ℤ) : ℚ) * ((y - p2.y : ℤ) : ℚ)) / ((p3.y - p2.y : ℤ) : ℚ)
  let xa1 := if xa > xb then xb else xa
  let xb1 := if xa > xb then xa else xb
  let xl : ℤ := ⌈xa1⌉
  let xr : ℤ := ⌊xb1⌋
  let xl := if xl < 0 then 0 else xl
  let xr := if xr ≥ w then w - 1 else xr
  if y < 0 ∨ y ≥ h then px
  else for_loop xl (xr + 1) (fun x acc => acc ++ [⟨x, y⟩]) px

/-- The C function `draw_triangle`, returning the positions passed to
`set_pixel` in order.  `sort` stands for `sort_by_y` and `draw_linei` for the
function of that name (the positions it sets); both are declared in headers
that are not among the sources. -/
def draw_triangle (sort : v2i × v2i × v2i → v2i × v2i × v2i)
    (draw_linei : ℤ → v2i → v2i → List v2i) (w h : ℤ) (p1 p2 p3 : v2i)
    (mode : DrawMode) : List v2i :=
  let px : List v2i :=
    if mode = DrawMode.WIREFRAME then
      draw_linei w p1 p2 ++ draw_linei w p2 p3 ++ draw_linei w p3 p1
    else []
  if mode = DrawMode.FILLED then
    let s := sort (p1, p2, p3)
    if s.1.y = s.2.2.y then px
    else for_loop s.1.y s.2.2.y (draw_triangle_scanline w h s.1 s.2.1 s.2.2) px
  else px

/-- Following the spec's words: `sort` orders three points by ascending y: its
result is a rearrangement of its argument with non-decreasing y. -/
def orders_by_y (sort : v2i × v2i × v2i → v2i × v2i × v2i) : Prop :=
  ∀ t : v2i × v2i × v2i,
    List.Perm [(sort t).1, (sort t).2.1, (sort t).2.2] [t.1, t.2.1, t.2.2] ∧
    (sort t).1.y ≤ (sort t).2.1.y ∧ (sort t).2.1.y ≤ (sort t).2.2.y

/-! ## Collision resolver: scan range and upward pushes -/

/-- The local `ix_min` of `resolve_collisions` after its clamp. -/
def ix_min (demo : Demo) : ℤ :=
  clamp_lo ⌊(resolve_init demo).pmin_x + (demo.size_x : ℚ) * (1 / 2)⌋

/-- The local `ix_max` after its clamp. -/
def ix_max (demo : Demo) : ℤ :=
  clamp_hi ⌊(resolve_init demo).pmax_x + (demo.size_x : ℚ) * (1 / 2)⌋ demo.size_x

/-- The local `iz_min` after its clamp. -/
def iz_min (demo : Demo) : ℤ :=
  clamp_lo ⌊(resolve_init demo).pmin_z + (demo.size_z : ℚ) * (1 / 2)⌋

/-- The local `iz_max` after its clamp. -/
def iz_max (demo : Demo) : ℤ :=
  clamp_hi ⌊(resolve_init demo).pmax_z + (demo.size_z : ℚ) * (1 / 2)⌋ demo.size_z

/-- The local `iy_min` after its clamp. -/
def iy_min (demo : Demo) : ℤ := clamp_lo ⌊-(resolve_init demo).pmax_y⌋

/-- The local `iy_max` after its clamp. -/
def iy_max (demo : Demo) : ℤ := clamp_hi ⌊-(resolve_init demo).pmin_y⌋ demo.size_y

/-- The state of `resolve_collisions` when the loop body is entered for the
cell `(x, y, z)`: all iterations that precede it in the order of the three
nested loops have run. -/
def resolve_before (demo : Demo) (x z y : ℤ) : ResolveState :=
  for_loop (iy_min demo) y (fun y' => resolve_collisions_body x z y')
    (for_loop (iz_min demo) z (fun z' =>
        for_loop (iy_min demo) (iy_max demo + 1) (fun y' => resolve_collisions_body x z' y'))
      (for_loop (ix_min demo) x (fun x' =>
          for_loop (iz_min demo) (iz_max demo + 1) (fun z' =>
            for_loop (iy_min demo) (iy_max demo + 1)
              (fun y' => resolve_collisions_body x' z' y')))
        (resolve_init demo)))

/-- The loop body, entered in state `st` for the cell `(x, y, z)`, takes the
y branch with `dir > 0`: the cell is resolved along y with an upward
displacement. -/
def pushes_up (st : ResolveState) (x z y : ℤ) : Prop :=
  block_get st.demo x y z ≠ BlockType.BLOCK_AIR ∧
  (0 < overlap_x st x ∧ 0 < overlap_y st y ∧ 0 < overlap_z st z) ∧
  ¬ (overlap_x st x ≤ overlap_y st y ∧ overlap_x st x ≤ overlap_z st z) ∧
  (overlap_y st y ≤ overlap_x st x ∧ overlap_y st y ≤ overlap_z st z) ∧
  0 < (if st.pcy < (bmin_y y + bmax_y y) * (1 / 2) then -overlap_y st y
       else overlap_y st y)

instance (st : ResolveState) (x z y : ℤ) : Decidable (pushes_up st x z y) := by
  unfold pushes_up; infer_instance

/-! ## Near-clip walk: sub-triangles and facing -/

/-- The value `v3_dot(normal, a)` of the backface test for the triangle
`a, b, c`, with `normal = v3_cross(v3_sub(b, a), v3_sub(c, a))`; the triangle is
rejected when it is `>= 0`. -/
def backface_dot (a b c : v3f) : ℚ :=
  v3_dot (v3_cross (v3_sub b a) (v3_sub c a)) a

/-- The sub-triangles the face code forms from `out_poly`: none when
`out_count < 3`, `(0,1,2)` and `(0,2,3)` when `out_count == 4`, else `(0,1,2)`. -/
def sub_triangles (out_poly : List ClipVert) : List (ClipVert × ClipVert × ClipVert) :=
  match out_poly with
  | [a, b, c, d] => [(a, b, c), (a, c, d)]
  | a :: b :: c :: _ => [(a, b, c)]
  | _ => []

/-- The point `a + (b - a) * t` of the segment from `a` to `b`. -/
def v3_lerp (a b : v3f) (t : ℚ) : v3f :=
  ⟨a.x + (b.x - a.x) * t, a.y + (b.y - a.y) * t, a.z + (b.z - a.z) * t⟩

/-- The vector `v` scaled by `k`. -/
def v3_scale (k : ℚ) (v : v3f) : v3f := ⟨k * v.x, k * v.y, k * v.z⟩

/-! ## Binary32 rounding

The definitions above take the C `float` operations as exact.  The definitions
of this section repeat the float code of `raycast_block`, of the near-clip
interpolation and of the scan range of `resolve_collisions` with every float
operation rounded by a function `fl`: `fl = id` is exact arithmetic, `fl = f32`
the IEEE 754 binary32 arithmetic (round to nearest, ties to even) of the compiled
code. -/

/-- The integer nearest to `z`, the even one of the two when `z` lies halfway. -/
def round_even (z : ℚ) : ℤ :=
  if z - (⌊z⌋ : ℚ) < 1 / 2 then ⌊z⌋
  else if 1 / 2 < z - (⌊z⌋ : ℚ) then ⌊z⌋ + 1
  else if ⌊z⌋ % 2 = 0 then ⌊z⌋ else ⌊z⌋ + 1

/-- The binary32 value nearest to `q`, ties to even: `q` is rounded to a
multiple of `2 ^ (e - 23)`, where `2 ^ e <= |q| < 2 ^ (e + 1)` and `e` is at
least -126 (gradual underflow).  Overflow to infinity is not modelled: the
function is the binary32 rounding for `|q| < 2 ^ 128`. -/
def f32 (q : ℚ) : ℚ :=
  (round_even (q / 2 ^ (max (Int.log 2 |q|) (-126) - 23)) : ℚ) *
    2 ^ (max (Int.log 2 |q|) (-126) - 23)

/-- A rounding applied to a float that may be `INFINITY`. -/
def fl_top (fl : ℚ → ℚ) (x : WithTop ℚ) : WithTop ℚ := WithTop.map fl x

/-! ### The block raycaster with rounded operations -/

/-- The expression `(gd != 0.0f) ? (1.0f / fabsf(gd)) : INFINITY`, the division
rounded. -/
def inv_of_fl (fl : ℚ → ℚ) (gd : ℚ) : WithTop ℚ :=
  if gd ≠ 0 then ((fl (1 / |gd|) : ℚ) : WithTop ℚ) else ⊤

/-- The initial `tMax` of one axis, with the int-to-float conversion, the
subtraction and the product rounded. -/
def tMax_of_fl (fl : ℚ → ℚ) (gd g : ℚ) (i step : ℤ) : WithTop ℚ :=
  if gd ≠ 0 then
    ((fl ((if step > 0 then fl (fl (((i + 1 : ℤ)) : ℚ) - g) else fl (g - fl ((i : ℤ) : ℚ))) *
        fl (1 / |gd|)) : ℚ) : WithTop ℚ)
  else ⊤

/-- The advance block of the loop with the additions `tMax += inv` rounded. -/
def raycast_advance_fl (fl : ℚ → ℚ) (c : RaySetup) (st : RayState) : RayState :=
  if st.tMaxX < st.tMaxY then
    if st.tMaxX < st.tMaxZ then
      { st with
        t := st.tMaxX
        tMaxX := fl_top fl (st.tMaxX + c.invX)
        ix := st.ix + c.stepX
        normal := ⟨((-c.stepX : ℤ) : ℚ), 0, 0⟩ }
    else
      { st with
        t := st.tMaxZ
        tMaxZ := fl_top fl (st.tMaxZ + c.invZ)
        iz := st.iz + c.stepZ
        normal := ⟨0, 0, ((-c.stepZ : ℤ) : ℚ)⟩ }
  else
    if st.tMaxY < st.tMaxZ then
      { st with
        t := st.tMaxY
        tMaxY := fl_top fl (st.tMaxY + c.invY)
        iy := st.iy + c.stepY
        normal := ⟨0, ((-c.stepY : ℤ) : ℚ), 0⟩ }
    else
      { st with
        t := st.tMaxZ
        tMaxZ := fl_top fl (st.tMaxZ + c.invZ)
        iz := st.iz + c.stepZ
        normal := ⟨0, 0, ((-c.stepZ : ℤ) : ℚ)⟩ }

/-- The loop of `raycast_block` with rounded operations, run for at most `fuel`
iterations; results as for `raycast_loop`. -/
def raycast_loop_fl (fl : ℚ → ℚ) (demo : Demo) (max_dist : ℚ) (c : RaySetup) :
    ℕ → RayState → Option (Option RayHit)
  | 0, _ => none
  | fuel + 1, st =>
    if st.t ≤ (max_dist : WithTop ℚ) then
      if (st.ix ≥ 0 ∧ st.ix < demo.size_x ∧ st.iy ≥ 0 ∧ st.iy < demo.size_y ∧
           st.iz ≥ 0 ∧ st.iz < demo.size_z) ∧
          block_get demo st.ix st.iy st.iz ≠ BlockType.BLOCK_AIR then
        some (some { hx := st.ix, hy := st.iy, hz := st.iz, hnormal := st.normal })
      else
        let st' := raycast_advance_fl fl c st
        if (max_dist : WithTop ℚ) < st'.t then some none
        else raycast_loop_fl fl demo max_dist c fuel st'
    else some none

/-- The local `gx` with the conversion, the product and the sum rounded. -/
def gx_fl (fl : ℚ → ℚ) (demo : Demo) (origin : v3f) : ℚ :=
  fl (origin.x + fl (fl (demo.size_x : ℚ) * (1 / 2)))

/-- The local `gz` with the conversion, the product and the sum rounded. -/
def gz_fl (fl : ℚ → ℚ) (demo : Demo) (origin : v3f) : ℚ :=
  fl (origin.z + fl (fl (demo.size_z : ℚ) * (1 / 2)))

/-- The fixed locals `stepX … invZ` with rounded reciprocals. -/
def raycast_setup_fl (fl : ℚ → ℚ) (dir : v3f) : RaySetup :=
  { stepX := step_of dir.x, stepY := step_of (-dir.y), stepZ := step_of dir.z,
    invX := inv_of_fl fl dir.x, invY := inv_of_fl fl (-dir.y), invZ := inv_of_fl fl dir.z }

/-- The loop locals on entry to the `while` loop, computed with rounding. -/
def raycast_init_fl (fl : ℚ → ℚ) (demo : Demo) (origin dir : v3f) : RayState :=
  { ix := ⌊gx_fl fl demo origin⌋, iy := ⌊gy origin⌋, iz := ⌊gz_fl fl demo origin⌋,
    tMaxX := tMax_of_fl fl dir.x (gx_fl fl demo origin) ⌊gx_fl fl demo origin⌋ (step_of dir.x),
    tMaxY := tMax_of_fl fl (-dir.y) (gy origin) ⌊gy origin⌋ (step_of (-dir.y)),
    tMaxZ := tMax_of_fl fl dir.z (gz_fl fl demo origin) ⌊gz_fl fl demo origin⌋ (step_of dir.z),
    normal := ⟨0, 0, 0⟩, t := 0 }

/-- The C function `raycast_block` with every float operation rounded by `fl`,
with a bound `fuel` on the number of loop iterations. -/
def raycast_block_fl (fl : ℚ → ℚ) (fuel : ℕ) (demo : Demo) (origin dir : v3f)
    (max_dist : ℚ) : Option (Option RayHit) :=
  raycast_loop_fl fl demo max_dist (raycast_setup_fl fl dir) fuel
    (raycast_init_fl fl demo origin dir)

/-- The loop locals after `n` executions of the rounded advance block. -/
def raycast_visit_fl (fl : ℚ → ℚ) (c : RaySetup) (st : RayState) (n : ℕ) : RayState :=
  (raycast_advance_fl fl c)^[n] st

/-! ### The near-clip interpolation with rounded operations -/

/-- The interpolation parameter `t` with the two subtractions and the division
rounded. -/
def clip_t_fl (fl : ℚ → ℚ) (near_plane : ℚ) (a b : ClipVert) : ℚ :=
  fl (fl (-near_plane - a.view_pos.z) / fl (b.view_pos.z - a.view_pos.z))

/-- The vertex `inter` with every subtraction, product and sum rounded. -/
def clip_inter_fl (fl : ℚ → ℚ) (near_plane : ℚ) (a b : ClipVert) : ClipVert :=
  let t := clip_t_fl fl near_plane a b
  { view_pos := ⟨fl (a.view_pos.x + fl (fl (b.view_pos.x - a.view_pos.x) * t)),
                 fl (a.view_pos.y + fl (fl (b.view_pos.y - a.view_pos.y) * t)),
                 -near_plane⟩,
    uv := ⟨fl (a.uv.x + fl (fl (b.uv.x - a.uv.x) * t)),
           fl (a.uv.y + fl (fl (b.uv.y - a.uv.y) * t))⟩ }

/-- One iteration of the near-clip walk with the interpolation rounded; the
two comparisons with `-near_plane` are exact in any case. -/
def clip_edge_fl (fl : ℚ → ℚ) (near_plane : ℚ) (a b : ClipVert) : List ClipVert :=
  let a_in := a.view_pos.z ≤ -near_plane
  let b_in := b.view_pos.z ≤ -near_plane
  if a_in ∧ b_in then [b]
  else if a_in ∧ ¬ b_in then [clip_inter_fl fl near_plane a b]
  else if ¬ a_in ∧ b_in then [clip_inter_fl fl near_plane a b, b]
  else []

/-! ### The scan range of the collision resolver with rounded operations -/

/-- The player box `resolve_collisions` computes on entry, with the constants
`0.3f`, `1.6f` and every sum and difference rounded; `grounded` is reset. -/
def resolve_init_fl (fl : ℚ → ℚ) (demo : Demo) : ResolveState :=
  let pmin_x := fl (demo.camera.pos.x - fl PLAYER_RADIUS)
  let pmax_x := fl (demo.camera.pos.x + fl PLAYER_RADIUS)
  let pmin_y := fl (demo.camera.pos.y - fl PLAYER_HEIGHT)
  let pmax_y := demo.camera.pos.y
  let pmin_z := fl (demo.camera.pos.z - fl PLAYER_RADIUS)
  let pmax_z := fl (demo.camera.pos.z + fl PLAYER_RADIUS)
  { demo := { demo with grounded := false }
    pmin_x := pmin_x
    pmax_x := pmax_x
    pmin_y := pmin_y
    pmax_y := pmax_y
    pmin_z := pmin_z
    pmax_z := pmax_z
    pcx := fl (fl (pmin_x + pmax_x) * (1 / 2))
    pcy := fl (fl (pmin_y + pmax_y) * (1 / 2))
    pcz := fl (fl (pmin_z + pmax_z) * (1 / 2)) }

/-- The local `ix_min` after its clamp: `floorf` of the rounded sum. -/
def ix_min_fl (fl : ℚ → ℚ) (demo : Demo) : ℤ :=
  clamp_lo ⌊fl ((resolve_init_fl fl demo).pmin_x + fl (fl (demo.size_x : ℚ) * (1 / 2)))⌋

/-- The local `ix_max` after its clamp. -/
def ix_max_fl (fl : ℚ → ℚ) (demo : Demo) : ℤ :=
  clamp_hi ⌊fl ((resolve_init_fl fl demo).pmax_x + fl (fl (demo.size_x : ℚ) * (1 / 2)))⌋
    demo.size_x

/-- The local `iz_min` after its clamp. -/
def iz_min_fl (fl : ℚ → ℚ) (demo : Demo) : ℤ :=
  clamp_lo ⌊fl ((resolve_init_fl fl demo).pmin_z + fl (fl (demo.size_z : ℚ) * (1 / 2)))⌋

/-- The local `iz_max` after its clamp. -/
def iz_max_fl (fl : ℚ → ℚ) (demo : Demo) : ℤ :=
  clamp_hi ⌊fl ((resolve_init_fl fl demo).pmax_z + fl (fl (demo.size_z : ℚ) * (1 / 2)))⌋
    demo.size_z

/-- The local `iy_min` after its clamp. -/
def iy_min_fl (fl : ℚ → ℚ) (demo : Demo) : ℤ :=
  clamp_lo ⌊-(resolve_init_fl fl demo).pmax_y⌋

/-- The local `iy_max` after its clamp. -/
def iy_max_fl (fl : ℚ → ℚ) (demo : Demo) : ℤ :=
  clamp_hi ⌊-(resolve_init_fl fl demo).pmin_y⌋ demo.size_y

/-- The local `bmin_x` with the conversions, the product and the difference
rounded. -/
def bmin_x_fl (fl : ℚ → ℚ) (demo : Demo) (x : ℤ) : ℚ :=
  fl (fl (x : ℚ) - fl (fl (demo.size_x : ℚ) * (1 / 2)))

/-- The local `bmax_x`. -/
def bmax_x_fl (fl : ℚ → ℚ) (demo : Demo) (x : ℤ) : ℚ := fl (bmin_x_fl fl demo x + 1)

/-- The local `bmin_z`. -/
def bmin_z_fl (fl : ℚ → ℚ) (demo : Demo) (z : ℤ) : ℚ :=
  fl (fl (z : ℚ) - fl (fl (demo.size_z : ℚ) * (1 / 2)))

/-- The local `bmax_z`. -/
def bmax_z_fl (fl : ℚ → ℚ) (demo : Demo) (z : ℤ) : ℚ := fl (bmin_z_fl fl demo z + 1)

/-- The local `bmin_y`. -/
def bmin_y_fl (fl : ℚ → ℚ) (y : ℤ) : ℚ := -fl (((y + 1 : ℤ)) : ℚ)

/-- The local `bmax_y`. -/
def bmax_y_fl (fl : ℚ → ℚ) (y : ℤ) : ℚ := -fl ((y : ℤ) : ℚ)

/-- The local `ox` as the loop body computes it, the difference rounded. -/
def overlap_x_fl (fl : ℚ → ℚ) (st : ResolveState) (x : ℤ) : ℚ :=
  fl (min st.pmax_x (bmax_x_fl fl st.demo x) - max st.pmin_x (bmin_x_fl fl st.demo x))

/-- The local `oy`. -/
def overlap_y_fl (fl : ℚ → ℚ) (st : ResolveState) (y : ℤ) : ℚ :=
  fl (min st.pmax_y (bmax_y_fl fl y) - max st.pmin_y (bmin_y_fl fl y))

/-- The local `oz`. -/
def overlap_z_fl (fl : ℚ → ℚ) (st : ResolveState) (z : ℤ) : ℚ :=
  fl (min st.pmax_z (bmax_z_fl fl st.demo z) - max st.pmin_z (bmin_z_fl fl st.demo z))

/-- The number of further advances along one axis that can leave `t` at or
below `max_dist` when every advance raises that axis's `tMax` by at least `δ`:
a bound used to show that the loop with rounded operations ends. -/
def axis_steps_by (max_dist δ : ℚ) (tMax : WithTop ℚ) : ℕ :=
  match tMax with
  | none => 0
  | some τ => if max_dist < τ then 0 else (⌊(max_dist - τ) / δ⌋).toNat + 1

/-- The sum of `axis_steps_by` over the three axes. -/
def ray_steps_by (max_dist δ : ℚ) (st : RayState) : ℕ :=
  axis_steps_by max_dist δ st.tMaxX + axis_steps_by max_dist δ st.tMaxY +
    axis_steps_by max_dist δ st.tMaxZ

/-! # Theorems -/

/-! ## Loops -/

/-- A counter that every iteration advances by `f i` ends a `for_loop` advanced
by the sum of `f` over the iterations. -/
theorem for_loop_count {σ : Type} (c : σ → ℤ) (f : ℤ → ℤ) (lo hi : ℤ)
    (body : ℤ → σ → σ) (hbody : ∀ i s, c (body i s) = c s + f i) (s : σ) :
    c (for_loop lo hi body s) =
      c s + ∑ k in Finset.range (hi - lo).toNat, f (lo + (k : ℤ)) := by
  unfold for_loop
  generalize (hi - lo).toNat = n
  induction n with
  | zero => simp
  | succ n ih =>
    rw [List.range_succ, List.foldl_append, Finset.sum_range_succ]
    simp only [List.foldl_cons, List.foldl_nil]
    rw [hbody, ih]
    ring

/-- The integers of `[0, n)` are the casts of the naturals below `n.toNat`. -/
theorem Ico_zero_eq_image (n : ℤ) :
    Finset.Ico (0 : ℤ) n =
      (Finset.range n.toNat).image (fun k : ℕ => (0 : ℤ) + (k : ℤ)) := by
  ext i
  simp only [Finset.mem_Ico, Finset.mem_image, Finset.mem_range]
  constructor
  · rintro ⟨h0, h1⟩
    exact ⟨i.toNat, by omega, by omega⟩
  · rintro ⟨k, hk, rfl⟩
    omega

/-- A sum over the integers of `[0, n)` as a sum over `Finset.range`. -/
theorem sum_Ico_zero {M : Type} [AddCommMonoid M] (n : ℤ) (f : ℤ → M) :
    ∑ i in Finset.Ico (0 : ℤ) n, f i =
      ∑ k in Finset.range n.toNat, f (0 + (k : ℤ)) := by
  rw [Ico_zero_eq_image, Finset.sum_image]
  intro a _ b _ h
  simpa using h

/-! ## Grid accessors -/

/-- A flat index `a * s + x` with `0 ≤ x < s` determines both `a` and `x`. -/
theorem flat_index_inj (s a a' x x' : ℤ) (hx : 0 ≤ x) (hxs : x < s)
    (hx' : 0 ≤ x') (hxs' : x' < s) (h : a * s + x = a' * s + x') :
    a = a' ∧ x = x' := by
  have hs : 0 < s := lt_of_le_of_lt hx hxs
  have ha : a = a' := by
    rcases lt_trichotomy a a' with hlt | heq | hgt
    · exfalso
      have h1 : a + 1 ≤ a' := hlt
      have h2 : (a + 1) * s ≤ a' * s := mul_le_mul_of_nonneg_right h1 hs.le
      nlinarith
    · exact heq
    · exfalso
      have h1 : a' + 1 ≤ a := hgt
      have h2 : (a' + 1) * s ≤ a * s := mul_le_mul_of_nonneg_right h1 hs.le
      nlinarith
  subst ha
  exact ⟨rfl, by linarith⟩

/-- On in-range coordinates `block_index` is injective. -/
theorem block_index_inj (demo : Demo) (x y z x' y' z' : ℤ)
    (h : ¬ out_of_range demo x y z) (h' : ¬ out_of_range demo x' y' z')
    (he : block_index demo x y z = block_index demo x' y' z') :
    x = x' ∧ y = y' ∧ z = z' := by
  simp only [out_of_range, not_or, not_lt, ge_iff_le, not_le] at h h'
  obtain ⟨hx0, hx1, -, -, hz0, hz1⟩ := h
  obtain ⟨hx0', hx1', -, -, hz0', hz1'⟩ := h'
  unfold block_index at he
  obtain ⟨h1, h2⟩ := flat_index_inj demo.size_x _ _ x x' hx0 hx1 hx0' hx1' he
  obtain ⟨h3, h4⟩ := flat_index_inj demo.size_z _ _ z z' hz0 hz1 hz0' hz1' h1
  exact ⟨h2, h3, h4⟩

/-- C3: at a coordinate with a component outside its range `block_get` returns
`BLOCK_AIR`, and it does so whatever the `blocks` array holds (no cell is read). -/
theorem block_get_out_of_range (demo : Demo) (x y z : ℤ)
    (h : x < 0 ∨ demo.size_x ≤ x ∨ y < 0 ∨ demo.size_y ≤ y ∨ z < 0 ∨ demo.size_z ≤ z) :
    block_get demo x y z = BlockType.BLOCK_AIR ∧
    ∀ blocks' : ℤ → BlockType,
      block_get { demo with blocks := blocks' } x y z = BlockType.BLOCK_AIR := by
  have h1 : out_of_range demo x y z := h
  refine ⟨by simp [block_get, h1], fun blocks' => ?_⟩
  have h2 : out_of_range { demo with blocks := blocks' } x y z := h
  simp [block_get, h2]

/-- C4: at a coordinate with a component outside its range `block_set` returns
the state it was given: grid cells, `mesh_dirty`, face list and count are all
unchanged. -/
theorem block_set_out_of_range (demo : Demo) (x y z : ℤ) (t : BlockType)
    (h : x < 0 ∨ demo.size_x ≤ x ∨ y < 0 ∨ demo.size_y ≤ y ∨ z < 0 ∨ demo.size_z ≤ z) :
    block_set demo x y z t = demo ∧
    (∀ i, (block_set demo x y z t).blocks i = demo.blocks i) ∧
    (block_set demo x y z t).mesh_dirty = demo.mesh_dirty ∧
    (block_set demo x y z t).faces = demo.faces ∧
    (block_set demo x y z t).face_count = demo.face_count := by
  have h1 : out_of_range demo x y z := h
  have h2 : block_set demo x y z t = demo := by simp [block_set, h1]
  rw [h2]
  exact ⟨rfl, fun _ => rfl, rfl, rfl, rfl⟩

/-- A loop whose body fixes the state at every index of the range fixes it. -/
theorem for_loop_fixed {σ : Type} (lo hi : ℤ) (body : ℤ → σ → σ) (s : σ)
    (h : ∀ i, lo ≤ i → i < hi → body i s = s) : for_loop lo hi body s = s := by
  unfold for_loop
  have hk : ∀ n : ℕ, (n : ℤ) ≤ ((hi - lo).toNat : ℤ) →
      (List.range n).foldl (fun st (k : ℕ) => body (lo + (k : ℤ)) st) s = s := by
    intro n
    induction n with
    | zero => intro _; rfl
    | succ n ih =>
      intro hn
      rw [List.range_succ, List.foldl_append, ih (by push_cast at hn ⊢; omega)]
      simp only [List.foldl_cons, List.foldl_nil]
      exact h _ (by omega) (by push_cast at hn; omega)
  exact hk _ le_rfl

/-- A loop in which one index `c` takes `s` to `t`, every other index fixes
`s`, and every index fixes `t`, takes `s` to `t`. -/
theorem for_loop_single {σ : Type} (lo hi : ℤ) (body : ℤ → σ → σ) (s t : σ) (c : ℤ)
    (hc : lo ≤ c ∧ c < hi) (hct : body c s = t)
    (hs : ∀ i, lo ≤ i → i < hi → i ≠ c → body i s = s)
    (ht : ∀ i, lo ≤ i → i < hi → body i t = t) : for_loop lo hi body s = t := by
  unfold for_loop
  have hk : ∀ n : ℕ, (n : ℤ) ≤ ((hi - lo).toNat : ℤ) →
      (List.range n).foldl (fun st (k : ℕ) => body (lo + (k : ℤ)) st) s =
        if c < lo + (n : ℤ) then t else s := by
    intro n
    induction n with
    | zero =>
      intro _
      have : ¬ c < lo + ((0 : ℕ) : ℤ) := by push_cast; omega
      rw [if_neg this]
      rfl
    | succ n ih =>
      intro hn
      rw [List.range_succ, List.foldl_append, ih (by push_cast at hn ⊢; omega)]
      simp only [List.foldl_cons, List.foldl_nil]
      have hlt : lo + (n : ℤ) < hi := by push_cast at hn; omega
      by_cases h1 : c < lo + (n : ℤ)
      · have h2 : c < lo + ((n + 1 : ℕ) : ℤ) := by push_cast; omega
        rw [if_pos h1, if_pos h2]
        exact ht _ (by omega) hlt
      · rw [if_neg h1]
        by_cases h3 : c = lo + (n : ℤ)
        · have h2 : c < lo + ((n + 1 : ℕ) : ℤ) := by push_cast; omega
          rw [if_pos h2, ← h3]
          exact hct
        · have h2 : ¬ c < lo + ((n + 1 : ℕ) : ℤ) := by push_cast; omega
          rw [if_neg h2]
          exact hs _ (by omega) hlt (fun e => h3 e.symm)
  rw [hk _ le_rfl]
  have : c < lo + ((hi - lo).toNat : ℤ) := by omega
  rw [if_pos this]

/-! ## Mesher -/

/-- One call of `add_face` advances the count by two. -/
theorem add_face_count (faces : ℤ → Face) (count : ℤ) (tex : TexRef)
    (p0 p1 p2 p3 : v3f) : (add_face faces count tex p0 p1 p2 p3).2 = count + 2 := by
  simp only [add_face]
  ring

/-- The loop body advances `face_count` by two triangles per emitted quad. -/
theorem rebuild_faces_body_count (demo : Demo) (x z y : ℤ) (st : (ℤ → Face) × ℤ) :
    (rebuild_faces_body demo x z y st).2 = st.2 + 2 * quads_at demo x y z := by
  unfold rebuild_faces_body quads_at
  by_cases h : block_get demo x y z = BlockType.BLOCK_AIR
  · simp [h]
  · simp only [h, if_false]
    by_cases h1 : IS_SOLID demo x (y - 1) z <;>
    by_cases h2 : IS_SOLID demo x (y + 1) z <;>
    by_cases h3 : IS_SOLID demo x y (z + 1) <;>
    by_cases h4 : IS_SOLID demo x y (z - 1) <;>
    by_cases h5 : IS_SOLID demo (x - 1) y z <;>
    by_cases h6 : IS_SOLID demo (x + 1) y z <;>
    simp only [h1, h2, h3, h4, h5, h6, not_true_eq_false, not_false_eq_true, if_true,
      if_false, add_face_count] <;>
    ring

/-- The triangle count after `rebuild_faces` as a sum over the three loops. -/
theorem rebuild_faces_count_sum (demo : Demo) :
    (rebuild_faces demo).face_count =
      ∑ i in Finset.range demo.size_x.toNat, ∑ j in Finset.range demo.size_z.toNat,
        ∑ k in Finset.range demo.size_y.toNat,
          2 * quads_at demo (0 + (i : ℤ)) (0 + (k : ℤ)) (0 + (j : ℤ)) := by
  have hy : ∀ (x z : ℤ) (s : (ℤ → Face) × ℤ),
      (for_loop 0 demo.size_y (fun y => rebuild_faces_body demo x z y) s).2 =
        s.2 + ∑ k in Finset.range demo.size_y.toNat,
          2 * quads_at demo x (0 + (k : ℤ)) z := by
    intro x z s
    have h := for_loop_count (fun s : (ℤ → Face) × ℤ => s.2)
      (fun y => 2 * quads_at demo x y z) 0 demo.size_y
      (fun y => rebuild_faces_body demo x z y)
      (fun i s => rebuild_faces_body_count demo x z i s) s
    simpa using h
  have hz : ∀ (x : ℤ) (s : (ℤ → Face) × ℤ),
      (for_loop 0 demo.size_z (fun z =>
        for_loop 0 demo.size_y (fun y => rebuild_faces_body demo x z y)) s).2 =
        s.2 + ∑ j in Finset.range demo.size_z.toNat,
          ∑ k in Finset.range demo.size_y.toNat,
            2 * quads_at demo x (0 + (k : ℤ)) (0 + (j : ℤ)) := by
    intro x s
    have h := for_loop_count (fun s : (ℤ → Face) × ℤ => s.2)
      (fun z => ∑ k in Finset.range demo.size_y.toNat, 2 * quads_at demo x (0 + (k : ℤ)) z)
      0 demo.size_z
      (fun z => for_loop 0 demo.size_y (fun y => rebuild_faces_body demo x z y))
      (fun i s => hy x i s) s
    simpa using h
  have hx := for_loop_count (fun s : (ℤ → Face) × ℤ => s.2)
      (fun x => ∑ j in Finset.range demo.size_z.toNat,
          ∑ k in Finset.range demo.size_y.toNat,
            2 * quads_at demo x (0 + (k : ℤ)) (0 + (j : ℤ)))
      0 demo.size_x
      (fun x => for_loop 0 demo.size_z (fun z =>
        for_loop 0 demo.size_y (fun y => rebuild_faces_body demo x z y)))
      (fun i s => hz i s)
  simp only [rebuild_faces]
  have h := hx (if (demo.faces.isNone ||
      decide (demo.face_cap < max_faces demo)) = true
    then malloc_faces else demo.faces.getD malloc_faces, 0)
  simpa using h

/-- Summed over the six directions, the exposure test of a cell gives the
number of quads the loop body emits for it. -/
theorem axis_dirs_sum (demo : Demo) (x y z : ℤ) :
    (∑ d in axis_dirs,
      if block_get demo x y z ≠ BlockType.BLOCK_AIR ∧
          block_get demo (x + d.1) (y + d.2.1) (z + d.2.2) = BlockType.BLOCK_AIR
      then (1 : ℤ) else 0) = quads_at demo x y z := by
  unfold axis_dirs
  rw [Finset.sum_insert (by decide), Finset.sum_insert (by decide),
    Finset.sum_insert (by decide), Finset.sum_insert (by decide),
    Finset.sum_insert (by decide), Finset.sum_singleton]
  simp only [add_zero, Int.add_neg_one]
  unfold quads_at IS_SOLID
  by_cases h : block_get demo x y z = BlockType.BLOCK_AIR
  · simp [h]
  · simp only [h, if_false, ne_eq, not_false_eq_true, true_and, ite_not]
    ring

/-- The number of exposed (cell, direction) pairs as a sum over the grid. -/
theorem exposed_pairs_card (demo : Demo) :
    ((exposed_pairs demo).card : ℤ) =
      ∑ x in Finset.Ico 0 demo.size_x, ∑ y in Finset.Ico 0 demo.size_y,
        ∑ z in Finset.Ico 0 demo.size_z, quads_at demo x y z := by
  unfold exposed_pairs
  rw [Finset.card_filter]
  push_cast
  rw [Finset.sum_product]
  simp only [axis_dirs_sum]
  rw [Finset.sum_product]
  refine Finset.sum_congr rfl (fun x _ => ?_)
  rw [Finset.sum_product]

/-- Exactly one index of `[0, n)` equals a given in-range value. -/
theorem sum_range_indicator (n : ℕ) (a : ℤ) (h0 : 0 ≤ a) (h1 : a < (n : ℤ)) :
    (∑ k in Finset.range n, if (0 : ℤ) + (k : ℤ) = a then (1 : ℤ) else 0) = 1 := by
  have hcond : ∀ k : ℕ, ((0 : ℤ) + (k : ℤ) = a) ↔ (k = a.toNat) := by
    intro k
    omega
  simp only [hcond]
  rw [Finset.sum_ite_eq']
  have hm : a.toNat ∈ Finset.range n := by
    rw [Finset.mem_range]
    omega
  simp [hm]

/-- In a fully solid grid a cell emits one quad for each grid boundary it lies on. -/
theorem quads_at_fully_solid (demo : Demo)
    (hsolid : ∀ x y z : ℤ, ¬ out_of_range demo x y z →
      block_get demo x y z ≠ BlockType.BLOCK_AIR)
    (x y z : ℤ) (hin : ¬ out_of_range demo x y z) :
    quads_at demo x y z =
      (if y = 0 then 1 else 0) + (if y = demo.size_y - 1 then 1 else 0) +
      (if z = demo.size_z - 1 then 1 else 0) + (if z = 0 then 1 else 0) +
      (if x = 0 then 1 else 0) + (if x = demo.size_x - 1 then 1 else 0) := by
  have hs : ∀ x' y' z' : ℤ, IS_SOLID demo x' y' z' ↔ ¬ out_of_range demo x' y' z' := by
    intro x' y' z'
    unfold IS_SOLID
    constructor
    · intro h ho
      exact h (by simp [block_get, ho])
    · exact hsolid x' y' z'
  unfold quads_at
  rw [if_neg (hsolid x y z hin)]
  simp only [hs]
  simp only [out_of_range, not_or, not_lt, ge_iff_le, not_le] at hin ⊢
  obtain ⟨hx0, hx1, hy0, hy1, hz0, hz1⟩ := hin
  have e1 : (0 ≤ x ∧ x < demo.size_x ∧ 0 ≤ y - 1 ∧ y - 1 < demo.size_y ∧ 0 ≤ z ∧
      z < demo.size_z) ↔ ¬ y = 0 := by constructor <;> intro h <;> omega
  have e2 : (0 ≤ x ∧ x < demo.size_x ∧ 0 ≤ y + 1 ∧ y + 1 < demo.size_y ∧ 0 ≤ z ∧
      z < demo.size_z) ↔ ¬ y = demo.size_y - 1 := by constructor <;> intro h <;> omega
  have e3 : (0 ≤ x ∧ x < demo.size_x ∧ 0 ≤ y ∧ y < demo.size_y ∧ 0 ≤ z + 1 ∧
      z + 1 < demo.size_z) ↔ ¬ z = demo.size_z - 1 := by constructor <;> intro h <;> omega
  have e4 : (0 ≤ x ∧ x < demo.size_x ∧ 0 ≤ y ∧ y < demo.size_y ∧ 0 ≤ z - 1 ∧
      z - 1 < demo.size_z) ↔ ¬ z = 0 := by constructor <;> intro h <;> omega
  have e5 : (0 ≤ x - 1 ∧ x - 1 < demo.size_x ∧ 0 ≤ y ∧ y < demo.size_y ∧ 0 ≤ z ∧
      z < demo.size_z) ↔ ¬ x = 0 := by constructor <;> intro h <;> omega
  have e6 : (0 ≤ x + 1 ∧ x + 1 < demo.size_x ∧ 0 ≤ y ∧ y < demo.size_y ∧ 0 ≤ z ∧
      z < demo.size_z) ↔ ¬ x = demo.size_x - 1 := by constructor <;> intro h <;> omega
  simp only [e1, e2, e3, e4, e5, e6, ite_not]

/-- The triangle count of a fully solid grid with positive dimensions. -/
theorem rebuild_faces_solid_count (demo : Demo)
    (hx : 1 ≤ demo.size_x) (hy : 1 ≤ demo.size_y) (hz : 1 ≤ demo.size_z)
    (hsolid : ∀ x y z : ℤ, 0 ≤ x ∧ x < demo.size_x → 0 ≤ y ∧ y < demo.size_y →
      0 ≤ z ∧ z < demo.size_z → block_get demo x y z ≠ BlockType.BLOCK_AIR) :
    (rebuild_faces demo).face_count =
      2 * (2 * (demo.size_x * demo.size_y + demo.size_y * demo.size_z +
        demo.size_x * demo.size_z)) := by
  have hsolid' : ∀ x y z : ℤ, ¬ out_of_range demo x y z →
      block_get demo x y z ≠ BlockType.BLOCK_AIR := by
    intro x y z h
    simp only [out_of_range, not_or, not_lt, ge_iff_le, not_le] at h
    exact hsolid x y z ⟨h.1, h.2.1⟩ ⟨h.2.2.1, h.2.2.2.1⟩ ⟨h.2.2.2.2.1, h.2.2.2.2.2⟩
  rw [rebuild_faces_count_sum]
  obtain ⟨N, hN⟩ : ∃ N : ℕ, demo.size_x = (N : ℤ) := ⟨demo.size_x.toNat, by omega⟩
  obtain ⟨M, hM⟩ : ∃ M : ℕ, demo.size_y = (M : ℤ) := ⟨demo.size_y.toNat, by omega⟩
  obtain ⟨K, hK⟩ : ∃ K : ℕ, demo.size_z = (K : ℤ) := ⟨demo.size_z.toNat, by omega⟩
  have hq : ∀ i ∈ Finset.range N, ∀ j ∈ Finset.range K, ∀ k ∈ Finset.range M,
      2 * quads_at demo (0 + (i : ℤ)) (0 + (k : ℤ)) (0 + (j : ℤ)) =
      2 * ((if (0 : ℤ) + (k : ℤ) = 0 then 1 else 0) +
        (if (0 : ℤ) + (k : ℤ) = (M : ℤ) - 1 then 1 else 0) +
        (if (0 : ℤ) + (j : ℤ) = (K : ℤ) - 1 then 1 else 0) +
        (if (0 : ℤ) + (j : ℤ) = 0 then 1 else 0) +
        (if (0 : ℤ) + (i : ℤ) = 0 then 1 else 0) +
        (if (0 : ℤ) + (i : ℤ) = (N : ℤ) - 1 then 1 else 0)) := by
    intro i hi j hj k hk
    rw [Finset.mem_range] at hi hj hk
    have hin : ¬ out_of_range demo (0 + (i : ℤ)) (0 + (k : ℤ)) (0 + (j : ℤ)) := by
      simp only [out_of_range, not_or, not_lt, ge_iff_le, not_le]
      omega
    rw [quads_at_fully_solid demo hsolid' _ _ _ hin, hN, hM, hK]
  rw [hN, hM, hK]
  simp only [Int.toNat_ofNat]
  rw [Finset.sum_congr rfl (fun i hi => Finset.sum_congr rfl (fun j hj =>
    Finset.sum_congr rfl (fun k hk => hq i hi j hj k hk)))]
  have hM0 := sum_range_indicator M 0 le_rfl (by omega)
  have hM1 := sum_range_indicator M ((M : ℤ) - 1) (by omega) (by omega)
  have hK0 := sum_range_indicator K 0 le_rfl (by omega)
  have hK1 := sum_range_indicator K ((K : ℤ) - 1) (by omega) (by omega)
  have hN0 := sum_range_indicator N 0 le_rfl (by omega)
  have hN1 := sum_range_indicator N ((N : ℤ) - 1) (by omega) (by omega)
  simp only [← Finset.mul_sum, Finset.sum_add_distrib, Finset.sum_const, Finset.card_range,
    hM0, hM1, hK0, hK1, hN0, hN1, nsmul_eq_mul]
  ring

/-- In an all-stone sample grid every in-range cell is solid. -/
theorem all_stone_solid (sx sy sz : ℤ) (x y z : ℤ)
    (hx : 0 ≤ x ∧ x < sx) (hy : 0 ≤ y ∧ y < sy) (hz : 0 ≤ z ∧ z < sz) :
    block_get (sample_demo sx sy sz all_stone) x y z ≠ BlockType.BLOCK_AIR := by
  have hin : ¬ out_of_range (sample_demo sx sy sz all_stone) x y z := by
    simp only [out_of_range, sample_demo, not_or, not_lt, ge_iff_le, not_le]
    exact ⟨hx.1, hx.2, hy.1, hy.2, hz.1, hz.2⟩
  rw [block_get, if_neg hin]
  simp [sample_demo, all_stone]

/-- Witness for C3: reading left of a 1x1x1 grid. -/
theorem block_get_out_of_range_witness :
    (-1 : ℤ) < 0 ∧
    block_get (sample_demo 1 1 1 all_stone) (-1) 0 0 = BlockType.BLOCK_AIR :=
  ⟨by decide,
    (block_get_out_of_range (sample_demo 1 1 1 all_stone) (-1) 0 0
      (Or.inl (by decide))).1⟩

/-- Witness for C4: writing below a 1x1x1 grid. -/
theorem block_set_out_of_range_witness :
    block_set (sample_demo 1 1 1 all_stone) 0 1 0 BlockType.BLOCK_DIRT
      = sample_demo 1 1 1 all_stone :=
  (block_set_out_of_range (sample_demo 1 1 1 all_stone) 0 1 0 BlockType.BLOCK_DIRT
    (Or.inr (Or.inr (Or.inr (Or.inl (le_refl 1)))))).1

/-- The loop body does nothing at a cell that is `Air` or that the box does not
intersect. -/
theorem resolve_collisions_body_skip (st : ResolveState) (x y z : ℤ)
    (h : block_get st.demo x y z ≠ BlockType.BLOCK_AIR → ¬ intersects st x y z) :
    resolve_collisions_body x z y st = st := by
  unfold resolve_collisions_body
  by_cases ha : block_get st.demo x y z = BlockType.BLOCK_AIR
  · rw [if_pos ha]
  · rw [if_neg ha]
    have hn : ¬ (0 < overlap_x st x ∧ 0 < overlap_y st y ∧ 0 < overlap_z st z) := h ha
    simp only [hn, if_false]

/-- C7: when the player box intersects no solid cell (no cell has positive
overlap on all three axes), `resolve_collisions` leaves camera position and
velocity as they were and `grounded` is false afterwards. -/
theorem resolve_collisions_no_overlap (demo : Demo)
    (h : ∀ x y z : ℤ, block_get demo x y z ≠ BlockType.BLOCK_AIR →
      ¬ (0 < overlap_x (resolve_init demo) x ∧ 0 < overlap_y (resolve_init demo) y ∧
        0 < overlap_z (resolve_init demo) z)) :
    (resolve_collisions demo).camera.pos = demo.camera.pos ∧
    (resolve_collisions demo).velocity = demo.velocity ∧
    (resolve_collisions demo).grounded = false := by
  have hbody : ∀ x z y : ℤ,
      resolve_collisions_body x z y (resolve_init demo) = resolve_init demo :=
    fun x z y => resolve_collisions_body_skip (resolve_init demo) x y z (h x y z)
  have hres : resolve_collisions demo = (resolve_init demo).demo := by
    unfold resolve_collisions
    simp only
    rw [for_loop_fixed]
    intro x _ _
    rw [for_loop_fixed]
    intro z _ _
    rw [for_loop_fixed]
    intro y _ _
    exact hbody x z y
  rw [hres]
  exact ⟨rfl, rfl, rfl⟩

/-- Along one axis: after the push by the signed overlap, away from the cell
centre, the overlap is no longer positive exactly when box and cell extents are
staggered. -/
theorem push_separates_iff (pmin pmax bmin bmax pc : ℚ) (hb : bmin < bmax)
    (hpc : pc = (pmin + pmax) * (1 / 2))
    (ho : 0 < min pmax bmax - max pmin bmin) :
    (min (pmax + (if pc < (bmin + bmax) * (1 / 2)
          then -(min pmax bmax - max pmin bmin) else (min pmax bmax - max pmin bmin))) bmax
      - max (pmin + (if pc < (bmin + bmax) * (1 / 2)
          then -(min pmax bmax - max pmin bmin) else (min pmax bmax - max pmin bmin))) bmin ≤ 0)
    ↔ staggered pmin pmax bmin bmax := by
  unfold staggered
  subst hpc
  rcases le_total pmax bmax with h1 | h1 <;>
  rcases le_total pmin bmin with h2 | h2 <;>
  simp only [min_eq_left h1, min_eq_right h1, max_eq_left h2, max_eq_right h2] at ho ⊢ <;>
  split_ifs with h3 <;>
  simp only [min_def, max_def] <;>
  split_ifs <;>
  constructor <;>
  intro h <;>
  first
    | linarith
    | (left; constructor <;> linarith)
    | (right; constructor <;> linarith)
    | (rcases h with ⟨_, _⟩ | ⟨_, _⟩ <;> linarith)

/-- The locals set up by `resolve_collisions` are centred. -/
theorem resolve_init_centred (demo : Demo) : centred (resolve_init demo) :=
  ⟨rfl, rfl, rfl⟩

/-- The loop body keeps the centre locals in step with the box locals. -/
theorem resolve_collisions_body_centred (st : ResolveState) (x y z : ℤ)
    (h : centred st) : centred (resolve_collisions_body x z y st) := by
  obtain ⟨hx, hy, hz⟩ := h
  have px : ∀ d, centred (push_x st d) := fun d =>
    ⟨by simp only [push_x]; rw [hx]; ring, hy, hz⟩
  have py : ∀ d, centred (push_y st d) := fun d =>
    ⟨hx, by simp only [push_y]; rw [hy]; ring, hz⟩
  have pz : ∀ d, centred (push_z st d) := fun d =>
    ⟨hx, hy, by simp only [push_z]; rw [hz]; ring⟩
  unfold resolve_collisions_body
  by_cases h0 : block_get st.demo x y z = BlockType.BLOCK_AIR
  · rw [if_pos h0]
    exact ⟨hx, hy, hz⟩
  · rw [if_neg h0]
    simp only
    by_cases h1 : 0 < overlap_x st x ∧ 0 < overlap_y st y ∧ 0 < overlap_z st z
    · rw [if_pos h1]
      by_cases h2 : overlap_x st x ≤ overlap_y st y ∧ overlap_x st x ≤ overlap_z st z
      · rw [if_pos h2]
        exact px _
      · rw [if_neg h2]
        by_cases h3 : overlap_y st y ≤ overlap_x st x ∧ overlap_y st y ≤ overlap_z st z
        · rw [if_pos h3]
          exact py _
        · rw [if_neg h3]
          exact pz _
    · rw [if_neg h1]
      exact ⟨hx, hy, hz⟩

/-- A cell that does not read as `Air` lies inside the grid. -/
theorem block_get_ne_air_in_range (demo : Demo) (x y z : ℤ)
    (h : block_get demo x y z ≠ BlockType.BLOCK_AIR) :
    (0 ≤ x ∧ x < demo.size_x) ∧ (0 ≤ y ∧ y < demo.size_y) ∧ (0 ≤ z ∧ z < demo.size_z) := by
  by_cases ho : out_of_range demo x y z
  · exact absurd (by simp [block_get, ho]) h
  · simp only [out_of_range, not_or, not_lt, ge_iff_le, not_le] at ho
    exact ⟨⟨ho.1, ho.2.1⟩, ⟨ho.2.2.1, ho.2.2.2.1⟩, ⟨ho.2.2.2.2.1, ho.2.2.2.2.2⟩⟩

/-- A cell inside the grid that the box intersects lies in the index range
scanned by `resolve_collisions` (stated for one axis: `v` is the box edge in
grid units below and `w` the one above). -/
theorem scan_range_contains (c size : ℤ) (v w : ℚ) (hc : 0 ≤ c ∧ c < size)
    (hv : v < (c : ℚ) + 1) (hw : (c : ℚ) ≤ w) :
    clamp_lo ⌊v⌋ ≤ c ∧ c < clamp_hi ⌊w⌋ size + 1 := by
  constructor
  · unfold clamp_lo
    split_ifs
    · exact hc.1
    · have : ⌊v⌋ < c + 1 := by
        rw [Int.floor_lt]
        push_cast
        exact hv
      omega
  · unfold clamp_hi
    split_ifs
    · omega
    · have : c ≤ ⌊w⌋ := by
        rw [Int.le_floor]
        exact hw
      omega

/-- A box of height 8/5 whose centre is not below the centre of a unit cell and
whose vertical overlap with it is `d < 3/5` has its bottom `d` below the top of
the cell. -/
theorem feet_depth (pmin pmax bmin bmax pc d : ℚ) (hp : pmax = pmin + 8 / 5)
    (hb : bmax = bmin + 1) (hpc : pc = (pmin + pmax) * (1 / 2)) (hd : d < 3 / 5)
    (ho : min pmax bmax - max pmin bmin = d) (hab : (bmin + bmax) * (1 / 2) ≤ pc) :
    pmin = bmax - d := by
  rcases le_total pmax bmax with h1 | h1 <;>
  rcases le_total pmin bmin with h2 | h2 <;>
  simp only [min_eq_left h1, min_eq_right h1, max_eq_left h2, max_eq_right h2] at ho <;>
  linarith

/-- A box that does not overlap a cell vertically, and whose top is above the
bottom of the cell, still does not overlap it after moving up. -/
theorem lifted_no_overlap (pmin pmax bmin bmax d : ℚ) (hp : pmin < pmax)
    (hb : bmin < bmax) (hd : 0 < d) (hbelow : bmin < pmax)
    (ho : min pmax bmax - max pmin bmin ≤ 0) :
    min (pmax + d) bmax - max (pmin + d) bmin ≤ 0 := by
  have h1 : bmax ≤ pmin := by
    rcases le_total pmax bmax with h1 | h1 <;>
    rcases le_total pmin bmin with h2 | h2 <;>
    simp only [min_eq_left h1, min_eq_right h1, max_eq_left h2, max_eq_right h2] at ho <;>
    linarith
  have h2 : min (pmax + d) bmax ≤ bmax := min_le_right _ _
  have h3 : pmin + d ≤ max (pmin + d) bmin := le_max_left _ _
  linarith

/-- Stone is not `Air`. -/
theorem stone_ne_air : BlockType.BLOCK_STONE ≠ BlockType.BLOCK_AIR := by decide

/-- The only cell of a 1x1x1 sample grid that can read as non-Air is `(0, 0, 0)`. -/
theorem sample_unit_grid_cell (pos : v3f) (blocks : ℤ → BlockType) (x y z : ℤ)
    (h : block_get (sample_player pos 1 1 1 blocks) x y z ≠ BlockType.BLOCK_AIR) :
    x = 0 ∧ y = 0 ∧ z = 0 := by
  have hr := block_get_ne_air_in_range _ x y z h
  simp only [sample_player, sample_demo] at hr
  omega

/-- Witness for C7: the player of the initial camera position, six units away
from the single stone cell. -/
theorem resolve_collisions_no_overlap_witness :
    (resolve_collisions (sample_player ⟨0, 3 / 2, 6⟩ 1 1 1 all_stone)).camera.pos
      = (sample_player ⟨0, 3 / 2, 6⟩ 1 1 1 all_stone).camera.pos ∧
    (resolve_collisions (sample_player ⟨0, 3 / 2, 6⟩ 1 1 1 all_stone)).grounded = false :=
  have h := resolve_collisions_no_overlap (sample_player ⟨0, 3 / 2, 6⟩ 1 1 1 all_stone)
    (fun x y z hs => by
      obtain ⟨-, -, e3⟩ := sample_unit_grid_cell _ _ x y z hs
      rw [e3]
      rintro ⟨-, -, h3⟩
      norm_num [overlap_z, resolve_init, sample_player, sample_demo, bmin_z, bmax_z,
        PLAYER_RADIUS, min_def, max_def] at h3)
  ⟨h.1, h.2.2⟩

/-- The cell of the landing state is stone. -/
theorem landing_state_solid :
    block_get (landing_state all_stone).demo 0 0 0 ≠ BlockType.BLOCK_AIR := by
  norm_num [landing_state, resolve_init, block_get, out_of_range, sample_player,
    sample_demo, all_stone, stone_ne_air]

/-- The overlaps of the landing state with its cell: 3/5, 1/10 and 3/5. -/
theorem landing_state_overlaps :
    overlap_x (landing_state all_stone) 0 = 3 / 5 ∧
    overlap_y (landing_state all_stone) 0 = 1 / 10 ∧
    overlap_z (landing_state all_stone) 0 = 3 / 5 := by
  norm_num [landing_state, overlap_x, overlap_y, overlap_z, resolve_init, sample_player,
    sample_demo, bmin_x, bmax_x, bmin_y, bmax_y, bmin_z, bmax_z, PLAYER_RADIUS,
    PLAYER_HEIGHT, min_def, max_def]

/-- An iteration that starts within range on a solid cell returns that cell and
the current normal. -/
theorem raycast_loop_hit_now (demo : Demo) (max_dist : ℚ) (c : RaySetup) (fuel : ℕ)
    (st : RayState) (ht : st.t ≤ (max_dist : WithTop ℚ))
    (hs : block_get demo st.ix st.iy st.iz ≠ BlockType.BLOCK_AIR) :
    raycast_loop demo max_dist c (fuel + 1) st =
      some (some { hx := st.ix, hy := st.iy, hz := st.iz, hnormal := st.normal }) := by
  have hr := block_get_ne_air_in_range demo _ _ _ hs
  have hin : (st.ix ≥ 0 ∧ st.ix < demo.size_x ∧ st.iy ≥ 0 ∧ st.iy < demo.size_y ∧
      st.iz ≥ 0 ∧ st.iz < demo.size_z) ∧
      block_get demo st.ix st.iy st.iz ≠ BlockType.BLOCK_AIR :=
    ⟨⟨hr.1.1, hr.1.2, hr.2.1.1, hr.2.1.2, hr.2.2.1, hr.2.2.2⟩, hs⟩
  rw [raycast_loop, if_pos ht, if_pos hin]

/-- An iteration that starts within range on a cell reading `Air` advances and,
unless the new `t` exceeds `max_dist`, continues from the advanced state. -/
theorem raycast_loop_advance (demo : Demo) (max_dist : ℚ) (c : RaySetup) (fuel : ℕ)
    (st : RayState) (ht : st.t ≤ (max_dist : WithTop ℚ))
    (hs : block_get demo st.ix st.iy st.iz = BlockType.BLOCK_AIR)
    (ht' : (raycast_advance c st).t ≤ (max_dist : WithTop ℚ)) :
    raycast_loop demo max_dist c (fuel + 1) st =
      raycast_loop demo max_dist c fuel (raycast_advance c st) := by
  have hin : ¬ ((st.ix ≥ 0 ∧ st.ix < demo.size_x ∧ st.iy ≥ 0 ∧ st.iy < demo.size_y ∧
      st.iz ≥ 0 ∧ st.iz < demo.size_z) ∧
      block_get demo st.ix st.iy st.iz ≠ BlockType.BLOCK_AIR) := fun h => h.2 hs
  rw [raycast_loop, if_pos ht, if_neg hin]
  simp only
  rw [if_neg (not_lt.mpr ht')]

/-- Traversal along x: with `tMaxY` and `tMaxZ` infinite, `n` cells reading
`Air` followed by a solid cell, all entered within `max_dist`, the loop returns
the solid cell with the x normal. -/
theorem raycast_loop_along_x (demo : Demo) (max_dist : ℚ) (c : RaySetup) (inv : ℚ)
    (hinv : c.invX = (inv : WithTop ℚ)) (hinv0 : 0 ≤ inv) :
    ∀ (n : ℕ) (st : RayState) (τ : ℚ) (fuel : ℕ),
      st.tMaxX = (τ : WithTop ℚ) → st.tMaxY = ⊤ → st.tMaxZ = ⊤ →
      st.t ≤ (max_dist : WithTop ℚ) →
      (∀ j : ℕ, j < n →
        block_get demo (st.ix + c.stepX * (j : ℤ)) st.iy st.iz = BlockType.BLOCK_AIR) →
      block_get demo (st.ix + c.stepX * (n : ℤ)) st.iy st.iz ≠ BlockType.BLOCK_AIR →
      (0 < n → τ + ((n : ℚ) - 1) * inv ≤ max_dist) →
      n + 1 ≤ fuel →
      raycast_loop demo max_dist c fuel st =
        some (some { hx := st.ix + c.stepX * (n : ℤ), hy := st.iy, hz := st.iz,
                     hnormal := if n = 0 then st.normal
                       else ⟨((-c.stepX : ℤ) : ℚ), 0, 0⟩ }) := by
  intro n
  induction n with
  | zero =>
    intro st τ fuel _ _ _ ht _ hsolid _ hfuel
    obtain ⟨f, rfl⟩ : ∃ f, fuel = f + 1 := ⟨fuel - 1, by omega⟩
    simp only [Nat.cast_zero, mul_zero, add_zero] at hsolid
    rw [raycast_loop_hit_now demo max_dist c f st ht hsolid]
    simp
  | succ n ih =>
    intro st τ fuel hX hY hZ ht hclear hsolid hdist hfuel
    obtain ⟨f, rfl⟩ : ∃ f, fuel = f + 1 := ⟨fuel - 1, by omega⟩
    have h0 : block_get demo st.ix st.iy st.iz = BlockType.BLOCK_AIR := by
      have := hclear 0 (Nat.succ_pos n)
      simpa using this
    have hadv : raycast_advance c st =
        { st with
          t := st.tMaxX
          tMaxX := st.tMaxX + c.invX
          ix := st.ix + c.stepX
          normal := ⟨((-c.stepX : ℤ) : ℚ), 0, 0⟩ } := by
      have h1 : st.tMaxX < st.tMaxY := by rw [hX, hY]; exact WithTop.coe_lt_top τ
      have h2 : st.tMaxX < st.tMaxZ := by rw [hX, hZ]; exact WithTop.coe_lt_top τ
      rw [raycast_advance, if_pos h1, if_pos h2]
    have hd := hdist (Nat.succ_pos n)
    push_cast at hd
    have hn0 : (0 : ℚ) ≤ (n : ℚ) := Nat.cast_nonneg n
    have hτ : τ ≤ max_dist := by nlinarith
    have ht' : (raycast_advance c st).t ≤ (max_dist : WithTop ℚ) := by
      rw [hadv]
      simp only
      rw [hX]
      exact WithTop.coe_le_coe.mpr hτ
    rw [raycast_loop_advance demo max_dist c f st ht h0 ht']
    have hres := ih (raycast_advance c st) (τ + inv) f
      (by rw [hadv]; simp only; rw [hX, hinv]; rfl)
      (by rw [hadv]; exact hY)
      (by rw [hadv]; exact hZ)
      ht'
      (by
        intro j hj
        have := hclear (j + 1) (by omega)
        rw [hadv]
        simp only
        push_cast at this
        rw [add_assoc, ← mul_one_add c.stepX (j : ℤ), add_comm (1 : ℤ) (j : ℤ)]
        exact this)
      (by
        rw [hadv]
        simp only
        push_cast at hsolid
        rw [add_assoc, ← mul_one_add c.stepX (n : ℤ), add_comm (1 : ℤ) (n : ℤ)]
        exact hsolid)
      (by
        intro _
        nlinarith)
      (by omega)
    rw [hres, hadv]
    simp only [Nat.succ_ne_zero, if_false, ite_self]
    push_cast
    rw [add_assoc, ← mul_one_add c.stepX (n : ℤ), add_comm (1 : ℤ) (n : ℤ)]

/-- Traversal along y: with `tMaxX` and `tMaxZ` infinite, `n` cells reading
`Air` followed by a solid cell, all entered within `max_dist`, the loop returns
the solid cell with the y normal. -/
theorem raycast_loop_along_y (demo : Demo) (max_dist : ℚ) (c : RaySetup) (inv : ℚ)
    (hinv : c.invY = (inv : WithTop ℚ)) (hinv0 : 0 ≤ inv) :
    ∀ (n : ℕ) (st : RayState) (τ : ℚ) (fuel : ℕ),
      st.tMaxY = (τ : WithTop ℚ) → st.tMaxX = ⊤ → st.tMaxZ = ⊤ →
      st.t ≤ (max_dist : WithTop ℚ) →
      (∀ j : ℕ, j < n →
        block_get demo st.ix (st.iy + c.stepY * (j : ℤ)) st.iz = BlockType.BLOCK_AIR) →
      block_get demo st.ix (st.iy + c.stepY * (n : ℤ)) st.iz ≠ BlockType.BLOCK_AIR →
      (0 < n → τ + ((n : ℚ) - 1) * inv ≤ max_dist) →
      n + 1 ≤ fuel →
      raycast_loop demo max_dist c fuel st =
        some (some { hx := st.ix, hy := st.iy + c.stepY * (n : ℤ), hz := st.iz,
                     hnormal := if n = 0 then st.normal
                       else ⟨0, ((-c.stepY : ℤ) : ℚ), 0⟩ }) := by
  intro n
  induction n with
  | zero =>
    intro st τ fuel _ _ _ ht _ hsolid _ hfuel
    obtain ⟨f, rfl⟩ : ∃ f, fuel = f + 1 := ⟨fuel - 1, by omega⟩
    simp only [Nat.cast_zero, mul_zero, add_zero] at hsolid
    rw [raycast_loop_hit_now demo max_dist c f st ht hsolid]
    simp
  | succ n ih =>
    intro st τ fuel hY hX hZ ht hclear hsolid hdist hfuel
    obtain ⟨f, rfl⟩ : ∃ f, fuel = f + 1 := ⟨fuel - 1, by omega⟩
    have h0 : block_get demo st.ix st.iy st.iz = BlockType.BLOCK_AIR := by
      have := hclear 0 (Nat.succ_pos n)
      simpa using this
    have hadv : raycast_advance c st =
        { st with
          t := st.tMaxY
          tMaxY := st.tMaxY + c.invY
          iy := st.iy + c.stepY
          normal := ⟨0, ((-c.stepY : ℤ) : ℚ), 0⟩ } := by
      have h1 : ¬ st.tMaxX < st.tMaxY := by rw [hX, hY]; exact not_top_lt
      have h2 : st.tMaxY < st.tMaxZ := by rw [hY, hZ]; exact WithTop.coe_lt_top τ
      rw [raycast_advance, if_neg h1, if_pos h2]
    have hd := hdist (Nat.succ_pos n)
    push_cast at hd
    have hn0 : (0 : ℚ) ≤ (n : ℚ) := Nat.cast_nonneg n
    have hτ : τ ≤ max_dist := by nlinarith
    have ht' : (raycast_advance c st).t ≤ (max_dist : WithTop ℚ) := by
      rw [hadv]
      simp only
      rw [hY]
      exact WithTop.coe_le_coe.mpr hτ
    rw [raycast_loop_advance demo max_dist c f st ht h0 ht']
    have hres := ih (raycast_advance c st) (τ + inv) f
      (by rw [hadv]; simp only; rw [hY, hinv]; rfl)
      (by rw [hadv]; exact hX)
      (by rw [hadv]; exact hZ)
      ht'
      (by
        intro j hj
        have := hclear (j + 1) (by omega)
        rw [hadv]
        simp only
        push_cast at this
        rw [add_assoc, ← mul_one_add c.stepY (j : ℤ), add_comm (1 : ℤ) (j : ℤ)]
        exact this)
      (by
        rw [hadv]
        simp only
        push_cast at hsolid
        rw [add_assoc, ← mul_one_add c.stepY (n : ℤ), add_comm (1 : ℤ) (n : ℤ)]
        exact hsolid)
      (by
        intro _
        nlinarith)
      (by omega)
    rw [hres, hadv]
    simp only [Nat.succ_ne_zero, if_false, ite_self]
    push_cast
    rw [add_assoc, ← mul_one_add c.stepY (n : ℤ), add_comm (1 : ℤ) (n : ℤ)]

/-- Traversal along z: with `tMaxX` and `tMaxY` infinite, `n` cells reading
`Air` followed by a solid cell, all entered within `max_dist`, the loop returns
the solid cell with the z normal. -/
theorem raycast_loop_along_z (demo : Demo) (max_dist : ℚ) (c : RaySetup) (inv : ℚ)
    (hinv : c.invZ = (inv : WithTop ℚ)) (hinv0 : 0 ≤ inv) :
    ∀ (n : ℕ) (st : RayState) (τ : ℚ) (fuel : ℕ),
      st.tMaxZ = (τ : WithTop ℚ) → st.tMaxX = ⊤ → st.tMaxY = ⊤ →
      st.t ≤ (max_dist : WithTop ℚ) →
      (∀ j : ℕ, j < n →
        block_get demo st.ix st.iy (st.iz + c.stepZ * (j : ℤ)) = BlockType.BLOCK_AIR) →
      block_get demo st.ix st.iy (st.iz + c.stepZ * (n : ℤ)) ≠ BlockType.BLOCK_AIR →
      (0 < n → τ + ((n : ℚ) - 1) * inv ≤ max_dist) →
      n + 1 ≤ fuel →
      raycast_loop demo max_dist c fuel st =
        some (some { hx := st.ix, hy := st.iy, hz := st.iz + c.stepZ * (n : ℤ),
                     hnormal := if n = 0 then st.normal
                       else ⟨0, 0, ((-c.stepZ : ℤ) : ℚ)⟩ }) := by
  intro n
  induction n with
  | zero =>
    intro st τ fuel _ _ _ ht _ hsolid _ hfuel
    obtain ⟨f, rfl⟩ : ∃ f, fuel = f + 1 := ⟨fuel - 1, by omega⟩
    simp only [Nat.cast_zero, mul_zero, add_zero] at hsolid
    rw [raycast_loop_hit_now demo max_dist c f st ht hsolid]
    simp
  | succ n ih =>
    intro st τ fuel hZ hX hY ht hclear hsolid hdist hfuel
    obtain ⟨f, rfl⟩ : ∃ f, fuel = f + 1 := ⟨fuel - 1, by omega⟩
    have h0 : block_get demo st.ix st.iy st.iz = BlockType.BLOCK_AIR := by
      have := hclear 0 (Nat.succ_pos n)
      simpa using this
    have hadv : raycast_advance c st =
        { st with
          t := st.tMaxZ
          tMaxZ := st.tMaxZ + c.invZ
          iz := st.iz + c.stepZ
          normal := ⟨0, 0, ((-c.stepZ : ℤ) : ℚ)⟩ } := by
      have h1 : ¬ st.tMaxX < st.tMaxY := by rw [hX, hY]; exact not_top_lt
      have h2 : ¬ st.tMaxY < st.tMaxZ := by rw [hY, hZ]; exact not_top_lt
      rw [raycast_advance, if_neg h1, if_neg h2]
    have hd := hdist (Nat.succ_pos n)
    push_cast at hd
    have hn0 : (0 : ℚ) ≤ (n : ℚ) := Nat.cast_nonneg n
    have hτ : τ ≤ max_dist := by nlinarith
    have ht' : (raycast_advance c st).t ≤ (max_dist : WithTop ℚ) := by
      rw [hadv]
      simp only
      rw [hZ]
      exact WithTop.coe_le_coe.mpr hτ
    rw [raycast_loop_advance demo max_dist c f st ht h0 ht']
    have hres := ih (raycast_advance c st) (τ + inv) f
      (by rw [hadv]; simp only; rw [hZ, hinv]; rfl)
      (by rw [hadv]; exact hX)
      (by rw [hadv]; exact hY)
      ht'
      (by
        intro j hj
        have := hclear (j + 1) (by omega)
        rw [hadv]
        simp only
        push_cast at this
        rw [add_assoc, ← mul_one_add c.stepZ (j : ℤ), add_comm (1 : ℤ) (j : ℤ)]
        exact this)
      (by
        rw [hadv]
        simp only
        push_cast at hsolid
        rw [add_assoc, ← mul_one_add c.stepZ (n : ℤ), add_comm (1 : ℤ) (n : ℤ)]
        exact hsolid)
      (by
        intro _
        nlinarith)
      (by omega)
    rw [hres, hadv]
    simp only [Nat.succ_ne_zero, if_false, ite_self]
    push_cast
    rw [add_assoc, ← mul_one_add c.stepZ (n : ℤ), add_comm (1 : ℤ) (n : ℤ)]

/-- For a non-zero component the step of the opposite direction is the opposite step. -/
theorem step_of_neg (a : ℚ) (ha : a ≠ 0) : step_of (-a) = -step_of a := by
  unfold step_of
  rcases lt_or_gt_of_ne ha with h | h
  · rw [if_pos (by linarith), if_neg (by linarith)]
    rfl
  · rw [if_neg (by linarith), if_pos h]

/-- The first boundary crossing lies at a non-negative parameter, and the
`n`-th one lies at the distance to that boundary divided by `|gd|`. -/
theorem tMax_entry (gd g : ℚ) (n : ℕ) (hgd : gd ≠ 0) :
    0 ≤ (if step_of gd > 0 then (((⌊g⌋ + 1 : ℤ) : ℚ) - g) else (g - (⌊g⌋ : ℚ))) * (1 / |gd|) ∧
    (if step_of gd > 0 then (((⌊g⌋ + 1 : ℤ) : ℚ) - g) else (g - (⌊g⌋ : ℚ))) * (1 / |gd|)
        + ((n : ℚ) - 1) * (1 / |gd|) =
      (if 0 < gd then ((⌊g⌋ + (n : ℤ) : ℤ) : ℚ) - g
        else g - ((⌊g⌋ - (n : ℤ) + 1 : ℤ) : ℚ)) * (1 / |gd|) := by
  have hpos : 0 < 1 / |gd| := by positivity
  have h1 : (⌊g⌋ : ℚ) ≤ g := Int.floor_le g
  have h2 : g < (⌊g⌋ : ℚ) + 1 := Int.lt_floor_add_one g
  unfold step_of
  by_cases h : 0 < gd
  · simp only [h, if_true, gt_iff_lt, zero_lt_one]
    push_cast
    constructor
    · apply mul_nonneg _ hpos.le
      linarith
    · ring
  · have hs : ¬ ((-1 : ℤ) > 0) := by decide
    simp only [h, if_false, hs]
    push_cast
    constructor
    · apply mul_nonneg _ hpos.le
      linarith
    · ring

/-- A ray along the x axis: `k - 1` cells reading `Air` after the start cell,
then a solid cell whose entry face lies within `max_dist` ray-parameter units. -/
theorem raycast_block_along_x (demo : Demo) (origin : v3f) (a max_dist : ℚ) (k fuel : ℕ)
    (ha : a ≠ 0) (hk : 0 < k) (hfuel : k + 1 ≤ fuel)
    (hclear : ∀ j : ℕ, j < k →
      block_get demo (⌊gx demo origin⌋ + step_of a * (j : ℤ)) ⌊gy origin⌋ ⌊gz demo origin⌋
        = BlockType.BLOCK_AIR)
    (hsolid : block_get demo (⌊gx demo origin⌋ + step_of a * (k : ℤ)) ⌊gy origin⌋
        ⌊gz demo origin⌋ ≠ BlockType.BLOCK_AIR)
    (hdist : (if 0 < a then ((⌊gx demo origin⌋ + (k : ℤ) : ℤ) : ℚ) - gx demo origin
        else gx demo origin - ((⌊gx demo origin⌋ - (k : ℤ) + 1 : ℤ) : ℚ)) < max_dist * |a|) :
    raycast_block fuel demo origin ⟨a, 0, 0⟩ max_dist =
      some (some { hx := ⌊gx demo origin⌋ + step_of a * (k : ℤ), hy := ⌊gy origin⌋,
                   hz := ⌊gz demo origin⌋,
                   hnormal := ⟨((-step_of a : ℤ) : ℚ), 0, 0⟩ }) := by
  have habs : 0 < |a| := abs_pos.mpr ha
  obtain ⟨hτ0, hτk⟩ := tMax_entry a (gx demo origin) k ha
  have hlim : (if 0 < a then ((⌊gx demo origin⌋ + (k : ℤ) : ℤ) : ℚ) - gx demo origin
        else gx demo origin - ((⌊gx demo origin⌋ - (k : ℤ) + 1 : ℤ) : ℚ)) * (1 / |a|)
      ≤ max_dist := by
    rw [mul_one_div, div_le_iff₀ habs]
    exact hdist.le
  have hk1 : (1 : ℚ) ≤ (k : ℚ) := by exact_mod_cast hk
  have hinvpos : 0 < 1 / |a| := by positivity
  have hmax0 : 0 ≤ max_dist := by
    rw [← hτk] at hlim
    nlinarith
  unfold raycast_block
  simp only [neg_zero]
  have hres := raycast_loop_along_x demo max_dist
    { stepX := step_of a, stepY := step_of 0, stepZ := step_of 0,
      invX := inv_of a, invY := inv_of 0, invZ := inv_of 0 }
    (1 / |a|) (by simp [inv_of, ha]) hinvpos.le k
    { ix := ⌊gx demo origin⌋, iy := ⌊gy origin⌋, iz := ⌊gz demo origin⌋,
      tMaxX := tMax_of a (gx demo origin) ⌊gx demo origin⌋ (step_of a),
      tMaxY := tMax_of 0 (gy origin) ⌊gy origin⌋ (step_of 0),
      tMaxZ := tMax_of 0 (gz demo origin) ⌊gz demo origin⌋ (step_of 0),
      normal := ⟨0, 0, 0⟩, t := 0 }
    ((if step_of a > 0 then (((⌊gx demo origin⌋ + 1 : ℤ) : ℚ) - gx demo origin)
      else (gx demo origin - (⌊gx demo origin⌋ : ℚ))) * (1 / |a|)) fuel
    (by simp only [tMax_of, ha, ne_eq, not_false_eq_true, if_true])
    (by simp [tMax_of])
    (by simp [tMax_of])
    (by
      simp only
      exact_mod_cast hmax0)
    hclear hsolid
    (fun _ => by rw [hτk]; exact hlim)
    hfuel
  rw [hres]
  simp only [Nat.pos_iff_ne_zero.mp hk, if_false]

/-- A ray along the world y axis (grid direction `-a`): `k - 1` cells reading
`Air` after the start cell, then a solid cell whose entry face lies within
`max_dist` ray-parameter units. -/
theorem raycast_block_along_y (demo : Demo) (origin : v3f) (a max_dist : ℚ) (k fuel : ℕ)
    (ha : a ≠ 0) (hk : 0 < k) (hfuel : k + 1 ≤ fuel)
    (hclear : ∀ j : ℕ, j < k →
      block_get demo ⌊gx demo origin⌋ (⌊gy origin⌋ + step_of (-a) * (j : ℤ)) ⌊gz demo origin⌋
        = BlockType.BLOCK_AIR)
    (hsolid : block_get demo ⌊gx demo origin⌋ (⌊gy origin⌋ + step_of (-a) * (k : ℤ))
        ⌊gz demo origin⌋ ≠ BlockType.BLOCK_AIR)
    (hdist : (if 0 < -a then ((⌊gy origin⌋ + (k : ℤ) : ℤ) : ℚ) - gy origin
        else gy origin - ((⌊gy origin⌋ - (k : ℤ) + 1 : ℤ) : ℚ)) < max_dist * |-a|) :
    raycast_block fuel demo origin ⟨0, a, 0⟩ max_dist =
      some (some { hx := ⌊gx demo origin⌋, hy := ⌊gy origin⌋ + step_of (-a) * (k : ℤ),
                   hz := ⌊gz demo origin⌋,
                   hnormal := ⟨0, ((-step_of (-a) : ℤ) : ℚ), 0⟩ }) := by
  have hna : -a ≠ 0 := neg_ne_zero.mpr ha
  have habs : 0 < |-a| := abs_pos.mpr hna
  obtain ⟨hτ0, hτk⟩ := tMax_entry (-a) (gy origin) k hna
  have hlim : (if 0 < -a then ((⌊gy origin⌋ + (k : ℤ) : ℤ) : ℚ) - gy origin
        else gy origin - ((⌊gy origin⌋ - (k : ℤ) + 1 : ℤ) : ℚ)) * (1 / |-a|)
      ≤ max_dist := by
    rw [mul_one_div, div_le_iff₀ habs]
    exact hdist.le
  have hk1 : (1 : ℚ) ≤ (k : ℚ) := by exact_mod_cast hk
  have hinvpos : 0 < 1 / |-a| := by positivity
  have hmax0 : 0 ≤ max_dist := by
    rw [← hτk] at hlim
    nlinarith
  unfold raycast_block
  simp only
  have hres := raycast_loop_along_y demo max_dist
    { stepX := step_of 0, stepY := step_of (-a), stepZ := step_of 0,
      invX := inv_of 0, invY := inv_of (-a), invZ := inv_of 0 }
    (1 / |-a|) (by simp [inv_of, ha]) hinvpos.le k
    { ix := ⌊gx demo origin⌋, iy := ⌊gy origin⌋, iz := ⌊gz demo origin⌋,
      tMaxX := tMax_of 0 (gx demo origin) ⌊gx demo origin⌋ (step_of 0),
      tMaxY := tMax_of (-a) (gy origin) ⌊gy origin⌋ (step_of (-a)),
      tMaxZ := tMax_of 0 (gz demo origin) ⌊gz demo origin⌋ (step_of 0),
      normal := ⟨0, 0, 0⟩, t := 0 }
    ((if step_of (-a) > 0 then (((⌊gy origin⌋ + 1 : ℤ) : ℚ) - gy origin)
      else (gy origin - (⌊gy origin⌋ : ℚ))) * (1 / |-a|)) fuel
    (by simp only [tMax_of, hna, ne_eq, not_false_eq_true, if_true])
    (by simp [tMax_of])
    (by simp [tMax_of])
    (by
      simp only
      exact_mod_cast hmax0)
    hclear hsolid
    (fun _ => by rw [hτk]; exact hlim)
    hfuel
  rw [hres]
  simp only [Nat.pos_iff_ne_zero.mp hk, if_false]

/-- A ray along the z axis: `k - 1` cells reading `Air` after the start cell,
then a solid cell whose entry face lies within `max_dist` ray-parameter units. -/
theorem raycast_block_along_z (demo : Demo) (origin : v3f) (a max_dist : ℚ) (k fuel : ℕ)
    (ha : a ≠ 0) (hk : 0 < k) (hfuel : k + 1 ≤ fuel)
    (hclear : ∀ j : ℕ, j < k →
      block_get demo ⌊gx demo origin⌋ ⌊gy origin⌋ (⌊gz demo origin⌋ + step_of a * (j : ℤ))
        = BlockType.BLOCK_AIR)
    (hsolid : block_get demo ⌊gx demo origin⌋ ⌊gy origin⌋
        (⌊gz demo origin⌋ + step_of a * (k : ℤ)) ≠ BlockType.BLOCK_AIR)
    (hdist : (if 0 < a then ((⌊gz demo origin⌋ + (k : ℤ) : ℤ) : ℚ) - gz demo origin
        else gz demo origin - ((⌊gz demo origin⌋ - (k : ℤ) + 1 : ℤ) : ℚ)) < max_dist * |a|) :
    raycast_block fuel demo origin ⟨0, 0, a⟩ max_dist =
      some (some { hx := ⌊gx demo origin⌋, hy := ⌊gy origin⌋,
                   hz := ⌊gz demo origin⌋ + step_of a * (k : ℤ),
                   hnormal := ⟨0, 0, ((-step_of a : ℤ) : ℚ)⟩ }) := by
  have habs : 0 < |a| := abs_pos.mpr ha
  obtain ⟨hτ0, hτk⟩ := tMax_entry a (gz demo origin) k ha
  have hlim : (if 0 < a then ((⌊gz demo origin⌋ + (k : ℤ) : ℤ) : ℚ) - gz demo origin
        else gz demo origin - ((⌊gz demo origin⌋ - (k : ℤ) + 1 : ℤ) : ℚ)) * (1 / |a|)
      ≤ max_dist := by
    rw [mul_one_div, div_le_iff₀ habs]
    exact hdist.le
  have hk1 : (1 : ℚ) ≤ (k : ℚ) := by exact_mod_cast hk
  have hinvpos : 0 < 1 / |a| := by positivity
  have hmax0 : 0 ≤ max_dist := by
    rw [← hτk] at hlim
    nlinarith
  unfold raycast_block
  simp only [neg_zero]
  have hres := raycast_loop_along_z demo max_dist
    { stepX := step_of 0, stepY := step_of 0, stepZ := step_of a,
      invX := inv_of 0, invY := inv_of 0, invZ := inv_of a }
    (1 / |a|) (by simp [inv_of, ha]) hinvpos.le k
    { ix := ⌊gx demo origin⌋, iy := ⌊gy origin⌋, iz := ⌊gz demo origin⌋,
      tMaxX := tMax_of 0 (gx demo origin) ⌊gx demo origin⌋ (step_of 0),
      tMaxY := tMax_of 0 (gy origin) ⌊gy origin⌋ (step_of 0),
      tMaxZ := tMax_of a (gz demo origin) ⌊gz demo origin⌋ (step_of a),
      normal := ⟨0, 0, 0⟩, t := 0 }
    ((if step_of a > 0 then (((⌊gz demo origin⌋ + 1 : ℤ) : ℚ) - gz demo origin)
      else (gz demo origin - (⌊gz demo origin⌋ : ℚ))) * (1 / |a|)) fuel
    (by simp only [tMax_of, ha, ne_eq, not_false_eq_true, if_true])
    (by simp [tMax_of])
    (by simp [tMax_of])
    (by
      simp only
      exact_mod_cast hmax0)
    hclear hsolid
    (fun _ => by rw [hτk]; exact hlim)
    hfuel
  rw [hres]
  simp only [Nat.pos_iff_ne_zero.mp hk, if_false]

/-- An iteration that starts within range on a cell reading `Air` and whose
advance takes `t` beyond `max_dist` ends the loop with the return value false. -/
theorem raycast_loop_break (demo : Demo) (max_dist : ℚ) (c : RaySetup) (fuel : ℕ)
    (st : RayState) (ht : st.t ≤ (max_dist : WithTop ℚ))
    (hs : block_get demo st.ix st.iy st.iz = BlockType.BLOCK_AIR)
    (ht' : (max_dist : WithTop ℚ) < (raycast_advance c st).t) :
    raycast_loop demo max_dist c (fuel + 1) st = some none := by
  have hin : ¬ ((st.ix ≥ 0 ∧ st.ix < demo.size_x ∧ st.iy ≥ 0 ∧ st.iy < demo.size_y ∧
      st.iz ≥ 0 ∧ st.iz < demo.size_z) ∧
      block_get demo st.ix st.iy st.iz ≠ BlockType.BLOCK_AIR) := fun h => h.2 hs
  rw [raycast_loop, if_pos ht, if_neg hin]
  simp only
  rw [if_pos ht']

/-- The floor of one half. -/
theorem floor_one_half : ⌊(1 / 2 : ℚ)⌋ = 0 := by
  rw [Int.floor_eq_iff]
  norm_num

/-- Grid coordinates of the point two units below the centre of a 1x1x1 grid. -/
theorem below_unit_grid_cell :
    ⌊gx (sample_demo 1 1 1 all_stone) ⟨0, -2, 0⟩⌋ = 0 ∧
    gy ⟨0, -2, 0⟩ = 2 ∧ ⌊gy ⟨0, -2, 0⟩⌋ = 2 ∧
    ⌊gz (sample_demo 1 1 1 all_stone) ⟨0, -2, 0⟩⌋ = 0 := by
  have e1 : gx (sample_demo 1 1 1 all_stone) ⟨0, -2, 0⟩ = 1 / 2 := by
    norm_num [gx, sample_demo]
  have e2 : gy ⟨0, -2, 0⟩ = 2 := by norm_num [gy]
  have e3 : gz (sample_demo 1 1 1 all_stone) ⟨0, -2, 0⟩ = 1 / 2 := by
    norm_num [gz, sample_demo]
  have e4 : ⌊(2 : ℚ)⌋ = 2 := by
    rw [Int.floor_eq_iff]
    norm_num
  rw [e1, e2, e3, floor_one_half, e4]
  exact ⟨rfl, rfl, rfl, rfl⟩

/-- Reading the 1x1x1 stone grid along its y column: stone at 0, `Air` elsewhere. -/
theorem unit_grid_column (y : ℤ) :
    (y = 0 → block_get (sample_demo 1 1 1 all_stone) 0 y 0 ≠ BlockType.BLOCK_AIR) ∧
    (y ≠ 0 → block_get (sample_demo 1 1 1 all_stone) 0 y 0 = BlockType.BLOCK_AIR) := by
  constructor
  · intro h
    rw [h]
    exact all_stone_solid 1 1 1 0 0 0 (by decide) (by decide) (by decide)
  · intro h
    have ho : out_of_range (sample_demo 1 1 1 all_stone) 0 y 0 := by
      simp only [out_of_range, sample_demo]
      omega
    simp [block_get, ho]

/-- Grid coordinates of the point two units above the centre of a 1x1x1 grid. -/
theorem above_unit_grid_cell :
    ⌊gx (sample_demo 1 1 1 all_stone) ⟨0, 2, 0⟩⌋ = 0 ∧
    gy ⟨0, 2, 0⟩ = -2 ∧ ⌊gy ⟨0, 2, 0⟩⌋ = -2 ∧
    ⌊gz (sample_demo 1 1 1 all_stone) ⟨0, 2, 0⟩⌋ = 0 := by
  have e1 : gx (sample_demo 1 1 1 all_stone) ⟨0, 2, 0⟩ = 1 / 2 := by
    norm_num [gx, sample_demo]
  have e2 : gy ⟨0, 2, 0⟩ = -2 := by norm_num [gy]
  have e3 : gz (sample_demo 1 1 1 all_stone) ⟨0, 2, 0⟩ = 1 / 2 := by
    norm_num [gz, sample_demo]
  have e4 : ⌊(-2 : ℚ)⌋ = -2 := by
    rw [Int.floor_eq_iff]
    norm_num
  rw [e1, e2, e3, floor_one_half, e4]
  exact ⟨rfl, rfl, rfl, rfl⟩

/-- The call `raycast_block` runs the loop from `raycast_init` with the locals
of `raycast_setup`. -/
theorem raycast_block_eq_loop (fuel : ℕ) (demo : Demo) (origin dir : v3f) (max_dist : ℚ) :
    raycast_block fuel demo origin dir max_dist =
      raycast_loop demo max_dist (raycast_setup dir) fuel (raycast_init demo origin dir) :=
  rfl

/-- A cell that fails the test `in range and not Air` of the loop reads as `Air`. -/
theorem not_solid_reads_air (demo : Demo) (x y z : ℤ)
    (h : ¬ ((x ≥ 0 ∧ x < demo.size_x ∧ y ≥ 0 ∧ y < demo.size_y ∧ z ≥ 0 ∧ z < demo.size_z) ∧
      block_get demo x y z ≠ BlockType.BLOCK_AIR)) :
    block_get demo x y z = BlockType.BLOCK_AIR := by
  by_contra hne
  have hr := block_get_ne_air_in_range demo x y z hne
  exact h ⟨⟨hr.1.1, hr.1.2, hr.2.1.1, hr.2.1.2, hr.2.2.1, hr.2.2.2⟩, hne⟩

/-- A hit returned by the loop is the cell of some state of the traversal, with
that state's normal; that cell is solid, it was entered within `max_dist`, and
every earlier state of the traversal was within `max_dist` on a cell reading
`Air`. -/
theorem raycast_loop_sound (demo : Demo) (max_dist : ℚ) (c : RaySetup) :
    ∀ (fuel : ℕ) (st : RayState) (h : RayHit),
      raycast_loop demo max_dist c fuel st = some (some h) →
      ∃ n : ℕ,
        h = { hx := (raycast_visit c st n).ix, hy := (raycast_visit c st n).iy,
              hz := (raycast_visit c st n).iz, hnormal := (raycast_visit c st n).normal } ∧
        block_get demo (raycast_visit c st n).ix (raycast_visit c st n).iy
          (raycast_visit c st n).iz ≠ BlockType.BLOCK_AIR ∧
        (raycast_visit c st n).t ≤ (max_dist : WithTop ℚ) ∧
        ∀ m : ℕ, m < n →
          block_get demo (raycast_visit c st m).ix (raycast_visit c st m).iy
            (raycast_visit c st m).iz = BlockType.BLOCK_AIR ∧
          (raycast_visit c st m).t ≤ (max_dist : WithTop ℚ) := by
  intro fuel
  induction fuel with
  | zero =>
    intro st h hres
    simp [raycast_loop] at hres
  | succ f ih =>
    intro st h hres
    rw [raycast_loop] at hres
    by_cases ht : st.t ≤ (max_dist : WithTop ℚ)
    · rw [if_pos ht] at hres
      by_cases hin : (st.ix ≥ 0 ∧ st.ix < demo.size_x ∧ st.iy ≥ 0 ∧ st.iy < demo.size_y ∧
          st.iz ≥ 0 ∧ st.iz < demo.size_z) ∧
          block_get demo st.ix st.iy st.iz ≠ BlockType.BLOCK_AIR
      · rw [if_pos hin] at hres
        refine ⟨0, ?_, hin.2, ht, ?_⟩
        · have := Option.some.inj (Option.some.inj hres)
          exact this.symm
        · intro m hm
          exact absurd hm (Nat.not_lt_zero m)
      · rw [if_neg hin] at hres
        simp only at hres
        by_cases hb : (max_dist : WithTop ℚ) < (raycast_advance c st).t
        · rw [if_pos hb] at hres
          simp at hres
        · rw [if_neg hb] at hres
          obtain ⟨n, h1, h2, h3, h4⟩ := ih (raycast_advance c st) h hres
          refine ⟨n + 1, h1, h2, h3, ?_⟩
          intro m hm
          cases m with
          | zero => exact ⟨not_solid_reads_air demo _ _ _ hin, ht⟩
          | succ k => exact h4 k (by omega)
    · rw [if_neg ht] at hres
      simp at hres

/-- The reciprocal computed for an axis is infinite or a positive number. -/
theorem inv_of_valid (gd : ℚ) :
    inv_of gd = ⊤ ∨ ∃ i : ℚ, 0 < i ∧ inv_of gd = (i : WithTop ℚ) := by
  unfold inv_of
  by_cases h : gd ≠ 0
  · right
    rw [if_pos h]
    exact ⟨1 / |gd|, by have := abs_pos.mpr h; positivity, rfl⟩
  · left
    rw [if_neg h]

/-- Advancing along an axis whose `tMax` is within `max_dist` lowers the
number of advances that remain on that axis. -/
theorem axis_steps_advance (max_dist : ℚ) (tMax inv : WithTop ℚ)
    (hv : inv = ⊤ ∨ ∃ i : ℚ, 0 < i ∧ inv = (i : WithTop ℚ))
    (h : tMax ≤ (max_dist : WithTop ℚ)) :
    axis_steps max_dist (tMax + inv) inv < axis_steps max_dist tMax inv := by
  obtain ⟨τ, rfl⟩ : ∃ τ : ℚ, tMax = (τ : WithTop ℚ) :=
    ⟨WithTop.untop tMax (ne_top_of_le_ne_top WithTop.coe_ne_top h), by simp⟩
  have hτ : τ ≤ max_dist := WithTop.coe_le_coe.mp h
  rcases hv with rfl | ⟨i, hi, rfl⟩
  · have e1 : ((τ : WithTop ℚ) + ⊤) = ⊤ := by simp
    rw [e1]
    show 0 < if max_dist < τ then 0 else 1
    rw [if_neg (not_lt.mpr hτ)]
    exact Nat.one_pos
  · have e1 : ((τ : WithTop ℚ) + (i : WithTop ℚ)) = ((τ + i : ℚ) : WithTop ℚ) := rfl
    rw [e1]
    show (if max_dist < τ + i then 0 else (⌊(max_dist - (τ + i)) / i⌋).toNat + 1)
      < if max_dist < τ then 0 else (⌊(max_dist - τ) / i⌋).toNat + 1
    rw [if_neg (not_lt.mpr hτ)]
    by_cases h2 : max_dist < τ + i
    · rw [if_pos h2]
      exact Nat.succ_pos _
    · rw [if_neg h2]
      have h3 : (max_dist - (τ + i)) / i = (max_dist - τ) / i - 1 := by
        field_simp
        ring
      rw [h3, Int.floor_sub_one]
      have h4 : (1 : ℚ) ≤ (max_dist - τ) / i := by
        rw [le_div_iff₀ hi]
        linarith
      have h5 : (1 : ℤ) ≤ ⌊(max_dist - τ) / i⌋ := by
        rw [Int.le_floor]
        exact_mod_cast h4
      omega

/-- An advance that leaves `t` within `max_dist` lowers the bound `ray_steps`. -/
theorem ray_steps_advance (max_dist : ℚ) (c : RaySetup) (st : RayState)
    (hX : c.invX = ⊤ ∨ ∃ i : ℚ, 0 < i ∧ c.invX = (i : WithTop ℚ))
    (hY : c.invY = ⊤ ∨ ∃ i : ℚ, 0 < i ∧ c.invY = (i : WithTop ℚ))
    (hZ : c.invZ = ⊤ ∨ ∃ i : ℚ, 0 < i ∧ c.invZ = (i : WithTop ℚ))
    (ht : (raycast_advance c st).t ≤ (max_dist : WithTop ℚ)) :
    ray_steps max_dist c (raycast_advance c st) < ray_steps max_dist c st := by
  unfold raycast_advance at ht ⊢
  unfold ray_steps
  by_cases h1 : st.tMaxX < st.tMaxY
  · rw [if_pos h1] at ht ⊢
    by_cases h2 : st.tMaxX < st.tMaxZ
    · rw [if_pos h2] at ht ⊢
      have := axis_steps_advance max_dist st.tMaxX c.invX hX ht
      simp only
      omega
    · rw [if_neg h2] at ht ⊢
      have := axis_steps_advance max_dist st.tMaxZ c.invZ hZ ht
      simp only
      omega
  · rw [if_neg h1] at ht ⊢
    by_cases h2 : st.tMaxY < st.tMaxZ
    · rw [if_pos h2] at ht ⊢
      have := axis_steps_advance max_dist st.tMaxY c.invY hY ht
      simp only
      omega
    · rw [if_neg h2] at ht ⊢
      have := axis_steps_advance max_dist st.tMaxZ c.invZ hZ ht
      simp only
      omega

/-- The loop ends: with more fuel than `ray_steps` it returns a result. -/
theorem raycast_loop_terminates (demo : Demo) (max_dist : ℚ) (c : RaySetup)
    (hX : c.invX = ⊤ ∨ ∃ i : ℚ, 0 < i ∧ c.invX = (i : WithTop ℚ))
    (hY : c.invY = ⊤ ∨ ∃ i : ℚ, 0 < i ∧ c.invY = (i : WithTop ℚ))
    (hZ : c.invZ = ⊤ ∨ ∃ i : ℚ, 0 < i ∧ c.invZ = (i : WithTop ℚ)) :
    ∀ (n : ℕ) (st : RayState), ray_steps max_dist c st ≤ n →
      ∀ fuel : ℕ, n + 1 ≤ fuel → raycast_loop demo max_dist c fuel st ≠ none := by
  have hstep : ∀ (f : ℕ) (st : RayState),
      ((raycast_advance c st).t ≤ (max_dist : WithTop ℚ) →
        raycast_loop demo max_dist c f (raycast_advance c st) ≠ none) →
      raycast_loop demo max_dist c (f + 1) st ≠ none := by
    intro f st hrec
    rw [raycast_loop]
    by_cases h1 : st.t ≤ (max_dist : WithTop ℚ)
    · rw [if_pos h1]
      by_cases h2 : (st.ix ≥ 0 ∧ st.ix < demo.size_x ∧ st.iy ≥ 0 ∧ st.iy < demo.size_y ∧
          st.iz ≥ 0 ∧ st.iz < demo.size_z) ∧
          block_get demo st.ix st.iy st.iz ≠ BlockType.BLOCK_AIR
      · rw [if_pos h2]
        simp
      · rw [if_neg h2]
        simp only
        by_cases h3 : (max_dist : WithTop ℚ) < (raycast_advance c st).t
        · rw [if_pos h3]
          simp
        · rw [if_neg h3]
          exact hrec (not_lt.mp h3)
    · rw [if_neg h1]
      simp
  intro n
  induction n with
  | zero =>
    intro st hμ fuel hfuel
    obtain ⟨f, rfl⟩ : ∃ f, fuel = f + 1 := ⟨fuel - 1, by omega⟩
    apply hstep
    intro h3
    have := ray_steps_advance max_dist c st hX hY hZ h3
    omega
  | succ k ih =>
    intro st hμ fuel hfuel
    obtain ⟨f, rfl⟩ : ∃ f, fuel = f + 1 := ⟨fuel - 1, by omega⟩
    apply hstep
    intro h3
    have := ray_steps_advance max_dist c st hX hY hZ h3
    exact ih (raycast_advance c st) (by omega) f (by omega)

/-- A traversal that finds every cell it enters within `max_dist` reading `Air`
ends with the return value false. -/
theorem raycast_block_miss (demo : Demo) (origin dir : v3f) (max_dist : ℚ)
    (hair : ∀ n : ℕ,
      (raycast_visit (raycast_setup dir) (raycast_init demo origin dir) n).t
        ≤ (max_dist : WithTop ℚ) →
      block_get demo (raycast_visit (raycast_setup dir) (raycast_init demo origin dir) n).ix
        (raycast_visit (raycast_setup dir) (raycast_init demo origin dir) n).iy
        (raycast_visit (raycast_setup dir) (raycast_init demo origin dir) n).iz
        = BlockType.BLOCK_AIR) :
    ∃ fuel0 : ℕ, ∀ fuel : ℕ, fuel0 ≤ fuel →
      raycast_block fuel demo origin dir max_dist = some none := by
  refine ⟨ray_steps max_dist (raycast_setup dir) (raycast_init demo origin dir) + 1, ?_⟩
  intro fuel hfuel
  rw [raycast_block_eq_loop]
  have hne := raycast_loop_terminates demo max_dist (raycast_setup dir)
    (inv_of_valid _) (inv_of_valid _) (inv_of_valid _) _ (raycast_init demo origin dir)
    le_rfl fuel hfuel
  cases hres : raycast_loop demo max_dist (raycast_setup dir) fuel
      (raycast_init demo origin dir) with
  | none => exact absurd hres hne
  | some r =>
    cases r with
    | none => rfl
    | some h =>
      obtain ⟨n, -, h2, h3, -⟩ := raycast_loop_sound demo max_dist _ fuel _ h hres
      exact absurd (hair n h3) h2

/-- A step is `1` or `-1`. -/
theorem step_of_unit (gd : ℚ) : step_of gd = 1 ∨ step_of gd = -1 := by
  unfold step_of
  split_ifs
  · exact Or.inl rfl
  · exact Or.inr rfl

/-- The cast to `int` of a float holding an integer value gives that integer. -/
theorem float_to_int_intCast (z : ℤ) : float_to_int (z : ℚ) = z := by
  unfold float_to_int
  split_ifs
  · exact Int.floor_intCast z
  · exact Int.ceil_intCast z

/-- One advance moves the cell by the step along one axis and sets the normal
to minus that step on the same axis, zero on the other two. -/
theorem raycast_advance_cell (c : RaySetup) (st : RayState) :
    ((raycast_advance c st).ix = st.ix + c.stepX ∧ (raycast_advance c st).iy = st.iy ∧
      (raycast_advance c st).iz = st.iz ∧
      (raycast_advance c st).normal = ⟨((-c.stepX : ℤ) : ℚ), 0, 0⟩) ∨
    ((raycast_advance c st).ix = st.ix ∧ (raycast_advance c st).iy = st.iy + c.stepY ∧
      (raycast_advance c st).iz = st.iz ∧
      (raycast_advance c st).normal = ⟨0, ((-c.stepY : ℤ) : ℚ), 0⟩) ∨
    ((raycast_advance c st).ix = st.ix ∧ (raycast_advance c st).iy = st.iy ∧
      (raycast_advance c st).iz = st.iz + c.stepZ ∧
      (raycast_advance c st).normal = ⟨0, 0, ((-c.stepZ : ℤ) : ℚ)⟩) := by
  unfold raycast_advance
  by_cases h1 : st.tMaxX < st.tMaxY
  · rw [if_pos h1]
    by_cases h2 : st.tMaxX < st.tMaxZ
    · rw [if_pos h2]
      exact Or.inl ⟨rfl, rfl, rfl, rfl⟩
    · rw [if_neg h2]
      exact Or.inr (Or.inr ⟨rfl, rfl, rfl, rfl⟩)
  · rw [if_neg h1]
    by_cases h2 : st.tMaxY < st.tMaxZ
    · rw [if_pos h2]
      exact Or.inr (Or.inl ⟨rfl, rfl, rfl, rfl⟩)
    · rw [if_neg h2]
      exact Or.inr (Or.inr ⟨rfl, rfl, rfl, rfl⟩)

/-- After an advance with unit steps the normal is one of the six unit axis
vectors, and adding its integer value to the new cell gives back the cell the
advance started from, which differs from the new cell. -/
theorem raycast_advance_back (c : RaySetup) (st : RayState)
    (hX : c.stepX = 1 ∨ c.stepX = -1) (hY : c.stepY = 1 ∨ c.stepY = -1)
    (hZ : c.stepZ = 1 ∨ c.stepZ = -1) :
    ((raycast_advance c st).normal = ⟨1, 0, 0⟩ ∨ (raycast_advance c st).normal = ⟨-1, 0, 0⟩ ∨
      (raycast_advance c st).normal = ⟨0, 1, 0⟩ ∨ (raycast_advance c st).normal = ⟨0, -1, 0⟩ ∨
      (raycast_advance c st).normal = ⟨0, 0, 1⟩ ∨ (raycast_advance c st).normal = ⟨0, 0, -1⟩) ∧
    (raycast_advance c st).ix + float_to_int (raycast_advance c st).normal.x = st.ix ∧
    (raycast_advance c st).iy + float_to_int (raycast_advance c st).normal.y = st.iy ∧
    (raycast_advance c st).iz + float_to_int (raycast_advance c st).normal.z = st.iz ∧
    ((raycast_advance c st).ix, (raycast_advance c st).iy, (raycast_advance c st).iz)
      ≠ (st.ix, st.iy, st.iz) := by
  have f0 : float_to_int 0 = 0 := by
    have := float_to_int_intCast 0
    simpa using this
  rcases raycast_advance_cell c st with ⟨e1, e2, e3, e4⟩ | ⟨e1, e2, e3, e4⟩ | ⟨e1, e2, e3, e4⟩
  · rw [e1, e2, e3, e4]
    simp only [float_to_int_intCast, f0, add_zero]
    refine ⟨?_, by ring, trivial, trivial, ?_⟩
    · rcases hX with h | h <;> rw [h] <;> norm_num
    · intro he
      have := congrArg (fun p : ℤ × ℤ × ℤ => p.1) he
      simp only at this
      rcases hX with h | h <;> rw [h] at this <;> omega
  · rw [e1, e2, e3, e4]
    simp only [float_to_int_intCast, f0, add_zero]
    refine ⟨?_, trivial, by ring, trivial, ?_⟩
    · rcases hY with h | h <;> rw [h] <;> norm_num
    · intro he
      have := congrArg (fun p : ℤ × ℤ × ℤ => p.2.1) he
      simp only at this
      rcases hY with h | h <;> rw [h] at this <;> omega
  · rw [e1, e2, e3, e4]
    simp only [float_to_int_intCast, f0, add_zero]
    refine ⟨?_, trivial, trivial, by ring, ?_⟩
    · rcases hZ with h | h <;> rw [h] <;> norm_num
    · intro he
      have := congrArg (fun p : ℤ × ℤ × ℤ => p.2.2) he
      simp only at this
      rcases hZ with h | h <;> rw [h] at this <;> omega

/-- C12: when `raycast_block` reports a hit and the origin's own cell reads
`Air` (so at least one traversal step was taken), `hnormal` is one of the six
unit axis vectors, and the cell `hit + (int)normal` that the right-click handler
uses is the cell the traversal visited immediately before the hit cell; it
differs from the hit cell and reads `Air`, and the handler writes dirt there.
When the origin's own cell is solid the hit is that cell with normal
`(0, 0, 0)` and the right-click handler changes nothing. -/
theorem raycast_block_normal_adjacent (demo : Demo) (origin dir : v3f) (max_dist : ℚ)
    (fuel : ℕ) (h : RayHit)
    (hres : raycast_block fuel demo origin dir max_dist = some (some h)) :
    (block_get demo ⌊gx demo origin⌋ ⌊gy origin⌋ ⌊gz demo origin⌋ = BlockType.BLOCK_AIR →
      (h.hnormal = ⟨1, 0, 0⟩ ∨ h.hnormal = ⟨-1, 0, 0⟩ ∨ h.hnormal = ⟨0, 1, 0⟩ ∨
        h.hnormal = ⟨0, -1, 0⟩ ∨ h.hnormal = ⟨0, 0, 1⟩ ∨ h.hnormal = ⟨0, 0, -1⟩) ∧
      (∃ n : ℕ,
        (raycast_visit (raycast_setup dir) (raycast_init demo origin dir) (n + 1)).ix = h.hx ∧
        (raycast_visit (raycast_setup dir) (raycast_init demo origin dir) (n + 1)).iy = h.hy ∧
        (raycast_visit (raycast_setup dir) (raycast_init demo origin dir) (n + 1)).iz = h.hz ∧
        (raycast_visit (raycast_setup dir) (raycast_init demo origin dir) n).ix
          = h.hx + float_to_int h.hnormal.x ∧
        (raycast_visit (raycast_setup dir) (raycast_init demo origin dir) n).iy
          = h.hy + float_to_int h.hnormal.y ∧
        (raycast_visit (raycast_setup dir) (raycast_init demo origin dir) n).iz
          = h.hz + float_to_int h.hnormal.z) ∧
      (h.hx + float_to_int h.hnormal.x, h.hy + float_to_int h.hnormal.y,
        h.hz + float_to_int h.hnormal.z) ≠ (h.hx, h.hy, h.hz) ∧
      block_get demo (h.hx + float_to_int h.hnormal.x) (h.hy + float_to_int h.hnormal.y)
        (h.hz + float_to_int h.hnormal.z) = BlockType.BLOCK_AIR) ∧
    (block_get demo ⌊gx demo origin⌋ ⌊gy origin⌋ ⌊gz demo origin⌋ ≠ BlockType.BLOCK_AIR →
      h = { hx := ⌊gx demo origin⌋, hy := ⌊gy origin⌋, hz := ⌊gz demo origin⌋,
            hnormal := ⟨0, 0, 0⟩ }) ∧
    (origin = demo.camera.pos → max_dist = 6 →
      demo_handle_event_mouse_button fuel dir MouseButton.SDL_BUTTON_RIGHT demo =
        if block_get demo ⌊gx demo origin⌋ ⌊gy origin⌋ ⌊gz demo origin⌋
            = BlockType.BLOCK_AIR then
          some (block_set demo (h.hx + float_to_int h.hnormal.x)
            (h.hy + float_to_int h.hnormal.y) (h.hz + float_to_int h.hnormal.z)
            BlockType.BLOCK_DIRT)
        else some demo) := by
  have hloop := hres
  rw [raycast_block_eq_loop] at hloop
  obtain ⟨n, h1, h2, -, h4⟩ := raycast_loop_sound demo max_dist _ fuel _ h hloop
  -- the two cases of the start cell
  have hA : block_get demo ⌊gx demo origin⌋ ⌊gy origin⌋ ⌊gz demo origin⌋
      = BlockType.BLOCK_AIR →
      (h.hnormal = ⟨1, 0, 0⟩ ∨ h.hnormal = ⟨-1, 0, 0⟩ ∨ h.hnormal = ⟨0, 1, 0⟩ ∨
        h.hnormal = ⟨0, -1, 0⟩ ∨ h.hnormal = ⟨0, 0, 1⟩ ∨ h.hnormal = ⟨0, 0, -1⟩) ∧
      (∃ n : ℕ,
        (raycast_visit (raycast_setup dir) (raycast_init demo origin dir) (n + 1)).ix = h.hx ∧
        (raycast_visit (raycast_setup dir) (raycast_init demo origin dir) (n + 1)).iy = h.hy ∧
        (raycast_visit (raycast_setup dir) (raycast_init demo origin dir) (n + 1)).iz = h.hz ∧
        (raycast_visit (raycast_setup dir) (raycast_init demo origin dir) n).ix
          = h.hx + float_to_int h.hnormal.x ∧
        (raycast_visit (raycast_setup dir) (raycast_init demo origin dir) n).iy
          = h.hy + float_to_int h.hnormal.y ∧
        (raycast_visit (raycast_setup dir) (raycast_init demo origin dir) n).iz
          = h.hz + float_to_int h.hnormal.z) ∧
      (h.hx + float_to_int h.hnormal.x, h.hy + float_to_int h.hnormal.y,
        h.hz + float_to_int h.hnormal.z) ≠ (h.hx, h.hy, h.hz) ∧
      block_get demo (h.hx + float_to_int h.hnormal.x) (h.hy + float_to_int h.hnormal.y)
        (h.hz + float_to_int h.hnormal.z) = BlockType.BLOCK_AIR := by
    intro hair
    cases n with
    | zero => exact absurd hair h2
    | succ k =>
      have hsucc : raycast_visit (raycast_setup dir) (raycast_init demo origin dir) (k + 1)
          = raycast_advance (raycast_setup dir)
              (raycast_visit (raycast_setup dir) (raycast_init demo origin dir) k) :=
        Function.iterate_succ_apply' _ _ _
      obtain ⟨b1, b2, b3, b4, b5⟩ := raycast_advance_back (raycast_setup dir)
        (raycast_visit (raycast_setup dir) (raycast_init demo origin dir) k)
        (step_of_unit _) (step_of_unit _) (step_of_unit _)
      rw [← hsucc] at b1 b2 b3 b4 b5
      have hprev := (h4 k (Nat.lt_succ_self k)).1
      subst h1
      refine ⟨b1, ⟨k, rfl, rfl, rfl, b2.symm, b3.symm, b4.symm⟩, ?_, ?_⟩
      · show (_ + float_to_int _, _ + float_to_int _, _ + float_to_int _) ≠ (_, _, _)
        rw [b2, b3, b4]
        exact fun e => b5 e.symm
      · show block_get demo (_ + float_to_int _) (_ + float_to_int _) (_ + float_to_int _) = _
        rw [b2, b3, b4]
        exact hprev
  have hB : block_get demo ⌊gx demo origin⌋ ⌊gy origin⌋ ⌊gz demo origin⌋
      ≠ BlockType.BLOCK_AIR →
      h = { hx := ⌊gx demo origin⌋, hy := ⌊gy origin⌋, hz := ⌊gz demo origin⌋,
            hnormal := ⟨0, 0, 0⟩ } := by
    intro hsolid
    cases n with
    | zero => exact h1
    | succ k => exact absurd (h4 0 (Nat.succ_pos k)).1 hsolid
  refine ⟨hA, hB, ?_⟩
  intro ho hm
  subst ho
  subst hm
  unfold demo_handle_event_mouse_button
  rw [if_pos (Or.inr rfl), hres]
  simp only
  rw [if_neg (by decide)]
  by_cases hair : block_get demo ⌊gx demo demo.camera.pos⌋ ⌊gy demo.camera.pos⌋
      ⌊gz demo demo.camera.pos⌋ = BlockType.BLOCK_AIR
  · rw [if_pos hair, if_pos (hA hair).2.2.2]
  · rw [if_neg hair]
    have hh := hB hair
    subst hh
    have f0 : float_to_int 0 = 0 := by
      have := float_to_int_intCast 0
      simpa using this
    simp only [f0, add_zero]
    rw [if_neg hair]

/-- A player two units above the single stone cell, looking straight down, hits
that cell with the grid-space normal `(0, -1, 0)`. -/
theorem ray_down_hits :
    raycast_block 3 (sample_player ⟨0, 2, 0⟩ 1 1 1 all_stone) ⟨0, 2, 0⟩ ⟨0, -1, 0⟩ 6
      = some (some { hx := 0, hy := 0, hz := 0, hnormal := ⟨0, -1, 0⟩ }) := by
  obtain ⟨e1, e2, e3, e4⟩ := above_unit_grid_cell
  have e1' : ⌊gx (sample_player ⟨0, 2, 0⟩ 1 1 1 all_stone) ⟨0, 2, 0⟩⌋ = 0 := e1
  have e4' : ⌊gz (sample_player ⟨0, 2, 0⟩ 1 1 1 all_stone) ⟨0, 2, 0⟩⌋ = 0 := e4
  have hs : step_of (-(-1)) = 1 := by norm_num [step_of]
  have hcol : ∀ y : ℤ,
      (y = 0 → block_get (sample_player ⟨0, 2, 0⟩ 1 1 1 all_stone) 0 y 0
        ≠ BlockType.BLOCK_AIR) ∧
      (y ≠ 0 → block_get (sample_player ⟨0, 2, 0⟩ 1 1 1 all_stone) 0 y 0
        = BlockType.BLOCK_AIR) := unit_grid_column
  have h := raycast_block_along_y (sample_player ⟨0, 2, 0⟩ 1 1 1 all_stone) ⟨0, 2, 0⟩
    (-1) 6 2 3 (by norm_num) (by decide) (by decide)
    (by
      intro j hj
      rw [e1', e3, e4', hs]
      exact (hcol _).2 (by omega))
    (by
      rw [e1', e3, e4', hs]
      exact (hcol _).1 (by norm_num))
    (by
      rw [e3, e2]
      norm_num)
  rw [e1', e3, e4', hs] at h
  rw [h]
  norm_num

/-- Witness for C12: for that player the cell above the hit cell reads `Air`
and a right click writes dirt there. -/
theorem raycast_block_normal_adjacent_witness :
    block_get (sample_player ⟨0, 2, 0⟩ 1 1 1 all_stone) (0 + float_to_int 0)
      (0 + float_to_int (-1)) (0 + float_to_int 0) = BlockType.BLOCK_AIR ∧
    demo_handle_event_mouse_button 3 ⟨0, -1, 0⟩ MouseButton.SDL_BUTTON_RIGHT
        (sample_player ⟨0, 2, 0⟩ 1 1 1 all_stone) =
      some (block_set (sample_player ⟨0, 2, 0⟩ 1 1 1 all_stone) (0 + float_to_int 0)
        (0 + float_to_int (-1)) (0 + float_to_int 0) BlockType.BLOCK_DIRT) := by
  have hstart : block_get (sample_player ⟨0, 2, 0⟩ 1 1 1 all_stone)
      ⌊gx (sample_player ⟨0, 2, 0⟩ 1 1 1 all_stone) ⟨0, 2, 0⟩⌋ ⌊gy ⟨0, 2, 0⟩⌋
      ⌊gz (sample_player ⟨0, 2, 0⟩ 1 1 1 all_stone) ⟨0, 2, 0⟩⌋ = BlockType.BLOCK_AIR := by
    obtain ⟨e1, -, e3, e4⟩ := above_unit_grid_cell
    have e1' : ⌊gx (sample_player ⟨0, 2, 0⟩ 1 1 1 all_stone) ⟨0, 2, 0⟩⌋ = 0 := e1
    have e4' : ⌊gz (sample_player ⟨0, 2, 0⟩ 1 1 1 all_stone) ⟨0, 2, 0⟩⌋ = 0 := e4
    rw [e1', e3, e4']
    exact (unit_grid_column (-2)).2 (by decide)
  have h := raycast_block_normal_adjacent (sample_player ⟨0, 2, 0⟩ 1 1 1 all_stone)
    ⟨0, 2, 0⟩ ⟨0, -1, 0⟩ 6 3 _ ray_down_hits
  refine ⟨(h.1 hstart).2.2.2, ?_⟩
  have h3 := h.2.2 rfl rfl
  rw [if_pos hstart] at h3
  exact h3

/-! ## Outcodes -/

/-- Each bit of the outcode records one comparison. -/
theorem clip_mask_testBit (clip : v4f) :
    (clip_mask clip).testBit 0 = decide (clip.x < -clip.w) ∧
    (clip_mask clip).testBit 1 = decide (clip.x > clip.w) ∧
    (clip_mask clip).testBit 2 = decide (clip.y < -clip.w) ∧
    (clip_mask clip).testBit 3 = decide (clip.y > clip.w) ∧
    (clip_mask clip).testBit 4 = decide (clip.z < 0) ∧
    (clip_mask clip).testBit 5 = decide (clip.z > clip.w) := by
  unfold clip_mask
  by_cases h1 : clip.x < -clip.w <;> by_cases h2 : clip.x > clip.w <;>
  by_cases h3 : clip.y < -clip.w <;> by_cases h4 : clip.y > clip.w <;>
  by_cases h5 : clip.z < 0 <;> by_cases h6 : clip.z > clip.w <;>
  simp only [h1, h2, h3, h4, h5, h6, if_true, if_false, decide_True, decide_False] <;>
  decide

/-- The value of the outcode and of its six bit tests. -/
theorem clip_mask_bits (clip : v4f) :
    clip_mask clip ≤ 63 ∧
    (clip_mask clip &&& 1 ≠ 0 ↔ clip.x < -clip.w) ∧
    (clip_mask clip &&& 2 ≠ 0 ↔ clip.x > clip.w) ∧
    (clip_mask clip &&& 4 ≠ 0 ↔ clip.y < -clip.w) ∧
    (clip_mask clip &&& 8 ≠ 0 ↔ clip.y > clip.w) ∧
    (clip_mask clip &&& 16 ≠ 0 ↔ clip.z < 0) ∧
    (clip_mask clip &&& 32 ≠ 0 ↔ clip.z > clip.w) := by
  unfold clip_mask
  by_cases h1 : clip.x < -clip.w <;> by_cases h2 : clip.x > clip.w <;>
  by_cases h3 : clip.y < -clip.w <;> by_cases h4 : clip.y > clip.w <;>
  by_cases h5 : clip.z < 0 <;> by_cases h6 : clip.z > clip.w <;>
  simp only [h1, h2, h3, h4, h5, h6, if_true, if_false, iff_true, iff_false] <;>
  decide

/-- The outcode is zero exactly for a clip coordinate inside the frustum. -/
theorem clip_mask_eq_zero_iff (clip : v4f) :
    clip_mask clip = 0 ↔
      (-clip.w ≤ clip.x ∧ clip.x ≤ clip.w ∧ -clip.w ≤ clip.y ∧ clip.y ≤ clip.w ∧
        0 ≤ clip.z ∧ clip.z ≤ clip.w) := by
  obtain ⟨-, b1, b2, b3, b4, b5, b6⟩ := clip_mask_bits clip
  constructor
  · intro h
    rw [h] at b1 b2 b3 b4 b5 b6
    simp only [Nat.zero_and, ne_eq, not_true_eq_false, false_iff, not_lt] at b1 b2 b3 b4 b5 b6
    exact ⟨b1, b2, b3, b4, b5, b6⟩
  · rintro ⟨h1, h2, h3, h4, h5, h6⟩
    unfold clip_mask
    simp only [not_lt.mpr h1, not_lt.mpr h2, not_lt.mpr h3, not_lt.mpr h4, not_lt.mpr h5,
      not_lt.mpr h6, gt_iff_lt, if_false]

/-- What `project_vertex` returns for a clip coordinate with `w ≠ 0`. -/
theorem project_vertex_some (env : FrameEnv) (cv : ClipVert)
    (hw : (env.proj_mul ⟨cv.view_pos.x, cv.view_pos.y, cv.view_pos.z, 1⟩).w ≠ 0) :
    project_vertex env cv =
      some ({ pos := env.norm_to_screen
                ⟨(env.proj_mul ⟨cv.view_pos.x, cv.view_pos.y, cv.view_pos.z, 1⟩).x *
                    (1 / (env.proj_mul ⟨cv.view_pos.x, cv.view_pos.y, cv.view_pos.z, 1⟩).w),
                 (env.proj_mul ⟨cv.view_pos.x, cv.view_pos.y, cv.view_pos.z, 1⟩).y *
                    (1 / (env.proj_mul ⟨cv.view_pos.x, cv.view_pos.y, cv.view_pos.z, 1⟩).w)⟩
                env.render_w env.render_h,
              uv := cv.uv,
              inv_w := 1 / (env.proj_mul ⟨cv.view_pos.x, cv.view_pos.y, cv.view_pos.z, 1⟩).w,
              depth := 1 / 2 *
                ((env.proj_mul ⟨cv.view_pos.x, cv.view_pos.y, cv.view_pos.z, 1⟩).z *
                  (1 / (env.proj_mul ⟨cv.view_pos.x, cv.view_pos.y, cv.view_pos.z, 1⟩).w)
                  + 1) },
            clip_mask (env.proj_mul ⟨cv.view_pos.x, cv.view_pos.y, cv.view_pos.z, 1⟩)) := by
  unfold project_vertex
  simp only
  rw [if_neg hw]

/-- A successful `project_vertex` had `w ≠ 0` and returned the outcode and the
depth `0.5 * (ndc.z + 1)` of its clip coordinate. -/
theorem project_vertex_eq_some (env : FrameEnv) (cv : ClipVert) (pv : VertexPC) (m : ℕ)
    (h : project_vertex env cv = some (pv, m)) :
    (env.proj_mul ⟨cv.view_pos.x, cv.view_pos.y, cv.view_pos.z, 1⟩).w ≠ 0 ∧
    m = clip_mask (env.proj_mul ⟨cv.view_pos.x, cv.view_pos.y, cv.view_pos.z, 1⟩) ∧
    pv.depth = 1 / 2 *
      ((env.proj_mul ⟨cv.view_pos.x, cv.view_pos.y, cv.view_pos.z, 1⟩).z *
        (1 / (env.proj_mul ⟨cv.view_pos.x, cv.view_pos.y, cv.view_pos.z, 1⟩).w) + 1) := by
  by_cases hw : (env.proj_mul ⟨cv.view_pos.x, cv.view_pos.y, cv.view_pos.z, 1⟩).w = 0
  · unfold project_vertex at h
    simp only at h
    rw [if_pos hw] at h
    exact absurd h (by simp)
  · rw [project_vertex_some env cv hw] at h
    have h' := Option.some.inj h
    have h1 := congrArg Prod.fst h'
    have h2 := congrArg Prod.snd h'
    simp only at h1 h2
    refine ⟨hw, h2.symm, ?_⟩
    rw [← h1]

/-- What the vertex loop caches for a vertex whose clip coordinate has `w ≠ 0`. -/
theorem cache_vertex_some (env : FrameEnv) (world : v4f) (uv : v2f)
    (hw : (env.proj_mul (env.mv_mul world)).w ≠ 0) :
    ∃ t : CachedVertex, cache_vertex env world uv = some t ∧
      t.view_pos = ⟨(env.mv_mul world).x, (env.mv_mul world).y, (env.mv_mul world).z⟩ ∧
      t.uv = uv ∧
      t.clip_mask = clip_mask (env.proj_mul (env.mv_mul world)) ∧
      (t.depth_ok = true ↔
        (0 ≤ (env.proj_mul (env.mv_mul world)).z * (1 / (env.proj_mul (env.mv_mul world)).w) ∧
          (env.proj_mul (env.mv_mul world)).z * (1 / (env.proj_mul (env.mv_mul world)).w)
            ≤ 1)) ∧
      t.depth = 1 / 2 *
        ((env.proj_mul (env.mv_mul world)).z * (1 / (env.proj_mul (env.mv_mul world)).w)
          + 1) := by
  unfold cache_vertex
  simp only
  rw [if_neg hw]
  refine ⟨_, rfl, rfl, rfl, rfl, ?_, rfl⟩
  simp

/-- A cached vertex came from a clip coordinate with `w ≠ 0` and holds its view
position, UV, outcode, depth test and depth. -/
theorem cache_vertex_eq_some (env : FrameEnv) (world : v4f) (uv : v2f) (t : CachedVertex)
    (h : cache_vertex env world uv = some t) :
    (env.proj_mul (env.mv_mul world)).w ≠ 0 ∧
    t.view_pos = ⟨(env.mv_mul world).x, (env.mv_mul world).y, (env.mv_mul world).z⟩ ∧
    t.uv = uv ∧
    t.clip_mask = clip_mask (env.proj_mul (env.mv_mul world)) ∧
    (t.depth_ok = true ↔
      (0 ≤ (env.proj_mul (env.mv_mul world)).z * (1 / (env.proj_mul (env.mv_mul world)).w) ∧
        (env.proj_mul (env.mv_mul world)).z * (1 / (env.proj_mul (env.mv_mul world)).w)
          ≤ 1)) ∧
    t.depth = 1 / 2 *
      ((env.proj_mul (env.mv_mul world)).z * (1 / (env.proj_mul (env.mv_mul world)).w)
        + 1) := by
  by_cases hw : (env.proj_mul (env.mv_mul world)).w = 0
  · unfold cache_vertex at h
    simp only at h
    rw [if_pos hw] at h
    exact absurd h (by simp)
  · obtain ⟨t', ht', r⟩ := cache_vertex_some env world uv hw
    rw [ht'] at h
    have := Option.some.inj h
    subst this
    exact ⟨hw, r⟩

/-- C14: the outcode is a value in `[0, 63]` whose bit 1 is set iff `x < -w`,
bit 2 iff `x > w`, bit 4 iff `y < -w`, bit 8 iff `y > w`, bit 16 iff `z < 0` and
bit 32 iff `z > w`; it is 0 iff the clip coordinate is inside the frustum; and
for `w ≠ 0` it is the mask that `project_vertex` returns and that the vertex
loop of the frame loops stores. -/
theorem clip_mask_outcode (clip : v4f) :
    (0 ≤ clip_mask clip ∧ clip_mask clip ≤ 63) ∧
    (clip_mask clip &&& 1 ≠ 0 ↔ clip.x < -clip.w) ∧
    (clip_mask clip &&& 2 ≠ 0 ↔ clip.x > clip.w) ∧
    (clip_mask clip &&& 4 ≠ 0 ↔ clip.y < -clip.w) ∧
    (clip_mask clip &&& 8 ≠ 0 ↔ clip.y > clip.w) ∧
    (clip_mask clip &&& 16 ≠ 0 ↔ clip.z < 0) ∧
    (clip_mask clip &&& 32 ≠ 0 ↔ clip.z > clip.w) ∧
    (clip_mask clip = 0 ↔
      (-clip.w ≤ clip.x ∧ clip.x ≤ clip.w ∧ -clip.w ≤ clip.y ∧ clip.y ≤ clip.w ∧
        0 ≤ clip.z ∧ clip.z ≤ clip.w)) ∧
    (∀ (env : FrameEnv) (cv : ClipVert),
      env.proj_mul ⟨cv.view_pos.x, cv.view_pos.y, cv.view_pos.z, 1⟩ = clip → clip.w ≠ 0 →
      ∃ pv : VertexPC, project_vertex env cv = some (pv, clip_mask clip)) ∧
    (∀ (env : FrameEnv) (world : v4f) (uv : v2f),
      env.proj_mul (env.mv_mul world) = clip → clip.w ≠ 0 →
      ∃ t : CachedVertex, cache_vertex env world uv = some t ∧
        t.clip_mask = clip_mask clip) := by
  obtain ⟨b0, b1, b2, b3, b4, b5, b6⟩ := clip_mask_bits clip
  refine ⟨⟨Nat.zero_le _, b0⟩, b1, b2, b3, b4, b5, b6, clip_mask_eq_zero_iff clip, ?_, ?_⟩
  · intro env cv hc hw
    rw [← hc] at hw
    rw [← hc]
    exact ⟨_, project_vertex_some env cv hw⟩
  · intro env world uv hc hw
    rw [← hc] at hw
    obtain ⟨t, ht, -, -, hm, -⟩ := cache_vertex_some env world uv hw
    rw [← hc]
    exact ⟨t, ht, hm⟩

/-! ## The face code -/

/-- The face code once the three vertices are cached: the frustum test, then
the no-clip path or the near-clip path. -/
theorem face_pipeline_of_some {τ : Type} (env : FrameEnv) (tex : τ) (w0 w1 w2 : v4f)
    (uv0 uv1 uv2 : v2f) (t0 t1 t2 : CachedVertex)
    (h0 : cache_vertex env w0 uv0 = some t0) (h1 : cache_vertex env w1 uv1 = some t1)
    (h2 : cache_vertex env w2 uv2 = some t2) :
    face_pipeline env tex w0 w1 w2 uv0 uv1 uv2 =
      if (t0.clip_mask &&& t1.clip_mask &&& t2.clip_mask) ≠ 0 then
        { culled := 1, draws := [] }
      else
        if ¬ ¬ (t0.view_pos.z ≤ -env.near_plane ∧ t1.view_pos.z ≤ -env.near_plane ∧
            t2.view_pos.z ≤ -env.near_plane) then
          if t0.depth_ok = false ∨ t1.depth_ok = false ∨ t2.depth_ok = false then
            { culled := 0, draws := [] }
          else
            if v3_dot (v3_cross (v3_sub t1.view_pos t0.view_pos)
                (v3_sub t2.view_pos t0.view_pos)) t0.view_pos ≥ 0 then
              { culled := 0, draws := [] }
            else
              { culled := 0,
                draws := [draw_call env tex
                  { pos := t0.screen, uv := t0.uv, inv_w := t0.inv_w, depth := t0.depth }
                  { pos := t1.screen, uv := t1.uv, inv_w := t1.inv_w, depth := t1.depth }
                  { pos := t2.screen, uv := t2.uv, inv_w := t2.inv_w, depth := t2.depth }] }
        else
          { culled := 0,
            draws := clip_path env tex
              { view_pos := t0.view_pos, uv := t0.uv }
              { view_pos := t1.view_pos, uv := t1.uv }
              { view_pos := t2.view_pos, uv := t2.uv } } := by
  unfold face_pipeline
  rw [h0, h1, h2]

/-- The face code when a vertex has `clip.w == 0`: the face is skipped. -/
theorem face_pipeline_of_none {τ : Type} (env : FrameEnv) (tex : τ) (w0 w1 w2 : v4f)
    (uv0 uv1 uv2 : v2f)
    (h : cache_vertex env w0 uv0 = none ∨ cache_vertex env w1 uv1 = none ∨
      cache_vertex env w2 uv2 = none) :
    face_pipeline env tex w0 w1 w2 uv0 uv1 uv2 = { culled := 0, draws := [] } := by
  unfold face_pipeline
  cases h0 : cache_vertex env w0 uv0 <;> cases h1 : cache_vertex env w1 uv1 <;>
    cases h2 : cache_vertex env w2 uv2 <;> simp_all

/-- Three outcodes that share a set bit have a non-zero AND. -/
theorem and_ne_zero_of_testBit (m0 m1 m2 i : ℕ) (h0 : m0.testBit i = true)
    (h1 : m1.testBit i = true) (h2 : m2.testBit i = true) : m0 &&& m1 &&& m2 ≠ 0 := by
  intro h
  have : (m0 &&& m1 &&& m2).testBit i = true := by
    rw [Nat.testBit_and, Nat.testBit_and, h0, h1, h2]
    rfl
  rw [h, Nat.zero_testBit] at this
  exact absurd this (by decide)

/-- A violated plane sets its bit in the outcode. -/
theorem violates_testBit (p : FrustumPlane) (clip : v4f) (h : violates p clip) :
    (clip_mask clip).testBit (plane_bit p) = true := by
  obtain ⟨b0, b1, b2, b3, b4, b5⟩ := clip_mask_testBit clip
  cases p <;> simp only [violates] at h <;> simp only [plane_bit]
  · rw [b0]; exact decide_eq_true h
  · rw [b1]; exact decide_eq_true h
  · rw [b2]; exact decide_eq_true h
  · rw [b3]; exact decide_eq_true h
  · rw [b4]; exact decide_eq_true h
  · rw [b5]; exact decide_eq_true h

/-- Three vertices with `w ≠ 0` that violate one and the same frustum plane end
the face code in the frustum test. -/
theorem face_pipeline_frustum_culled {τ : Type} (env : FrameEnv) (tex : τ) (w0 w1 w2 : v4f)
    (uv0 uv1 uv2 : v2f) (p : FrustumPlane)
    (hw0 : (env.proj_mul (env.mv_mul w0)).w ≠ 0)
    (hw1 : (env.proj_mul (env.mv_mul w1)).w ≠ 0)
    (hw2 : (env.proj_mul (env.mv_mul w2)).w ≠ 0)
    (v0 : violates p (env.proj_mul (env.mv_mul w0)))
    (v1 : violates p (env.proj_mul (env.mv_mul w1)))
    (v2 : violates p (env.proj_mul (env.mv_mul w2))) :
    face_pipeline env tex w0 w1 w2 uv0 uv1 uv2 = { culled := 1, draws := [] } := by
  have hand := and_ne_zero_of_testBit _ _ _ _ (violates_testBit p _ v0)
    (violates_testBit p _ v1) (violates_testBit p _ v2)
  obtain ⟨t0, h0, -, -, m0, -⟩ := cache_vertex_some env w0 uv0 hw0
  obtain ⟨t1, h1, -, -, m1, -⟩ := cache_vertex_some env w1 uv1 hw1
  obtain ⟨t2, h2, -, -, m2, -⟩ := cache_vertex_some env w2 uv2 hw2
  rw [face_pipeline_of_some env tex w0 w1 w2 uv0 uv1 uv2 t0 t1 t2 h0 h1 h2, m0, m1, m2,
    if_pos hand]

/-- C13: if three clip coordinates all lie inside the frustum the AND of their
outcodes is 0; if all three violate one and the same frustum plane the AND is
non-zero, and for a face whose three clip coordinates (with `w ≠ 0`) do so the
face code of `demo_frame` advances `culled_faces_count` and makes no rasteriser
call, and that of `model_demo_frame` makes no rasteriser call: the face is
left at the frustum test, before the near-clip walk. -/
theorem outcode_and_test {τ : Type} (env : FrameEnv) :
    (∀ c0 c1 c2 : v4f, inside_frustum c0 → inside_frustum c1 → inside_frustum c2 →
      clip_mask c0 &&& clip_mask c1 &&& clip_mask c2 = 0) ∧
    (∀ (c0 c1 c2 : v4f) (p : FrustumPlane), violates p c0 → violates p c1 → violates p c2 →
      clip_mask c0 &&& clip_mask c1 &&& clip_mask c2 ≠ 0) ∧
    (∀ (face : Face) (p : FrustumPlane),
      (env.proj_mul (env.mv_mul ⟨face.v0.pos.x, face.v0.pos.y, face.v0.pos.z, 1⟩)).w ≠ 0 →
      (env.proj_mul (env.mv_mul ⟨face.v1.pos.x, face.v1.pos.y, face.v1.pos.z, 1⟩)).w ≠ 0 →
      (env.proj_mul (env.mv_mul ⟨face.v2.pos.x, face.v2.pos.y, face.v2.pos.z, 1⟩)).w ≠ 0 →
      violates p (env.proj_mul (env.mv_mul ⟨face.v0.pos.x, face.v0.pos.y, face.v0.pos.z, 1⟩)) →
      violates p (env.proj_mul (env.mv_mul ⟨face.v1.pos.x, face.v1.pos.y, face.v1.pos.z, 1⟩)) →
      violates p (env.proj_mul (env.mv_mul ⟨face.v2.pos.x, face.v2.pos.y, face.v2.pos.z, 1⟩)) →
      demo_frame_face env face = { culled := 1, draws := [] }) ∧
    (∀ (m : ModelPlacement) (fallback_tex : τ) (face : ObjFace τ)
      (p : FrustumPlane),
      (env.proj_mul (env.mv_mul (model_world m face.v0.pos))).w ≠ 0 →
      (env.proj_mul (env.mv_mul (model_world m face.v1.pos))).w ≠ 0 →
      (env.proj_mul (env.mv_mul (model_world m face.v2.pos))).w ≠ 0 →
      violates p (env.proj_mul (env.mv_mul (model_world m face.v0.pos))) →
      violates p (env.proj_mul (env.mv_mul (model_world m face.v1.pos))) →
      violates p (env.proj_mul (env.mv_mul (model_world m face.v2.pos))) →
      model_demo_frame_face env m fallback_tex face = []) := by
  refine ⟨?_, ?_, ?_, ?_⟩
  · intro c0 c1 c2 i0 i1 i2
    rw [(clip_mask_eq_zero_iff _).mpr i0, (clip_mask_eq_zero_iff _).mpr i1,
      (clip_mask_eq_zero_iff _).mpr i2]
    rfl
  · intro c0 c1 c2 p v0 v1 v2
    exact and_ne_zero_of_testBit _ _ _ _ (violates_testBit p _ v0)
      (violates_testBit p _ v1) (violates_testBit p _ v2)
  · intro face p hw0 hw1 hw2 v0 v1 v2
    exact face_pipeline_frustum_culled env face.tex _ _ _ _ _ _ p hw0 hw1 hw2 v0 v1 v2
  · intro m fallback_tex face p hw0 hw1 hw2 v0 v1 v2
    unfold model_demo_frame_face
    rw [face_pipeline_frustum_culled env _ _ _ _ _ _ _ p hw0 hw1 hw2 v0 v1 v2]

/-! ## The near-clip walk -/

/-- The number of vertices the walk emits for one edge. -/
theorem clip_edge_length (near_plane : ℚ) (a b : ClipVert) :
    (clip_edge near_plane a b).length =
      if b.view_pos.z ≤ -near_plane then
        (if a.view_pos.z ≤ -near_plane then 1 else 2)
      else
        (if a.view_pos.z ≤ -near_plane then 1 else 0) := by
  unfold clip_edge
  by_cases ha : a.view_pos.z ≤ -near_plane <;> by_cases hb : b.view_pos.z ≤ -near_plane <;>
    simp [ha, hb]

/-- The number of vertices the walk emits, by which vertices are inside. -/
theorem near_clip_walk_length (near_plane : ℚ) (v0 v1 v2 : ClipVert) :
    (near_clip_walk near_plane v0 v1 v2).length =
      (if v1.view_pos.z ≤ -near_plane then
        (if v0.view_pos.z ≤ -near_plane then 1 else 2)
      else (if v0.view_pos.z ≤ -near_plane then 1 else 0)) +
      (if v2.view_pos.z ≤ -near_plane then
        (if v1.view_pos.z ≤ -near_plane then 1 else 2)
      else (if v1.view_pos.z ≤ -near_plane then 1 else 0)) +
      (if v0.view_pos.z ≤ -near_plane then
        (if v2.view_pos.z ≤ -near_plane then 1 else 2)
      else (if v2.view_pos.z ≤ -near_plane then 1 else 0)) := by
  unfold near_clip_walk
  rw [List.length_append, List.length_append, clip_edge_length, clip_edge_length,
    clip_edge_length]

/-- A sub-triangle reaches the rasteriser at most once. -/
theorem clipped_triangle_length {τ : Type} (env : FrameEnv) (tex : τ) (a b c : ClipVert) :
    (clipped_triangle env tex a b c).length ≤ 1 := by
  unfold clipped_triangle
  simp only
  split_ifs
  · simp
  · cases project_vertex env a <;> cases project_vertex env b <;>
      cases project_vertex env c <;> simp
    split_ifs <;> simp

/-- The near-clip path makes at most two rasteriser calls. -/
theorem clip_path_length {τ : Type} (env : FrameEnv) (tex : τ) (v0 v1 v2 : ClipVert) :
    (clip_path env tex v0 v1 v2 : List (DrawCall τ)).length ≤ 2 := by
  unfold clip_path
  generalize near_clip_walk env.near_plane v0 v1 v2 = l
  have h := clipped_triangle_length (τ := τ) env tex
  rcases l with _ | ⟨a, _ | ⟨b, _ | ⟨c, _ | ⟨d, _ | ⟨e, r⟩⟩⟩⟩⟩
  · simp
  · simp
  · simp
  · exact le_trans (h a b c) (by decide)
  · show (clipped_triangle env tex a b c ++ clipped_triangle env tex a c d).length ≤ 2
    rw [List.length_append]
    have h1 := h a b c
    have h2 := h a c d
    omega
  · exact le_trans (h a b c) (by decide)

/-- The face code makes at most two rasteriser calls. -/
theorem face_pipeline_draws_length {τ : Type} (env : FrameEnv) (tex : τ) (w0 w1 w2 : v4f)
    (uv0 uv1 uv2 : v2f) :
    (face_pipeline env tex w0 w1 w2 uv0 uv1 uv2).draws.length ≤ 2 := by
  cases h0 : cache_vertex env w0 uv0 with
  | none => rw [face_pipeline_of_none env tex _ _ _ _ _ _ (Or.inl h0)]; simp
  | some t0 =>
    cases h1 : cache_vertex env w1 uv1 with
    | none => rw [face_pipeline_of_none env tex _ _ _ _ _ _ (Or.inr (Or.inl h1))]; simp
    | some t1 =>
      cases h2 : cache_vertex env w2 uv2 with
      | none => rw [face_pipeline_of_none env tex _ _ _ _ _ _ (Or.inr (Or.inr h2))]; simp
      | some t2 =>
        rw [face_pipeline_of_some env tex _ _ _ _ _ _ t0 t1 t2 h0 h1 h2]
        split_ifs <;> first | exact clip_path_length env tex _ _ _ | simp

/-- A face whose three camera-space vertices lie in front of the near plane
(`view_z > -near_plane`) produces no rasteriser call. -/
theorem face_pipeline_behind_near {τ : Type} (env : FrameEnv) (tex : τ) (w0 w1 w2 : v4f)
    (uv0 uv1 uv2 : v2f)
    (hz0 : (env.mv_mul w0).z > -env.near_plane)
    (hz1 : (env.mv_mul w1).z > -env.near_plane)
    (hz2 : (env.mv_mul w2).z > -env.near_plane) :
    (face_pipeline env tex w0 w1 w2 uv0 uv1 uv2).draws = [] := by
  cases h0 : cache_vertex env w0 uv0 with
  | none => rw [face_pipeline_of_none env tex _ _ _ _ _ _ (Or.inl h0)]
  | some t0 =>
    cases h1 : cache_vertex env w1 uv1 with
    | none => rw [face_pipeline_of_none env tex _ _ _ _ _ _ (Or.inr (Or.inl h1))]
    | some t1 =>
      cases h2 : cache_vertex env w2 uv2 with
      | none => rw [face_pipeline_of_none env tex _ _ _ _ _ _ (Or.inr (Or.inr h2))]
      | some t2 =>
        obtain ⟨-, e0, -⟩ := cache_vertex_eq_some env w0 uv0 t0 h0
        obtain ⟨-, e1, -⟩ := cache_vertex_eq_some env w1 uv1 t1 h1
        obtain ⟨-, e2, -⟩ := cache_vertex_eq_some env w2 uv2 t2 h2
        have n0 : ¬ t0.view_pos.z ≤ -env.near_plane := by rw [e0]; exact not_le.mpr hz0
        have n1 : ¬ t1.view_pos.z ≤ -env.near_plane := by rw [e1]; exact not_le.mpr hz1
        have n2 : ¬ t2.view_pos.z ≤ -env.near_plane := by rw [e2]; exact not_le.mpr hz2
        rw [face_pipeline_of_some env tex _ _ _ _ _ _ t0 t1 t2 h0 h1 h2]
        by_cases hand : (t0.clip_mask &&& t1.clip_mask &&& t2.clip_mask) ≠ 0
        · rw [if_pos hand]
        · rw [if_neg hand]
          have hnc : ¬ ¬ ¬ (t0.view_pos.z ≤ -env.near_plane ∧
              t1.view_pos.z ≤ -env.near_plane ∧ t2.view_pos.z ≤ -env.near_plane) :=
            fun h => h (fun h' => n0 h'.1)
          rw [if_neg hnc]
          show clip_path env tex _ _ _ = []
          have hlen := near_clip_walk_length env.near_plane
            { view_pos := t0.view_pos, uv := t0.uv } { view_pos := t1.view_pos, uv := t1.uv }
            { view_pos := t2.view_pos, uv := t2.uv }
          simp only [n0, n1, n2, if_false] at hlen
          unfold clip_path
          rw [List.length_eq_zero.mp hlen]

/-- C15: a face whose three camera-space vertices all have
`view_z > -near_plane` makes the face code of `demo_frame` and of
`model_demo_frame` produce no rasteriser call; when the face is not rejected
earlier the near-clip walk outputs no vertex. -/
theorem behind_near_plane_not_drawn {τ : Type} (env : FrameEnv) :
    (∀ face : Face,
      (env.mv_mul ⟨face.v0.pos.x, face.v0.pos.y, face.v0.pos.z, 1⟩).z > -env.near_plane →
      (env.mv_mul ⟨face.v1.pos.x, face.v1.pos.y, face.v1.pos.z, 1⟩).z > -env.near_plane →
      (env.mv_mul ⟨face.v2.pos.x, face.v2.pos.y, face.v2.pos.z, 1⟩).z > -env.near_plane →
      (demo_frame_face env face).draws = []) ∧
    (∀ (m : ModelPlacement) (fallback_tex : τ) (face : ObjFace τ),
      (env.mv_mul (model_world m face.v0.pos)).z > -env.near_plane →
      (env.mv_mul (model_world m face.v1.pos)).z > -env.near_plane →
      (env.mv_mul (model_world m face.v2.pos)).z > -env.near_plane →
      model_demo_frame_face env m fallback_tex face = []) ∧
    (∀ v0 v1 v2 : ClipVert,
      v0.view_pos.z > -env.near_plane → v1.view_pos.z > -env.near_plane →
      v2.view_pos.z > -env.near_plane →
      near_clip_walk env.near_plane v0 v1 v2 = []) := by
  refine ⟨?_, ?_, ?_⟩
  · intro face h0 h1 h2
    exact face_pipeline_behind_near env face.tex _ _ _ _ _ _ h0 h1 h2
  · intro m fallback_tex face h0 h1 h2
    exact face_pipeline_behind_near env _ _ _ _ _ _ _ h0 h1 h2
  · intro v0 v1 v2 h0 h1 h2
    have hlen := near_clip_walk_length env.near_plane v0 v1 v2
    simp only [not_le.mpr h0, not_le.mpr h1, not_le.mpr h2, if_false] at hlen
    exact List.length_eq_zero.mp hlen

/-- C16: the near-clip walk outputs 0 vertices when no vertex is inside
(`view_z <= -near_plane`), 3 when all three or exactly one are inside, 4 when
exactly two are inside, and never any other count, so at most 4; a 4-vertex
result `[a, b, c, d]` is passed on as the triangles `(a, b, c)` and `(a, c, d)`;
and the face code of either frame loop makes at most two rasteriser calls. -/
theorem near_clip_walk_counts {τ : Type} (env : FrameEnv) (v0 v1 v2 : ClipVert) :
    (¬ v0.view_pos.z ≤ -env.near_plane → ¬ v1.view_pos.z ≤ -env.near_plane →
      ¬ v2.view_pos.z ≤ -env.near_plane →
      (near_clip_walk env.near_plane v0 v1 v2).length = 0) ∧
    (v0.view_pos.z ≤ -env.near_plane → v1.view_pos.z ≤ -env.near_plane →
      v2.view_pos.z ≤ -env.near_plane →
      (near_clip_walk env.near_plane v0 v1 v2).length = 3) ∧
    (((v0.view_pos.z ≤ -env.near_plane ∧ ¬ v1.view_pos.z ≤ -env.near_plane ∧
          ¬ v2.view_pos.z ≤ -env.near_plane) ∨
        (¬ v0.view_pos.z ≤ -env.near_plane ∧ v1.view_pos.z ≤ -env.near_plane ∧
          ¬ v2.view_pos.z ≤ -env.near_plane) ∨
        (¬ v0.view_pos.z ≤ -env.near_plane ∧ ¬ v1.view_pos.z ≤ -env.near_plane ∧
          v2.view_pos.z ≤ -env.near_plane)) →
      (near_clip_walk env.near_plane v0 v1 v2).length = 3) ∧
    (((v0.view_pos.z ≤ -env.near_plane ∧ v1.view_pos.z ≤ -env.near_plane ∧
          ¬ v2.view_pos.z ≤ -env.near_plane) ∨
        (v0.view_pos.z ≤ -env.near_plane ∧ ¬ v1.view_pos.z ≤ -env.near_plane ∧
          v2.view_pos.z ≤ -env.near_plane) ∨
        (¬ v0.view_pos.z ≤ -env.near_plane ∧ v1.view_pos.z ≤ -env.near_plane ∧
          v2.view_pos.z ≤ -env.near_plane)) →
      (near_clip_walk env.near_plane v0 v1 v2).length = 4) ∧
    ((near_clip_walk env.near_plane v0 v1 v2).length = 0 ∨
      (near_clip_walk env.near_plane v0 v1 v2).length = 3 ∨
      (near_clip_walk env.near_plane v0 v1 v2).length = 4) ∧
    (near_clip_walk env.near_plane v0 v1 v2).length ≤ 4 ∧
    (∀ (tex : τ) (a b c d : ClipVert),
      near_clip_walk env.near_plane v0 v1 v2 = [a, b, c, d] →
      clip_path env tex v0 v1 v2 =
        clipped_triangle env tex a b c ++ clipped_triangle env tex a c d) ∧
    (∀ face : Face, (demo_frame_face env face).draws.length ≤ 2) ∧
    (∀ (m : ModelPlacement) (fallback_tex : τ) (face : ObjFace τ),
      (model_demo_frame_face env m fallback_tex face).length ≤ 2) := by
  have hlen := near_clip_walk_length env.near_plane v0 v1 v2
  refine ⟨?_, ?_, ?_, ?_, ?_, ?_, ?_, ?_, ?_⟩
  · intro h0 h1 h2
    rw [hlen]
    simp only [h0, h1, h2, if_false]
  · intro h0 h1 h2
    rw [hlen]
    simp only [h0, h1, h2, if_true]
  · rintro (⟨h0, h1, h2⟩ | ⟨h0, h1, h2⟩ | ⟨h0, h1, h2⟩) <;>
      rw [hlen] <;> simp only [h0, h1, h2, if_true, if_false]
  · rintro (⟨h0, h1, h2⟩ | ⟨h0, h1, h2⟩ | ⟨h0, h1, h2⟩) <;>
      rw [hlen] <;> simp only [h0, h1, h2, if_true, if_false]
  · rw [hlen]
    by_cases h0 : v0.view_pos.z ≤ -env.near_plane <;>
      by_cases h1 : v1.view_pos.z ≤ -env.near_plane <;>
      by_cases h2 : v2.view_pos.z ≤ -env.near_plane <;>
      simp only [h0, h1, h2, if_true, if_false] <;> decide
  · rw [hlen]
    by_cases h0 : v0.view_pos.z ≤ -env.near_plane <;>
      by_cases h1 : v1.view_pos.z ≤ -env.near_plane <;>
      by_cases h2 : v2.view_pos.z ≤ -env.near_plane <;>
      simp only [h0, h1, h2, if_true, if_false] <;> decide
  · intro tex a b c d hw
    unfold clip_path
    rw [hw]
  · intro face
    exact face_pipeline_draws_length env face.tex _ _ _ _ _ _
  · intro m fallback_tex face
    exact face_pipeline_draws_length env _ _ _ _ _ _ _

/-! ## Interpolation on the near plane, depth values, frame time -/

/-- Every entry below `count` is 1 after `clear_depth`. -/
theorem clear_depth_entry (depth : ℕ → ℚ) (count i : ℕ) (hi : i < count) :
    clear_depth depth count i = 1 := by
  unfold clear_depth
  induction count with
  | zero => exact absurd hi (Nat.not_lt_zero i)
  | succ n ih =>
    rw [List.range_succ, List.foldl_append]
    simp only [List.foldl_cons, List.foldl_nil]
    by_cases h : i = n
    · rw [h]
      exact Function.update_same _ _ _
    · rw [Function.update_noteq h]
      exact ih (by omega)

/-- C18 (amended): the depth handed to the rasteriser is `0.5 * (ndc.z + 1)`:
for a projected vertex whose NDC z lies in `[0, 1]` it lies in `[1/2, 1]`, it
is 1/2 for a vertex on the near plane (NDC z = 0) and 1 for a vertex on the far
plane (NDC z = 1), both in `project_vertex` and in the vertex loop of the frame
loops; and `clear_depth` sets every depth-buffer entry to 1. -/
theorem depth_value_range (env : FrameEnv) :
    (∀ (cv : ClipVert) (pv : VertexPC) (m : ℕ), project_vertex env cv = some (pv, m) →
      (0 ≤ (env.proj_mul ⟨cv.view_pos.x, cv.view_pos.y, cv.view_pos.z, 1⟩).z *
          (1 / (env.proj_mul ⟨cv.view_pos.x, cv.view_pos.y, cv.view_pos.z, 1⟩).w) →
        (env.proj_mul ⟨cv.view_pos.x, cv.view_pos.y, cv.view_pos.z, 1⟩).z *
          (1 / (env.proj_mul ⟨cv.view_pos.x, cv.view_pos.y, cv.view_pos.z, 1⟩).w) ≤ 1 →
        1 / 2 ≤ pv.depth ∧ pv.depth ≤ 1) ∧
      ((env.proj_mul ⟨cv.view_pos.x, cv.view_pos.y, cv.view_pos.z, 1⟩).z *
          (1 / (env.proj_mul ⟨cv.view_pos.x, cv.view_pos.y, cv.view_pos.z, 1⟩).w) = 0 →
        pv.depth = 1 / 2) ∧
      ((env.proj_mul ⟨cv.view_pos.x, cv.view_pos.y, cv.view_pos.z, 1⟩).z *
          (1 / (env.proj_mul ⟨cv.view_pos.x, cv.view_pos.y, cv.view_pos.z, 1⟩).w) = 1 →
        pv.depth = 1)) ∧
    (∀ (world : v4f) (uv : v2f) (t : CachedVertex), cache_vertex env world uv = some t →
      (0 ≤ (env.proj_mul (env.mv_mul world)).z * (1 / (env.proj_mul (env.mv_mul world)).w) →
        (env.proj_mul (env.mv_mul world)).z * (1 / (env.proj_mul (env.mv_mul world)).w) ≤ 1 →
        1 / 2 ≤ t.depth ∧ t.depth ≤ 1) ∧
      ((env.proj_mul (env.mv_mul world)).z * (1 / (env.proj_mul (env.mv_mul world)).w) = 0 →
        t.depth = 1 / 2) ∧
      ((env.proj_mul (env.mv_mul world)).z * (1 / (env.proj_mul (env.mv_mul world)).w) = 1 →
        t.depth = 1)) ∧
    (∀ (depth : ℕ → ℚ) (count i : ℕ), i < count → clear_depth depth count i = 1) := by
  refine ⟨?_, ?_, clear_depth_entry⟩
  · intro cv pv m h
    obtain ⟨-, -, hd⟩ := project_vertex_eq_some env cv pv m h
    rw [hd]
    refine ⟨fun h0 h1 => ⟨by linarith, by linarith⟩, fun h0 => ?_, fun h1 => ?_⟩
    · rw [h0]; norm_num
    · rw [h1]; norm_num
  · intro world uv t h
    obtain ⟨-, -, -, -, -, hd⟩ := cache_vertex_eq_some env world uv t h
    rw [hd]
    refine ⟨fun h0 h1 => ⟨by linarith, by linarith⟩, fun h0 => ?_, fun h1 => ?_⟩
    · rw [h0]; norm_num
    · rw [h1]; norm_num

/-- The clip coordinate of the point `(0, 0, -1/10)` on the near plane of the
sample frame: `(0, 0, 0, 1/10)`. -/
theorem sample_near_point_clip :
    sample_env.proj_mul ⟨0, 0, -1 / 10, 1⟩ = ⟨0, 0, 0, 1 / 10⟩ := by
  simp only [sample_env, perspective_mul]
  norm_num

/-- Witness for C18 (amended): the vertex `(0, 0, -1/10)` on the near plane of
the sample frame is projected and gets the depth 1/2. -/
theorem depth_value_range_witness :
    ∃ (pv : VertexPC) (m : ℕ),
      project_vertex sample_env ⟨⟨0, 0, -1 / 10⟩, ⟨0, 0⟩⟩ = some (pv, m) ∧
      pv.depth = 1 / 2 := by
  have hw : (sample_env.proj_mul ⟨0, 0, -1 / 10, 1⟩).w ≠ 0 := by
    rw [sample_near_point_clip]
    norm_num
  have h := project_vertex_some sample_env ⟨⟨0, 0, -1 / 10⟩, ⟨0, 0⟩⟩ hw
  refine ⟨_, _, h, ?_⟩
  apply ((depth_value_range sample_env).1 ⟨⟨0, 0, -1 / 10⟩, ⟨0, 0⟩⟩ _ _ h).2.1
  rw [sample_near_point_clip]
  norm_num

/-- C18 (counterexample): in the sample frame the vertex `(0, 0, -1/10)` lies
on the near plane, its NDC z is 0, `project_vertex` succeeds on it, and the
depth it hands on is 1/2, not 0. -/
theorem near_plane_depth_is_half :
    (sample_env.proj_mul ⟨0, 0, -1 / 10, 1⟩).z *
      (1 / (sample_env.proj_mul ⟨0, 0, -1 / 10, 1⟩).w) = 0 ∧
    (∃ pv : VertexPC, project_vertex sample_env ⟨⟨0, 0, -1 / 10⟩, ⟨0, 0⟩⟩ = some (pv, 0) ∧
      pv.depth = 1 / 2 ∧ pv.depth ≠ 0) := by
  have hw : (sample_env.proj_mul ⟨0, 0, -1 / 10, 1⟩).w ≠ 0 := by
    rw [sample_near_point_clip]
    norm_num
  have hm : clip_mask (⟨0, 0, 0, 1 / 10⟩ : v4f) = 0 := by
    rw [clip_mask_eq_zero_iff]
    norm_num
  refine ⟨by rw [sample_near_point_clip]; norm_num, ?_⟩
  have h := project_vertex_some sample_env ⟨⟨0, 0, -1 / 10⟩, ⟨0, 0⟩⟩ hw
  simp only [sample_near_point_clip] at h
  rw [hm] at h
  refine ⟨_, h, ?_, ?_⟩
  · norm_num
  · norm_num

/-- C20: the `dt` that `main` of mc.c passes to `demo_frame` never exceeds 0.1;
the `dt` that `main` of model_demo.c passes to `model_demo_frame` is not
clamped: for ticks 500 ms apart it is 1/2. -/
theorem main_dt_clamp :
    (∀ now last_ticks : ℕ, mc_main_dt now last_ticks ≤ 1 / 10) ∧
    model_demo_main_dt 500 0 = 1 / 2 ∧
    ¬ model_demo_main_dt 500 0 ≤ 1 / 10 := by
  refine ⟨?_, ?_, ?_⟩
  · intro now last_ticks
    unfold mc_main_dt
    simp only
    split_ifs with h
    · exact le_refl _
    · exact not_lt.mp h
  · unfold model_demo_main_dt
    norm_num
  · unfold model_demo_main_dt
    norm_num

/-! ## NDC z of the triangles handed to the rasteriser -/

/-- A sub-triangle of the near-clip path that reaches the rasteriser passed the
backface test, all three re-projections succeeded, and the AND of the three
outcodes is 0. -/
theorem clipped_triangle_drawn {τ : Type} (env : FrameEnv) (tex : τ) (a b c : ClipVert)
    (h : clipped_triangle env tex a b c ≠ []) :
    v3_dot (v3_cross (v3_sub b.view_pos a.view_pos) (v3_sub c.view_pos a.view_pos))
      a.view_pos < 0 ∧
    (env.proj_mul ⟨a.view_pos.x, a.view_pos.y, a.view_pos.z, 1⟩).w ≠ 0 ∧
    (env.proj_mul ⟨b.view_pos.x, b.view_pos.y, b.view_pos.z, 1⟩).w ≠ 0 ∧
    (env.proj_mul ⟨c.view_pos.x, c.view_pos.y, c.view_pos.z, 1⟩).w ≠ 0 ∧
    clip_mask (env.proj_mul ⟨a.view_pos.x, a.view_pos.y, a.view_pos.z, 1⟩) &&&
      clip_mask (env.proj_mul ⟨b.view_pos.x, b.view_pos.y, b.view_pos.z, 1⟩) &&&
      clip_mask (env.proj_mul ⟨c.view_pos.x, c.view_pos.y, c.view_pos.z, 1⟩) = 0 := by
  unfold clipped_triangle at h
  simp only at h
  by_cases hb : v3_dot (v3_cross (v3_sub b.view_pos a.view_pos)
      (v3_sub c.view_pos a.view_pos)) a.view_pos ≥ 0
  · rw [if_pos hb] at h
    exact absurd rfl h
  · rw [if_neg hb] at h
    cases ha : project_vertex env a with
    | none => rw [ha] at h; exact absurd rfl h
    | some ra =>
      cases hbb : project_vertex env b with
      | none => rw [ha, hbb] at h; exact absurd rfl h
      | some rb =>
        cases hc : project_vertex env c with
        | none => rw [ha, hbb, hc] at h; exact absurd rfl h
        | some rc =>
          obtain ⟨pa, ma⟩ := ra
          obtain ⟨pb, mb⟩ := rb
          obtain ⟨pc, mc⟩ := rc
          rw [ha, hbb, hc] at h
          simp only at h
          obtain ⟨wa, ea, -⟩ := project_vertex_eq_some env a pa ma ha
          obtain ⟨wb, eb, -⟩ := project_vertex_eq_some env b pb mb hbb
          obtain ⟨wc, ec, -⟩ := project_vertex_eq_some env c pc mc hc
          by_cases hand : (ma &&& mb &&& mc) ≠ 0
          · rw [if_pos hand] at h
            exact absurd rfl h
          · rw [← ea, ← eb, ← ec]
            exact ⟨not_le.mp hb, wa, wb, wc, not_not.mp hand⟩

/-- A face drawn on the no-clip path has all three depth tests true. -/
theorem face_pipeline_no_clip_drawn {τ : Type} (env : FrameEnv) (tex : τ) (w0 w1 w2 : v4f)
    (uv0 uv1 uv2 : v2f)
    (hz0 : (env.mv_mul w0).z ≤ -env.near_plane)
    (hz1 : (env.mv_mul w1).z ≤ -env.near_plane)
    (hz2 : (env.mv_mul w2).z ≤ -env.near_plane)
    (hd : (face_pipeline env tex w0 w1 w2 uv0 uv1 uv2).draws ≠ []) :
    (0 ≤ (env.proj_mul (env.mv_mul w0)).z * (1 / (env.proj_mul (env.mv_mul w0)).w) ∧
      (env.proj_mul (env.mv_mul w0)).z * (1 / (env.proj_mul (env.mv_mul w0)).w) ≤ 1) ∧
    (0 ≤ (env.proj_mul (env.mv_mul w1)).z * (1 / (env.proj_mul (env.mv_mul w1)).w) ∧
      (env.proj_mul (env.mv_mul w1)).z * (1 / (env.proj_mul (env.mv_mul w1)).w) ≤ 1) ∧
    (0 ≤ (env.proj_mul (env.mv_mul w2)).z * (1 / (env.proj_mul (env.mv_mul w2)).w) ∧
      (env.proj_mul (env.mv_mul w2)).z * (1 / (env.proj_mul (env.mv_mul w2)).w) ≤ 1) := by
  cases h0 : cache_vertex env w0 uv0 with
  | none =>
    rw [face_pipeline_of_none env tex _ _ _ _ _ _ (Or.inl h0)] at hd
    exact absurd rfl hd
  | some t0 =>
    cases h1 : cache_vertex env w1 uv1 with
    | none =>
      rw [face_pipeline_of_none env tex _ _ _ _ _ _ (Or.inr (Or.inl h1))] at hd
      exact absurd rfl hd
    | some t1 =>
      cases h2 : cache_vertex env w2 uv2 with
      | none =>
        rw [face_pipeline_of_none env tex _ _ _ _ _ _ (Or.inr (Or.inr h2))] at hd
        exact absurd rfl hd
      | some t2 =>
        obtain ⟨-, e0, -, -, d0, -⟩ := cache_vertex_eq_some env w0 uv0 t0 h0
        obtain ⟨-, e1, -, -, d1, -⟩ := cache_vertex_eq_some env w1 uv1 t1 h1
        obtain ⟨-, e2, -, -, d2, -⟩ := cache_vertex_eq_some env w2 uv2 t2 h2
        have hin : t0.view_pos.z ≤ -env.near_plane ∧ t1.view_pos.z ≤ -env.near_plane ∧
            t2.view_pos.z ≤ -env.near_plane := by
          rw [e0, e1, e2]
          exact ⟨hz0, hz1, hz2⟩
        rw [face_pipeline_of_some env tex _ _ _ _ _ _ t0 t1 t2 h0 h1 h2] at hd
        by_cases hand : (t0.clip_mask &&& t1.clip_mask &&& t2.clip_mask) ≠ 0
        · rw [if_pos hand] at hd
          exact absurd rfl hd
        · rw [if_neg hand, if_pos (not_not.mpr hin)] at hd
          by_cases hok : t0.depth_ok = false ∨ t1.depth_ok = false ∨ t2.depth_ok = false
          · rw [if_pos hok] at hd
            exact absurd rfl hd
          · simp only [not_or, Bool.not_eq_false] at hok
            exact ⟨d0.mp hok.1, d1.mp hok.2.1, d2.mp hok.2.2⟩

/-- C19 (amended): a face that needs no near clipping reaches the rasteriser
only if each of its three vertices has NDC z (clip z / clip w) in `[0, 1]`; a
sub-triangle produced by near-plane clipping reaches the rasteriser only if it
passes the backface test (`dot(cross(b - a, c - a), a) < 0`), its three
re-projected vertices have `w ≠ 0` and the AND of their outcodes is 0, so they
are not all beyond the far plane and not all before the near plane. -/
theorem rasterised_ndc_z {τ : Type} (env : FrameEnv) (tex : τ) :
    (∀ (w0 w1 w2 : v4f) (uv0 uv1 uv2 : v2f),
      (env.mv_mul w0).z ≤ -env.near_plane → (env.mv_mul w1).z ≤ -env.near_plane →
      (env.mv_mul w2).z ≤ -env.near_plane →
      (face_pipeline env tex w0 w1 w2 uv0 uv1 uv2).draws ≠ [] →
      (0 ≤ (env.proj_mul (env.mv_mul w0)).z * (1 / (env.proj_mul (env.mv_mul w0)).w) ∧
        (env.proj_mul (env.mv_mul w0)).z * (1 / (env.proj_mul (env.mv_mul w0)).w) ≤ 1) ∧
      (0 ≤ (env.proj_mul (env.mv_mul w1)).z * (1 / (env.proj_mul (env.mv_mul w1)).w) ∧
        (env.proj_mul (env.mv_mul w1)).z * (1 / (env.proj_mul (env.mv_mul w1)).w) ≤ 1) ∧
      (0 ≤ (env.proj_mul (env.mv_mul w2)).z * (1 / (env.proj_mul (env.mv_mul w2)).w) ∧
        (env.proj_mul (env.mv_mul w2)).z * (1 / (env.proj_mul (env.mv_mul w2)).w) ≤ 1)) ∧
    (∀ a b c : ClipVert, clipped_triangle env tex a b c ≠ [] →
      v3_dot (v3_cross (v3_sub b.view_pos a.view_pos) (v3_sub c.view_pos a.view_pos))
        a.view_pos < 0 ∧
      (env.proj_mul ⟨a.view_pos.x, a.view_pos.y, a.view_pos.z, 1⟩).w ≠ 0 ∧
      (env.proj_mul ⟨b.view_pos.x, b.view_pos.y, b.view_pos.z, 1⟩).w ≠ 0 ∧
      (env.proj_mul ⟨c.view_pos.x, c.view_pos.y, c.view_pos.z, 1⟩).w ≠ 0 ∧
      clip_mask (env.proj_mul ⟨a.view_pos.x, a.view_pos.y, a.view_pos.z, 1⟩) &&&
        clip_mask (env.proj_mul ⟨b.view_pos.x, b.view_pos.y, b.view_pos.z, 1⟩) &&&
        clip_mask (env.proj_mul ⟨c.view_pos.x, c.view_pos.y, c.view_pos.z, 1⟩) = 0 ∧
      ¬ (violates FrustumPlane.far
            (env.proj_mul ⟨a.view_pos.x, a.view_pos.y, a.view_pos.z, 1⟩) ∧
          violates FrustumPlane.far
            (env.proj_mul ⟨b.view_pos.x, b.view_pos.y, b.view_pos.z, 1⟩) ∧
          violates FrustumPlane.far
            (env.proj_mul ⟨c.view_pos.x, c.view_pos.y, c.view_pos.z, 1⟩)) ∧
      ¬ (violates FrustumPlane.near
            (env.proj_mul ⟨a.view_pos.x, a.view_pos.y, a.view_pos.z, 1⟩) ∧
          violates FrustumPlane.near
            (env.proj_mul ⟨b.view_pos.x, b.view_pos.y, b.view_pos.z, 1⟩) ∧
          violates FrustumPlane.near
            (env.proj_mul ⟨c.view_pos.x, c.view_pos.y, c.view_pos.z, 1⟩))) := by
  refine ⟨?_, ?_⟩
  · intro w0 w1 w2 uv0 uv1 uv2 hz0 hz1 hz2 hd
    exact face_pipeline_no_clip_drawn env tex w0 w1 w2 uv0 uv1 uv2 hz0 hz1 hz2 hd
  · intro a b c h
    obtain ⟨hback, wa, wb, wc, hand⟩ := clipped_triangle_drawn env tex a b c h
    refine ⟨hback, wa, wb, wc, hand, ?_, ?_⟩
    · rintro ⟨v0, v1, v2⟩
      exact and_ne_zero_of_testBit _ _ _ _ (violates_testBit _ _ v0)
        (violates_testBit _ _ v1) (violates_testBit _ _ v2) hand
    · rintro ⟨v0, v1, v2⟩
      exact and_ne_zero_of_testBit _ _ _ _ (violates_testBit _ _ v0)
        (violates_testBit _ _ v1) (violates_testBit _ _ v2) hand

/-- The near-clip walk of the sample triangle `(0,0,-200)`, `(1,0,-1)`,
`(0,1,1)` with near plane 1/10: four vertices, the last of which is the
unclipped vertex `(0,0,-200)`. -/
theorem sample_far_walk :
    near_clip_walk (1 / 10) ⟨⟨0, 0, -200⟩, ⟨0, 1⟩⟩ ⟨⟨1, 0, -1⟩, ⟨1, 1⟩⟩ ⟨⟨0, 1, 1⟩, ⟨1, 0⟩⟩ =
      [⟨⟨1, 0, -1⟩, ⟨1, 1⟩⟩, ⟨⟨11 / 20, 9 / 20, -1 / 10⟩, ⟨1, 11 / 20⟩⟩,
       ⟨⟨0, 1999 / 2010, -1 / 10⟩, ⟨1999 / 2010, 11 / 2010⟩⟩, ⟨⟨0, 0, -200⟩, ⟨0, 1⟩⟩] := by
  norm_num [near_clip_walk, clip_edge, clip_inter, clip_t]

/-- The clip coordinate of the sample vertex `(0,0,-200)`: beyond the far plane. -/
theorem sample_far_point_clip :
    sample_env.proj_mul ⟨0, 0, -200, 1⟩ = ⟨0, 0, 199900 / 999, 200⟩ := by
  norm_num [sample_env, perspective_mul]

/-- The second sub-triangle of the sample face `(0,0,-200)`, `(1,0,-1)`,
`(0,1,1)` reaches the rasteriser. -/
theorem sample_far_second_triangle :
    ∃ pv0 pv1 pv2 : VertexPC,
      clipped_triangle sample_env TexRef.dirt_tex
          ⟨⟨1, 0, -1⟩, ⟨1, 1⟩⟩ ⟨⟨0, 1999 / 2010, -1 / 10⟩, ⟨1999 / 2010, 11 / 2010⟩⟩
          ⟨⟨0, 0, -200⟩, ⟨0, 1⟩⟩ =
        [DrawCall.draw_textured_triangle TexRef.dirt_tex pv0 pv1 pv2] ∧
      project_vertex sample_env ⟨⟨0, 0, -200⟩, ⟨0, 1⟩⟩ = some (pv2, 32) := by
  have hA : (sample_env.proj_mul ⟨0, 0, -200, 1⟩).w ≠ 0 := by
    rw [sample_far_point_clip]; norm_num
  have hB : (sample_env.proj_mul ⟨1, 0, -1, 1⟩).w ≠ 0 := by
    norm_num [sample_env, perspective_mul]
  have hI : (sample_env.proj_mul ⟨0, 1999 / 2010, -1 / 10, 1⟩).w ≠ 0 := by
    norm_num [sample_env, perspective_mul]
  have pA := project_vertex_some sample_env ⟨⟨0, 0, -200⟩, ⟨0, 1⟩⟩ hA
  have pB := project_vertex_some sample_env ⟨⟨1, 0, -1⟩, ⟨1, 1⟩⟩ hB
  have pI := project_vertex_some sample_env
    ⟨⟨0, 1999 / 2010, -1 / 10⟩, ⟨1999 / 2010, 11 / 2010⟩⟩ hI
  have mA : clip_mask (sample_env.proj_mul ⟨0, 0, -200, 1⟩) = 32 := by
    rw [sample_far_point_clip]; norm_num [clip_mask]
  have mB : clip_mask (sample_env.proj_mul ⟨1, 0, -1, 1⟩) = 0 := by
    norm_num [sample_env, perspective_mul, clip_mask]
  have mI : clip_mask (sample_env.proj_mul ⟨0, 1999 / 2010, -1 / 10, 1⟩) = 8 := by
    norm_num [sample_env, perspective_mul, clip_mask]
  simp only at pA pB pI
  rw [mA] at pA
  rw [mB] at pB
  rw [mI] at pI
  obtain ⟨pvA, hpA⟩ : ∃ pv, project_vertex sample_env ⟨⟨0, 0, -200⟩, ⟨0, 1⟩⟩ =
      some (pv, 32) := ⟨_, pA⟩
  obtain ⟨pvB, hpB⟩ : ∃ pv, project_vertex sample_env ⟨⟨1, 0, -1⟩, ⟨1, 1⟩⟩ =
      some (pv, 0) := ⟨_, pB⟩
  obtain ⟨pvI, hpI⟩ : ∃ pv, project_vertex sample_env
      ⟨⟨0, 1999 / 2010, -1 / 10⟩, ⟨1999 / 2010, 11 / 2010⟩⟩ = some (pv, 8) := ⟨_, pI⟩
  refine ⟨pvB, pvI, pvA, ?_, hpA⟩
  unfold clipped_triangle
  simp only
  rw [if_neg (by norm_num [v3_dot, v3_cross, v3_sub]), hpB, hpI, hpA]
  simp only
  rw [if_neg (by decide)]
  rfl

/-- The sample face `(0,0,-200)`, `(1,0,-1)`, `(0,1,1)` takes the near-clip
path of the face code. -/
theorem sample_far_face_clip_path :
    (demo_frame_face sample_env (sample_face ⟨0, 0, -200⟩ ⟨1, 0, -1⟩ ⟨0, 1, 1⟩)).draws =
      clip_path sample_env TexRef.dirt_tex ⟨⟨0, 0, -200⟩, ⟨0, 1⟩⟩ ⟨⟨1, 0, -1⟩, ⟨1, 1⟩⟩
        ⟨⟨0, 1, 1⟩, ⟨1, 0⟩⟩ := by
  have hA : (sample_env.proj_mul (sample_env.mv_mul ⟨0, 0, -200, 1⟩)).w ≠ 0 := by
    norm_num [sample_env, perspective_mul]
  have hB : (sample_env.proj_mul (sample_env.mv_mul ⟨1, 0, -1, 1⟩)).w ≠ 0 := by
    norm_num [sample_env, perspective_mul]
  have hC : (sample_env.proj_mul (sample_env.mv_mul ⟨0, 1, 1, 1⟩)).w ≠ 0 := by
    norm_num [sample_env, perspective_mul]
  obtain ⟨t0, h0, v0, u0, m0, -, -⟩ := cache_vertex_some sample_env ⟨0, 0, -200, 1⟩ ⟨0, 1⟩ hA
  obtain ⟨t1, h1, v1, u1, m1, -, -⟩ := cache_vertex_some sample_env ⟨1, 0, -1, 1⟩ ⟨1, 1⟩ hB
  obtain ⟨t2, h2, v2, u2, m2, -, -⟩ := cache_vertex_some sample_env ⟨0, 1, 1, 1⟩ ⟨1, 0⟩ hC
  have e1 : t1.clip_mask = 0 := by
    rw [m1]
    norm_num [sample_env, perspective_mul, clip_mask]
  have hv0 : t0.view_pos = ⟨0, 0, -200⟩ := by rw [v0]; simp [sample_env]
  have hv1 : t1.view_pos = ⟨1, 0, -1⟩ := by rw [v1]; simp [sample_env]
  have hv2 : t2.view_pos = ⟨0, 1, 1⟩ := by rw [v2]; simp [sample_env]
  unfold demo_frame_face sample_face
  simp only
  rw [face_pipeline_of_some sample_env TexRef.dirt_tex _ _ _ _ _ _ t0 t1 t2 h0 h1 h2]
  rw [if_neg (by rw [e1]; simp)]
  rw [if_neg (by rw [hv0, hv1, hv2]; norm_num [sample_env])]
  rw [hv0, hv1, hv2, u0, u1, u2]

/-- C19 (counterexample): in the sample frame (near plane 0.1, far plane 100)
the face `(0,0,-200)`, `(1,0,-1)`, `(0,1,1)` needs near clipping; its second
sub-triangle is handed to the rasteriser with the re-projected vertex
`(0,0,-200)`, whose NDC z is 1999/1998, outside `[0, 1]`. -/
theorem clipped_vertex_beyond_far :
    ∃ pv0 pv1 pv2 : VertexPC,
      DrawCall.draw_textured_triangle TexRef.dirt_tex pv0 pv1 pv2 ∈
        (demo_frame_face sample_env
          (sample_face ⟨0, 0, -200⟩ ⟨1, 0, -1⟩ ⟨0, 1, 1⟩)).draws ∧
      project_vertex sample_env ⟨⟨0, 0, -200⟩, ⟨0, 1⟩⟩ = some (pv2, 32) ∧
      (sample_env.proj_mul ⟨0, 0, -200, 1⟩).z / (sample_env.proj_mul ⟨0, 0, -200, 1⟩).w =
        1999 / 1998 ∧
      ¬ ((sample_env.proj_mul ⟨0, 0, -200, 1⟩).z / (sample_env.proj_mul ⟨0, 0, -200, 1⟩).w
        ≤ 1) := by
  obtain ⟨pv0, pv1, pv2, htri, hp⟩ := sample_far_second_triangle
  refine ⟨pv0, pv1, pv2, ?_, hp, ?_, ?_⟩
  · rw [sample_far_face_clip_path]
    unfold clip_path
    have hnear : sample_env.near_plane = 1 / 10 := rfl
    rw [hnear, sample_far_walk]
    simp only
    rw [htri]
    simp
  · rw [sample_far_point_clip]
    norm_num
  · rw [sample_far_point_clip]
    norm_num

/-! ## Sample evaluations of the face code -/

/-- The sample face `(0,0,-1)`, `(1,0,-1)`, `(0,1,-1)`, which lies in front of
the near plane and faces the camera, is drawn on the no-clip path. -/
theorem sample_front_face_drawn :
    (face_pipeline sample_env TexRef.dirt_tex ⟨0, 0, -1, 1⟩ ⟨1, 0, -1, 1⟩ ⟨0, 1, -1, 1⟩
      ⟨0, 1⟩ ⟨1, 1⟩ ⟨1, 0⟩).draws ≠ [] := by
  have hA : (sample_env.proj_mul (sample_env.mv_mul ⟨0, 0, -1, 1⟩)).w ≠ 0 := by
    norm_num [sample_env, perspective_mul]
  have hB : (sample_env.proj_mul (sample_env.mv_mul ⟨1, 0, -1, 1⟩)).w ≠ 0 := by
    norm_num [sample_env, perspective_mul]
  have hC : (sample_env.proj_mul (sample_env.mv_mul ⟨0, 1, -1, 1⟩)).w ≠ 0 := by
    norm_num [sample_env, perspective_mul]
  obtain ⟨t0, h0, v0, -, m0, d0, -⟩ := cache_vertex_some sample_env ⟨0, 0, -1, 1⟩ ⟨0, 1⟩ hA
  obtain ⟨t1, h1, v1, -, m1, d1, -⟩ := cache_vertex_some sample_env ⟨1, 0, -1, 1⟩ ⟨1, 1⟩ hB
  obtain ⟨t2, h2, v2, -, m2, d2, -⟩ := cache_vertex_some sample_env ⟨0, 1, -1, 1⟩ ⟨1, 0⟩ hC
  have e0 : t0.clip_mask = 0 := by
    rw [m0]
    norm_num [sample_env, perspective_mul, clip_mask]
  have hv0 : t0.view_pos = ⟨0, 0, -1⟩ := by rw [v0]; simp [sample_env]
  have hv1 : t1.view_pos = ⟨1, 0, -1⟩ := by rw [v1]; simp [sample_env]
  have hv2 : t2.view_pos = ⟨0, 1, -1⟩ := by rw [v2]; simp [sample_env]
  have k0 : t0.depth_ok = true := d0.mpr (by norm_num [sample_env, perspective_mul])
  have k1 : t1.depth_ok = true := d1.mpr (by norm_num [sample_env, perspective_mul])
  have k2 : t2.depth_ok = true := d2.mpr (by norm_num [sample_env, perspective_mul])
  rw [face_pipeline_of_some sample_env TexRef.dirt_tex _ _ _ _ _ _ t0 t1 t2 h0 h1 h2]
  rw [if_neg (by rw [e0]; simp)]
  rw [if_pos (by rw [hv0, hv1, hv2]; norm_num [sample_env])]
  rw [if_neg (by rw [k0, k1, k2]; simp)]
  rw [if_neg (by rw [hv0, hv1, hv2]; norm_num [v3_dot, v3_cross, v3_sub])]
  simp

/-- Witness for C13: in the sample frame the face `(-5,0,-1)`, `(-5,1,-1)`,
`(-4,0,-1)` lies left of the frustum with all three vertices; `demo_frame`
counts it as culled and draws nothing. -/
theorem outcode_and_test_witness :
    demo_frame_face sample_env (sample_face ⟨-5, 0, -1⟩ ⟨-5, 1, -1⟩ ⟨-4, 0, -1⟩) =
      { culled := 1, draws := [] } :=
  (@outcode_and_test TexRef sample_env).2.2.1
    (sample_face ⟨-5, 0, -1⟩ ⟨-5, 1, -1⟩ ⟨-4, 0, -1⟩) FrustumPlane.left
    (by norm_num [sample_env, perspective_mul, sample_face])
    (by norm_num [sample_env, perspective_mul, sample_face])
    (by norm_num [sample_env, perspective_mul, sample_face])
    (by norm_num [sample_env, perspective_mul, sample_face, violates])
    (by norm_num [sample_env, perspective_mul, sample_face, violates])
    (by norm_num [sample_env, perspective_mul, sample_face, violates])

/-- Witness for C14: the camera-space point `(0,0,-200)` of the sample frame
has the clip coordinate `(0, 0, 199900/999, 200)` with `w ≠ 0`, and
`project_vertex` returns the outcode of that coordinate. -/
theorem clip_mask_outcode_witness :
    ∃ pv : VertexPC, project_vertex sample_env ⟨⟨0, 0, -200⟩, ⟨0, 1⟩⟩ =
      some (pv, clip_mask ⟨0, 0, 199900 / 999, 200⟩) :=
  (clip_mask_outcode ⟨0, 0, 199900 / 999, 200⟩).2.2.2.2.2.2.2.2.1 sample_env
    ⟨⟨0, 0, -200⟩, ⟨0, 1⟩⟩ (by norm_num [sample_env, perspective_mul]) (by norm_num)

/-- Witness for C15: in the sample frame the face `(0,0,1)`, `(1,0,1)`,
`(0,1,1)` lies behind the camera and is not drawn. -/
theorem behind_near_plane_not_drawn_witness :
    (demo_frame_face sample_env (sample_face ⟨0, 0, 1⟩ ⟨1, 0, 1⟩ ⟨0, 1, 1⟩)).draws = [] :=
  (@behind_near_plane_not_drawn TexRef sample_env).1
    (sample_face ⟨0, 0, 1⟩ ⟨1, 0, 1⟩ ⟨0, 1, 1⟩)
    (by norm_num [sample_env, sample_face])
    (by norm_num [sample_env, sample_face])
    (by norm_num [sample_env, sample_face])

/-- Witness for C16: with the near plane 1/10 of the sample frame the triangle
`(0,0,-200)`, `(1,0,-1)`, `(0,1,1)` has exactly two vertices inside and the
walk outputs four vertices. -/
theorem near_clip_walk_counts_witness :
    (near_clip_walk sample_env.near_plane ⟨⟨0, 0, -200⟩, ⟨0, 1⟩⟩ ⟨⟨1, 0, -1⟩, ⟨1, 1⟩⟩
      ⟨⟨0, 1, 1⟩, ⟨1, 0⟩⟩).length = 4 :=
  (@near_clip_walk_counts TexRef sample_env ⟨⟨0, 0, -200⟩, ⟨0, 1⟩⟩ ⟨⟨1, 0, -1⟩, ⟨1, 1⟩⟩
    ⟨⟨0, 1, 1⟩, ⟨1, 0⟩⟩).2.2.2.1
    (Or.inl ⟨by norm_num [sample_env], by norm_num [sample_env], by norm_num [sample_env]⟩)

/-- Witness for C19 (amended): the sample face `(0,0,-1)`, `(1,0,-1)`,
`(0,1,-1)` is drawn on the no-clip path and its first vertex has NDC z in
`[0, 1]`; the second sub-triangle of the sample face `(0,0,-200)`, `(1,0,-1)`,
`(0,1,1)` is drawn, it passes the backface test and the AND of its three
outcodes is 0. -/
theorem rasterised_ndc_z_witness :
    (0 ≤ (sample_env.proj_mul (sample_env.mv_mul ⟨0, 0, -1, 1⟩)).z *
        (1 / (sample_env.proj_mul (sample_env.mv_mul ⟨0, 0, -1, 1⟩)).w) ∧
      (sample_env.proj_mul (sample_env.mv_mul ⟨0, 0, -1, 1⟩)).z *
        (1 / (sample_env.proj_mul (sample_env.mv_mul ⟨0, 0, -1, 1⟩)).w) ≤ 1) ∧
    v3_dot (v3_cross (v3_sub (⟨0, 1999 / 2010, -1 / 10⟩ : v3f) ⟨1, 0, -1⟩)
      (v3_sub (⟨0, 0, -200⟩ : v3f) ⟨1, 0, -1⟩)) ⟨1, 0, -1⟩ < 0 ∧
    clip_mask (sample_env.proj_mul ⟨1, 0, -1, 1⟩) &&&
      clip_mask (sample_env.proj_mul ⟨0, 1999 / 2010, -1 / 10, 1⟩) &&&
      clip_mask (sample_env.proj_mul ⟨0, 0, -200, 1⟩) = 0 := by
  refine ⟨?_, ?_⟩
  · exact ((rasterised_ndc_z sample_env TexRef.dirt_tex).1 ⟨0, 0, -1, 1⟩ ⟨1, 0, -1, 1⟩
      ⟨0, 1, -1, 1⟩ ⟨0, 1⟩ ⟨1, 1⟩ ⟨1, 0⟩ (by norm_num [sample_env])
      (by norm_num [sample_env]) (by norm_num [sample_env]) sample_front_face_drawn).1
  · obtain ⟨pv0, pv1, pv2, htri, -⟩ := sample_far_second_triangle
    have h := (rasterised_ndc_z sample_env TexRef.dirt_tex).2
      ⟨⟨1, 0, -1⟩, ⟨1, 1⟩⟩ ⟨⟨0, 1999 / 2010, -1 / 10⟩, ⟨1999 / 2010, 11 / 2010⟩⟩
      ⟨⟨0, 0, -200⟩, ⟨0, 1⟩⟩ (by rw [htri]; simp)
    exact ⟨h.1, h.2.2.2.2.1⟩

/-! ## Flat index and scan range -/

/-- The flat index of an in-range coordinate lies in `[0, size_x*size_y*size_z)`. -/
theorem block_index_bounds (demo : Demo) (x y z : ℤ) (h : ¬ out_of_range demo x y z) :
    0 ≤ block_index demo x y z ∧
    block_index demo x y z < demo.size_x * demo.size_y * demo.size_z := by
  simp only [out_of_range, not_or, not_lt, ge_iff_le, not_le] at h
  obtain ⟨hx0, hx1, hy0, hy1, hz0, hz1⟩ := h
  unfold block_index
  have h1 : 0 ≤ y * demo.size_z + z := add_nonneg (mul_nonneg hy0 (by omega)) hz0
  have h2 : y * demo.size_z + z + 1 ≤ demo.size_y * demo.size_z := by
    have : (y + 1) * demo.size_z ≤ demo.size_y * demo.size_z :=
      mul_le_mul_of_nonneg_right (by omega) (by omega)
    nlinarith
  constructor
  · have : 0 ≤ (y * demo.size_z + z) * demo.size_x :=
      mul_nonneg h1 (by omega)
    omega
  · have h3 : (y * demo.size_z + z + 1) * demo.size_x ≤
        demo.size_y * demo.size_z * demo.size_x :=
      mul_le_mul_of_nonneg_right h2 (by omega)
    nlinarith

/-- The loops of `resolve_collisions` run over the clamped bounds. -/
theorem resolve_collisions_eq_loops (demo : Demo) :
    resolve_collisions demo =
      (for_loop (ix_min demo) (ix_max demo + 1) (fun x =>
        for_loop (iz_min demo) (iz_max demo + 1) (fun z =>
          for_loop (iy_min demo) (iy_max demo + 1) (fun y =>
            resolve_collisions_body x z y))) (resolve_init demo)).demo :=
  rfl

/-- A clamped lower bound is not negative; a clamped upper bound is below the size. -/
theorem clamp_bounds (i size : ℤ) : 0 ≤ clamp_lo i ∧ clamp_hi i size < size := by
  unfold clamp_lo clamp_hi
  constructor <;> split_ifs <;> omega

/-! ## Near-clip walk: interpolation parameter and emitted vertices -/

/-- On an edge that crosses the near plane the denominator of `t` is non-zero
and `t` lies in `[0, 1]`. -/
theorem clip_t_range (near_plane : ℚ) (a b : ClipVert)
    (hcross : (a.view_pos.z ≤ -near_plane ∧ ¬ b.view_pos.z ≤ -near_plane) ∨
      (¬ a.view_pos.z ≤ -near_plane ∧ b.view_pos.z ≤ -near_plane)) :
    b.view_pos.z - a.view_pos.z ≠ 0 ∧ 0 ≤ clip_t near_plane a b ∧
      clip_t near_plane a b ≤ 1 := by
  unfold clip_t
  rcases hcross with ⟨ha, hb⟩ | ⟨ha, hb⟩
  · have hb' := not_le.mp hb
    have hd : 0 < b.view_pos.z - a.view_pos.z := by linarith
    refine ⟨ne_of_gt hd, div_nonneg (by linarith) hd.le, ?_⟩
    rw [div_le_one hd]
    linarith
  · have ha' := not_le.mp ha
    have hd : b.view_pos.z - a.view_pos.z < 0 := by linarith
    refine ⟨ne_of_lt hd, div_nonneg_of_nonpos (by linarith) hd.le, ?_⟩
    rw [div_le_one_of_neg hd]
    linarith

/-- Every vertex emitted for an edge lies on or beyond the near plane. -/
theorem clip_edge_inside (near_plane : ℚ) (a b p : ClipVert)
    (hp : p ∈ clip_edge near_plane a b) : p.view_pos.z ≤ -near_plane := by
  unfold clip_edge at hp
  simp only at hp
  by_cases ha : a.view_pos.z ≤ -near_plane <;> by_cases hb : b.view_pos.z ≤ -near_plane
  · rw [if_pos ⟨ha, hb⟩] at hp
    rw [List.mem_singleton.mp hp]
    exact hb
  · rw [if_neg (fun h => hb h.2), if_pos ⟨ha, hb⟩] at hp
    rw [List.mem_singleton.mp hp]
    exact le_refl _
  · rw [if_neg (fun h => ha h.1), if_neg (fun h => ha h.1), if_pos ⟨ha, hb⟩] at hp
    rcases List.mem_cons.mp hp with h | h
    · rw [h]
      exact le_refl _
    · rw [List.mem_singleton.mp h]
      exact hb
  · rw [if_neg (fun h => hb h.2), if_neg (fun h => ha h.1), if_neg (fun h => hb h.2)] at hp
    exact absurd hp (List.not_mem_nil p)

/-- C26: in the near-clip walk, on every edge `a → b` whose endpoints lie on
different sides of the near plane the denominator `b.z - a.z` is non-zero, the
interpolation parameter `t` lies in `[0, 1]` and the interpolated vertex is
among the vertices emitted for the edge; every vertex the walk emits satisfies
`view_z <= -near_plane`. -/
theorem near_clip_walk_safe (near_plane : ℚ) :
    (∀ a b : ClipVert,
      ((a.view_pos.z ≤ -near_plane ∧ ¬ b.view_pos.z ≤ -near_plane) ∨
        (¬ a.view_pos.z ≤ -near_plane ∧ b.view_pos.z ≤ -near_plane)) →
      b.view_pos.z - a.view_pos.z ≠ 0 ∧
      (0 ≤ clip_t near_plane a b ∧ clip_t near_plane a b ≤ 1) ∧
      clip_inter near_plane a b ∈ clip_edge near_plane a b) ∧
    (∀ (v0 v1 v2 p : ClipVert), p ∈ near_clip_walk near_plane v0 v1 v2 →
      p.view_pos.z ≤ -near_plane) := by
  refine ⟨?_, ?_⟩
  · intro a b hcross
    obtain ⟨h1, h2, h3⟩ := clip_t_range near_plane a b hcross
    refine ⟨h1, ⟨h2, h3⟩, ?_⟩
    unfold clip_edge
    rcases hcross with ⟨ha, hb⟩ | ⟨ha, hb⟩
    · simp [ha, hb]
    · simp [ha, hb]
  · intro v0 v1 v2 p hp
    unfold near_clip_walk at hp
    rcases List.mem_append.mp hp with h | h
    · rcases List.mem_append.mp h with h | h
      · exact clip_edge_inside near_plane _ _ p h
      · exact clip_edge_inside near_plane _ _ p h
    · exact clip_edge_inside near_plane _ _ p h

/-- Witness for C26: the edge from `(1, 0, -1)` to `(0, 1, 1)` crosses the near
plane 1/10; the denominator is 2 and `t` is 9/20. -/
theorem near_clip_walk_safe_witness :
    (⟨⟨0, 1, 1⟩, ⟨1, 0⟩⟩ : ClipVert).view_pos.z - (⟨⟨1, 0, -1⟩, ⟨1, 1⟩⟩ : ClipVert).view_pos.z
      ≠ 0 ∧
    (0 ≤ clip_t (1 / 10) ⟨⟨1, 0, -1⟩, ⟨1, 1⟩⟩ ⟨⟨0, 1, 1⟩, ⟨1, 0⟩⟩ ∧
      clip_t (1 / 10) ⟨⟨1, 0, -1⟩, ⟨1, 1⟩⟩ ⟨⟨0, 1, 1⟩, ⟨1, 0⟩⟩ ≤ 1) ∧
    clip_inter (1 / 10) ⟨⟨1, 0, -1⟩, ⟨1, 1⟩⟩ ⟨⟨0, 1, 1⟩, ⟨1, 0⟩⟩ ∈
      clip_edge (1 / 10) ⟨⟨1, 0, -1⟩, ⟨1, 1⟩⟩ ⟨⟨0, 1, 1⟩, ⟨1, 0⟩⟩ :=
  (near_clip_walk_safe (1 / 10)).1 ⟨⟨1, 0, -1⟩, ⟨1, 1⟩⟩ ⟨⟨0, 1, 1⟩, ⟨1, 0⟩⟩
    (Or.inl ⟨by norm_num, by norm_num⟩)

/-! ## Camera direction -/

/-- C21: for library functions with `sinf a ^ 2 + cosf a ^ 2 = 1` for every
angle, `sqrtf 1 = 1` and `sinf 0 = 0`, the vector
`(sin yaw * cos pitch, sin pitch, -cos yaw * cos pitch)` has squared length 1
before normalisation, `camera_forward` returns that vector, its squared length
and its length `sqrtf(dot(v, v))` are 1, and for `pitch = 0` its y component
is 0. -/
theorem camera_forward_unit (m : LibM) (cam : Camera)
    (hpyth : ∀ a : ℚ, m.sinf a ^ 2 + m.cosf a ^ 2 = 1) (hsqrt : m.sqrtf 1 = 1)
    (hsin : m.sinf 0 = 0) :
    v3_dot ⟨m.sinf cam.yaw * m.cosf cam.pitch, m.sinf cam.pitch,
        -m.cosf cam.yaw * m.cosf cam.pitch⟩
      ⟨m.sinf cam.yaw * m.cosf cam.pitch, m.sinf cam.pitch,
        -m.cosf cam.yaw * m.cosf cam.pitch⟩ = 1 ∧
    camera_forward m cam = ⟨m.sinf cam.yaw * m.cosf cam.pitch, m.sinf cam.pitch,
        -m.cosf cam.yaw * m.cosf cam.pitch⟩ ∧
    v3_dot (camera_forward m cam) (camera_forward m cam) = 1 ∧
    m.sqrtf (v3_dot (camera_forward m cam) (camera_forward m cam)) = 1 ∧
    (cam.pitch = 0 → (camera_forward m cam).y = 0) := by
  have hlen : v3_dot ⟨m.sinf cam.yaw * m.cosf cam.pitch, m.sinf cam.pitch,
        -m.cosf cam.yaw * m.cosf cam.pitch⟩
      ⟨m.sinf cam.yaw * m.cosf cam.pitch, m.sinf cam.pitch,
        -m.cosf cam.yaw * m.cosf cam.pitch⟩ = 1 := by
    unfold v3_dot
    have h1 := hpyth cam.yaw
    have h2 := hpyth cam.pitch
    have h3 : m.sinf cam.yaw * m.cosf cam.pitch * (m.sinf cam.yaw * m.cosf cam.pitch) +
        m.sinf cam.pitch * m.sinf cam.pitch +
        -m.cosf cam.yaw * m.cosf cam.pitch * (-m.cosf cam.yaw * m.cosf cam.pitch) =
        (m.sinf cam.yaw ^ 2 + m.cosf cam.yaw ^ 2) * m.cosf cam.pitch ^ 2 +
          m.sinf cam.pitch ^ 2 := by ring
    rw [h3, h1, one_mul, add_comm]
    exact h2
  have hfwd : camera_forward m cam = ⟨m.sinf cam.yaw * m.cosf cam.pitch, m.sinf cam.pitch,
        -m.cosf cam.yaw * m.cosf cam.pitch⟩ := by
    unfold camera_forward v3_normalize
    simp only
    rw [hlen, hsqrt]
    simp only [div_one]
  refine ⟨hlen, hfwd, ?_, ?_, ?_⟩
  · rw [hfwd]
    exact hlen
  · rw [hfwd, hlen]
    exact hsqrt
  · intro hp
    rw [hfwd]
    show m.sinf cam.pitch = 0
    rw [hp]
    exact hsin

/-- Witness for C21: with the sample library functions the camera with yaw 1/2
and pitch 0 looks along `(4/5, 0, -3/5)`. -/
theorem camera_forward_unit_witness :
    camera_forward sample_libm { pos := ⟨0, 0, 0⟩, yaw := 1 / 2, pitch := 0 } =
      ⟨4 / 5, 0, -3 / 5⟩ ∧
    v3_dot (camera_forward sample_libm { pos := ⟨0, 0, 0⟩, yaw := 1 / 2, pitch := 0 })
      (camera_forward sample_libm { pos := ⟨0, 0, 0⟩, yaw := 1 / 2, pitch := 0 }) = 1 := by
  have h := camera_forward_unit sample_libm { pos := ⟨0, 0, 0⟩, yaw := 1 / 2, pitch := 0 }
    (by
      intro a
      have ha : (1 : ℚ) + a ^ 2 ≠ 0 := by positivity
      simp only [sample_libm]
      field_simp
      ring)
    (by simp [sample_libm])
    (by simp [sample_libm])
  refine ⟨?_, h.2.2.1⟩
  rw [h.2.1]
  norm_num [sample_libm]

/-! ## Collision resolver: the grounded flag -/

/-- A flag that an iteration sets exactly when `Q` holds of the state it is
entered with is set after a `for_loop` iff it was set before or `Q` held at some
iteration of the loop, in the state that iteration was entered with. -/
theorem for_loop_flag {σ : Type} (P : σ → Prop) (Q : ℤ → σ → Prop) (lo hi : ℤ)
    (body : ℤ → σ → σ) (hbody : ∀ i s, P (body i s) ↔ P s ∨ Q i s) (s : σ) :
    P (for_loop lo hi body s) ↔
      P s ∨ ∃ i : ℤ, lo ≤ i ∧ i < hi ∧ Q i (for_loop lo i body s) := by
  have hk : ∀ n : ℕ,
      P ((List.range n).foldl (fun st (k : ℕ) => body (lo + (k : ℤ)) st) s) ↔
        P s ∨ ∃ k : ℕ, k < n ∧
          Q (lo + (k : ℤ)) ((List.range k).foldl (fun st (j : ℕ) => body (lo + (j : ℤ)) st) s) := by
    intro n
    induction n with
    | zero => simp
    | succ n ih =>
      rw [List.range_succ, List.foldl_append]
      simp only [List.foldl_cons, List.foldl_nil]
      rw [hbody, ih]
      constructor
      · rintro ((h | ⟨k, hk, hq⟩) | hq)
        · exact Or.inl h
        · exact Or.inr ⟨k, by omega, hq⟩
        · exact Or.inr ⟨n, by omega, hq⟩
      · rintro (h | ⟨k, hk, hq⟩)
        · exact Or.inl (Or.inl h)
        · by_cases hkn : k = n
          · subst hkn
            exact Or.inr hq
          · exact Or.inl (Or.inr ⟨k, by omega, hq⟩)
  unfold for_loop
  rw [hk]
  constructor
  · rintro (h | ⟨k, hk, hq⟩)
    · exact Or.inl h
    · refine Or.inr ⟨lo + (k : ℤ), by omega, by omega, ?_⟩
      have e : (lo + (k : ℤ) - lo).toNat = k := by omega
      rw [e]
      exact hq
  · rintro (h | ⟨i, h1, h2, hq⟩)
    · exact Or.inl h
    · refine Or.inr ⟨(i - lo).toNat, by omega, ?_⟩
      have e : lo + ((i - lo).toNat : ℤ) = i := by omega
      rw [e]
      exact hq

/-- The loop body sets `grounded` exactly when it pushes the box up. -/
theorem resolve_collisions_body_grounded (st : ResolveState) (x z y : ℤ) :
    (resolve_collisions_body x z y st).demo.grounded = true ↔
      st.demo.grounded = true ∨ pushes_up st x z y := by
  unfold resolve_collisions_body pushes_up
  by_cases hair : block_get st.demo x y z = BlockType.BLOCK_AIR
  · rw [if_pos hair]
    simp [hair]
  · rw [if_neg hair]
    simp only
    by_cases hint : 0 < overlap_x st x ∧ 0 < overlap_y st y ∧ 0 < overlap_z st z
    · rw [if_pos hint]
      by_cases hxb : overlap_x st x ≤ overlap_y st y ∧ overlap_x st x ≤ overlap_z st z
      · rw [if_pos hxb]
        simp [push_x, hxb]
      · rw [if_neg hxb]
        by_cases hyb : overlap_y st y ≤ overlap_x st x ∧ overlap_y st y ≤ overlap_z st z
        · rw [if_pos hyb]
          simp only [push_y]
          by_cases hd : 0 < (if st.pcy < (bmin_y y + bmax_y y) * (1 / 2) then -overlap_y st y
              else overlap_y st y)
          · rw [if_pos hd]
            simp only [true_iff]
            exact Or.inr ⟨hair, hint, hxb, hyb, hd⟩
          · rw [if_neg hd]
            constructor
            · intro h
              exact Or.inl h
            · rintro (h | ⟨-, -, -, -, h⟩)
              · exact h
              · exact absurd h hd
        · rw [if_neg hyb]
          simp [push_z, hyb]
    · rw [if_neg hint]
      simp [hint]

/-- A cell that is pushed up moves the box by its vertical overlap. -/
theorem pushes_up_body (st : ResolveState) (x z y : ℤ) (h : pushes_up st x z y) :
    resolve_collisions_body x z y st = push_y st (overlap_y st y) ∧
      0 < overlap_y st y := by
  obtain ⟨hair, hint, hxb, hyb, hd⟩ := h
  unfold resolve_collisions_body
  rw [if_neg hair]
  simp only
  rw [if_pos hint, if_neg hxb, if_pos hyb]
  by_cases hc : st.pcy < (bmin_y y + bmax_y y) * (1 / 2)
  · rw [if_pos hc] at hd
    linarith [hint.2.1]
  · rw [if_neg hc]
    exact ⟨rfl, hint.2.1⟩

/-- C24: `resolve_collisions` gives the same result for two states that differ
only in `grounded`; and `grounded` is true afterwards iff for some cell of the
scanned range the loop body, in the state it was entered with for that cell,
took the y branch with a positive displacement (it then moved the box up by the
vertical overlap). -/
theorem grounded_recomputed (demo : Demo) :
    (∀ g : Bool, resolve_collisions { demo with grounded := g } = resolve_collisions demo) ∧
    ((resolve_collisions demo).grounded = true ↔
      ∃ x z y : ℤ, (ix_min demo ≤ x ∧ x ≤ ix_max demo) ∧
        (iz_min demo ≤ z ∧ z ≤ iz_max demo) ∧ (iy_min demo ≤ y ∧ y ≤ iy_max demo) ∧
        pushes_up (resolve_before demo x z y) x z y) ∧
    (∀ x z y : ℤ, pushes_up (resolve_before demo x z y) x z y →
      resolve_collisions_body x z y (resolve_before demo x z y) =
        push_y (resolve_before demo x z y) (overlap_y (resolve_before demo x z y) y) ∧
      0 < overlap_y (resolve_before demo x z y) y) := by
  refine ⟨fun g => rfl, ?_, fun x z y h => pushes_up_body _ x z y h⟩
  have hy : ∀ (x z : ℤ) (s : ResolveState),
      (for_loop (iy_min demo) (iy_max demo + 1)
          (fun y => resolve_collisions_body x z y) s).demo.grounded = true ↔
        s.demo.grounded = true ∨ ∃ y : ℤ, iy_min demo ≤ y ∧ y < iy_max demo + 1 ∧
          pushes_up (for_loop (iy_min demo) y (fun y' => resolve_collisions_body x z y') s)
            x z y :=
    fun x z s => for_loop_flag (fun s : ResolveState => s.demo.grounded = true)
      (fun y s => pushes_up s x z y) _ _ _
      (fun i s => resolve_collisions_body_grounded s x z i) s
  have hz : ∀ (x : ℤ) (s : ResolveState),
      (for_loop (iz_min demo) (iz_max demo + 1) (fun z =>
          for_loop (iy_min demo) (iy_max demo + 1)
            (fun y => resolve_collisions_body x z y)) s).demo.grounded = true ↔
        s.demo.grounded = true ∨ ∃ z : ℤ, iz_min demo ≤ z ∧ z < iz_max demo + 1 ∧
          ∃ y : ℤ, iy_min demo ≤ y ∧ y < iy_max demo + 1 ∧
            pushes_up (for_loop (iy_min demo) y (fun y' => resolve_collisions_body x z y')
              (for_loop (iz_min demo) z (fun z' =>
                for_loop (iy_min demo) (iy_max demo + 1)
                  (fun y' => resolve_collisions_body x z' y')) s)) x z y :=
    fun x s => for_loop_flag (fun s : ResolveState => s.demo.grounded = true)
      (fun z s => ∃ y : ℤ, iy_min demo ≤ y ∧ y < iy_max demo + 1 ∧
        pushes_up (for_loop (iy_min demo) y (fun y' => resolve_collisions_body x z y') s)
          x z y) _ _ _
      (fun i s => hy x i s) s
  have hx := for_loop_flag (fun s : ResolveState => s.demo.grounded = true)
      (fun x s => ∃ z : ℤ, iz_min demo ≤ z ∧ z < iz_max demo + 1 ∧
          ∃ y : ℤ, iy_min demo ≤ y ∧ y < iy_max demo + 1 ∧
            pushes_up (for_loop (iy_min demo) y (fun y' => resolve_collisions_body x z y')
              (for_loop (iz_min demo) z (fun z' =>
                for_loop (iy_min demo) (iy_max demo + 1)
                  (fun y' => resolve_collisions_body x z' y')) s)) x z y)
      (ix_min demo) (ix_max demo + 1)
      (fun x => for_loop (iz_min demo) (iz_max demo + 1) (fun z =>
          for_loop (iy_min demo) (iy_max demo + 1)
            (fun y => resolve_collisions_body x z y)))
      (fun i s => hz i s) (resolve_init demo)
  rw [resolve_collisions_eq_loops]
  refine hx.trans ?_
  have h0 : ¬ (resolve_init demo).demo.grounded = true := by
    simp [resolve_init]
  constructor
  · rintro (h | ⟨x, hx0, hx1, z, hz0, hz1, y, hy0, hy1, hp⟩)
    · exact absurd h h0
    · exact ⟨x, z, y, ⟨hx0, by omega⟩, ⟨hz0, by omega⟩, ⟨hy0, by omega⟩, hp⟩
  · rintro ⟨x, z, y, ⟨hx0, hx1⟩, ⟨hz0, hz1⟩, ⟨hy0, hy1⟩, hp⟩
    exact Or.inr ⟨x, hx0, by omega, z, hz0, by omega, y, hy0, by omega, hp⟩

/-- The scanned range of the landing state is the single cell `(0, 0, 0)`. -/
theorem landing_scan_range :
    ix_min (sample_player ⟨0, 3 / 2, 0⟩ 1 1 1 all_stone) = 0 ∧
    ix_max (sample_player ⟨0, 3 / 2, 0⟩ 1 1 1 all_stone) = 0 ∧
    iz_min (sample_player ⟨0, 3 / 2, 0⟩ 1 1 1 all_stone) = 0 ∧
    iz_max (sample_player ⟨0, 3 / 2, 0⟩ 1 1 1 all_stone) = 0 ∧
    iy_min (sample_player ⟨0, 3 / 2, 0⟩ 1 1 1 all_stone) = 0 ∧
    iy_max (sample_player ⟨0, 3 / 2, 0⟩ 1 1 1 all_stone) = 0 := by
  have e1 : ⌊(1 / 5 : ℚ)⌋ = 0 := by rw [Int.floor_eq_iff]; norm_num
  have e2 : ⌊(4 / 5 : ℚ)⌋ = 0 := by rw [Int.floor_eq_iff]; norm_num
  have e3 : ⌊(-(3 / 2) : ℚ)⌋ = -2 := by rw [Int.floor_eq_iff]; norm_num
  have e4 : ⌊(1 / 10 : ℚ)⌋ = 0 := by rw [Int.floor_eq_iff]; norm_num
  have a1 : (0 : ℚ) - 3 / 10 + ((1 : ℤ) : ℚ) * (1 / 2) = 1 / 5 := by norm_num
  have a2 : (0 : ℚ) + 3 / 10 + ((1 : ℤ) : ℚ) * (1 / 2) = 4 / 5 := by norm_num
  have a3 : -((3 / 2 : ℚ) - 8 / 5) = 1 / 10 := by norm_num
  refine ⟨?_, ?_, ?_, ?_, ?_, ?_⟩
  · show clamp_lo ⌊(0 : ℚ) - 3 / 10 + ((1 : ℤ) : ℚ) * (1 / 2)⌋ = 0
    rw [a1, e1]; rfl
  · show clamp_hi ⌊(0 : ℚ) + 3 / 10 + ((1 : ℤ) : ℚ) * (1 / 2)⌋ 1 = 0
    rw [a2, e2]; rfl
  · show clamp_lo ⌊(0 : ℚ) - 3 / 10 + ((1 : ℤ) : ℚ) * (1 / 2)⌋ = 0
    rw [a1, e1]; rfl
  · show clamp_hi ⌊(0 : ℚ) + 3 / 10 + ((1 : ℤ) : ℚ) * (1 / 2)⌋ 1 = 0
    rw [a2, e2]; rfl
  · show clamp_lo ⌊-(3 / 2 : ℚ)⌋ = 0
    rw [e3]; rfl
  · show clamp_hi ⌊-((3 / 2 : ℚ) - 8 / 5)⌋ 1 = 0
    rw [a3, e4]; rfl

/-- In the landing state the loop body pushes the box up at the cell `(0, 0, 0)`. -/
theorem landing_state_pushes_up :
    pushes_up (resolve_before (sample_player ⟨0, 3 / 2, 0⟩ 1 1 1 all_stone) 0 0 0) 0 0 0 := by
  have hb : resolve_before (sample_player ⟨0, 3 / 2, 0⟩ 1 1 1 all_stone) 0 0 0 =
      landing_state all_stone := by
    unfold resolve_before
    obtain ⟨h1, -, h3, -, h5, -⟩ := landing_scan_range
    rw [h1, h3, h5]
    rfl
  rw [hb]
  obtain ⟨ox, oy, oz⟩ := landing_state_overlaps
  unfold pushes_up
  rw [ox, oy, oz]
  refine ⟨landing_state_solid, by norm_num, by norm_num, by norm_num, ?_⟩
  norm_num [landing_state, resolve_init, sample_player, sample_demo, bmin_y, bmax_y,
    PLAYER_HEIGHT]

/-- Witness for C24: the player standing 1/10 deep in the single stone cell of a
1 x 1 x 1 grid is pushed up at that cell and is grounded after the pass. -/
theorem grounded_recomputed_witness :
    (resolve_collisions (sample_player ⟨0, 3 / 2, 0⟩ 1 1 1 all_stone)).grounded = true :=
  (grounded_recomputed (sample_player ⟨0, 3 / 2, 0⟩ 1 1 1 all_stone)).2.1.mpr
    ⟨0, 0, 0,
      ⟨le_of_eq landing_scan_range.1, le_of_eq landing_scan_range.2.1.symm⟩,
      ⟨le_of_eq landing_scan_range.2.2.1, le_of_eq landing_scan_range.2.2.2.1.symm⟩,
      ⟨le_of_eq landing_scan_range.2.2.2.2.1, le_of_eq landing_scan_range.2.2.2.2.2.symm⟩,
      landing_state_pushes_up⟩

/-! ## Block raycaster: termination and the order of the steps -/

/-- A result reached with some fuel is reached with more fuel. -/
theorem raycast_loop_fuel_succ (demo : Demo) (max_dist : ℚ) (c : RaySetup) :
    ∀ (fuel : ℕ) (st : RayState) (r : Option RayHit),
      raycast_loop demo max_dist c fuel st = some r →
      raycast_loop demo max_dist c (fuel + 1) st = some r := by
  intro fuel
  induction fuel with
  | zero =>
    intro st r h
    simp [raycast_loop] at h
  | succ f ih =>
    intro st r h
    rw [raycast_loop] at h
    rw [raycast_loop]
    by_cases h1 : st.t ≤ (max_dist : WithTop ℚ)
    · rw [if_pos h1] at h ⊢
      by_cases h2 : (st.ix ≥ 0 ∧ st.ix < demo.size_x ∧ st.iy ≥ 0 ∧ st.iy < demo.size_y ∧
          st.iz ≥ 0 ∧ st.iz < demo.size_z) ∧
          block_get demo st.ix st.iy st.iz ≠ BlockType.BLOCK_AIR
      · rw [if_pos h2] at h ⊢
        exact h
      · rw [if_neg h2] at h ⊢
        simp only at h ⊢
        by_cases h3 : (max_dist : WithTop ℚ) < (raycast_advance c st).t
        · rw [if_pos h3] at h ⊢
          exact h
        · rw [if_neg h3] at h ⊢
          exact ih _ r h
    · rw [if_neg h1] at h ⊢
      exact h

/-- A result reached with some fuel is reached with any larger fuel. -/
theorem raycast_loop_fuel_mono (demo : Demo) (max_dist : ℚ) (c : RaySetup)
    (fuel0 fuel : ℕ) (hf : fuel0 ≤ fuel) (st : RayState) (r : Option RayHit)
    (h : raycast_loop demo max_dist c fuel0 st = some r) :
    raycast_loop demo max_dist c fuel st = some r := by
  induction fuel with
  | zero =>
    have : fuel0 = 0 := by omega
    rw [this] at h
    exact h
  | succ f ih =>
    by_cases hle : fuel0 ≤ f
    · exact raycast_loop_fuel_succ demo max_dist c f st r (ih hle)
    · have : fuel0 = f + 1 := by omega
      rw [this] at h
      exact h

/-- An axis whose `tMax` is infinite is not the one an advance steps along x,
and its `tMax` stays infinite. -/
theorem raycast_advance_top_x (c : RaySetup) (st : RayState) (h : st.tMaxX = ⊤) :
    (raycast_advance c st).tMaxX = ⊤ ∧ (raycast_advance c st).ix = st.ix := by
  unfold raycast_advance
  have h1 : ¬ st.tMaxX < st.tMaxY := by
    rw [h]
    exact not_top_lt
  rw [if_neg h1]
  by_cases h2 : st.tMaxY < st.tMaxZ
  · rw [if_pos h2]
    exact ⟨h, rfl⟩
  · rw [if_neg h2]
    exact ⟨h, rfl⟩

/-- The same for the y axis. -/
theorem raycast_advance_top_y (c : RaySetup) (st : RayState) (h : st.tMaxY = ⊤) :
    (raycast_advance c st).tMaxY = ⊤ ∧ (raycast_advance c st).iy = st.iy := by
  unfold raycast_advance
  have h2 : ¬ st.tMaxY < st.tMaxZ := by
    rw [h]
    exact not_top_lt
  by_cases h1 : st.tMaxX < st.tMaxY
  · rw [if_pos h1]
    by_cases h3 : st.tMaxX < st.tMaxZ
    · rw [if_pos h3]
      exact ⟨h, rfl⟩
    · rw [if_neg h3]
      exact ⟨h, rfl⟩
  · rw [if_neg h1, if_neg h2]
    exact ⟨h, rfl⟩

/-- An infinite `tMaxZ` stays infinite, and z is not stepped while x or y has a
finite `tMax`. -/
theorem raycast_advance_top_z (c : RaySetup) (st : RayState) (h : st.tMaxZ = ⊤) :
    (raycast_advance c st).tMaxZ = ⊤ ∧
    ((st.tMaxX ≠ ⊤ ∨ st.tMaxY ≠ ⊤) → (raycast_advance c st).iz = st.iz) := by
  unfold raycast_advance
  by_cases h1 : st.tMaxX < st.tMaxY
  · rw [if_pos h1]
    have h3 : st.tMaxX < st.tMaxZ := by
      rw [h]
      exact lt_of_lt_of_le h1 le_top
    rw [if_pos h3]
    exact ⟨h, fun _ => rfl⟩
  · rw [if_neg h1]
    by_cases h2 : st.tMaxY < st.tMaxZ
    · rw [if_pos h2]
      exact ⟨h, fun _ => rfl⟩
    · rw [if_neg h2]
      refine ⟨?_, ?_⟩
      · show st.tMaxZ + c.invZ = ⊤
        rw [h]
        exact WithTop.top_add _
      · intro hfin
        exfalso
        rw [h] at h2
        have hy : st.tMaxY = ⊤ := by
          by_contra hne
          exact h2 (lt_top_iff_ne_top.mpr hne)
        rw [hy] at h1
        have hx : st.tMaxX = ⊤ := by
          by_contra hne
          exact h1 (lt_top_iff_ne_top.mpr hne)
        rcases hfin with hf | hf
        · exact hf hx
        · exact hf hy

/-- A reciprocal computed by `inv_of` is not negative. -/
theorem inv_of_nonneg (gd : ℚ) : (0 : WithTop ℚ) ≤ inv_of gd := by
  rcases inv_of_valid gd with h | ⟨i, hi, h⟩
  · rw [h]
    exact le_top
  · rw [h]
    exact WithTop.coe_le_coe.mpr hi.le

/-- The initial `tMax` of an axis is not negative. -/
theorem tMax_of_nonneg (gd g : ℚ) (step : ℤ) : (0 : WithTop ℚ) ≤ tMax_of gd g ⌊g⌋ step := by
  unfold tMax_of
  by_cases h : gd ≠ 0
  · rw [if_pos h]
    apply WithTop.coe_le_coe.mpr
    have hpos : (0 : ℚ) ≤ 1 / |gd| := by positivity
    have h1 : ((⌊g⌋ : ℤ) : ℚ) ≤ g := Int.floor_le g
    have h2 : g < ((⌊g⌋ : ℤ) : ℚ) + 1 := Int.lt_floor_add_one g
    by_cases hs : step > 0
    · rw [if_pos hs]
      apply mul_nonneg _ hpos
      push_cast
      linarith
    · rw [if_neg hs]
      apply mul_nonneg _ hpos
      linarith
  · rw [if_neg h]
    exact le_top

/-- While `t` is at most every `tMax`, an advance does not lower `t` and keeps
`t` at most every `tMax`. -/
theorem raycast_advance_monotone (c : RaySetup) (st : RayState)
    (hX : (0 : WithTop ℚ) ≤ c.invX) (hY : (0 : WithTop ℚ) ≤ c.invY)
    (hZ : (0 : WithTop ℚ) ≤ c.invZ)
    (h : st.t ≤ st.tMaxX ∧ st.t ≤ st.tMaxY ∧ st.t ≤ st.tMaxZ) :
    st.t ≤ (raycast_advance c st).t ∧
    ((raycast_advance c st).t ≤ (raycast_advance c st).tMaxX ∧
      (raycast_advance c st).t ≤ (raycast_advance c st).tMaxY ∧
      (raycast_advance c st).t ≤ (raycast_advance c st).tMaxZ) := by
  obtain ⟨hx, hy, hz⟩ := h
  unfold raycast_advance
  by_cases h1 : st.tMaxX < st.tMaxY
  · rw [if_pos h1]
    by_cases h2 : st.tMaxX < st.tMaxZ
    · rw [if_pos h2]
      exact ⟨hx, le_add_of_nonneg_right hX, h1.le, h2.le⟩
    · rw [if_neg h2]
      have h3 : st.tMaxZ ≤ st.tMaxX := not_lt.mp h2
      exact ⟨hz, h3, le_trans h3 h1.le, le_add_of_nonneg_right hZ⟩
  · rw [if_neg h1]
    have h1' : st.tMaxY ≤ st.tMaxX := not_lt.mp h1
    by_cases h2 : st.tMaxY < st.tMaxZ
    · rw [if_pos h2]
      exact ⟨hy, h1', le_add_of_nonneg_right hY, h2.le⟩
    · rw [if_neg h2]
      have h3 : st.tMaxZ ≤ st.tMaxY := not_lt.mp h2
      exact ⟨hz, le_trans h3 h1', h3, le_add_of_nonneg_right hZ⟩

/-- The next state of the traversal is the advance of the current one. -/
theorem raycast_visit_succ (c : RaySetup) (st : RayState) (n : ℕ) :
    raycast_visit c st (n + 1) = raycast_advance c (raycast_visit c st n) := by
  unfold raycast_visit
  exact Function.iterate_succ_apply' _ _ _

/-- In every state of the traversal `t` is at most every `tMax`. -/
theorem raycast_visit_invariant (demo : Demo) (origin dir : v3f) (n : ℕ) :
    (raycast_visit (raycast_setup dir) (raycast_init demo origin dir) n).t ≤
      (raycast_visit (raycast_setup dir) (raycast_init demo origin dir) n).tMaxX ∧
    (raycast_visit (raycast_setup dir) (raycast_init demo origin dir) n).t ≤
      (raycast_visit (raycast_setup dir) (raycast_init demo origin dir) n).tMaxY ∧
    (raycast_visit (raycast_setup dir) (raycast_init demo origin dir) n).t ≤
      (raycast_visit (raycast_setup dir) (raycast_init demo origin dir) n).tMaxZ := by
  induction n with
  | zero =>
    exact ⟨tMax_of_nonneg _ _ _, tMax_of_nonneg _ _ _, tMax_of_nonneg _ _ _⟩
  | succ k ih =>
    rw [raycast_visit_succ]
    exact (raycast_advance_monotone _ _ (inv_of_nonneg _) (inv_of_nonneg _)
      (inv_of_nonneg _) ih).2

/-! ## Filled triangles -/

/-- A property of the state that every iteration of the range preserves holds
after a `for_loop` if it held before. -/
theorem for_loop_invariant {σ : Type} (I : σ → Prop) (lo hi : ℤ) (body : ℤ → σ → σ)
    (hbody : ∀ i s, lo ≤ i → i < hi → I s → I (body i s)) (s : σ) (h0 : I s) :
    I (for_loop lo hi body s) := by
  unfold for_loop
  have hk : ∀ n : ℕ, (n : ℤ) ≤ ((hi - lo).toNat : ℤ) →
      I ((List.range n).foldl (fun st (k : ℕ) => body (lo + (k : ℤ)) st) s) := by
    intro n
    induction n with
    | zero => intro _; exact h0
    | succ n ih =>
      intro hn
      rw [List.range_succ, List.foldl_append]
      simp only [List.foldl_cons, List.foldl_nil]
      exact hbody _ _ (by omega) (by push_cast at hn; omega)
        (ih (by push_cast at hn ⊢; omega))
  exact hk _ le_rfl

/-- The positions a scanline adds lie in row `y`, inside the buffer. -/
theorem draw_triangle_scanline_pixels (w h : ℤ) (p1 p2 p3 : v2i) (y : ℤ) (px : List v2i)
    (P : v2i → Prop) (hP : ∀ x : ℤ, 0 ≤ x → x < w → 0 ≤ y → y < h → P ⟨x, y⟩)
    (hpx : ∀ p ∈ px, P p) :
    ∀ p ∈ draw_triangle_scanline w h p1 p2 p3 y px, P p := by
  unfold draw_triangle_scanline
  simp only
  by_cases hy : y < 0 ∨ y ≥ h
  · rw [if_pos hy]
    exact hpx
  · rw [if_neg hy]
    have hy' : 0 ≤ y ∧ y < h := by omega
    apply for_loop_invariant (fun acc : List v2i => ∀ p ∈ acc, P p)
    · intro x acc hx0 hx1 hacc p hp
      rcases List.mem_append.mp hp with hm | hm
      · exact hacc p hm
      · rw [List.mem_singleton.mp hm]
        refine hP x ?_ ?_ hy'.1 hy'.2
        · split_ifs at hx0 <;> omega
        · split_ifs at hx1 <;> omega
    · exact hpx

/-- C23: in FILLED mode `draw_triangle` passes to `set_pixel` only positions
`(x, y)` with `0 <= x < w`, `0 <= y < h` and `top.y <= y < bottom.y`, where
`top` and `bottom` are the first and the last of the three points after
`sort_by_y`; it sets no pixel when `top.y == bottom.y`; and when `sort_by_y`
orders the points by ascending y, `top.y` is the least and `bottom.y` the
greatest y of the three points. -/
theorem draw_triangle_filled_pixels (sort : v2i × v2i × v2i → v2i × v2i × v2i)
    (draw_linei : ℤ → v2i → v2i → List v2i) (w h : ℤ) (p1 p2 p3 : v2i) :
    (∀ px ∈ draw_triangle sort draw_linei w h p1 p2 p3 DrawMode.FILLED,
      (0 ≤ px.x ∧ px.x < w) ∧ (0 ≤ px.y ∧ px.y < h) ∧
      ((sort (p1, p2, p3)).1.y ≤ px.y ∧ px.y < (sort (p1, p2, p3)).2.2.y)) ∧
    ((sort (p1, p2, p3)).1.y = (sort (p1, p2, p3)).2.2.y →
      draw_triangle sort draw_linei w h p1 p2 p3 DrawMode.FILLED = []) ∧
    (orders_by_y sort →
      (sort (p1, p2, p3)).1.y = min p1.y (min p2.y p3.y) ∧
      (sort (p1, p2, p3)).2.2.y = max p1.y (max p2.y p3.y)) := by
  have hmode : ¬ DrawMode.FILLED = DrawMode.WIREFRAME := by decide
  refine ⟨?_, ?_, ?_⟩
  · unfold draw_triangle
    simp only [hmode, if_false, if_true]
    by_cases he : (sort (p1, p2, p3)).1.y = (sort (p1, p2, p3)).2.2.y
    · rw [if_pos he]
      intro px hpx
      exact absurd hpx (List.not_mem_nil px)
    · rw [if_neg he]
      apply for_loop_invariant (fun acc : List v2i => ∀ px ∈ acc,
        (0 ≤ px.x ∧ px.x < w) ∧ (0 ≤ px.y ∧ px.y < h) ∧
        ((sort (p1, p2, p3)).1.y ≤ px.y ∧ px.y < (sort (p1, p2, p3)).2.2.y))
      · intro y acc hy0 hy1 hacc
        apply draw_triangle_scanline_pixels w h _ _ _ y acc _ _ hacc
        intro x hx0 hx1 hy0' hy1'
        exact ⟨⟨hx0, hx1⟩, ⟨hy0', hy1'⟩, hy0, hy1⟩
      · intro px hpx
        exact absurd hpx (List.not_mem_nil px)
  · intro he
    unfold draw_triangle
    simp only [hmode, if_false, if_true]
    rw [if_pos he]
  · intro hs
    obtain ⟨hperm, h12, h23⟩ := hs (p1, p2, p3)
    have hm1 : (sort (p1, p2, p3)).1 ∈ [p1, p2, p3] :=
      hperm.mem_iff.mp (by simp)
    have hm3 : (sort (p1, p2, p3)).2.2 ∈ [p1, p2, p3] :=
      hperm.mem_iff.mp (by simp)
    have hq1 : p1 ∈ [(sort (p1, p2, p3)).1, (sort (p1, p2, p3)).2.1, (sort (p1, p2, p3)).2.2] :=
      hperm.mem_iff.mpr (by simp)
    have hq2 : p2 ∈ [(sort (p1, p2, p3)).1, (sort (p1, p2, p3)).2.1, (sort (p1, p2, p3)).2.2] :=
      hperm.mem_iff.mpr (by simp)
    have hq3 : p3 ∈ [(sort (p1, p2, p3)).1, (sort (p1, p2, p3)).2.1, (sort (p1, p2, p3)).2.2] :=
      hperm.mem_iff.mpr (by simp)
    simp only [List.mem_cons, List.mem_singleton, List.not_mem_nil, or_false] at hm1 hm3 hq1 hq2 hq3
    have b1 : (sort (p1, p2, p3)).1.y ≤ p1.y ∧ p1.y ≤ (sort (p1, p2, p3)).2.2.y := by
      rcases hq1 with e | e | e <;> have ey := congrArg v2i.y e <;> constructor <;> omega
    have b2 : (sort (p1, p2, p3)).1.y ≤ p2.y ∧ p2.y ≤ (sort (p1, p2, p3)).2.2.y := by
      rcases hq2 with e | e | e <;> have ey := congrArg v2i.y e <;> constructor <;> omega
    have b3 : (sort (p1, p2, p3)).1.y ≤ p3.y ∧ p3.y ≤ (sort (p1, p2, p3)).2.2.y := by
      rcases hq3 with e | e | e <;> have ey := congrArg v2i.y e <;> constructor <;> omega
    constructor
    · apply le_antisymm
      · exact le_min b1.1 (le_min b2.1 b3.1)
      · rcases hm1 with e | e | e <;> rw [congrArg v2i.y e]
        · exact min_le_left _ _
        · exact le_trans (min_le_right _ _) (min_le_left _ _)
        · exact le_trans (min_le_right _ _) (min_le_right _ _)
    · apply le_antisymm
      · rcases hm3 with e | e | e <;> rw [congrArg v2i.y e]
        · exact le_max_left _ _
        · exact le_trans (le_max_left _ _) (le_max_right _ _)
        · exact le_trans (le_max_right _ _) (le_max_right _ _)
      · exact max_le b1.2 (max_le b2.2 b3.2)

/-- The three compare-and-swap steps of `sort_by_y` order three points by
ascending y. -/
theorem sort_by_y_orders : orders_by_y sort_by_y := by
  intro t
  obtain ⟨a, b, c⟩ := t
  unfold sort_by_y
  simp only
  refine ⟨?_, ?_, ?_⟩
  · split_ifs <;>
      (simp only [List.perm_iff_count]; intro x;
       simp only [List.count_cons, List.count_nil]; try omega)
  · split_ifs <;> omega
  · split_ifs <;> omega

/-- Witness for C23: with `sort_by_y` the triangle `(0,3)`, `(2,0)`, `(4,1)`
has top row 0 and bottom row 3. -/
theorem draw_triangle_filled_pixels_witness :
    (sort_by_y (⟨0, 3⟩, ⟨2, 0⟩, ⟨4, 1⟩)).1.y = min 3 (min 0 1) ∧
    (sort_by_y (⟨0, 3⟩, ⟨2, 0⟩, ⟨4, 1⟩)).2.2.y = max 3 (max 0 1) :=
  (draw_triangle_filled_pixels sort_by_y (fun _ _ _ => []) 4 4 ⟨0, 3⟩ ⟨2, 0⟩ ⟨4, 1⟩).2.2
    sort_by_y_orders

/-! ## Mesher: the quads of a cell -/

/-- The body of the innermost loop of `rebuild_faces` at a solid cell runs its
six statements in order. -/
theorem rebuild_faces_body_eq_stmts (demo : Demo) (x z y : ℤ) (st : (ℤ → Face) × ℤ)
    (h : block_get demo x y z ≠ BlockType.BLOCK_AIR) :
    rebuild_faces_body demo x z y st =
      (face_quads demo x y z).foldl (quad_stmt demo (block_tex (block_get demo x y z))) st := by
  unfold rebuild_faces_body
  simp only
  rw [if_neg h]
  rfl

/-- The two triangles `add_face` writes: `(p0, p1, p2)` at `count` and
`(p0, p2, p3)` at `count + 1`. -/
theorem add_face_written (faces : ℤ → Face) (count : ℤ) (tex : TexRef) (p0 p1 p2 p3 : v3f) :
    (add_face faces count tex p0 p1 p2 p3).1 count =
      { v0 := ⟨p0, ⟨0, 1⟩⟩, v1 := ⟨p1, ⟨1, 1⟩⟩, v2 := ⟨p2, ⟨1, 0⟩⟩, tex := tex } ∧
    (add_face faces count tex p0 p1 p2 p3).1 (count + 1) =
      { v0 := ⟨p0, ⟨0, 1⟩⟩, v1 := ⟨p2, ⟨1, 0⟩⟩, v2 := ⟨p3, ⟨0, 0⟩⟩, tex := tex } := by
  unfold add_face
  simp only
  constructor
  · rw [Function.update_noteq (by omega), Function.update_same]
  · rw [Function.update_same]

/-- A cell emits between zero and six quads. -/
theorem quads_at_bounds (demo : Demo) (x y z : ℤ) :
    0 ≤ quads_at demo x y z ∧ quads_at demo x y z ≤ 6 := by
  unfold quads_at
  split_ifs <;> constructor <;> norm_num

/-- A counter that no iteration lowers is not lowered by a `for_loop`. -/
theorem for_loop_mono {σ : Type} (c : σ → ℤ) (lo hi : ℤ) (body : ℤ → σ → σ)
    (hmono : ∀ i s, c s ≤ c (body i s)) (s : σ) : c s ≤ c (for_loop lo hi body s) :=
  for_loop_invariant (fun t => c s ≤ c t) lo hi body
    (fun i t _ _ h => le_trans h (hmono i t)) s le_rfl

/-- A loop whose checked body agrees with the unchecked one while the counter
stays within `[0, cap]`, and whose counter never decreases, agrees with the
unchecked loop when the final counter is at most `cap`. -/
theorem for_loop_checked {σ : Type} (c : σ → ℤ) (cap lo hi : ℤ) (body : ℤ → σ → σ)
    (bodyc : ℤ → Option σ → Option σ) (hmono : ∀ i s, c s ≤ c (body i s))
    (hchk : ∀ i s, 0 ≤ c s → c (body i s) ≤ cap → bodyc i (some s) = some (body i s))
    (s : σ) (h0 : 0 ≤ c s) (hcap : c (for_loop lo hi body s) ≤ cap) :
    for_loop lo hi bodyc (some s) = some (for_loop lo hi body s) := by
  unfold for_loop at hcap ⊢
  generalize (hi - lo).toNat = n at hcap ⊢
  induction n with
  | zero => rfl
  | succ n ih =>
    rw [List.range_succ, List.foldl_append, List.foldl_append] at *
    simp only [List.foldl_cons, List.foldl_nil] at hcap ⊢
    have hn : c ((List.range n).foldl (fun st (k : ℕ) => body (lo + (k : ℤ)) st) s) ≤ cap :=
      le_trans (hmono _ _) hcap
    have hpos : 0 ≤ c ((List.range n).foldl (fun st (k : ℕ) => body (lo + (k : ℤ)) st) s) := by
      have h := for_loop_mono c lo (lo + (n : ℤ)) body hmono s
      unfold for_loop at h
      have e : (lo + (n : ℤ) - lo).toNat = n := by omega
      rw [e] at h
      exact le_trans h0 h
    rw [ih hn]
    exact hchk _ _ hpos hcap

/-- One statement of the body does not lower the count. -/
theorem quad_stmt_mono (demo : Demo) (tex : TexRef) (s : (ℤ → Face) × ℤ) (q : QuadStmt) :
    s.2 ≤ (quad_stmt demo tex s q).2 := by
  unfold quad_stmt
  split_ifs
  · exact le_rfl
  · rw [add_face_count]
    omega

/-- A list of statements does not lower the count. -/
theorem quad_stmts_mono (demo : Demo) (tex : TexRef) :
    ∀ (l : List QuadStmt) (s : (ℤ → Face) × ℤ), s.2 ≤ (l.foldl (quad_stmt demo tex) s).2 := by
  intro l
  induction l with
  | nil => intro s; exact le_rfl
  | cons q l ih =>
    intro s
    rw [List.foldl_cons]
    exact le_trans (quad_stmt_mono demo tex s q) (ih _)

/-- Statements whose final count is at most `cap` make only writes inside the
buffer. -/
theorem quad_stmts_checked (cap : ℤ) (demo : Demo) (tex : TexRef) :
    ∀ (l : List QuadStmt) (s : (ℤ → Face) × ℤ), 0 ≤ s.2 →
      (l.foldl (quad_stmt demo tex) s).2 ≤ cap →
      l.foldl (quad_stmt_checked cap demo tex) (some s) =
        some (l.foldl (quad_stmt demo tex) s) := by
  intro l
  induction l with
  | nil => intro s _ _; rfl
  | cons q l ih =>
    intro s h0 hcap
    rw [List.foldl_cons] at hcap ⊢
    rw [List.foldl_cons]
    have hm := quad_stmts_mono demo tex l (quad_stmt demo tex s q)
    have hq : quad_stmt_checked cap demo tex (some s) q = some (quad_stmt demo tex s q) := by
      unfold quad_stmt_checked quad_stmt
      simp only
      by_cases hs : IS_SOLID demo q.nx q.ny q.nz
      · rw [if_neg (not_not.mpr hs), if_neg (not_not.mpr hs)]
      · rw [if_pos hs, if_pos hs]
        have h2 : (quad_stmt demo tex s q).2 = s.2 + 2 := by
          unfold quad_stmt
          rw [if_pos hs, add_face_count]
        unfold add_face_checked
        rw [if_pos ⟨h0, by omega⟩, if_pos ⟨by omega, by omega⟩]
    rw [hq]
    exact ih _ (le_trans h0 (quad_stmt_mono demo tex s q)) hcap

/-- The loop body does not lower the count. -/
theorem rebuild_faces_body_mono (demo : Demo) (x z y : ℤ) (s : (ℤ → Face) × ℤ) :
    s.2 ≤ (rebuild_faces_body demo x z y s).2 := by
  rw [rebuild_faces_body_count]
  have := (quads_at_bounds demo x y z).1
  omega

/-- The loop body with checked writes agrees with the loop body when the count
it ends with is at most `cap`. -/
theorem rebuild_faces_body_checked_eq (cap : ℤ) (demo : Demo) (x z y : ℤ)
    (s : (ℤ → Face) × ℤ) (h0 : 0 ≤ s.2) (hcap : (rebuild_faces_body demo x z y s).2 ≤ cap) :
    rebuild_faces_body_checked cap demo x z y (some s) =
      some (rebuild_faces_body demo x z y s) := by
  unfold rebuild_faces_body_checked
  simp only
  by_cases hair : block_get demo x y z = BlockType.BLOCK_AIR
  · rw [if_pos hair]
    unfold rebuild_faces_body
    simp only
    rw [if_pos hair]
  · rw [if_neg hair]
    rw [rebuild_faces_body_eq_stmts demo x z y s hair] at hcap ⊢
    exact quad_stmts_checked cap demo _ _ s h0 hcap

/-- The three loops of `rebuild_faces` with checked writes agree with the
unchecked loops when the final count is at most `cap`. -/
theorem rebuild_faces_loops_checked (cap : ℤ) (demo : Demo) (s : (ℤ → Face) × ℤ)
    (h0 : 0 ≤ s.2)
    (hcap : (for_loop 0 demo.size_x (fun x =>
      for_loop 0 demo.size_z (fun z =>
        for_loop 0 demo.size_y (fun y => rebuild_faces_body demo x z y))) s).2 ≤ cap) :
    for_loop 0 demo.size_x (fun x =>
      for_loop 0 demo.size_z (fun z =>
        for_loop 0 demo.size_y (fun y => rebuild_faces_body_checked cap demo x z y)))
      (some s) =
    some (for_loop 0 demo.size_x (fun x =>
      for_loop 0 demo.size_z (fun z =>
        for_loop 0 demo.size_y (fun y => rebuild_faces_body demo x z y))) s) := by
  have my : ∀ (x z : ℤ) (t : (ℤ → Face) × ℤ),
      t.2 ≤ (for_loop 0 demo.size_y (fun y => rebuild_faces_body demo x z y) t).2 :=
    fun x z t => for_loop_mono (fun t : (ℤ → Face) × ℤ => t.2) _ _ _
      (fun i t => rebuild_faces_body_mono demo x z i t) t
  have mz : ∀ (x : ℤ) (t : (ℤ → Face) × ℤ),
      t.2 ≤ (for_loop 0 demo.size_z (fun z =>
        for_loop 0 demo.size_y (fun y => rebuild_faces_body demo x z y)) t).2 :=
    fun x t => for_loop_mono (fun t : (ℤ → Face) × ℤ => t.2) _ _ _
      (fun i t => my x i t) t
  have cy : ∀ (x z : ℤ) (t : (ℤ → Face) × ℤ), 0 ≤ t.2 →
      (for_loop 0 demo.size_y (fun y => rebuild_faces_body demo x z y) t).2 ≤ cap →
      for_loop 0 demo.size_y (fun y => rebuild_faces_body_checked cap demo x z y) (some t) =
        some (for_loop 0 demo.size_y (fun y => rebuild_faces_body demo x z y) t) :=
    fun x z t ht hc => for_loop_checked (fun t : (ℤ → Face) × ℤ => t.2) cap _ _ _ _
      (fun i t => rebuild_faces_body_mono demo x z i t)
      (fun i t h1 h2 => rebuild_faces_body_checked_eq cap demo x z i t h1 h2) t ht hc
  have cz : ∀ (x : ℤ) (t : (ℤ → Face) × ℤ), 0 ≤ t.2 →
      (for_loop 0 demo.size_z (fun z =>
        for_loop 0 demo.size_y (fun y => rebuild_faces_body demo x z y)) t).2 ≤ cap →
      for_loop 0 demo.size_z (fun z =>
        for_loop 0 demo.size_y (fun y => rebuild_faces_body_checked cap demo x z y))
        (some t) =
      some (for_loop 0 demo.size_z (fun z =>
        for_loop 0 demo.size_y (fun y => rebuild_faces_body demo x z y)) t) :=
    fun x t ht hc => for_loop_checked (fun t : (ℤ → Face) × ℤ => t.2) cap _ _ _ _
      (fun i t => my x i t) (fun i t h1 h2 => cy x i t h1 h2) t ht hc
  exact for_loop_checked (fun t : (ℤ → Face) × ℤ => t.2) cap _ _ _ _
    (fun i t => mz i t) (fun i t h1 h2 => cz i t h1 h2) s h0 hcap

/-- The triangle count after `rebuild_faces` is at most 12 per cell. -/
theorem rebuild_faces_count_le (demo : Demo) (hx : 0 ≤ demo.size_x) (hy : 0 ≤ demo.size_y)
    (hz : 0 ≤ demo.size_z) :
    (rebuild_faces demo).face_count ≤ demo.size_x * demo.size_y * demo.size_z * 12 := by
  rw [rebuild_faces_count_sum]
  have hb : ∀ i j k : ℕ, 2 * quads_at demo (0 + (i : ℤ)) (0 + (k : ℤ)) (0 + (j : ℤ)) ≤ 12 := by
    intro i j k
    have := (quads_at_bounds demo (0 + (i : ℤ)) (0 + (k : ℤ)) (0 + (j : ℤ))).2
    omega
  have h1 : (∑ i in Finset.range demo.size_x.toNat, ∑ j in Finset.range demo.size_z.toNat,
        ∑ k in Finset.range demo.size_y.toNat,
          2 * quads_at demo (0 + (i : ℤ)) (0 + (k : ℤ)) (0 + (j : ℤ))) ≤
      ∑ _i in Finset.range demo.size_x.toNat, ∑ _j in Finset.range demo.size_z.toNat,
        ∑ _k in Finset.range demo.size_y.toNat, (12 : ℤ) :=
    Finset.sum_le_sum (fun i _ => Finset.sum_le_sum (fun j _ =>
      Finset.sum_le_sum (fun k _ => hb i j k)))
  refine le_trans h1 (le_of_eq ?_)
  simp only [Finset.sum_const, Finset.card_range, nsmul_eq_mul, smul_eq_mul]
  rw [Int.toNat_of_nonneg hx, Int.toNat_of_nonneg hy, Int.toNat_of_nonneg hz]
  ring

/-- An `int` expression whose mathematical value fits in 32 bits has that value. -/
theorem wrap_int_of_fits (n : ℤ) (h0 : -2 ^ 31 ≤ n) (h1 : n < 2 ^ 31) : wrap_int n = n := by
  unfold wrap_int
  rw [Int.emod_eq_of_lt (by omega) (by omega)]
  omega

/-- For positive dimensions whose worst-case triangle count fits in an `int`,
`max_faces` is `size_x*size_y*size_z*12`. -/
theorem max_faces_of_fits (demo : Demo) (hx : 0 < demo.size_x) (hy : 0 < demo.size_y)
    (hz : 0 < demo.size_z) (hfit : demo.size_x * demo.size_y * demo.size_z * 12 < 2 ^ 31) :
    max_faces demo = demo.size_x * demo.size_y * demo.size_z * 12 := by
  have hxy : 0 < demo.size_x * demo.size_y := mul_pos hx hy
  have hxyz : 0 < demo.size_x * demo.size_y * demo.size_z := mul_pos hxy hz
  have h1 : demo.size_x * demo.size_y ≤ demo.size_x * demo.size_y * demo.size_z :=
    le_mul_of_one_le_right hxy.le hz
  unfold max_faces int_mul
  rw [wrap_int_of_fits (demo.size_x * demo.size_y) (by omega) (by omega)]
  rw [wrap_int_of_fits (demo.size_x * demo.size_y * demo.size_z) (by omega) (by omega)]
  rw [wrap_int_of_fits (demo.size_x * demo.size_y * demo.size_z * 12) (by omega) (by omega)]

/-- The capacity after `rebuild_faces` is at least `max_faces`. -/
theorem rebuild_faces_cap_ge (demo : Demo) :
    max_faces demo ≤ (rebuild_faces demo).face_cap := by
  unfold rebuild_faces
  simp only
  by_cases hg : (demo.faces.isNone || decide (demo.face_cap < max_faces demo)) = true
  · rw [if_pos hg]
  · rw [if_neg hg]
    simp only [Bool.or_eq_true, decide_eq_true_eq, not_or, not_lt] at hg
    exact hg.2

/-- C22 (amended): in a grid with positive dimensions whose worst-case count
`size_x*size_y*size_z*12` fits in an `int` (is below `2^31`), after
`rebuild_faces` `face_count <= size_x*size_y*size_z*12 <= face_cap`, and the run
of `rebuild_faces` in which every write of `add_face` is checked against the
`face_cap` entries of the buffer succeeds with the same result: every triangle
is written at an index in `[0, face_cap)`. -/
theorem rebuild_faces_within_cap (demo : Demo) (hx : 0 < demo.size_x)
    (hy : 0 < demo.size_y) (hz : 0 < demo.size_z)
    (hfit : demo.size_x * demo.size_y * demo.size_z * 12 < 2 ^ 31) :
    (rebuild_faces demo).face_count ≤ demo.size_x * demo.size_y * demo.size_z * 12 ∧
    demo.size_x * demo.size_y * demo.size_z * 12 ≤ (rebuild_faces demo).face_cap ∧
    rebuild_faces_checked demo = some (rebuild_faces demo) ∧
    (∀ (cap : ℤ) (faces : ℤ → Face) (count : ℤ) (tex : TexRef) (p0 p1 p2 p3 : v3f)
      (r : (ℤ → Face) × ℤ),
      add_face_checked cap faces count tex p0 p1 p2 p3 = some r →
      (0 ≤ count ∧ count < cap) ∧ (0 ≤ count + 1 ∧ count + 1 < cap) ∧
        r = add_face faces count tex p0 p1 p2 p3) := by
  have hcount := rebuild_faces_count_le demo hx.le hy.le hz.le
  have hmax := max_faces_of_fits demo hx hy hz hfit
  have hcap : demo.size_x * demo.size_y * demo.size_z * 12 ≤ (rebuild_faces demo).face_cap := by
    rw [← hmax]
    exact rebuild_faces_cap_ge demo
  refine ⟨hcount, hcap, ?_, ?_⟩
  · have hloops := rebuild_faces_loops_checked (rebuild_faces demo).face_cap demo
      (if (demo.faces.isNone || decide (demo.face_cap < max_faces demo)) = true
        then malloc_faces else demo.faces.getD malloc_faces, 0) le_rfl
      (le_trans hcount hcap)
    unfold rebuild_faces_checked
    simp only
    have hc : (rebuild_faces demo).face_cap =
        if (demo.faces.isNone || decide (demo.face_cap < max_faces demo)) = true
        then max_faces demo else demo.face_cap := rfl
    rw [hc] at hloops
    rw [hloops]
    rfl
  · intro cap faces count tex p0 p1 p2 p3 r h
    unfold add_face_checked at h
    by_cases h1 : 0 ≤ count ∧ count < cap
    · rw [if_pos h1] at h
      by_cases h2 : 0 ≤ count + 1 ∧ count + 1 < cap
      · rw [if_pos h2] at h
        exact ⟨h1, h2, (Option.some.inj h).symm⟩
      · rw [if_neg h2] at h
        exact absurd h (by simp)
    · rw [if_neg h1] at h
      exact absurd h (by simp)

/-- Witness for C22 (amended): the single stone block yields 12 triangles in a
buffer of 12 entries, and the run with checked writes succeeds. -/
theorem rebuild_faces_within_cap_witness :
    (rebuild_faces (sample_demo 1 1 1 all_stone)).face_count ≤ 1 * 1 * 1 * 12 ∧
    rebuild_faces_checked (sample_demo 1 1 1 all_stone) =
      some (rebuild_faces (sample_demo 1 1 1 all_stone)) :=
  have h := rebuild_faces_within_cap (sample_demo 1 1 1 all_stone) (by decide) (by decide)
    (by decide) (by decide)
  ⟨h.1, h.2.2.1⟩

/-- C22 (counterexample): in a 1024 x 256 x 1024 grid the product
`size_x * size_y * size_z * 12 = 3221225472` does not fit in an `int`:
`max_faces` is -1073741824, `rebuild_faces` stores it in `face_cap`, and
`size_x*size_y*size_z*12 <= face_cap` fails. -/
theorem rebuild_faces_cap_overflow :
    max_faces (sample_demo 1024 256 1024 all_air) = -1073741824 ∧
    (rebuild_faces (sample_demo 1024 256 1024 all_air)).face_cap = -1073741824 ∧
    ¬ ((sample_demo 1024 256 1024 all_air).size_x * (sample_demo 1024 256 1024 all_air).size_y *
        (sample_demo 1024 256 1024 all_air).size_z * 12 ≤
      (rebuild_faces (sample_demo 1024 256 1024 all_air)).face_cap) := by
  have hm : max_faces (sample_demo 1024 256 1024 all_air) = -1073741824 := by
    unfold max_faces int_mul wrap_int sample_demo
    norm_num
  have hc : (rebuild_faces (sample_demo 1024 256 1024 all_air)).face_cap = -1073741824 := by
    have h : (rebuild_faces (sample_demo 1024 256 1024 all_air)).face_cap =
        if ((sample_demo 1024 256 1024 all_air).faces.isNone ||
          decide ((sample_demo 1024 256 1024 all_air).face_cap <
            max_faces (sample_demo 1024 256 1024 all_air))) = true
        then max_faces (sample_demo 1024 256 1024 all_air)
        else (sample_demo 1024 256 1024 all_air).face_cap := rfl
    rw [h, hm]
    rfl
  refine ⟨hm, hc, ?_⟩
  rw [hc]
  unfold sample_demo
  norm_num

/-! ## Near-clip walk: facing of the sub-triangles -/

/-- The backface value and the normal of the triangle `v1`, `v3_lerp v1 v2 s`,
`v3_lerp v2 v0 u` are those of `v0, v1, v2` scaled by `s * u`. -/
theorem facing_scaled_A1 (v0 v1 v2 : v3f) (s u : ℚ) :
    backface_dot v1 (v3_lerp v1 v2 s) (v3_lerp v2 v0 u) =
      (s * u) * backface_dot v0 v1 v2 ∧
    v3_cross (v3_sub (v3_lerp v1 v2 s) v1) (v3_sub (v3_lerp v2 v0 u) v1) =
      v3_scale (s * u) (v3_cross (v3_sub v1 v0) (v3_sub v2 v0)) := by
  constructor
  · simp only [backface_dot, v3_dot, v3_cross, v3_sub, v3_lerp]
    ring
  · simp only [v3_cross, v3_sub, v3_lerp, v3_scale, v3f.mk.injEq]
    refine ⟨?_, ?_, ?_⟩ <;> ring

/-- The backface value and the normal of the triangle `v1`, `v3_lerp v2 v0 u`,
`v0` are those of `v0, v1, v2` scaled by `1 - u`. -/
theorem facing_scaled_A2 (v0 v1 v2 : v3f) (u : ℚ) :
    backface_dot v1 (v3_lerp v2 v0 u) v0 =
      (1 - u) * backface_dot v0 v1 v2 ∧
    v3_cross (v3_sub (v3_lerp v2 v0 u) v1) (v3_sub v0 v1) =
      v3_scale (1 - u) (v3_cross (v3_sub v1 v0) (v3_sub v2 v0)) := by
  constructor
  · simp only [backface_dot, v3_dot, v3_cross, v3_sub, v3_lerp]
    ring
  · simp only [v3_cross, v3_sub, v3_lerp, v3_scale, v3f.mk.injEq]
    refine ⟨?_, ?_, ?_⟩ <;> ring

/-- The backface value and the normal of the triangle `v3_lerp v0 v1 s`, `v3_lerp v1 v2 u`,
`v2` are those of `v0, v1, v2` scaled by `(1 - s) * (1 - u)`. -/
theorem facing_scaled_B1 (v0 v1 v2 : v3f) (s u : ℚ) :
    backface_dot (v3_lerp v0 v1 s) (v3_lerp v1 v2 u) v2 =
      ((1 - s) * (1 - u)) * backface_dot v0 v1 v2 ∧
    v3_cross (v3_sub (v3_lerp v1 v2 u) (v3_lerp v0 v1 s)) (v3_sub v2 (v3_lerp v0 v1 s)) =
      v3_scale ((1 - s) * (1 - u)) (v3_cross (v3_sub v1 v0) (v3_sub v2 v0)) := by
  constructor
  · simp only [backface_dot, v3_dot, v3_cross, v3_sub, v3_lerp]
    ring
  · simp only [v3_cross, v3_sub, v3_lerp, v3_scale, v3f.mk.injEq]
    refine ⟨?_, ?_, ?_⟩ <;> ring

/-- The backface value and the normal of the triangle `v3_lerp v0 v1 s`, `v2`,
`v0` are those of `v0, v1, v2` scaled by `s`. -/
theorem facing_scaled_B2 (v0 v1 v2 : v3f) (s : ℚ) :
    backface_dot (v3_lerp v0 v1 s) v2 v0 =
      (s) * backface_dot v0 v1 v2 ∧
    v3_cross (v3_sub v2 (v3_lerp v0 v1 s)) (v3_sub v0 (v3_lerp v0 v1 s)) =
      v3_scale (s) (v3_cross (v3_sub v1 v0) (v3_sub v2 v0)) := by
  constructor
  · simp only [backface_dot, v3_dot, v3_cross, v3_sub, v3_lerp]
    ring
  · simp only [v3_cross, v3_sub, v3_lerp, v3_scale, v3f.mk.injEq]
    refine ⟨?_, ?_, ?_⟩ <;> ring

/-- The backface value and the normal of the triangle `v3_lerp v0 v1 s`, `v1`,
`v2` are those of `v0, v1, v2` scaled by `1 - s`. -/
theorem facing_scaled_C1 (v0 v1 v2 : v3f) (s : ℚ) :
    backface_dot (v3_lerp v0 v1 s) v1 v2 =
      (1 - s) * backface_dot v0 v1 v2 ∧
    v3_cross (v3_sub v1 (v3_lerp v0 v1 s)) (v3_sub v2 (v3_lerp v0 v1 s)) =
      v3_scale (1 - s) (v3_cross (v3_sub v1 v0) (v3_sub v2 v0)) := by
  constructor
  · simp only [backface_dot, v3_dot, v3_cross, v3_sub, v3_lerp]
    ring
  · simp only [v3_cross, v3_sub, v3_lerp, v3_scale, v3f.mk.injEq]
    refine ⟨?_, ?_, ?_⟩ <;> ring

/-- The backface value and the normal of the triangle `v3_lerp v0 v1 s`, `v2`,
`v3_lerp v2 v0 u` are those of `v0, v1, v2` scaled by `s * u`. -/
theorem facing_scaled_C2 (v0 v1 v2 : v3f) (s u : ℚ) :
    backface_dot (v3_lerp v0 v1 s) v2 (v3_lerp v2 v0 u) =
      (s * u) * backface_dot v0 v1 v2 ∧
    v3_cross (v3_sub v2 (v3_lerp v0 v1 s)) (v3_sub (v3_lerp v2 v0 u) (v3_lerp v0 v1 s)) =
      v3_scale (s * u) (v3_cross (v3_sub v1 v0) (v3_sub v2 v0)) := by
  constructor
  · simp only [backface_dot, v3_dot, v3_cross, v3_sub, v3_lerp]
    ring
  · simp only [v3_cross, v3_sub, v3_lerp, v3_scale, v3f.mk.injEq]
    refine ⟨?_, ?_, ?_⟩ <;> ring

/-- The backface value and the normal of the triangle `v3_lerp v0 v1 s`, `v3_lerp v2 v0 u`,
`v0` are those of `v0, v1, v2` scaled by `s * (1 - u)`. -/
theorem facing_scaled_D1 (v0 v1 v2 : v3f) (s u : ℚ) :
    backface_dot (v3_lerp v0 v1 s) (v3_lerp v2 v0 u) v0 =
      (s * (1 - u)) * backface_dot v0 v1 v2 ∧
    v3_cross (v3_sub (v3_lerp v2 v0 u) (v3_lerp v0 v1 s)) (v3_sub v0 (v3_lerp v0 v1 s)) =
      v3_scale (s * (1 - u)) (v3_cross (v3_sub v1 v0) (v3_sub v2 v0)) := by
  constructor
  · simp only [backface_dot, v3_dot, v3_cross, v3_sub, v3_lerp]
    ring
  · simp only [v3_cross, v3_sub, v3_lerp, v3_scale, v3f.mk.injEq]
    refine ⟨?_, ?_, ?_⟩ <;> ring

/-- The backface value and the normal of the triangle `v3_lerp v0 v1 s`, `v1`,
`v3_lerp v1 v2 u` are those of `v0, v1, v2` scaled by `(1 - s) * u`. -/
theorem facing_scaled_E1 (v0 v1 v2 : v3f) (s u : ℚ) :
    backface_dot (v3_lerp v0 v1 s) v1 (v3_lerp v1 v2 u) =
      ((1 - s) * u) * backface_dot v0 v1 v2 ∧
    v3_cross (v3_sub v1 (v3_lerp v0 v1 s)) (v3_sub (v3_lerp v1 v2 u) (v3_lerp v0 v1 s)) =
      v3_scale ((1 - s) * u) (v3_cross (v3_sub v1 v0) (v3_sub v2 v0)) := by
  constructor
  · simp only [backface_dot, v3_dot, v3_cross, v3_sub, v3_lerp]
    ring
  · simp only [v3_cross, v3_sub, v3_lerp, v3_scale, v3f.mk.injEq]
    refine ⟨?_, ?_, ?_⟩ <;> ring

/-- The backface value and the normal of the triangle `v3_lerp v1 v2 s`, `v2`,
`v3_lerp v2 v0 u` are those of `v0, v1, v2` scaled by `(1 - s) * u`. -/
theorem facing_scaled_F1 (v0 v1 v2 : v3f) (s u : ℚ) :
    backface_dot (v3_lerp v1 v2 s) v2 (v3_lerp v2 v0 u) =
      ((1 - s) * u) * backface_dot v0 v1 v2 ∧
    v3_cross (v3_sub v2 (v3_lerp v1 v2 s)) (v3_sub (v3_lerp v2 v0 u) (v3_lerp v1 v2 s)) =
      v3_scale ((1 - s) * u) (v3_cross (v3_sub v1 v0) (v3_sub v2 v0)) := by
  constructor
  · simp only [backface_dot, v3_dot, v3_cross, v3_sub, v3_lerp]
    ring
  · simp only [v3_cross, v3_sub, v3_lerp, v3_scale, v3f.mk.injEq]
    refine ⟨?_, ?_, ?_⟩ <;> ring

/-- The backface value and the normal of the triangle `v1`, `v2`,
`v0` are those of `v0, v1, v2` scaled by `1`. -/
theorem facing_scaled_G1 (v0 v1 v2 : v3f) :
    backface_dot v1 v2 v0 =
      (1) * backface_dot v0 v1 v2 ∧
    v3_cross (v3_sub v2 v1) (v3_sub v0 v1) =
      v3_scale (1) (v3_cross (v3_sub v1 v0) (v3_sub v2 v0)) := by
  constructor
  · simp only [backface_dot, v3_dot, v3_cross, v3_sub, v3_lerp]
    ring
  · simp only [v3_cross, v3_sub, v3_lerp, v3_scale, v3f.mk.injEq]
    refine ⟨?_, ?_, ?_⟩ <;> ring

/-- On an edge that crosses the near plane the interpolated vertex is the point
`a + (b - a) * t` of the edge. -/
theorem clip_inter_lerp (near_plane : ℚ) (a b : ClipVert)
    (hcross : (a.view_pos.z ≤ -near_plane ∧ ¬ b.view_pos.z ≤ -near_plane) ∨
      (¬ a.view_pos.z ≤ -near_plane ∧ b.view_pos.z ≤ -near_plane)) :
    (clip_inter near_plane a b).view_pos =
      v3_lerp a.view_pos b.view_pos (clip_t near_plane a b) := by
  obtain ⟨hne, -, -⟩ := clip_t_range near_plane a b hcross
  unfold clip_inter v3_lerp clip_t
  simp only [v3f.mk.injEq]
  refine ⟨trivial, trivial, ?_⟩
  field_simp

/-- Every sub-triangle the face code forms from the near-clip walk of
`v0, v1, v2` has the backface value and the normal of `v0, v1, v2` scaled by one
and the same factor `k >= 0`. -/
theorem sub_triangle_scaled (near_plane : ℚ) (v0 v1 v2 : ClipVert)
    (T : ClipVert × ClipVert × ClipVert)
    (hT : T ∈ sub_triangles (near_clip_walk near_plane v0 v1 v2)) :
    ∃ k : ℚ, 0 ≤ k ∧
      backface_dot T.1.view_pos T.2.1.view_pos T.2.2.view_pos =
        k * backface_dot v0.view_pos v1.view_pos v2.view_pos ∧
      v3_cross (v3_sub T.2.1.view_pos T.1.view_pos) (v3_sub T.2.2.view_pos T.1.view_pos) =
        v3_scale k (v3_cross (v3_sub v1.view_pos v0.view_pos)
          (v3_sub v2.view_pos v0.view_pos)) := by
  by_cases h0 : v0.view_pos.z ≤ -near_plane <;> by_cases h1 : v1.view_pos.z ≤ -near_plane <;>
    by_cases h2 : v2.view_pos.z ≤ -near_plane
  · have hw : near_clip_walk near_plane v0 v1 v2 =
        [v1, v2, v0] := by
      unfold near_clip_walk clip_edge
      simp [h0, h1, h2]
    rw [hw] at hT
    simp only [sub_triangles, List.mem_cons, List.mem_singleton, List.not_mem_nil,
      or_false] at hT
    subst hT
    · refine ⟨1, zero_le_one, ?_, ?_⟩
      · dsimp only
        exact (facing_scaled_G1 _ _ _).1
      · dsimp only
        exact (facing_scaled_G1 _ _ _).2
  · have hw : near_clip_walk near_plane v0 v1 v2 =
        [v1, clip_inter near_plane v1 v2, clip_inter near_plane v2 v0, v0] := by
      unfold near_clip_walk clip_edge
      simp [h0, h1, h2]
    rw [hw] at hT
    simp only [sub_triangles, List.mem_cons, List.mem_singleton, List.not_mem_nil,
      or_false] at hT
    have c12 : ((v1.view_pos.z ≤ -near_plane ∧ ¬ v2.view_pos.z ≤ -near_plane) ∨
        (¬ v1.view_pos.z ≤ -near_plane ∧ v2.view_pos.z ≤ -near_plane)) := Or.inl ⟨h1, h2⟩
    have e12 := clip_inter_lerp near_plane v1 v2 c12
    have c20 : ((v2.view_pos.z ≤ -near_plane ∧ ¬ v0.view_pos.z ≤ -near_plane) ∨
        (¬ v2.view_pos.z ≤ -near_plane ∧ v0.view_pos.z ≤ -near_plane)) := Or.inr ⟨h2, h0⟩
    have e20 := clip_inter_lerp near_plane v2 v0 c20
    rcases hT with rfl | rfl
    · obtain ⟨-, s0, s1⟩ := clip_t_range near_plane v1 v2 c12
      obtain ⟨-, u0, u1⟩ := clip_t_range near_plane v2 v0 c20
      refine ⟨clip_t near_plane v1 v2 * clip_t near_plane v2 v0, mul_nonneg s0 u0, ?_, ?_⟩
      · dsimp only
        rw [e12, e20]
        exact (facing_scaled_A1 _ _ _ _ _).1
      · dsimp only
        rw [e12, e20]
        exact (facing_scaled_A1 _ _ _ _ _).2
    · obtain ⟨-, u0, u1⟩ := clip_t_range near_plane v2 v0 c20
      refine ⟨1 - clip_t near_plane v2 v0, sub_nonneg.mpr u1, ?_, ?_⟩
      · dsimp only
        rw [e20]
        exact (facing_scaled_A2 _ _ _ _).1
      · dsimp only
        rw [e20]
        exact (facing_scaled_A2 _ _ _ _).2
  · have hw : near_clip_walk near_plane v0 v1 v2 =
        [clip_inter near_plane v0 v1, clip_inter near_plane v1 v2, v2, v0] := by
      unfold near_clip_walk clip_edge
      simp [h0, h1, h2]
    rw [hw] at hT
    simp only [sub_triangles, List.mem_cons, List.mem_singleton, List.not_mem_nil,
      or_false] at hT
    have c01 : ((v0.view_pos.z ≤ -near_plane ∧ ¬ v1.view_pos.z ≤ -near_plane) ∨
        (¬ v0.view_pos.z ≤ -near_plane ∧ v1.view_pos.z ≤ -near_plane)) := Or.inl ⟨h0, h1⟩
    have e01 := clip_inter_lerp near_plane v0 v1 c01
    have c12 : ((v1.view_pos.z ≤ -near_plane ∧ ¬ v2.view_pos.z ≤ -near_plane) ∨
        (¬ v1.view_pos.z ≤ -near_plane ∧ v2.view_pos.z ≤ -near_plane)) := Or.inr ⟨h1, h2⟩
    have e12 := clip_inter_lerp near_plane v1 v2 c12
    rcases hT with rfl | rfl
    · obtain ⟨-, s0, s1⟩ := clip_t_range near_plane v0 v1 c01
      obtain ⟨-, u0, u1⟩ := clip_t_range near_plane v1 v2 c12
      refine ⟨(1 - clip_t near_plane v0 v1) * (1 - clip_t near_plane v1 v2),
          mul_nonneg (sub_nonneg.mpr s1) (sub_nonneg.mpr u1), ?_, ?_⟩
      · dsimp only
        rw [e01, e12]
        exact (facing_scaled_B1 _ _ _ _ _).1
      · dsimp only
        rw [e01, e12]
        exact (facing_scaled_B1 _ _ _ _ _).2
    · obtain ⟨-, s0, s1⟩ := clip_t_range near_plane v0 v1 c01
      refine ⟨clip_t near_plane v0 v1, s0, ?_, ?_⟩
      · dsimp only
        rw [e01]
        exact (facing_scaled_B2 _ _ _ _).1
      · dsimp only
        rw [e01]
        exact (facing_scaled_B2 _ _ _ _).2
  · have hw : near_clip_walk near_plane v0 v1 v2 =
        [clip_inter near_plane v0 v1, clip_inter near_plane v2 v0, v0] := by
      unfold near_clip_walk clip_edge
      simp [h0, h1, h2]
    rw [hw] at hT
    simp only [sub_triangles, List.mem_cons, List.mem_singleton, List.not_mem_nil,
      or_false] at hT
    have c01 : ((v0.view_pos.z ≤ -near_plane ∧ ¬ v1.view_pos.z ≤ -near_plane) ∨
        (¬ v0.view_pos.z ≤ -near_plane ∧ v1.view_pos.z ≤ -near_plane)) := Or.inl ⟨h0, h1⟩
    have e01 := clip_inter_lerp near_plane v0 v1 c01
    have c20 : ((v2.view_pos.z ≤ -near_plane ∧ ¬ v0.view_pos.z ≤ -near_plane) ∨
        (¬ v2.view_pos.z ≤ -near_plane ∧ v0.view_pos.z ≤ -near_plane)) := Or.inr ⟨h2, h0⟩
    have e20 := clip_inter_lerp near_plane v2 v0 c20
    subst hT
    · obtain ⟨-, s0, s1⟩ := clip_t_range near_plane v0 v1 c01
      obtain ⟨-, u0, u1⟩ := clip_t_range near_plane v2 v0 c20
      refine ⟨clip_t near_plane v0 v1 * (1 - clip_t near_plane v2 v0),
          mul_nonneg s0 (sub_nonneg.mpr u1), ?_, ?_⟩
      · dsimp only
        rw [e01, e20]
        exact (facing_scaled_D1 _ _ _ _ _).1
      · dsimp only
        rw [e01, e20]
        exact (facing_scaled_D1 _ _ _ _ _).2
  · have hw : near_clip_walk near_plane v0 v1 v2 =
        [clip_inter near_plane v0 v1, v1, v2, clip_inter near_plane v2 v0] := by
      unfold near_clip_walk clip_edge
      simp [h0, h1, h2]
    rw [hw] at hT
    simp only [sub_triangles, List.mem_cons, List.mem_singleton, List.not_mem_nil,
      or_false] at hT
    have c01 : ((v0.view_pos.z ≤ -near_plane ∧ ¬ v1.view_pos.z ≤ -near_plane) ∨
        (¬ v0.view_pos.z ≤ -near_plane ∧ v1.view_pos.z ≤ -near_plane)) := Or.inr ⟨h0, h1⟩
    have e01 := clip_inter_lerp near_plane v0 v1 c01
    have c20 : ((v2.view_pos.z ≤ -near_plane ∧ ¬ v0.view_pos.z ≤ -near_plane) ∨
        (¬ v2.view_pos.z ≤ -near_plane ∧ v0.view_pos.z ≤ -near_plane)) := Or.inl ⟨h2, h0⟩
    have e20 := clip_inter_lerp near_plane v2 v0 c20
    rcases hT with rfl | rfl
    · obtain ⟨-, s0, s1⟩ := clip_t_range near_plane v0 v1 c01
      refine ⟨1 - clip_t near_plane v0 v1, sub_nonneg.mpr s1, ?_, ?_⟩
      · dsimp only
        rw [e01]
        exact (facing_scaled_C1 _ _ _ _).1
      · dsimp only
        rw [e01]
        exact (facing_scaled_C1 _ _ _ _).2
    · obtain ⟨-, s0, s1⟩ := clip_t_range near_plane v0 v1 c01
      obtain ⟨-, u0, u1⟩ := clip_t_range near_plane v2 v0 c20
      refine ⟨clip_t near_plane v0 v1 * clip_t near_plane v2 v0, mul_nonneg s0 u0, ?_, ?_⟩
      · dsimp only
        rw [e01, e20]
        exact (facing_scaled_C2 _ _ _ _ _).1
      · dsimp only
        rw [e01, e20]
        exact (facing_scaled_C2 _ _ _ _ _).2
  · have hw : near_clip_walk near_plane v0 v1 v2 =
        [clip_inter near_plane v0 v1, v1, clip_inter near_plane v1 v2] := by
      unfold near_clip_walk clip_edge
      simp [h0, h1, h2]
    rw [hw] at hT
    simp only [sub_triangles, List.mem_cons, List.mem_singleton, List.not_mem_nil,
      or_false] at hT
    have c01 : ((v0.view_pos.z ≤ -near_plane ∧ ¬ v1.view_pos.z ≤ -near_plane) ∨
        (¬ v0.view_pos.z ≤ -near_plane ∧ v1.view_pos.z ≤ -near_plane)) := Or.inr ⟨h0, h1⟩
    have e01 := clip_inter_lerp near_plane v0 v1 c01
    have c12 : ((v1.view_pos.z ≤ -near_plane ∧ ¬ v2.view_pos.z ≤ -near_plane) ∨
        (¬ v1.view_pos.z ≤ -near_plane ∧ v2.view_pos.z ≤ -near_plane)) := Or.inl ⟨h1, h2⟩
    have e12 := clip_inter_lerp near_plane v1 v2 c12
    subst hT
    · obtain ⟨-, s0, s1⟩ := clip_t_range near_plane v0 v1 c01
      obtain ⟨-, u0, u1⟩ := clip_t_range near_plane v1 v2 c12
      refine ⟨(1 - clip_t near_plane v0 v1) * clip_t near_plane v1 v2,
          mul_nonneg (sub_nonneg.mpr s1) u0, ?_, ?_⟩
      · dsimp only
        rw [e01, e12]
        exact (facing_scaled_E1 _ _ _ _ _).1
      · dsimp only
        rw [e01, e12]
        exact (facing_scaled_E1 _ _ _ _ _).2
  · have hw : near_clip_walk near_plane v0 v1 v2 =
        [clip_inter near_plane v1 v2, v2, clip_inter near_plane v2 v0] := by
      unfold near_clip_walk clip_edge
      simp [h0, h1, h2]
    rw [hw] at hT
    simp only [sub_triangles, List.mem_cons, List.mem_singleton, List.not_mem_nil,
      or_false] at hT
    have c12 : ((v1.view_pos.z ≤ -near_plane ∧ ¬ v2.view_pos.z ≤ -near_plane) ∨
        (¬ v1.view_pos.z ≤ -near_plane ∧ v2.view_pos.z ≤ -near_plane)) := Or.inr ⟨h1, h2⟩
    have e12 := clip_inter_lerp near_plane v1 v2 c12
    have c20 : ((v2.view_pos.z ≤ -near_plane ∧ ¬ v0.view_pos.z ≤ -near_plane) ∨
        (¬ v2.view_pos.z ≤ -near_plane ∧ v0.view_pos.z ≤ -near_plane)) := Or.inl ⟨h2, h0⟩
    have e20 := clip_inter_lerp near_plane v2 v0 c20
    subst hT
    · obtain ⟨-, s0, s1⟩ := clip_t_range near_plane v1 v2 c12
      obtain ⟨-, u0, u1⟩ := clip_t_range near_plane v2 v0 c20
      refine ⟨(1 - clip_t near_plane v1 v2) * clip_t near_plane v2 v0,
          mul_nonneg (sub_nonneg.mpr s1) u0, ?_, ?_⟩
      · dsimp only
        rw [e12, e20]
        exact (facing_scaled_F1 _ _ _ _ _).1
      · dsimp only
        rw [e12, e20]
        exact (facing_scaled_F1 _ _ _ _ _).2
  · have hw : near_clip_walk near_plane v0 v1 v2 =
        [] := by
      unfold near_clip_walk clip_edge
      simp [h0, h1, h2]
    rw [hw] at hT
    exact absurd hT (List.not_mem_nil T)

/-- The near-clipping branch of the face code runs the backface test,
re-projection and outcode test on each of the sub-triangles. -/
theorem clip_path_eq_sub_triangles {τ : Type} (env : FrameEnv) (tex : τ)
    (v0 v1 v2 : ClipVert) :
    clip_path env tex v0 v1 v2 =
      (sub_triangles (near_clip_walk env.near_plane v0 v1 v2)).flatMap
        (fun T => clipped_triangle env tex T.1 T.2.1 T.2.2) := by
  unfold clip_path sub_triangles
  generalize near_clip_walk env.near_plane v0 v1 v2 = l
  rcases l with _ | ⟨a, _ | ⟨b, _ | ⟨c, _ | ⟨d, _ | ⟨e, r⟩⟩⟩⟩⟩ <;> simp

/-- A sub-triangle that fails the backface test makes no rasteriser call. -/
theorem clipped_triangle_backface {τ : Type} (env : FrameEnv) (tex : τ) (a b c : ClipVert)
    (h : backface_dot a.view_pos b.view_pos c.view_pos ≥ 0) :
    clipped_triangle env tex a b c = [] := by
  unfold backface_dot at h
  unfold clipped_triangle
  simp only
  rw [if_pos h]

/-- C27: near-plane clipping preserves facing in exact arithmetic.  The face
code runs the backface test on the sub-triangles `(0,1,2)`, `(0,2,3)` of the
near-clip walk.  If the triangle `v0, v1, v2` is rejected by the backface test
(`dot(cross(v1 - v0, v2 - v0), v0) >= 0`), every sub-triangle is rejected and
the clipping branch makes no rasteriser call; if it is accepted, every
sub-triangle of non-zero area (`cross(b - a, c - a)` not the zero vector) is
accepted. -/
theorem near_clip_preserves_facing {τ : Type} (env : FrameEnv) (tex : τ)
    (v0 v1 v2 : ClipVert) :
    clip_path env tex v0 v1 v2 =
      (sub_triangles (near_clip_walk env.near_plane v0 v1 v2)).flatMap
        (fun T => clipped_triangle env tex T.1 T.2.1 T.2.2) ∧
    (backface_dot v0.view_pos v1.view_pos v2.view_pos ≥ 0 →
      (∀ T ∈ sub_triangles (near_clip_walk env.near_plane v0 v1 v2),
        backface_dot T.1.view_pos T.2.1.view_pos T.2.2.view_pos ≥ 0 ∧
        clipped_triangle env tex T.1 T.2.1 T.2.2 = []) ∧
      clip_path env tex v0 v1 v2 = []) ∧
    (¬ backface_dot v0.view_pos v1.view_pos v2.view_pos ≥ 0 →
      ∀ T ∈ sub_triangles (near_clip_walk env.near_plane v0 v1 v2),
        v3_cross (v3_sub T.2.1.view_pos T.1.view_pos) (v3_sub T.2.2.view_pos T.1.view_pos)
          ≠ ⟨0, 0, 0⟩ →
        ¬ backface_dot T.1.view_pos T.2.1.view_pos T.2.2.view_pos ≥ 0) := by
  have hrej : backface_dot v0.view_pos v1.view_pos v2.view_pos ≥ 0 →
      ∀ T ∈ sub_triangles (near_clip_walk env.near_plane v0 v1 v2),
        backface_dot T.1.view_pos T.2.1.view_pos T.2.2.view_pos ≥ 0 ∧
        clipped_triangle env tex T.1 T.2.1 T.2.2 = [] := by
    intro hD T hT
    obtain ⟨k, hk, hdot, -⟩ := sub_triangle_scaled env.near_plane v0 v1 v2 T hT
    have h : backface_dot T.1.view_pos T.2.1.view_pos T.2.2.view_pos ≥ 0 := by
      rw [hdot]
      exact mul_nonneg hk hD
    exact ⟨h, clipped_triangle_backface env tex _ _ _ h⟩
  refine ⟨clip_path_eq_sub_triangles env tex v0 v1 v2, fun hD => ⟨hrej hD, ?_⟩, ?_⟩
  · rw [clip_path_eq_sub_triangles]
    rw [List.flatMap_eq_nil_iff]
    intro T hT
    exact (hrej hD T hT).2
  · intro hD T hT hne
    obtain ⟨k, hk, hdot, hcross⟩ := sub_triangle_scaled env.near_plane v0 v1 v2 T hT
    have hk0 : k ≠ 0 := by
      intro h0
      apply hne
      rw [hcross, h0]
      simp [v3_scale]
    have hkpos : 0 < k := lt_of_le_of_ne hk (Ne.symm hk0)
    rw [hdot]
    have hneg : backface_dot v0.view_pos v1.view_pos v2.view_pos < 0 := not_le.mp hD
    exact not_le.mpr (mul_neg_of_pos_of_neg hkpos hneg)

/-- Witness for C27: the sample triangle `(0,0,-200)`, `(1,0,-1)`, `(0,1,1)` has
the backface value -200 and is accepted; its first sub-triangle after clipping
at the near plane 1/10 has a non-zero normal and is accepted too. -/
theorem near_clip_preserves_facing_witness :
    ¬ backface_dot (⟨1, 0, -1⟩ : v3f) ⟨11 / 20, 9 / 20, -1 / 10⟩
      ⟨0, 1999 / 2010, -1 / 10⟩ ≥ 0 := by
  have h := (@near_clip_preserves_facing TexRef sample_env TexRef.dirt_tex
    ⟨⟨0, 0, -200⟩, ⟨0, 1⟩⟩ ⟨⟨1, 0, -1⟩, ⟨1, 1⟩⟩ ⟨⟨0, 1, 1⟩, ⟨1, 0⟩⟩).2.2
    (by norm_num [backface_dot, v3_dot, v3_cross, v3_sub])
    (⟨⟨1, 0, -1⟩, ⟨1, 1⟩⟩, ⟨⟨11 / 20, 9 / 20, -1 / 10⟩, ⟨1, 11 / 20⟩⟩,
      ⟨⟨0, 1999 / 2010, -1 / 10⟩, ⟨1999 / 2010, 11 / 2010⟩⟩)
    (by
      have hn : sample_env.near_plane = 1 / 10 := rfl
      rw [hn, sample_far_walk]
      simp [sub_triangles])
    (by norm_num [v3_cross, v3_sub])
  exact h

/-! ## Binary32 rounding -/

/-- A number within less than 1/2 of the integer `n` rounds to `n`. -/
theorem round_even_of_near (z : ℚ) (n : ℤ) (h1 : (n : ℚ) - 1 / 2 < z)
    (h2 : z < (n : ℚ) + 1 / 2) : round_even z = n := by
  unfold round_even
  by_cases hz : (n : ℚ) ≤ z
  · have hf : ⌊z⌋ = n := by
      rw [Int.floor_eq_iff]
      exact ⟨hz, by linarith⟩
    rw [hf, if_pos (by linarith)]
  · have hz' : z < n := not_le.mp hz
    have hf : ⌊z⌋ = n - 1 := by
      rw [Int.floor_eq_iff]
      push_cast
      exact ⟨by linarith, by linarith⟩
    rw [hf]
    push_cast
    rw [if_neg (by linarith), if_pos (by linarith)]
    omega

/-- An integer rounds to itself. -/
theorem round_even_intCast (n : ℤ) : round_even (n : ℚ) = n :=
  round_even_of_near _ n (by linarith) (by linarith)

/-- A number below `N + 1/2` rounds to at most `N`. -/
theorem round_even_le (z : ℚ) (N : ℤ) (h : z < (N : ℚ) + 1 / 2) : round_even z ≤ N := by
  have hf : ⌊z⌋ ≤ N := by
    have : ⌊z⌋ < N + 1 := by
      rw [Int.floor_lt]
      push_cast
      linarith
    omega
  have hfz : (⌊z⌋ : ℚ) ≤ z := Int.floor_le z
  unfold round_even
  by_cases hN : ⌊z⌋ = N
  · rw [if_pos (by rw [hN]; linarith), hN]
  · have : ⌊z⌋ + 1 ≤ N := by omega
    split_ifs <;> omega

/-- A number that is not negative does not round to a negative integer. -/
theorem round_even_nonneg (z : ℚ) (h : 0 ≤ z) : 0 ≤ round_even z := by
  have hf : 0 ≤ ⌊z⌋ := Int.floor_nonneg.mpr h
  unfold round_even
  split_ifs <;> omega

/-- The exponent of a positive number between two consecutive powers of two. -/
theorem int_log_two_eq (q : ℚ) (e : ℤ) (h1 : (2 : ℚ) ^ e ≤ q) (h2 : q < (2 : ℚ) ^ (e + 1)) :
    Int.log 2 q = e := by
  have hq : 0 < q := lt_of_lt_of_le (zpow_pos (by norm_num) e) h1
  have a1 : e ≤ Int.log 2 q := by
    rw [← Int.zpow_le_iff_le_log (by norm_num) hq]
    exact_mod_cast h1
  have a2 : Int.log 2 q < e + 1 := by
    rw [← Int.lt_zpow_iff_log_lt (by norm_num) hq]
    exact_mod_cast h2
  omega

/-- Rounding of a number whose exponent `e >= -126` is known. -/
theorem f32_of_bounds (q : ℚ) (e : ℤ) (he : -126 ≤ e) (h1 : (2 : ℚ) ^ e ≤ |q|)
    (h2 : |q| < (2 : ℚ) ^ (e + 1)) :
    f32 q = (round_even (q / 2 ^ (e - 23)) : ℚ) * 2 ^ (e - 23) := by
  unfold f32
  rw [int_log_two_eq |q| e h1 h2, max_eq_left he]

/-- Rounding of a number with known exponent that lies within half a unit in
the last place of `n * 2 ^ (e - 23)`. -/
theorem f32_eq (q : ℚ) (e n : ℤ) (he : -126 ≤ e) (h1 : (2 : ℚ) ^ e ≤ |q|)
    (h2 : |q| < (2 : ℚ) ^ (e + 1)) (hn1 : (n : ℚ) - 1 / 2 < q / 2 ^ (e - 23))
    (hn2 : q / 2 ^ (e - 23) < (n : ℚ) + 1 / 2) :
    f32 q = (n : ℚ) * 2 ^ (e - 23) := by
  rw [f32_of_bounds q e he h1 h2, round_even_of_near _ n hn1 hn2]

/-- Zero is a binary32 value. -/
theorem f32_zero : f32 0 = 0 := by
  unfold f32
  simp [round_even]

/-- A number `n * 2 ^ k` with `|n| < 2 ^ 24` and `k >= -149` is a binary32 value:
rounding leaves it unchanged. -/
theorem f32_repr (n k : ℤ) (hn : |n| < 2 ^ 24) (hk : -149 ≤ k) :
    f32 ((n : ℚ) * 2 ^ k) = (n : ℚ) * 2 ^ k := by
  by_cases hn0 : n = 0
  · rw [hn0]
    simp [f32_zero]
  have h2pos : ∀ j : ℤ, (0 : ℚ) < 2 ^ j := fun j => zpow_pos (by norm_num) j
  have habs : |(n : ℚ) * 2 ^ k| = (|n| : ℤ) * 2 ^ k := by
    rw [abs_mul, abs_of_pos (h2pos k)]
    push_cast
    rfl
  have hn1 : (1 : ℤ) ≤ |n| := Int.one_le_abs hn0
  have hq : 0 < |(n : ℚ) * 2 ^ k| := by
    rw [habs]
    exact mul_pos (by exact_mod_cast hn1) (h2pos k)
  have hlo : k ≤ Int.log 2 |(n : ℚ) * 2 ^ k| := by
    rw [← Int.zpow_le_iff_le_log (by norm_num) hq, habs]
    push_cast
    have : (1 : ℚ) ≤ ((|n| : ℤ) : ℚ) := by exact_mod_cast hn1
    push_cast at this
    nlinarith [h2pos k]
  have hhi : Int.log 2 |(n : ℚ) * 2 ^ k| < k + 24 := by
    rw [← Int.lt_zpow_iff_log_lt (by norm_num) hq, habs]
    push_cast
    have h24 : ((|n| : ℤ) : ℚ) < 2 ^ (24 : ℕ) := by exact_mod_cast hn
    push_cast at h24
    rw [zpow_add₀ (by norm_num : (2 : ℚ) ≠ 0), mul_comm ((2 : ℚ) ^ k)]
    have : ((2 : ℚ) ^ (24 : ℤ)) = 2 ^ (24 : ℕ) := by norm_num
    rw [this]
    exact mul_lt_mul_of_pos_right h24 (h2pos k)
  unfold f32
  generalize hE : max (Int.log 2 |(n : ℚ) * 2 ^ k|) (-126) - 23 = E
  have hE' : E ≤ k := by
    rcases max_cases (Int.log 2 |(n : ℚ) * 2 ^ k|) (-126) with ⟨h, -⟩ | ⟨h, -⟩ <;>
      rw [h] at hE <;> omega
  obtain ⟨m, hm⟩ : ∃ m : ℕ, k - E = (m : ℤ) := ⟨(k - E).toNat, by omega⟩
  have hdiv : (n : ℚ) * 2 ^ k / 2 ^ E = ((n * 2 ^ m : ℤ) : ℚ) := by
    have hk : k = E + (m : ℤ) := by omega
    rw [hk, zpow_add₀ (by norm_num : (2 : ℚ) ≠ 0), zpow_natCast]
    push_cast
    field_simp
    ring
  rw [hdiv, round_even_intCast]
  have hk : k = E + (m : ℤ) := by omega
  rw [hk, zpow_add₀ (by norm_num : (2 : ℚ) ≠ 0), zpow_natCast]
  push_cast
  ring

/-- A number that is not negative does not round to a negative value. -/
theorem f32_nonneg (y : ℚ) (h : 0 ≤ y) : 0 ≤ f32 y := by
  unfold f32
  apply mul_nonneg
  · exact_mod_cast round_even_nonneg _ (div_nonneg h (zpow_pos (by norm_num) _).le)
  · exact (zpow_pos (by norm_num) _).le

/-- A positive number below `2 + 2 ^ (-23)`, the midpoint of 2 and the next
binary32 value, rounds to at most 2. -/
theorem f32_le_two (y : ℚ) (h0 : 0 < y) (h : y < 2 + 2 ^ (-23 : ℤ)) : f32 y ≤ 2 := by
  have h2pos : ∀ j : ℤ, (0 : ℚ) < 2 ^ j := fun j => zpow_pos (by norm_num) j
  by_cases hy : y < 2
  · have hlog : Int.log 2 |y| < 1 := by
      rw [abs_of_pos h0, ← Int.lt_zpow_iff_log_lt (by norm_num) h0]
      norm_num
      exact hy
    unfold f32
    generalize hE : max (Int.log 2 |y|) (-126) - 23 = E
    have hE' : E ≤ -23 := by
      rcases max_cases (Int.log 2 |y|) (-126) with ⟨h', -⟩ | ⟨h', -⟩ <;>
        rw [h'] at hE <;> omega
    obtain ⟨m, hm⟩ : ∃ m : ℕ, 1 - E = (m : ℤ) := ⟨(1 - E).toNat, by omega⟩
    have h2E : (2 : ℚ) = ((2 ^ m : ℤ) : ℚ) * 2 ^ E := by
      push_cast
      rw [← zpow_natCast, ← hm, ← zpow_add₀ (by norm_num : (2 : ℚ) ≠ 0)]
      norm_num
    have hr : round_even (y / 2 ^ E) ≤ (2 ^ m : ℤ) := by
      apply round_even_le
      have : y / 2 ^ E < ((2 ^ m : ℤ) : ℚ) := by
        rw [div_lt_iff₀ (h2pos E), ← h2E]
        exact hy
      linarith
    calc (round_even (y / 2 ^ E) : ℚ) * 2 ^ E
        ≤ ((2 ^ m : ℤ) : ℚ) * 2 ^ E :=
          mul_le_mul_of_nonneg_right (by exact_mod_cast hr) (h2pos E).le
      _ = 2 := h2E.symm
  · have hy2 : (2 : ℚ) ≤ y := not_lt.mp hy
    have hup : y < 2 ^ ((1 : ℤ) + 1) := by
      have : (2 : ℚ) ^ (-23 : ℤ) < 1 := by norm_num
      norm_num
      linarith
    rw [f32_eq y 1 (2 ^ 23) (by norm_num) (by rw [abs_of_pos h0]; norm_num; exact hy2)
      (by rw [abs_of_pos h0]; exact hup)]
    · norm_num
    · norm_num
      rw [lt_div_iff₀ (by norm_num)]
      norm_num
      linarith
    · norm_num
      rw [div_lt_iff₀ (by norm_num)]
      norm_num at h ⊢
      linarith

/-- An integer of magnitude below `2 ^ 24` is a binary32 value. -/
theorem f32_intCast (n : ℤ) (hn : |n| < 2 ^ 24) : f32 (n : ℚ) = n := by
  have h := f32_repr n 0 hn (by norm_num)
  simpa using h

/-- The binary32 value of `1 / 10 ^ 7`. -/
theorem f32_inv_1e7 : f32 (1 / 10000000) = 14073749 / 140737488355328 := by
  rw [f32_eq (1 / 10000000) (-24) 14073749 (by norm_num)
    (by rw [abs_of_pos (by norm_num)]; norm_num)
    (by rw [abs_of_pos (by norm_num)]; norm_num) (by norm_num) (by norm_num)]
  norm_num

/-! ## The block raycaster in binary32 -/

/-- With exact operations the rounded reciprocal is `inv_of`. -/
theorem inv_of_fl_id (gd : ℚ) : inv_of_fl id gd = inv_of gd := rfl

/-- With exact operations the rounded initial `tMax` is `tMax_of`. -/
theorem tMax_of_fl_id (gd g : ℚ) (i step : ℤ) : tMax_of_fl id gd g i step = tMax_of gd g i step := by
  unfold tMax_of_fl tMax_of
  simp only [id]

/-- An exact operation on a float that may be infinite changes nothing. -/
theorem fl_top_id (x : WithTop ℚ) : fl_top id x = x := by
  unfold fl_top
  cases x <;> rfl

/-- With exact operations the rounded advance is `raycast_advance`. -/
theorem raycast_advance_fl_id (c : RaySetup) (st : RayState) :
    raycast_advance_fl id c st = raycast_advance c st := by
  unfold raycast_advance_fl raycast_advance
  simp only [fl_top_id]

/-- With exact operations the rounded loop is `raycast_loop`. -/
theorem raycast_loop_fl_id (demo : Demo) (max_dist : ℚ) (c : RaySetup) :
    ∀ (fuel : ℕ) (st : RayState),
      raycast_loop_fl id demo max_dist c fuel st = raycast_loop demo max_dist c fuel st := by
  intro fuel
  induction fuel with
  | zero => intro st; rfl
  | succ f ih =>
    intro st
    rw [raycast_loop_fl, raycast_loop]
    simp only [raycast_advance_fl_id, ih]

/-- With exact operations `raycast_block_fl` is `raycast_block`. -/
theorem raycast_block_fl_id (fuel : ℕ) (demo : Demo) (origin dir : v3f) (max_dist : ℚ) :
    raycast_block_fl id fuel demo origin dir max_dist =
      raycast_block fuel demo origin dir max_dist := by
  rw [raycast_block_eq_loop]
  unfold raycast_block_fl
  rw [raycast_loop_fl_id]
  have hs : raycast_setup_fl id dir = raycast_setup dir := rfl
  have hi : raycast_init_fl id demo origin dir = raycast_init demo origin dir := by
    unfold raycast_init_fl raycast_init
    simp only [tMax_of_fl_id]
    rfl
  rw [hs, hi]

/-- With exact operations the rounded traversal is `raycast_visit`. -/
theorem raycast_visit_fl_id (c : RaySetup) (st : RayState) (n : ℕ) :
    raycast_visit_fl id c st n = raycast_visit c st n := by
  unfold raycast_visit_fl raycast_visit
  have : raycast_advance_fl id c = raycast_advance c := funext (raycast_advance_fl_id c)
  rw [this]

/-- In binary32, a ray along x alone whose `invX` is below `2 ^ (-23)` loops
forever in a grid of `Air` once `tMaxX` lies in `[0, 2]` and `max_dist >= 2`: the
rounded sum `tMaxX + invX` never exceeds 2. -/
theorem raycast_loop_stuck_x (demo : Demo) (max_dist : ℚ) (c : RaySetup) (i : ℚ)
    (hair : ∀ x y z : ℤ, block_get demo x y z = BlockType.BLOCK_AIR)
    (hmax : 2 ≤ max_dist) (hi0 : 0 < i) (hi : i < 2 ^ (-23 : ℤ))
    (hc : c.invX = (i : WithTop ℚ)) :
    ∀ (fuel : ℕ) (st : RayState) (a : ℚ), st.tMaxX = (a : WithTop ℚ) → 0 ≤ a → a ≤ 2 →
      st.tMaxY = ⊤ → st.tMaxZ = ⊤ → st.t ≤ (max_dist : WithTop ℚ) →
      raycast_loop_fl f32 demo max_dist c fuel st = none := by
  intro fuel
  induction fuel with
  | zero => intro st a _ _ _ _ _ _; rfl
  | succ f ih =>
    intro st a hx ha0 ha2 hy hz ht
    rw [raycast_loop_fl, if_pos ht, if_neg (fun h => h.2 (hair _ _ _))]
    have hadv : raycast_advance_fl f32 c st =
        { st with
          t := st.tMaxX
          tMaxX := fl_top f32 (st.tMaxX + c.invX)
          ix := st.ix + c.stepX
          normal := ⟨((-c.stepX : ℤ) : ℚ), 0, 0⟩ } := by
      unfold raycast_advance_fl
      have h1 : st.tMaxX < st.tMaxY := by rw [hx, hy]; exact WithTop.coe_lt_top a
      have h2 : st.tMaxX < st.tMaxZ := by rw [hx, hz]; exact WithTop.coe_lt_top a
      rw [if_pos h1, if_pos h2]
    have hsum : fl_top f32 (st.tMaxX + c.invX) = ((f32 (a + i) : ℚ) : WithTop ℚ) := by
      rw [hx, hc]
      rfl
    have ht' : (raycast_advance_fl f32 c st).t ≤ (max_dist : WithTop ℚ) := by
      rw [hadv]
      show st.tMaxX ≤ _
      rw [hx]
      exact WithTop.coe_le_coe.mpr (le_trans ha2 hmax)
    simp only
    rw [if_neg (not_lt.mpr ht')]
    apply ih (raycast_advance_fl f32 c st) (f32 (a + i))
    · rw [hadv]
      exact hsum
    · exact f32_nonneg _ (by linarith)
    · exact f32_le_two _ (by linarith) (by linarith)
    · rw [hadv]
      exact hy
    · rw [hadv]
      exact hz
    · exact ht'

/-- The same along z alone. -/
theorem raycast_loop_stuck_z (demo : Demo) (max_dist : ℚ) (c : RaySetup) (i : ℚ)
    (hair : ∀ x y z : ℤ, block_get demo x y z = BlockType.BLOCK_AIR)
    (hmax : 2 ≤ max_dist) (hi0 : 0 < i) (hi : i < 2 ^ (-23 : ℤ))
    (hc : c.invZ = (i : WithTop ℚ)) :
    ∀ (fuel : ℕ) (st : RayState) (a : ℚ), st.tMaxZ = (a : WithTop ℚ) → 0 ≤ a → a ≤ 2 →
      st.tMaxX = ⊤ → st.tMaxY = ⊤ → st.t ≤ (max_dist : WithTop ℚ) →
      raycast_loop_fl f32 demo max_dist c fuel st = none := by
  intro fuel
  induction fuel with
  | zero => intro st a _ _ _ _ _ _; rfl
  | succ f ih =>
    intro st a hz ha0 ha2 hx hy ht
    rw [raycast_loop_fl, if_pos ht, if_neg (fun h => h.2 (hair _ _ _))]
    have hadv : raycast_advance_fl f32 c st =
        { st with
          t := st.tMaxZ
          tMaxZ := fl_top f32 (st.tMaxZ + c.invZ)
          iz := st.iz + c.stepZ
          normal := ⟨0, 0, ((-c.stepZ : ℤ) : ℚ)⟩ } := by
      unfold raycast_advance_fl
      have h1 : ¬ st.tMaxX < st.tMaxY := by rw [hx, hy]; exact lt_irrefl _
      have h2 : ¬ st.tMaxY < st.tMaxZ := by rw [hy]; exact not_top_lt
      rw [if_neg h1, if_neg h2]
    have hsum : fl_top f32 (st.tMaxZ + c.invZ) = ((f32 (a + i) : ℚ) : WithTop ℚ) := by
      rw [hz, hc]
      rfl
    have ht' : (raycast_advance_fl f32 c st).t ≤ (max_dist : WithTop ℚ) := by
      rw [hadv]
      show st.tMaxZ ≤ _
      rw [hz]
      exact WithTop.coe_le_coe.mpr (le_trans ha2 hmax)
    simp only
    rw [if_neg (not_lt.mpr ht')]
    apply ih (raycast_advance_fl f32 c st) (f32 (a + i))
    · rw [hadv]
      exact hsum
    · exact f32_nonneg _ (by linarith)
    · exact f32_le_two _ (by linarith) (by linarith)
    · rw [hadv]
      exact hx
    · rw [hadv]
      exact hy
    · exact ht'

/-- Every cell of a grid filled with `Air` reads as `Air`. -/
theorem all_air_reads_air (sx sy sz : ℤ) (x y z : ℤ) :
    block_get (sample_demo sx sy sz all_air) x y z = BlockType.BLOCK_AIR := by
  unfold block_get
  split_ifs
  · rfl
  · rfl

/-- The binary32 values of 8, 9, 16 and 1. -/
theorem f32_small_ints : f32 8 = 8 ∧ f32 9 = 9 ∧ f32 16 = 16 ∧ f32 1 = 1 := by
  have h8 := f32_intCast 8 (by norm_num)
  have h9 := f32_intCast 9 (by norm_num)
  have h16 := f32_intCast 16 (by norm_num)
  have h1 := f32_intCast 1 (by norm_num)
  norm_num at h8 h9 h16 h1
  exact ⟨h8, h9, h16, h1⟩

/-- The binary32 value of `1 / 10 ^ 7` is a fixed point of the rounding. -/
theorem f32_inv_1e7_fixed :
    f32 (14073749 / 140737488355328) = 14073749 / 140737488355328 := by
  have h := f32_repr 14073749 (-47) (by norm_num) (by norm_num)
  norm_num at h
  norm_num
  exact h

/-- In binary32 the sample ray along +x starts in cell 8 with `tMaxX = invX`. -/
theorem sample_ray_x_init :
    (raycast_setup_fl f32 ⟨10000000, 0, 0⟩).invX =
      ((14073749 / 140737488355328 : ℚ) : WithTop ℚ) ∧
    (raycast_init_fl f32 (sample_demo 16 3 16 all_air) ⟨0, -3 / 2, 0⟩ ⟨10000000, 0, 0⟩).tMaxX =
      ((14073749 / 140737488355328 : ℚ) : WithTop ℚ) ∧
    (raycast_init_fl f32 (sample_demo 16 3 16 all_air) ⟨0, -3 / 2, 0⟩ ⟨10000000, 0, 0⟩).tMaxY = ⊤ ∧
    (raycast_init_fl f32 (sample_demo 16 3 16 all_air) ⟨0, -3 / 2, 0⟩ ⟨10000000, 0, 0⟩).tMaxZ = ⊤ ∧
    (raycast_init_fl f32 (sample_demo 16 3 16 all_air) ⟨0, -3 / 2, 0⟩ ⟨10000000, 0, 0⟩).t = 0 := by
  obtain ⟨h8, h9, h16, h1⟩ := f32_small_ints
  have hgx : gx_fl f32 (sample_demo 16 3 16 all_air) ⟨0, -3 / 2, 0⟩ = 8 := by
    unfold gx_fl
    norm_num [sample_demo, h16, h8]
  have hinv : f32 (1 / |(10000000 : ℚ)|) = 14073749 / 140737488355328 := by
    rw [abs_of_pos (by norm_num)]
    exact f32_inv_1e7
  refine ⟨?_, ?_, ?_, ?_, rfl⟩
  · show inv_of_fl f32 10000000 = _
    unfold inv_of_fl
    rw [if_pos (by norm_num), hinv]
  · show tMax_of_fl f32 10000000 (gx_fl f32 _ _) ⌊gx_fl f32 _ _⌋ (step_of 10000000) = _
    rw [hgx]
    have hfl : ⌊(8 : ℚ)⌋ = 8 := by
      rw [Int.floor_eq_iff]
      norm_num
    have hstep : step_of 10000000 = 1 := by
      unfold step_of
      rw [if_pos (by norm_num)]
    rw [hfl, hstep]
    unfold tMax_of_fl
    rw [if_pos (by norm_num), if_pos (by norm_num), hinv]
    norm_num [h9, h1, f32_inv_1e7_fixed]
  · simp [raycast_init_fl, tMax_of_fl]
  · simp [raycast_init_fl, tMax_of_fl]

/-- In binary32 the sample ray along -z starts on a cell boundary with
`tMaxZ = 0`. -/
theorem sample_ray_z_init :
    (raycast_setup_fl f32 ⟨0, 0, -10000000⟩).invZ =
      ((14073749 / 140737488355328 : ℚ) : WithTop ℚ) ∧
    (raycast_init_fl f32 (sample_demo 16 3 16 all_air) ⟨0, -3 / 2, 6⟩ ⟨0, 0, -10000000⟩).tMaxZ =
      ((0 : ℚ) : WithTop ℚ) ∧
    (raycast_init_fl f32 (sample_demo 16 3 16 all_air) ⟨0, -3 / 2, 6⟩ ⟨0, 0, -10000000⟩).tMaxX = ⊤ ∧
    (raycast_init_fl f32 (sample_demo 16 3 16 all_air) ⟨0, -3 / 2, 6⟩ ⟨0, 0, -10000000⟩).tMaxY = ⊤ ∧
    (raycast_init_fl f32 (sample_demo 16 3 16 all_air) ⟨0, -3 / 2, 6⟩ ⟨0, 0, -10000000⟩).t = 0 := by
  obtain ⟨h8, h9, h16, h1⟩ := f32_small_ints
  have h14 : f32 14 = 14 := by
    have h := f32_intCast 14 (by norm_num)
    norm_num at h
    exact h
  have hgz : gz_fl f32 (sample_demo 16 3 16 all_air) ⟨0, -3 / 2, 6⟩ = 14 := by
    unfold gz_fl
    norm_num [sample_demo, h16, h8, h14]
  have hinv : f32 (1 / |(-10000000 : ℚ)|) = 14073749 / 140737488355328 := by
    rw [abs_of_neg (by norm_num)]
    norm_num
    have := f32_inv_1e7
    norm_num at this
    exact this
  refine ⟨?_, ?_, ?_, ?_, rfl⟩
  · show inv_of_fl f32 (-10000000) = _
    unfold inv_of_fl
    rw [if_pos (by norm_num), hinv]
  · show tMax_of_fl f32 (-10000000) (gz_fl f32 _ _) ⌊gz_fl f32 _ _⌋ (step_of (-10000000)) = _
    rw [hgz]
    have hfl : ⌊(14 : ℚ)⌋ = 14 := by
      rw [Int.floor_eq_iff]
      norm_num
    have hstep : step_of (-10000000) = -1 := by
      unfold step_of
      rw [if_neg (by norm_num)]
    rw [hfl, hstep]
    unfold tMax_of_fl
    rw [if_pos (by norm_num), if_neg (by norm_num), hinv]
    norm_num [h14, f32_zero]
  · simp [raycast_init_fl, tMax_of_fl]
  · simp [raycast_init_fl, tMax_of_fl]

/-- Counterexample for C25: in binary32 the call with direction `(1e7, 0, 0)`
from the centre of a 16x3x16 grid of `Air` and `max_dist = 6` never returns: the
loop of `raycast_block` is still running after every number of iterations,
because `tMaxX += invX` with `invX = 1.0000000117e-07` stops changing `tMaxX`
at 2.  In exact arithmetic the same call returns false. -/
theorem raycast_block_binary32_loops :
    (∀ fuel : ℕ,
      raycast_block_fl f32 fuel (sample_demo 16 3 16 all_air) ⟨0, -3 / 2, 0⟩
        ⟨10000000, 0, 0⟩ 6 = none) ∧
    (∃ fuel0 : ℕ, ∀ fuel : ℕ, fuel0 ≤ fuel →
      raycast_block_fl id fuel (sample_demo 16 3 16 all_air) ⟨0, -3 / 2, 0⟩
        ⟨10000000, 0, 0⟩ 6 = some none) := by
  refine ⟨fun fuel => ?_, ?_⟩
  · obtain ⟨hc, hx, hy, hz, ht⟩ := sample_ray_x_init
    unfold raycast_block_fl
    exact raycast_loop_stuck_x _ 6 _ (14073749 / 140737488355328)
      (all_air_reads_air 16 3 16) (by norm_num) (by norm_num) (by norm_num) hc fuel _
      (14073749 / 140737488355328) hx (by norm_num) (by norm_num) hy hz
      (by rw [ht]; exact WithTop.coe_le_coe.mpr (by norm_num))
  · obtain ⟨fuel0, h⟩ := raycast_block_miss (sample_demo 16 3 16 all_air) ⟨0, -3 / 2, 0⟩
      ⟨10000000, 0, 0⟩ 6 (fun n _ => all_air_reads_air 16 3 16 _ _ _)
    exact ⟨fuel0, fun fuel hf => by rw [raycast_block_fl_id]; exact h fuel hf⟩

/-- Counterexample for C11: in binary32 the ray with direction `(0, 0, -1e7)` in
a 16x3x16 grid of `Air`, with `max_dist = 6`, meets no solid cell, and the call
does not return false: the loop is still running after every number of
iterations. -/
theorem raycast_block_air_no_return :
    (∀ x y z : ℤ, block_get (sample_demo 16 3 16 all_air) x y z = BlockType.BLOCK_AIR) ∧
    (∀ fuel : ℕ,
      raycast_block_fl f32 fuel (sample_demo 16 3 16 all_air) ⟨0, -3 / 2, 6⟩
        ⟨0, 0, -10000000⟩ 6 = none) := by
  refine ⟨all_air_reads_air 16 3 16, fun fuel => ?_⟩
  obtain ⟨hc, hz, hx, hy, ht⟩ := sample_ray_z_init
  unfold raycast_block_fl
  exact raycast_loop_stuck_z _ 6 _ (14073749 / 140737488355328)
    (all_air_reads_air 16 3 16) (by norm_num) (by norm_num) (by norm_num) hc fuel _
    0 hz (by norm_num) (by norm_num) hx hy
    (by rw [ht]; exact WithTop.coe_le_coe.mpr (by norm_num))

/-! ## Block raycaster with rounded operations: hits and misses -/

/-- Whatever the rounding, a hit returned by the loop is the cell of some state
of the traversal, with that state's normal; that cell is solid, it was entered
within `max_dist`, and every earlier state of the traversal was within
`max_dist` on a cell reading `Air`. -/
theorem raycast_loop_fl_sound (fl : ℚ → ℚ) (demo : Demo) (max_dist : ℚ) (c : RaySetup) :
    ∀ (fuel : ℕ) (st : RayState) (h : RayHit),
      raycast_loop_fl fl demo max_dist c fuel st = some (some h) →
      ∃ n : ℕ,
        h = { hx := (raycast_visit_fl fl c st n).ix, hy := (raycast_visit_fl fl c st n).iy,
              hz := (raycast_visit_fl fl c st n).iz,
              hnormal := (raycast_visit_fl fl c st n).normal } ∧
        block_get demo (raycast_visit_fl fl c st n).ix (raycast_visit_fl fl c st n).iy
          (raycast_visit_fl fl c st n).iz ≠ BlockType.BLOCK_AIR ∧
        (raycast_visit_fl fl c st n).t ≤ (max_dist : WithTop ℚ) ∧
        ∀ m : ℕ, m < n →
          block_get demo (raycast_visit_fl fl c st m).ix (raycast_visit_fl fl c st m).iy
            (raycast_visit_fl fl c st m).iz = BlockType.BLOCK_AIR ∧
          (raycast_visit_fl fl c st m).t ≤ (max_dist : WithTop ℚ) := by
  intro fuel
  induction fuel with
  | zero =>
    intro st h hres
    simp [raycast_loop_fl] at hres
  | succ f ih =>
    intro st h hres
    rw [raycast_loop_fl] at hres
    by_cases ht : st.t ≤ (max_dist : WithTop ℚ)
    · rw [if_pos ht] at hres
      by_cases hin : (st.ix ≥ 0 ∧ st.ix < demo.size_x ∧ st.iy ≥ 0 ∧ st.iy < demo.size_y ∧
          st.iz ≥ 0 ∧ st.iz < demo.size_z) ∧
          block_get demo st.ix st.iy st.iz ≠ BlockType.BLOCK_AIR
      · rw [if_pos hin] at hres
        refine ⟨0, ?_, hin.2, ht, ?_⟩
        · have := Option.some.inj (Option.some.inj hres)
          exact this.symm
        · intro m hm
          exact absurd hm (Nat.not_lt_zero m)
      · rw [if_neg hin] at hres
        simp only at hres
        by_cases hb : (max_dist : WithTop ℚ) < (raycast_advance_fl fl c st).t
        · rw [if_pos hb] at hres
          simp at hres
        · rw [if_neg hb] at hres
          obtain ⟨n, h1, h2, h3, h4⟩ := ih (raycast_advance_fl fl c st) h hres
          refine ⟨n + 1, h1, h2, h3, ?_⟩
          intro m hm
          cases m with
          | zero => exact ⟨not_solid_reads_air demo _ _ _ hin, ht⟩
          | succ k => exact h4 k (by omega)
    · rw [if_neg ht] at hres
      simp at hres

/-- Whatever the rounding, a call that returns for a traversal that finds every
cell it enters within `max_dist` reading `Air` returns false. -/
theorem raycast_block_fl_miss (fl : ℚ → ℚ) (demo : Demo) (origin dir : v3f) (max_dist : ℚ)
    (hair : ∀ n : ℕ,
      (raycast_visit_fl fl (raycast_setup_fl fl dir) (raycast_init_fl fl demo origin dir) n).t
        ≤ (max_dist : WithTop ℚ) →
      block_get demo
        (raycast_visit_fl fl (raycast_setup_fl fl dir) (raycast_init_fl fl demo origin dir) n).ix
        (raycast_visit_fl fl (raycast_setup_fl fl dir) (raycast_init_fl fl demo origin dir) n).iy
        (raycast_visit_fl fl (raycast_setup_fl fl dir) (raycast_init_fl fl demo origin dir) n).iz
        = BlockType.BLOCK_AIR) :
    ∀ (fuel : ℕ) (r : Option RayHit),
      raycast_block_fl fl fuel demo origin dir max_dist = some r → r = none := by
  intro fuel r hres
  cases r with
  | none => rfl
  | some h =>
    obtain ⟨n, -, h2, h3, -⟩ := raycast_loop_fl_sound fl demo max_dist _ fuel _ h hres
    exact absurd (hair n h3) h2

/-- With exact operations the rounded setup and initial state are those of
`raycast_block`. -/
theorem raycast_setup_init_fl_id (demo : Demo) (origin dir : v3f) :
    raycast_setup_fl id dir = raycast_setup dir ∧
    raycast_init_fl id demo origin dir = raycast_init demo origin dir := by
  refine ⟨rfl, ?_⟩
  unfold raycast_init_fl raycast_init
  simp only [tMax_of_fl_id]
  rfl

/-- The next state of the rounded traversal is the rounded advance of the
current one. -/
theorem raycast_visit_fl_succ (fl : ℚ → ℚ) (c : RaySetup) (st : RayState) (n : ℕ) :
    raycast_visit_fl fl c st (n + 1) = raycast_advance_fl fl c (raycast_visit_fl fl c st n) := by
  unfold raycast_visit_fl
  exact Function.iterate_succ_apply' _ _ _

/-- A rounding leaves `INFINITY` in place. -/
theorem fl_top_top (fl : ℚ → ℚ) : fl_top fl ⊤ = ⊤ := rfl

/-- Whatever the rounding, an axis whose `tMax` is infinite is not the one an
advance steps along x, and its `tMax` stays infinite. -/
theorem raycast_advance_fl_top_x (fl : ℚ → ℚ) (c : RaySetup) (st : RayState)
    (h : st.tMaxX = ⊤) :
    (raycast_advance_fl fl c st).tMaxX = ⊤ ∧ (raycast_advance_fl fl c st).ix = st.ix := by
  unfold raycast_advance_fl
  have h1 : ¬ st.tMaxX < st.tMaxY := by
    rw [h]
    exact not_top_lt
  rw [if_neg h1]
  by_cases h2 : st.tMaxY < st.tMaxZ
  · rw [if_pos h2]
    exact ⟨h, rfl⟩
  · rw [if_neg h2]
    exact ⟨h, rfl⟩

/-- The same for the y axis. -/
theorem raycast_advance_fl_top_y (fl : ℚ → ℚ) (c : RaySetup) (st : RayState)
    (h : st.tMaxY = ⊤) :
    (raycast_advance_fl fl c st).tMaxY = ⊤ ∧ (raycast_advance_fl fl c st).iy = st.iy := by
  unfold raycast_advance_fl
  have h2 : ¬ st.tMaxY < st.tMaxZ := by
    rw [h]
    exact not_top_lt
  by_cases h1 : st.tMaxX < st.tMaxY
  · rw [if_pos h1]
    by_cases h3 : st.tMaxX < st.tMaxZ
    · rw [if_pos h3]
      exact ⟨h, rfl⟩
    · rw [if_neg h3]
      exact ⟨h, rfl⟩
  · rw [if_neg h1, if_neg h2]
    exact ⟨h, rfl⟩

/-- Whatever the rounding, an infinite `tMaxZ` stays infinite, and z is not
stepped while x or y has a finite `tMax`. -/
theorem raycast_advance_fl_top_z (fl : ℚ → ℚ) (c : RaySetup) (st : RayState)
    (h : st.tMaxZ = ⊤) :
    (raycast_advance_fl fl c st).tMaxZ = ⊤ ∧
    ((st.tMaxX ≠ ⊤ ∨ st.tMaxY ≠ ⊤) → (raycast_advance_fl fl c st).iz = st.iz) := by
  unfold raycast_advance_fl
  by_cases h1 : st.tMaxX < st.tMaxY
  · rw [if_pos h1]
    have h3 : st.tMaxX < st.tMaxZ := by
      rw [h]
      exact lt_of_lt_of_le h1 le_top
    rw [if_pos h3]
    exact ⟨h, fun _ => rfl⟩
  · rw [if_neg h1]
    by_cases h2 : st.tMaxY < st.tMaxZ
    · rw [if_pos h2]
      exact ⟨h, fun _ => rfl⟩
    · rw [if_neg h2]
      refine ⟨?_, ?_⟩
      · show fl_top fl (st.tMaxZ + c.invZ) = ⊤
        rw [h, WithTop.top_add]
        rfl
      · intro hfin
        exfalso
        rw [h] at h2
        have hy : st.tMaxY = ⊤ := by
          by_contra hne
          exact h2 (lt_top_iff_ne_top.mpr hne)
        rw [hy] at h1
        have hx : st.tMaxX = ⊤ := by
          by_contra hne
          exact h1 (lt_top_iff_ne_top.mpr hne)
        rcases hfin with hf | hf
        · exact hf hx
        · exact hf hy

/-! ## Near-clip interpolation with rounded operations -/

/-- With exact operations the rounded interpolation is that of `clip_inter`. -/
theorem clip_inter_fl_id (near_plane : ℚ) (a b : ClipVert) :
    clip_t_fl id near_plane a b = clip_t near_plane a b ∧
    clip_inter_fl id near_plane a b = clip_inter near_plane a b ∧
    clip_edge_fl id near_plane a b = clip_edge near_plane a b :=
  ⟨rfl, rfl, rfl⟩

/-- In exact arithmetic an endpoint of a crossing edge that lies on the near
plane is reproduced by the interpolation. -/
theorem clip_inter_exact_on_plane (near_plane : ℚ) (a b : ClipVert)
    (hcross : (a.view_pos.z ≤ -near_plane ∧ ¬ b.view_pos.z ≤ -near_plane) ∨
      (¬ a.view_pos.z ≤ -near_plane ∧ b.view_pos.z ≤ -near_plane)) :
    (a.view_pos.z = -near_plane →
      clip_t near_plane a b = 0 ∧ clip_inter near_plane a b = a) ∧
    (b.view_pos.z = -near_plane →
      clip_t near_plane a b = 1 ∧ clip_inter near_plane a b = b) := by
  refine ⟨?_, ?_⟩
  · intro ha
    have ht : clip_t near_plane a b = 0 := by
      unfold clip_t
      rw [ha]
      simp
    refine ⟨ht, ?_⟩
    unfold clip_inter
    simp only [ht, mul_zero, add_zero]
    rw [← ha]
  · intro hb
    have hne : b.view_pos.z - a.view_pos.z ≠ 0 := by
      rcases hcross with ⟨h1, h2⟩ | ⟨h1, -⟩
      · exact absurd (le_of_eq hb) h2
      · intro h
        have : a.view_pos.z = b.view_pos.z := by linarith
        rw [this] at h1
        exact h1 (le_of_eq hb)
    have ht : clip_t near_plane a b = 1 := by
      unfold clip_t
      rw [← hb]
      exact div_self hne
    refine ⟨ht, ?_⟩
    unfold clip_inter
    simp only [ht, mul_one, add_sub_cancel]
    rw [← hb]

/-- Counterexample for C17: in binary32, with the near plane at 0.1f, the edge
from `a` with view x 2.3f and view z 1 to `b` with view x 0.1f on the near plane
crosses the plane and has `t = 1`, and the interpolated vertex has view x
`a.x + (b.x - a.x) * 1 = 0.099999905`, not the 0.1f of `b`: the endpoint is not
reproduced.  In exact arithmetic it is. -/
theorem clip_inter_binary32_off_endpoint :
    (¬ (1 : ℚ) ≤ -(13421773 / 134217728) ∧
      (-(13421773 / 134217728) : ℚ) ≤ -(13421773 / 134217728)) ∧
    f32 (9646899 / 4194304) = 9646899 / 4194304 ∧
    f32 (13421773 / 134217728) = 13421773 / 134217728 ∧
    clip_t_fl f32 (13421773 / 134217728) ⟨⟨9646899 / 4194304, 0, 1⟩, ⟨0, 0⟩⟩
      ⟨⟨13421773 / 134217728, 0, -(13421773 / 134217728)⟩, ⟨0, 0⟩⟩ = 1 ∧
    (clip_inter_fl f32 (13421773 / 134217728) ⟨⟨9646899 / 4194304, 0, 1⟩, ⟨0, 0⟩⟩
      ⟨⟨13421773 / 134217728, 0, -(13421773 / 134217728)⟩, ⟨0, 0⟩⟩).view_pos.x
      = 209715 / 2097152 ∧
    clip_inter_fl f32 (13421773 / 134217728) ⟨⟨9646899 / 4194304, 0, 1⟩, ⟨0, 0⟩⟩
      ⟨⟨13421773 / 134217728, 0, -(13421773 / 134217728)⟩, ⟨0, 0⟩⟩
      ≠ ⟨⟨13421773 / 134217728, 0, -(13421773 / 134217728)⟩, ⟨0, 0⟩⟩ ∧
    clip_inter_fl id (13421773 / 134217728) ⟨⟨9646899 / 4194304, 0, 1⟩, ⟨0, 0⟩⟩
      ⟨⟨13421773 / 134217728, 0, -(13421773 / 134217728)⟩, ⟨0, 0⟩⟩
      = ⟨⟨13421773 / 134217728, 0, -(13421773 / 134217728)⟩, ⟨0, 0⟩⟩ := by
  have h1 : f32 1 = 1 := f32_small_ints.2.2.2
  have ha : f32 (9646899 / 4194304) = 9646899 / 4194304 := by
    have h := f32_repr 9646899 (-22) (by norm_num) (by norm_num)
    norm_num at h
    norm_num
    exact h
  have hb : f32 (13421773 / 134217728) = 13421773 / 134217728 := by
    have h := f32_repr 13421773 (-27) (by norm_num) (by norm_num)
    norm_num at h
    norm_num
    exact h
  have hd : f32 (-(13421773 / 134217728) - 1) = -(9227469 / 8388608) := by
    rw [f32_eq _ 0 (-9227469) (by norm_num)
      (by rw [abs_of_neg (by norm_num)]; norm_num)
      (by rw [abs_of_neg (by norm_num)]; norm_num) (by norm_num) (by norm_num)]
    norm_num
  have hba : f32 (13421773 / 134217728 - 9646899 / 4194304) = -(9227469 / 4194304) := by
    rw [f32_eq _ 1 (-9227469) (by norm_num)
      (by rw [abs_of_neg (by norm_num)]; norm_num)
      (by rw [abs_of_neg (by norm_num)]; norm_num) (by norm_num) (by norm_num)]
    norm_num
  have hba2 : f32 (-(9227469 / 4194304)) = -(9227469 / 4194304) := by
    have h := f32_repr (-9227469) (-22) (by norm_num) (by norm_num)
    norm_num at h
    exact h
  have hsum : f32 (9646899 / 4194304 + -(9227469 / 4194304)) = 209715 / 2097152 := by
    have h := f32_repr 209715 (-21) (by norm_num) (by norm_num)
    norm_num at h
    norm_num
    exact h
  have ht : clip_t_fl f32 (13421773 / 134217728) ⟨⟨9646899 / 4194304, 0, 1⟩, ⟨0, 0⟩⟩
      ⟨⟨13421773 / 134217728, 0, -(13421773 / 134217728)⟩, ⟨0, 0⟩⟩ = 1 := by
    unfold clip_t_fl
    simp only [hd]
    norm_num [h1]
  have hx : (clip_inter_fl f32 (13421773 / 134217728) ⟨⟨9646899 / 4194304, 0, 1⟩, ⟨0, 0⟩⟩
      ⟨⟨13421773 / 134217728, 0, -(13421773 / 134217728)⟩, ⟨0, 0⟩⟩).view_pos.x
      = 209715 / 2097152 := by
    unfold clip_inter_fl
    simp only [ht, mul_one, hba, hba2, hsum]
  refine ⟨⟨by norm_num, le_rfl⟩, ha, hb, ht, hx, ?_, ?_⟩
  · intro h
    have h' := congrArg (fun v : ClipVert => v.view_pos.x) h
    simp only at h'
    rw [hx] at h'
    norm_num at h'
  · have h := (clip_inter_exact_on_plane (13421773 / 134217728)
      ⟨⟨9646899 / 4194304, 0, 1⟩, ⟨0, 0⟩⟩
      ⟨⟨13421773 / 134217728, 0, -(13421773 / 134217728)⟩, ⟨0, 0⟩⟩
      (Or.inr ⟨by norm_num, by norm_num⟩)).2 rfl
    exact h.2

/-! ## Scan range of the collision resolver in binary32 -/

/-- With exact operations the rounded player box and loop bounds are those of
`resolve_init`, `ix_min`, …, `iy_max`. -/
theorem scan_range_fl_id (demo : Demo) :
    resolve_init_fl id demo = resolve_init demo ∧
    ix_min_fl id demo = ix_min demo ∧ ix_max_fl id demo = ix_max demo ∧
    iy_min_fl id demo = iy_min demo ∧ iy_max_fl id demo = iy_max demo ∧
    iz_min_fl id demo = iz_min demo ∧ iz_max_fl id demo = iz_max demo :=
  ⟨rfl, rfl, rfl, rfl, rfl, rfl, rfl⟩

/-- The binary32 values of the constants `0.3f` and `1.6f`. -/
theorem f32_player_consts :
    f32 PLAYER_RADIUS = 5033165 / 16777216 ∧ f32 PLAYER_HEIGHT = 13421773 / 8388608 := by
  unfold PLAYER_RADIUS PLAYER_HEIGHT
  constructor
  · rw [f32_eq _ (-2) 10066330 (by norm_num)
      (by rw [abs_of_pos (by norm_num)]; norm_num)
      (by rw [abs_of_pos (by norm_num)]; norm_num) (by norm_num) (by norm_num)]
    norm_num
  · rw [f32_eq _ 0 13421773 (by norm_num)
      (by rw [abs_of_pos (by norm_num)]; norm_num)
      (by rw [abs_of_pos (by norm_num)]; norm_num) (by norm_num) (by norm_num)]
    norm_num

/-- In binary32 the sum `(7 - 2^-21) + 8` lies halfway between two values and
rounds to the even one, 15. -/
theorem f32_tie_fifteen : f32 (14680063 / 2097152 + 8) = 15 := by
  rw [f32_of_bounds _ 3 (by norm_num)
    (by rw [abs_of_pos (by norm_num)]; norm_num)
    (by rw [abs_of_pos (by norm_num)]; norm_num)]
  have hz : ((14680063 / 2097152 + 8 : ℚ)) / 2 ^ ((3 : ℤ) - 23) = 31457279 / 2 := by
    norm_num
  have hf : ⌊(31457279 / 2 : ℚ)⌋ = 15728639 := by
    rw [Int.floor_eq_iff]
    norm_num
  have hr : round_even (31457279 / 2) = 15728640 := by
    unfold round_even
    rw [hf]
    norm_num
  rw [hz, hr]
  norm_num

/-- The player box computed in binary32 for the camera at
`(7.2999997, 0.5, 0)`. -/
theorem sample_box_binary32 :
    (resolve_init_fl f32
        (sample_player ⟨15309209 / 2097152, 1 / 2, 0⟩ 16 3 16 all_stone)).pmin_x
      = 14680063 / 2097152 ∧
    (resolve_init_fl f32
        (sample_player ⟨15309209 / 2097152, 1 / 2, 0⟩ 16 3 16 all_stone)).pmax_x
      = 15938355 / 2097152 ∧
    (resolve_init_fl f32
        (sample_player ⟨15309209 / 2097152, 1 / 2, 0⟩ 16 3 16 all_stone)).pmin_y
      = -(9227469 / 8388608) ∧
    (resolve_init_fl f32
        (sample_player ⟨15309209 / 2097152, 1 / 2, 0⟩ 16 3 16 all_stone)).pmax_y
      = 1 / 2 ∧
    (resolve_init_fl f32
        (sample_player ⟨15309209 / 2097152, 1 / 2, 0⟩ 16 3 16 all_stone)).pmin_z
      = -(5033165 / 16777216) ∧
    (resolve_init_fl f32
        (sample_player ⟨15309209 / 2097152, 1 / 2, 0⟩ 16 3 16 all_stone)).pmax_z
      = 5033165 / 16777216 := by
  obtain ⟨hR, hH⟩ := f32_player_consts
  have h1 : f32 (15309209 / 2097152 - 5033165 / 16777216) = 14680063 / 2097152 := by
    rw [f32_eq _ 2 14680063 (by norm_num)
      (by rw [abs_of_pos (by norm_num)]; norm_num)
      (by rw [abs_of_pos (by norm_num)]; norm_num) (by norm_num) (by norm_num)]
    norm_num
  have h2 : f32 (15309209 / 2097152 + 5033165 / 16777216) = 15938355 / 2097152 := by
    rw [f32_eq _ 2 15938355 (by norm_num)
      (by rw [abs_of_pos (by norm_num)]; norm_num)
      (by rw [abs_of_pos (by norm_num)]; norm_num) (by norm_num) (by norm_num)]
    norm_num
  have h3 : f32 (1 / 2 - 13421773 / 8388608) = -(9227469 / 8388608) := by
    have h := f32_repr (-9227469) (-23) (by norm_num) (by norm_num)
    norm_num at h
    norm_num
    exact h
  have h4 : f32 (0 - 5033165 / 16777216) = -(5033165 / 16777216) := by
    have h := f32_repr (-5033165) (-24) (by norm_num) (by norm_num)
    norm_num at h
    norm_num
    exact h
  have h5 : f32 (0 + 5033165 / 16777216) = 5033165 / 16777216 := by
    have h := f32_repr 5033165 (-24) (by norm_num) (by norm_num)
    norm_num at h
    norm_num
    exact h
  refine ⟨?_, ?_, ?_, rfl, ?_, ?_⟩
  · show f32 (15309209 / 2097152 - f32 PLAYER_RADIUS) = _
    rw [hR, h1]
  · show f32 (15309209 / 2097152 + f32 PLAYER_RADIUS) = _
    rw [hR, h2]
  · show f32 (1 / 2 - f32 PLAYER_HEIGHT) = _
    rw [hH, h3]
  · show f32 (0 - f32 PLAYER_RADIUS) = _
    rw [hR, h4]
  · show f32 (0 + f32 PLAYER_RADIUS) = _
    rw [hR, h5]

/-- In binary32, in a 16x3x16 grid of stone with the camera at
`(7.2999997, 0.5, 0)`: the cell `(14, 0, 8)` is solid, its computed overlaps are
`ox = 2^-21`, `oy = 1`, `oz = 0.3f`, and `ix_min = 15`. -/
theorem sample_scan_binary32 :
    f32 (15309209 / 2097152) = 15309209 / 2097152 ∧
    block_get (sample_player ⟨15309209 / 2097152, 1 / 2, 0⟩ 16 3 16 all_stone) 14 0 8
      ≠ BlockType.BLOCK_AIR ∧
    overlap_x_fl f32 (resolve_init_fl f32
      (sample_player ⟨15309209 / 2097152, 1 / 2, 0⟩ 16 3 16 all_stone)) 14 = 1 / 2097152 ∧
    overlap_y_fl f32 (resolve_init_fl f32
      (sample_player ⟨15309209 / 2097152, 1 / 2, 0⟩ 16 3 16 all_stone)) 0 = 1 ∧
    overlap_z_fl f32 (resolve_init_fl f32
      (sample_player ⟨15309209 / 2097152, 1 / 2, 0⟩ 16 3 16 all_stone)) 8
      = 5033165 / 16777216 ∧
    ix_min_fl f32 (sample_player ⟨15309209 / 2097152, 1 / 2, 0⟩ 16 3 16 all_stone) = 15 ∧
    ¬ (ix_min_fl f32 (sample_player ⟨15309209 / 2097152, 1 / 2, 0⟩ 16 3 16 all_stone) ≤ 14 ∧
      14 ≤ ix_max_fl f32 (sample_player ⟨15309209 / 2097152, 1 / 2, 0⟩ 16 3 16 all_stone)) := by
  obtain ⟨h8, h9, h16, h1⟩ := f32_small_ints
  obtain ⟨bx0, bx1, by0, by1, bz0, bz1⟩ := sample_box_binary32
  have h6 : f32 6 = 6 := by
    have h := f32_intCast 6 (by norm_num)
    norm_num at h
    exact h
  have h7 : f32 7 = 7 := by
    have h := f32_intCast 7 (by norm_num)
    norm_num at h
    exact h
  have h14 : f32 14 = 14 := by
    have h := f32_intCast 14 (by norm_num)
    norm_num at h
    exact h
  have hc : f32 (15309209 / 2097152) = 15309209 / 2097152 := by
    have h := f32_repr 15309209 (-21) (by norm_num) (by norm_num)
    norm_num at h
    norm_num
    exact h
  have hox : f32 (1 / 2097152) = 1 / 2097152 := by
    have h := f32_repr 1 (-21) (by norm_num) (by norm_num)
    norm_num at h
    norm_num
    exact h
  have hoz : f32 (5033165 / 16777216) = 5033165 / 16777216 := by
    have h := f32_repr 5033165 (-24) (by norm_num) (by norm_num)
    norm_num at h
    norm_num
    exact h
  have hsx : (resolve_init_fl f32
      (sample_player ⟨15309209 / 2097152, 1 / 2, 0⟩ 16 3 16 all_stone)).demo.size_x = 16 := rfl
  have hsz : (resolve_init_fl f32
      (sample_player ⟨15309209 / 2097152, 1 / 2, 0⟩ 16 3 16 all_stone)).demo.size_z = 16 := rfl
  have hmin : ix_min_fl f32 (sample_player ⟨15309209 / 2097152, 1 / 2, 0⟩ 16 3 16 all_stone)
      = 15 := by
    unfold ix_min_fl
    rw [bx0]
    have hs : (sample_player ⟨15309209 / 2097152, 1 / 2, 0⟩ 16 3 16 all_stone).size_x = 16 :=
      rfl
    rw [hs]
    have hhalf : f32 (f32 ((16 : ℤ) : ℚ) * (1 / 2)) = 8 := by
      norm_num [h16, h8]
    rw [hhalf, f32_tie_fifteen]
    have hf : ⌊(15 : ℚ)⌋ = 15 := by
      rw [Int.floor_eq_iff]
      norm_num
    rw [hf]
    decide
  refine ⟨hc, ?_, ?_, ?_, ?_, hmin, ?_⟩
  · have : block_get (sample_player ⟨15309209 / 2097152, 1 / 2, 0⟩ 16 3 16 all_stone) 14 0 8
        = BlockType.BLOCK_STONE := by
      unfold block_get
      rw [if_neg (by decide)]
      rfl
    rw [this]
    decide
  · unfold overlap_x_fl bmax_x_fl bmin_x_fl
    rw [bx0, bx1, hsx]
    norm_num [h16, h8, h14, h6, h7, min_def, max_def, hox]
  · unfold overlap_y_fl bmax_y_fl bmin_y_fl
    rw [by0, by1]
    norm_num [h1, f32_zero, min_def, max_def]
  · unfold overlap_z_fl bmax_z_fl bmin_z_fl
    rw [bz0, bz1, hsz]
    norm_num [h16, h8, h1, f32_zero, min_def, max_def, hoz]
  · rw [hmin]
    intro h
    exact absurd h.1 (by decide)

/-- Counterexample for C29: in binary32, in a 16x3x16 grid of stone with the
camera at `(7.2999997, 0.5, 0)`, the cell `(14, 0, 8)` is solid and the overlaps
`ox`, `oy`, `oz` the loop body would compute for it are positive
(`ox = 2^-21`), but `pmin_x + 8.0f` rounds up to 15, so `ix_min = 15` and the
cell is outside the scanned range. -/
theorem scan_range_binary32_misses_cell :
    f32 (15309209 / 2097152) = 15309209 / 2097152 ∧
    block_get (sample_player ⟨15309209 / 2097152, 1 / 2, 0⟩ 16 3 16 all_stone) 14 0 8
      ≠ BlockType.BLOCK_AIR ∧
    overlap_x_fl f32 (resolve_init_fl f32
      (sample_player ⟨15309209 / 2097152, 1 / 2, 0⟩ 16 3 16 all_stone)) 14 = 1 / 2097152 ∧
    overlap_y_fl f32 (resolve_init_fl f32
      (sample_player ⟨15309209 / 2097152, 1 / 2, 0⟩ 16 3 16 all_stone)) 0 = 1 ∧
    overlap_z_fl f32 (resolve_init_fl f32
      (sample_player ⟨15309209 / 2097152, 1 / 2, 0⟩ 16 3 16 all_stone)) 8
      = 5033165 / 16777216 ∧
    ix_min_fl f32 (sample_player ⟨15309209 / 2097152, 1 / 2, 0⟩ 16 3 16 all_stone) = 15 ∧
    ¬ (ix_min_fl f32 (sample_player ⟨15309209 / 2097152, 1 / 2, 0⟩ 16 3 16 all_stone) ≤ 14 ∧
      14 ≤ ix_max_fl f32 (sample_player ⟨15309209 / 2097152, 1 / 2, 0⟩ 16 3 16 all_stone)) :=
  sample_scan_binary32

/-! ## Binary32 rounding: bounds -/

/-- Rounding to the nearest integer lowers a number by at most 1/2. -/
theorem round_even_ge_sub_half (z : ℚ) : z - 1 / 2 ≤ (round_even z : ℚ) := by
  have h1 : z < (⌊z⌋ : ℚ) + 1 := Int.lt_floor_add_one z
  unfold round_even
  by_cases ha : z - (⌊z⌋ : ℚ) < 1 / 2
  · rw [if_pos ha]
    linarith
  · rw [if_neg ha]
    by_cases hb : 1 / 2 < z - (⌊z⌋ : ℚ)
    · rw [if_pos hb]
      push_cast
      linarith
    · rw [if_neg hb]
      split_ifs
      · linarith
      · push_cast
        linarith

/-- A number at most the integer `M` rounds to at most `M`. -/
theorem round_even_le_int (z : ℚ) (M : ℤ) (h : z ≤ (M : ℚ)) : round_even z ≤ M := by
  have hfz : (⌊z⌋ : ℚ) ≤ z := Int.floor_le z
  have hf : ⌊z⌋ ≤ M := by
    have : ((⌊z⌋ : ℤ) : ℚ) ≤ (M : ℚ) := le_trans hfz h
    exact_mod_cast this
  unfold round_even
  by_cases hM : ⌊z⌋ = M
  · rw [if_pos (by rw [hM]; linarith), hM]
  · have : ⌊z⌋ + 1 ≤ M := by omega
    split_ifs <;> omega

/-- A number at least the integer `M` rounds to at least `M`. -/
theorem round_even_ge_int (z : ℚ) (M : ℤ) (h : (M : ℚ) ≤ z) : M ≤ round_even z := by
  have hf : M ≤ ⌊z⌋ := Int.le_floor.mpr h
  unfold round_even
  split_ifs <;> omega

/-- The exponent of a number of magnitude below `2 ^ 24` is at most 23. -/
theorem int_log_lt_of_abs_lt (y : ℚ) (hy : |y| < 2 ^ 24) : Int.log 2 |y| < 24 := by
  by_cases h0 : y = 0
  · rw [h0]
    simp
  · have hpos : 0 < |y| := abs_pos.mpr h0
    rw [← Int.lt_zpow_iff_log_lt (by norm_num) hpos]
    norm_num
    exact hy

/-- In binary32 a number of magnitude below `2 ^ 24` that is at most the integer
`N` rounds to at most `N`. -/
theorem f32_le_int (y : ℚ) (N : ℤ) (hy : |y| < 2 ^ 24) (h : y ≤ (N : ℚ)) :
    f32 y ≤ (N : ℚ) := by
  have hlog := int_log_lt_of_abs_lt y hy
  have h2pos : ∀ j : ℤ, (0 : ℚ) < 2 ^ j := fun j => zpow_pos (by norm_num) j
  unfold f32
  generalize hE : max (Int.log 2 |y|) (-126) - 23 = E
  have hE' : E ≤ 0 := by
    rcases max_cases (Int.log 2 |y|) (-126) with ⟨h', -⟩ | ⟨h', -⟩ <;>
      rw [h'] at hE <;> omega
  obtain ⟨m, hm⟩ : ∃ m : ℕ, -E = (m : ℤ) := ⟨(-E).toNat, by omega⟩
  have hNE : (N : ℚ) = ((N * 2 ^ m : ℤ) : ℚ) * 2 ^ E := by
    push_cast
    rw [mul_assoc, ← zpow_natCast, ← hm, ← zpow_add₀ (by norm_num : (2 : ℚ) ≠ 0)]
    simp
  have hr : round_even (y / 2 ^ E) ≤ N * 2 ^ m := by
    apply round_even_le_int
    rw [div_le_iff₀ (h2pos E), ← hNE]
    exact h
  calc (round_even (y / 2 ^ E) : ℚ) * 2 ^ E
      ≤ ((N * 2 ^ m : ℤ) : ℚ) * 2 ^ E :=
        mul_le_mul_of_nonneg_right (by exact_mod_cast hr) (h2pos E).le
    _ = N := hNE.symm

/-- In binary32 a number of magnitude below `2 ^ 24` that is at least the
integer `N` rounds to at least `N`. -/
theorem f32_ge_int (y : ℚ) (N : ℤ) (hy : |y| < 2 ^ 24) (h : (N : ℚ) ≤ y) :
    (N : ℚ) ≤ f32 y := by
  have hlog := int_log_lt_of_abs_lt y hy
  have h2pos : ∀ j : ℤ, (0 : ℚ) < 2 ^ j := fun j => zpow_pos (by norm_num) j
  unfold f32
  generalize hE : max (Int.log 2 |y|) (-126) - 23 = E
  have hE' : E ≤ 0 := by
    rcases max_cases (Int.log 2 |y|) (-126) with ⟨h', -⟩ | ⟨h', -⟩ <;>
      rw [h'] at hE <;> omega
  obtain ⟨m, hm⟩ : ∃ m : ℕ, -E = (m : ℤ) := ⟨(-E).toNat, by omega⟩
  have hNE : (N : ℚ) = ((N * 2 ^ m : ℤ) : ℚ) * 2 ^ E := by
    push_cast
    rw [mul_assoc, ← zpow_natCast, ← hm, ← zpow_add₀ (by norm_num : (2 : ℚ) ≠ 0)]
    simp
  have hr : N * 2 ^ m ≤ round_even (y / 2 ^ E) := by
    apply round_even_ge_int
    rw [le_div_iff₀ (h2pos E), ← hNE]
    exact h
  calc (N : ℚ) = ((N * 2 ^ m : ℤ) : ℚ) * 2 ^ E := hNE
    _ ≤ (round_even (y / 2 ^ E) : ℚ) * 2 ^ E :=
        mul_le_mul_of_nonneg_right (by exact_mod_cast hr) (h2pos E).le

/-- In binary32 a number that is at least `2 ^ (-126)` loses at most the
fraction `2 ^ (-24)` of its value by rounding. -/
theorem f32_ge_rel (y : ℚ) (hy : (2 : ℚ) ^ (-126 : ℤ) ≤ y) :
    y * (1 - 2 ^ (-24 : ℤ)) ≤ f32 y := by
  have h2pos : ∀ j : ℤ, (0 : ℚ) < 2 ^ j := fun j => zpow_pos (by norm_num) j
  have hpos : 0 < y := lt_of_lt_of_le (h2pos _) hy
  have habs : |y| = y := abs_of_pos hpos
  have hlo : (2 : ℚ) ^ (Int.log 2 y) ≤ y := by
    have := Int.zpow_log_le_self (by norm_num : 1 < 2) hpos
    exact_mod_cast this
  have hhi : y < (2 : ℚ) ^ (Int.log 2 y + 1) := by
    have := Int.lt_zpow_succ_log_self (by norm_num : 1 < 2) y
    exact_mod_cast this
  have he : -126 ≤ Int.log 2 y := by
    rw [← Int.zpow_le_iff_le_log (by norm_num) hpos]
    exact_mod_cast hy
  rw [f32_of_bounds y (Int.log 2 y) he (by rw [habs]; exact hlo) (by rw [habs]; exact hhi)]
  have hr := round_even_ge_sub_half (y / 2 ^ (Int.log 2 y - 23))
  have hE : (0 : ℚ) < 2 ^ (Int.log 2 y - 23) := h2pos _
  have h1 : (y / 2 ^ (Int.log 2 y - 23) - 1 / 2) * 2 ^ (Int.log 2 y - 23) ≤
      (round_even (y / 2 ^ (Int.log 2 y - 23)) : ℚ) * 2 ^ (Int.log 2 y - 23) :=
    mul_le_mul_of_nonneg_right hr hE.le
  have h2 : (y / 2 ^ (Int.log 2 y - 23) - 1 / 2) * 2 ^ (Int.log 2 y - 23) =
      y - 2 ^ (Int.log 2 y - 23) / 2 := by
    field_simp
    ring
  have h3 : (2 : ℚ) ^ (Int.log 2 y - 23) / 2 = 2 ^ (Int.log 2 y) * 2 ^ (-24 : ℤ) := by
    rw [← zpow_add₀ (by norm_num : (2 : ℚ) ≠ 0)]
    rw [div_eq_iff (by norm_num : (2 : ℚ) ≠ 0)]
    have : (2 : ℚ) ^ (Int.log 2 y + -24) * 2 = 2 ^ (Int.log 2 y + -24 + 1) := by
      rw [zpow_add₀ (by norm_num : (2 : ℚ) ≠ 0) (Int.log 2 y + -24) 1]
      norm_num
    rw [this]
    congr 1
    ring
  have h4 : (2 : ℚ) ^ (Int.log 2 y) * 2 ^ (-24 : ℤ) ≤ y * 2 ^ (-24 : ℤ) :=
    mul_le_mul_of_nonneg_right hlo (h2pos _).le
  rw [h2, h3] at h1
  linarith

/-! ## Block raycaster: termination with rounded operations -/

/-- Whatever the rounding, a result reached with some fuel is reached with more
fuel. -/
theorem raycast_loop_fl_fuel_succ (fl : ℚ → ℚ) (demo : Demo) (max_dist : ℚ) (c : RaySetup) :
    ∀ (fuel : ℕ) (st : RayState) (r : Option RayHit),
      raycast_loop_fl fl demo max_dist c fuel st = some r →
      raycast_loop_fl fl demo max_dist c (fuel + 1) st = some r := by
  intro fuel
  induction fuel with
  | zero =>
    intro st r h
    simp [raycast_loop_fl] at h
  | succ f ih =>
    intro st r h
    rw [raycast_loop_fl] at h
    rw [raycast_loop_fl]
    by_cases h1 : st.t ≤ (max_dist : WithTop ℚ)
    · rw [if_pos h1] at h ⊢
      by_cases h2 : (st.ix ≥ 0 ∧ st.ix < demo.size_x ∧ st.iy ≥ 0 ∧ st.iy < demo.size_y ∧
          st.iz ≥ 0 ∧ st.iz < demo.size_z) ∧
          block_get demo st.ix st.iy st.iz ≠ BlockType.BLOCK_AIR
      · rw [if_pos h2] at h ⊢
        exact h
      · rw [if_neg h2] at h ⊢
        simp only at h ⊢
        by_cases h3 : (max_dist : WithTop ℚ) < (raycast_advance_fl fl c st).t
        · rw [if_pos h3] at h ⊢
          exact h
        · rw [if_neg h3] at h ⊢
          exact ih _ r h
    · rw [if_neg h1] at h ⊢
      exact h

/-- Whatever the rounding, a result reached with some fuel is reached with any
larger fuel. -/
theorem raycast_loop_fl_fuel_mono (fl : ℚ → ℚ) (demo : Demo) (max_dist : ℚ) (c : RaySetup)
    (fuel0 fuel : ℕ) (hf : fuel0 ≤ fuel) (st : RayState) (r : Option RayHit)
    (h : raycast_loop_fl fl demo max_dist c fuel0 st = some r) :
    raycast_loop_fl fl demo max_dist c fuel st = some r := by
  induction fuel with
  | zero =>
    have : fuel0 = 0 := by omega
    rw [this] at h
    exact h
  | succ f ih =>
    by_cases hle : fuel0 ≤ f
    · exact raycast_loop_fl_fuel_succ fl demo max_dist c f st r (ih hle)
    · have : fuel0 = f + 1 := by omega
      rw [this] at h
      exact h

/-- An advance that raises a `tMax` within `max_dist` by at least `δ` lowers
the number of advances that remain on that axis. -/
theorem axis_steps_by_advance (max_dist δ : ℚ) (hδ : 0 < δ) (τ : ℚ) (hτ : τ ≤ max_dist)
    (τ' : WithTop ℚ) (h : ((τ + δ : ℚ) : WithTop ℚ) ≤ τ') :
    axis_steps_by max_dist δ τ' < axis_steps_by max_dist δ (τ : WithTop ℚ) := by
  have hr : axis_steps_by max_dist δ (τ : WithTop ℚ) = (⌊(max_dist - τ) / δ⌋).toNat + 1 := by
    show (if max_dist < τ then 0 else (⌊(max_dist - τ) / δ⌋).toNat + 1) = _
    rw [if_neg (not_lt.mpr hτ)]
  rw [hr]
  rcases eq_or_ne τ' ⊤ with rfl | hne
  · exact Nat.succ_pos _
  · obtain ⟨u, rfl⟩ := WithTop.ne_top_iff_exists.mp hne
    have hu : τ + δ ≤ u := WithTop.coe_le_coe.mp h
    show (if max_dist < u then 0 else (⌊(max_dist - u) / δ⌋).toNat + 1) < _
    by_cases h2 : max_dist < u
    · rw [if_pos h2]
      exact Nat.succ_pos _
    · rw [if_neg h2]
      have h3 : (max_dist - u) / δ ≤ (max_dist - τ) / δ - 1 := by
        rw [div_le_iff₀ hδ, sub_mul, div_mul_cancel₀ _ hδ.ne']
        linarith
      have h4 : (1 : ℚ) ≤ (max_dist - τ) / δ := by
        rw [le_div_iff₀ hδ]
        linarith [not_lt.mp h2]
      have h5 : ⌊(max_dist - u) / δ⌋ ≤ ⌊(max_dist - τ) / δ⌋ - 1 := by
        rw [← Int.floor_sub_one]
        exact Int.floor_le_floor h3
      have h6 : (1 : ℤ) ≤ ⌊(max_dist - τ) / δ⌋ := by
        rw [Int.le_floor]
        exact_mod_cast h4
      omega

/-- A `tMax` that is at most `max_dist` is finite. -/
theorem tMax_finite_of_le (x : WithTop ℚ) (max_dist : ℚ) (h : x ≤ (max_dist : WithTop ℚ)) :
    ∃ τ : ℚ, x = (τ : WithTop ℚ) ∧ τ ≤ max_dist := by
  obtain ⟨τ, rfl⟩ := WithTop.ne_top_iff_exists.mp (ne_top_of_le_ne_top WithTop.coe_ne_top h)
  exact ⟨τ, rfl, WithTop.coe_le_coe.mp h⟩

/-- If every rounded addition `tMax + inv` raises a `tMax` in `[0, max_dist]` by
at least `δ > 0`, an advance that leaves `t` within `max_dist` lowers the bound
`ray_steps_by` and keeps every `tMax` non-negative. -/
theorem ray_steps_by_advance (fl : ℚ → ℚ) (max_dist δ : ℚ) (hδ : 0 < δ) (c : RaySetup)
    (st : RayState)
    (hX : ∀ a : ℚ, 0 ≤ a → a ≤ max_dist →
      ((a + δ : ℚ) : WithTop ℚ) ≤ fl_top fl ((a : WithTop ℚ) + c.invX))
    (hY : ∀ a : ℚ, 0 ≤ a → a ≤ max_dist →
      ((a + δ : ℚ) : WithTop ℚ) ≤ fl_top fl ((a : WithTop ℚ) + c.invY))
    (hZ : ∀ a : ℚ, 0 ≤ a → a ≤ max_dist →
      ((a + δ : ℚ) : WithTop ℚ) ≤ fl_top fl ((a : WithTop ℚ) + c.invZ))
    (h0 : 0 ≤ st.tMaxX ∧ 0 ≤ st.tMaxY ∧ 0 ≤ st.tMaxZ)
    (ht : (raycast_advance_fl fl c st).t ≤ (max_dist : WithTop ℚ)) :
    ray_steps_by max_dist δ (raycast_advance_fl fl c st) < ray_steps_by max_dist δ st ∧
    (0 ≤ (raycast_advance_fl fl c st).tMaxX ∧ 0 ≤ (raycast_advance_fl fl c st).tMaxY ∧
      0 ≤ (raycast_advance_fl fl c st).tMaxZ) := by
  obtain ⟨h0x, h0y, h0z⟩ := h0
  have key : ∀ (x inv : WithTop ℚ), 0 ≤ x → x ≤ (max_dist : WithTop ℚ) →
      (∀ a : ℚ, 0 ≤ a → a ≤ max_dist →
        ((a + δ : ℚ) : WithTop ℚ) ≤ fl_top fl ((a : WithTop ℚ) + inv)) →
      axis_steps_by max_dist δ (fl_top fl (x + inv)) < axis_steps_by max_dist δ x ∧
        0 ≤ fl_top fl (x + inv) := by
    intro x inv hx0 hx hp
    obtain ⟨τ, rfl, hτ⟩ := tMax_finite_of_le x max_dist hx
    have hτ0 : 0 ≤ τ := by exact_mod_cast hx0
    have hstep := hp τ hτ0 hτ
    refine ⟨axis_steps_by_advance max_dist δ hδ τ hτ _ hstep, le_trans ?_ hstep⟩
    exact_mod_cast (by linarith : (0 : ℚ) ≤ τ + δ)
  unfold raycast_advance_fl at ht ⊢
  unfold ray_steps_by
  by_cases h1 : st.tMaxX < st.tMaxY
  · rw [if_pos h1] at ht ⊢
    by_cases h2 : st.tMaxX < st.tMaxZ
    · rw [if_pos h2] at ht ⊢
      have := key st.tMaxX c.invX h0x ht hX
      simp only
      exact ⟨by omega, this.2, h0y, h0z⟩
    · rw [if_neg h2] at ht ⊢
      have := key st.tMaxZ c.invZ h0z ht hZ
      simp only
      exact ⟨by omega, h0x, h0y, this.2⟩
  · rw [if_neg h1] at ht ⊢
    by_cases h2 : st.tMaxY < st.tMaxZ
    · rw [if_pos h2] at ht ⊢
      have := key st.tMaxY c.invY h0y ht hY
      simp only
      exact ⟨by omega, h0x, this.2, h0z⟩
    · rw [if_neg h2] at ht ⊢
      have := key st.tMaxZ c.invZ h0z ht hZ
      simp only
      exact ⟨by omega, h0x, h0y, this.2⟩

/-- Whatever the rounding, if every rounded addition `tMax + inv` raises a
`tMax` in `[0, max_dist]` by at least `δ > 0`, the loop started with
non-negative `tMax` ends: with more fuel than `ray_steps_by` it returns a
result. -/
theorem raycast_loop_fl_terminates (fl : ℚ → ℚ) (demo : Demo) (max_dist δ : ℚ) (hδ : 0 < δ)
    (c : RaySetup)
    (hX : ∀ a : ℚ, 0 ≤ a → a ≤ max_dist →
      ((a + δ : ℚ) : WithTop ℚ) ≤ fl_top fl ((a : WithTop ℚ) + c.invX))
    (hY : ∀ a : ℚ, 0 ≤ a → a ≤ max_dist →
      ((a + δ : ℚ) : WithTop ℚ) ≤ fl_top fl ((a : WithTop ℚ) + c.invY))
    (hZ : ∀ a : ℚ, 0 ≤ a → a ≤ max_dist →
      ((a + δ : ℚ) : WithTop ℚ) ≤ fl_top fl ((a : WithTop ℚ) + c.invZ)) :
    ∀ (n : ℕ) (st : RayState), (0 ≤ st.tMaxX ∧ 0 ≤ st.tMaxY ∧ 0 ≤ st.tMaxZ) →
      ray_steps_by max_dist δ st ≤ n →
      ∀ fuel : ℕ, n + 1 ≤ fuel → raycast_loop_fl fl demo max_dist c fuel st ≠ none := by
  have hstep : ∀ (f : ℕ) (st : RayState),
      ((raycast_advance_fl fl c st).t ≤ (max_dist : WithTop ℚ) →
        raycast_loop_fl fl demo max_dist c f (raycast_advance_fl fl c st) ≠ none) →
      raycast_loop_fl fl demo max_dist c (f + 1) st ≠ none := by
    intro f st hrec
    rw [raycast_loop_fl]
    by_cases h1 : st.t ≤ (max_dist : WithTop ℚ)
    · rw [if_pos h1]
      by_cases h2 : (st.ix ≥ 0 ∧ st.ix < demo.size_x ∧ st.iy ≥ 0 ∧ st.iy < demo.size_y ∧
          st.iz ≥ 0 ∧ st.iz < demo.size_z) ∧
          block_get demo st.ix st.iy st.iz ≠ BlockType.BLOCK_AIR
      · rw [if_pos h2]
        simp
      · rw [if_neg h2]
        simp only
        by_cases h3 : (max_dist : WithTop ℚ) < (raycast_advance_fl fl c st).t
        · rw [if_pos h3]
          simp
        · rw [if_neg h3]
          exact hrec (not_lt.mp h3)
    · rw [if_neg h1]
      simp
  intro n
  induction n with
  | zero =>
    intro st h0 hμ fuel hfuel
    obtain ⟨f, rfl⟩ : ∃ f, fuel = f + 1 := ⟨fuel - 1, by omega⟩
    apply hstep
    intro h3
    have := (ray_steps_by_advance fl max_dist δ hδ c st hX hY hZ h0 h3).1
    omega
  | succ k ih =>
    intro st h0 hμ fuel hfuel
    obtain ⟨f, rfl⟩ : ∃ f, fuel = f + 1 := ⟨fuel - 1, by omega⟩
    apply hstep
    intro h3
    have h := ray_steps_by_advance fl max_dist δ hδ c st hX hY hZ h0 h3
    exact ih (raycast_advance_fl fl c st) h.2 (by omega) f (by omega)

/-- In binary32, for a direction component that is zero or of magnitude in
`[2 ^ (-126), 2]` and `max_dist <= 2 ^ 21`, the rounded addition `tMax + inv`
raises every `tMax` in `[0, max_dist]` by at least 1/16. -/
theorem f32_advance_progress (gd max_dist : ℚ)
    (hd : gd = 0 ∨ ((2 : ℚ) ^ (-126 : ℤ) ≤ |gd| ∧ |gd| ≤ 2)) (hmax : max_dist ≤ 2 ^ 21) :
    ∀ a : ℚ, 0 ≤ a → a ≤ max_dist →
      ((a + 1 / 16 : ℚ) : WithTop ℚ) ≤ fl_top f32 ((a : WithTop ℚ) + inv_of_fl f32 gd) := by
  intro a ha0 ha
  unfold inv_of_fl
  rcases hd with h0 | ⟨hlo, hhi⟩
  · rw [if_neg (not_not.mpr h0), WithTop.add_top]
    exact le_top
  · have hpos : 0 < |gd| := lt_of_lt_of_le (zpow_pos (by norm_num) _) hlo
    have hne : gd ≠ 0 := abs_pos.mp hpos
    rw [if_pos hne]
    have hinv : (1 : ℚ) / 2 ≤ 1 / |gd| := by
      rw [div_le_div_iff₀ (by norm_num) hpos]
      linarith
    have hc : (2 : ℚ) ^ (-24 : ℤ) = 1 / 16777216 := by norm_num
    have hsmall : (2 : ℚ) ^ (-126 : ℤ) ≤ 1 / 4 := by
      have h1 : (2 : ℚ) ^ (-126 : ℤ) ≤ 2 ^ (-2 : ℤ) :=
        zpow_le_zpow_right₀ (by norm_num) (by norm_num)
      have h2 : (2 : ℚ) ^ (-2 : ℤ) = 1 / 4 := by norm_num
      rw [h2] at h1
      exact h1
    generalize 1 / |gd| = q at hinv ⊢
    have hi := f32_ge_rel q (le_trans hsmall (by linarith))
    rw [hc] at hi
    have hi' : (1 : ℚ) / 4 ≤ f32 q := by linarith
    have hs := f32_ge_rel (a + f32 q) (le_trans hsmall (by linarith))
    rw [hc] at hs
    have hsum : ((a : WithTop ℚ) + ((f32 q : ℚ) : WithTop ℚ)) =
        ((a + f32 q : ℚ) : WithTop ℚ) := rfl
    rw [hsum]
    show ((a + 1 / 16 : ℚ) : WithTop ℚ) ≤ ((f32 (a + f32 q) : ℚ) : WithTop ℚ)
    apply WithTop.coe_le_coe.mpr
    have ha2 : a ≤ 2097152 := by
      norm_num at hmax
      linarith
    linarith

/-- The integer part of a number of magnitude below `2 ^ 23`, and its
successor, are binary32 values. -/
theorem f32_floor_fixed (g : ℚ) (hg : |g| < 2 ^ 23) :
    f32 ((⌊g⌋ : ℤ) : ℚ) = ((⌊g⌋ : ℤ) : ℚ) ∧ f32 (((⌊g⌋ + 1 : ℤ)) : ℚ) = (((⌊g⌋ + 1 : ℤ)) : ℚ) := by
  obtain ⟨h1, h2⟩ := abs_lt.mp hg
  have hlo : (-(2 ^ 23) : ℤ) ≤ ⌊g⌋ := by
    rw [Int.le_floor]
    push_cast
    linarith
  have hhi : ⌊g⌋ < 2 ^ 23 := by
    rw [Int.floor_lt]
    push_cast
    exact h2
  constructor
  · apply f32_intCast
    rw [abs_lt]
    constructor <;> omega
  · apply f32_intCast
    rw [abs_lt]
    constructor <;> omega

/-- In binary32 the initial `tMax` of an axis is not negative when the grid
coordinate has magnitude below `2 ^ 23`. -/
theorem tMax_of_f32_nonneg (gd g : ℚ) (step : ℤ) (hg : |g| < 2 ^ 23) :
    (0 : WithTop ℚ) ≤ tMax_of_fl f32 gd g ⌊g⌋ step := by
  obtain ⟨hf0, hf1⟩ := f32_floor_fixed g hg
  unfold tMax_of_fl
  by_cases h : gd ≠ 0
  · rw [if_pos h]
    apply WithTop.coe_le_coe.mpr
    have hpos : (0 : ℚ) ≤ f32 (1 / |gd|) := f32_nonneg _ (by positivity)
    have h1 : ((⌊g⌋ : ℤ) : ℚ) ≤ g := Int.floor_le g
    have h2 : g < ((⌊g⌋ : ℤ) : ℚ) + 1 := Int.lt_floor_add_one g
    apply f32_nonneg
    by_cases hs : step > 0
    · rw [if_pos hs, hf1]
      apply mul_nonneg _ hpos
      apply f32_nonneg
      push_cast
      linarith
    · rw [if_neg hs, hf0]
      apply mul_nonneg _ hpos
      apply f32_nonneg
      linarith
  · rw [if_neg h]
    exact le_top

/-- In binary32 `raycast_block` returns when the origin lies within `2 ^ 23`
cells of the grid origin on every axis, every direction component is zero or of
magnitude in `[2 ^ (-126), 2]`, and `max_dist <= 2 ^ 21`: there is a fuel from
which on the loop gives one and the same result. -/
theorem raycast_block_f32_returns (demo : Demo) (origin dir : v3f) (max_dist : ℚ)
    (hgx : |gx_fl f32 demo origin| < 2 ^ 23) (hgy : |gy origin| < 2 ^ 23)
    (hgz : |gz_fl f32 demo origin| < 2 ^ 23)
    (hdx : dir.x = 0 ∨ ((2 : ℚ) ^ (-126 : ℤ) ≤ |dir.x| ∧ |dir.x| ≤ 2))
    (hdy : dir.y = 0 ∨ ((2 : ℚ) ^ (-126 : ℤ) ≤ |dir.y| ∧ |dir.y| ≤ 2))
    (hdz : dir.z = 0 ∨ ((2 : ℚ) ^ (-126 : ℤ) ≤ |dir.z| ∧ |dir.z| ≤ 2))
    (hmax : max_dist ≤ 2 ^ 21) :
    ∃ (fuel0 : ℕ) (r : Option RayHit), ∀ fuel : ℕ, fuel0 ≤ fuel →
      raycast_block_fl f32 fuel demo origin dir max_dist = some r := by
  have hdy' : -dir.y = 0 ∨ ((2 : ℚ) ^ (-126 : ℤ) ≤ |(-dir.y)| ∧ |(-dir.y)| ≤ 2) := by
    rw [abs_neg, neg_eq_zero]
    exact hdy
  have h0 : 0 ≤ (raycast_init_fl f32 demo origin dir).tMaxX ∧
      0 ≤ (raycast_init_fl f32 demo origin dir).tMaxY ∧
      0 ≤ (raycast_init_fl f32 demo origin dir).tMaxZ :=
    ⟨tMax_of_f32_nonneg _ _ _ hgx, tMax_of_f32_nonneg _ _ _ hgy, tMax_of_f32_nonneg _ _ _ hgz⟩
  have hne := raycast_loop_fl_terminates f32 demo max_dist (1 / 16) (by norm_num)
    (raycast_setup_fl f32 dir)
    (f32_advance_progress dir.x max_dist hdx hmax)
    (f32_advance_progress (-dir.y) max_dist hdy' hmax)
    (f32_advance_progress dir.z max_dist hdz hmax)
    _ (raycast_init_fl f32 demo origin dir) h0 le_rfl _ le_rfl
  cases hres : raycast_loop_fl f32 demo max_dist (raycast_setup_fl f32 dir)
      (ray_steps_by max_dist (1 / 16) (raycast_init_fl f32 demo origin dir) + 1)
      (raycast_init_fl f32 demo origin dir) with
  | none => exact absurd hres hne
  | some r =>
    refine ⟨ray_steps_by max_dist (1 / 16) (raycast_init_fl f32 demo origin dir) + 1, r,
      fun fuel hf => ?_⟩
    exact raycast_loop_fl_fuel_mono f32 demo max_dist _ _ fuel hf _ r hres

/-- C11 (amended): whatever the rounding `fl` of the float operations, a hit
returned by `raycast_block` is a cell inside the grid that is not `Air`, it is
the cell of some state of the traversal, and every cell visited before it read
as `Air` (was `Air` or outside the grid); and a call that returns, for a ray
whose traversal enters no solid cell within `max_dist`, for instance any ray in
an all-`Air` grid, returns false.  Such a call does return false (from some
number of iterations on the result is false) in exact arithmetic (`fl = id`),
and in binary32 (`fl = f32`) when the origin lies within `2 ^ 23` cells of the
grid origin on every axis, every direction component is zero or of magnitude
in `[2 ^ (-126), 2]`, and `max_dist <= 2 ^ 21`. -/
theorem raycast_block_first_solid (fl : ℚ → ℚ) (demo : Demo) (origin dir : v3f)
    (max_dist : ℚ) :
    (∀ (fuel : ℕ) (h : RayHit),
      raycast_block_fl fl fuel demo origin dir max_dist = some (some h) →
      ((0 ≤ h.hx ∧ h.hx < demo.size_x) ∧ (0 ≤ h.hy ∧ h.hy < demo.size_y) ∧
        (0 ≤ h.hz ∧ h.hz < demo.size_z)) ∧
      block_get demo h.hx h.hy h.hz ≠ BlockType.BLOCK_AIR ∧
      ∃ n : ℕ,
        h.hx = (raycast_visit_fl fl (raycast_setup_fl fl dir)
          (raycast_init_fl fl demo origin dir) n).ix ∧
        h.hy = (raycast_visit_fl fl (raycast_setup_fl fl dir)
          (raycast_init_fl fl demo origin dir) n).iy ∧
        h.hz = (raycast_visit_fl fl (raycast_setup_fl fl dir)
          (raycast_init_fl fl demo origin dir) n).iz ∧
        ∀ m : ℕ, m < n →
          block_get demo
            (raycast_visit_fl fl (raycast_setup_fl fl dir)
              (raycast_init_fl fl demo origin dir) m).ix
            (raycast_visit_fl fl (raycast_setup_fl fl dir)
              (raycast_init_fl fl demo origin dir) m).iy
            (raycast_visit_fl fl (raycast_setup_fl fl dir)
              (raycast_init_fl fl demo origin dir) m).iz
            = BlockType.BLOCK_AIR) ∧
    ((∀ n : ℕ,
        (raycast_visit_fl fl (raycast_setup_fl fl dir)
          (raycast_init_fl fl demo origin dir) n).t ≤ (max_dist : WithTop ℚ) →
        block_get demo
          (raycast_visit_fl fl (raycast_setup_fl fl dir)
            (raycast_init_fl fl demo origin dir) n).ix
          (raycast_visit_fl fl (raycast_setup_fl fl dir)
            (raycast_init_fl fl demo origin dir) n).iy
          (raycast_visit_fl fl (raycast_setup_fl fl dir)
            (raycast_init_fl fl demo origin dir) n).iz
          = BlockType.BLOCK_AIR) →
      ∀ (fuel : ℕ) (r : Option RayHit),
        raycast_block_fl fl fuel demo origin dir max_dist = some r → r = none) ∧
    ((∀ x y z : ℤ, block_get demo x y z = BlockType.BLOCK_AIR) →
      ∀ (fuel : ℕ) (r : Option RayHit),
        raycast_block_fl fl fuel demo origin dir max_dist = some r → r = none) ∧
    ((∀ n : ℕ,
        (raycast_visit_fl id (raycast_setup_fl id dir)
          (raycast_init_fl id demo origin dir) n).t ≤ (max_dist : WithTop ℚ) →
        block_get demo
          (raycast_visit_fl id (raycast_setup_fl id dir)
            (raycast_init_fl id demo origin dir) n).ix
          (raycast_visit_fl id (raycast_setup_fl id dir)
            (raycast_init_fl id demo origin dir) n).iy
          (raycast_visit_fl id (raycast_setup_fl id dir)
            (raycast_init_fl id demo origin dir) n).iz
          = BlockType.BLOCK_AIR) →
      ∃ fuel0 : ℕ, ∀ fuel : ℕ, fuel0 ≤ fuel →
        raycast_block_fl id fuel demo origin dir max_dist = some none) ∧
    ((∀ x y z : ℤ, block_get demo x y z = BlockType.BLOCK_AIR) →
      ∃ fuel0 : ℕ, ∀ fuel : ℕ, fuel0 ≤ fuel →
        raycast_block_fl id fuel demo origin dir max_dist = some none) ∧
    ((|gx_fl f32 demo origin| < 2 ^ 23 ∧ |gy origin| < 2 ^ 23 ∧
        |gz_fl f32 demo origin| < 2 ^ 23) →
      ((dir.x = 0 ∨ ((2 : ℚ) ^ (-126 : ℤ) ≤ |dir.x| ∧ |dir.x| ≤ 2)) ∧
        (dir.y = 0 ∨ ((2 : ℚ) ^ (-126 : ℤ) ≤ |dir.y| ∧ |dir.y| ≤ 2)) ∧
        (dir.z = 0 ∨ ((2 : ℚ) ^ (-126 : ℤ) ≤ |dir.z| ∧ |dir.z| ≤ 2))) →
      max_dist ≤ 2 ^ 21 →
      (∀ n : ℕ,
        (raycast_visit_fl f32 (raycast_setup_fl f32 dir)
          (raycast_init_fl f32 demo origin dir) n).t ≤ (max_dist : WithTop ℚ) →
        block_get demo
          (raycast_visit_fl f32 (raycast_setup_fl f32 dir)
            (raycast_init_fl f32 demo origin dir) n).ix
          (raycast_visit_fl f32 (raycast_setup_fl f32 dir)
            (raycast_init_fl f32 demo origin dir) n).iy
          (raycast_visit_fl f32 (raycast_setup_fl f32 dir)
            (raycast_init_fl f32 demo origin dir) n).iz
          = BlockType.BLOCK_AIR) →
      ∃ fuel0 : ℕ, ∀ fuel : ℕ, fuel0 ≤ fuel →
        raycast_block_fl f32 fuel demo origin dir max_dist = some none) := by
  refine ⟨?_, ?_, ?_, ?_, ?_, ?_⟩
  · intro fuel h hres
    obtain ⟨n, h1, h2, -, h4⟩ := raycast_loop_fl_sound fl demo max_dist _ fuel _ h hres
    subst h1
    exact ⟨block_get_ne_air_in_range demo _ _ _ h2, h2, n, rfl, rfl, rfl,
      fun m hm => (h4 m hm).1⟩
  · exact raycast_block_fl_miss fl demo origin dir max_dist
  · intro hall
    exact raycast_block_fl_miss fl demo origin dir max_dist (fun n _ => hall _ _ _)
  · intro hair
    obtain ⟨hs, hi⟩ := raycast_setup_init_fl_id demo origin dir
    rw [hs, hi] at hair
    simp only [raycast_visit_fl_id] at hair
    obtain ⟨fuel0, h⟩ := raycast_block_miss demo origin dir max_dist hair
    exact ⟨fuel0, fun fuel hf => by rw [raycast_block_fl_id]; exact h fuel hf⟩
  · intro hall
    obtain ⟨fuel0, h⟩ := raycast_block_miss demo origin dir max_dist
      (fun n _ => hall _ _ _)
    exact ⟨fuel0, fun fuel hf => by rw [raycast_block_fl_id]; exact h fuel hf⟩
  · intro hg hd hmax hair
    obtain ⟨fuel0, r, h⟩ := raycast_block_f32_returns demo origin dir max_dist
      hg.1 hg.2.1 hg.2.2 hd.1 hd.2.1 hd.2.2 hmax
    refine ⟨fuel0, fun fuel hf => ?_⟩
    have hr := raycast_block_fl_miss f32 demo origin dir max_dist hair fuel r (h fuel hf)
    rw [h fuel hf, hr]

/-- The binary32 grid coordinates of the initial camera position in the
16x3x16 grid: `gx = 8`, `gz = 14`. -/
theorem sample_camera_grid_f32 :
    gx_fl f32 (sample_demo 16 3 16 all_air) ⟨0, 3 / 2, 6⟩ = 8 ∧
    gz_fl f32 (sample_demo 16 3 16 all_air) ⟨0, 3 / 2, 6⟩ = 14 := by
  obtain ⟨h8, -, h16, -⟩ := f32_small_ints
  have h14 : f32 14 = 14 := by
    have h := f32_intCast 14 (by norm_num)
    norm_num at h
    exact h
  constructor
  · unfold gx_fl
    norm_num [sample_demo, h16, h8]
  · unfold gz_fl
    norm_num [sample_demo, h16, h8, h14]

/-- Witness for C11: from the initial camera position, looking along -z in a
16x3x16 grid of `Air` with `max_dist = 6`, the call in binary32 returns false
for all sufficient fuel. -/
theorem raycast_block_first_solid_witness :
    ∃ fuel0 : ℕ, ∀ fuel : ℕ, fuel0 ≤ fuel →
      raycast_block_fl f32 fuel (sample_demo 16 3 16 all_air) ⟨0, 3 / 2, 6⟩ ⟨0, 0, -1⟩ 6
        = some none :=
  (raycast_block_first_solid f32 (sample_demo 16 3 16 all_air) ⟨0, 3 / 2, 6⟩ ⟨0, 0, -1⟩
    6).2.2.2.2.2
    ⟨by rw [sample_camera_grid_f32.1]; norm_num, by unfold gy; rw [abs_lt]; constructor <;> norm_num,
      by rw [sample_camera_grid_f32.2]; norm_num⟩
    ⟨Or.inl rfl, Or.inl rfl, Or.inr ⟨by norm_num, by norm_num⟩⟩
    (by norm_num)
    (fun n _ => all_air_reads_air 16 3 16 _ _ _)

/-- Whatever the rounding, if every rounded addition `tMax + inv` raises a
`tMax` in `[0, max_dist]` by at least `δ > 0`: while `t` is at most every `tMax`
an advance does not lower `t`, and if it leaves `t` within `max_dist` then `t`
is again at most every `tMax` and every `tMax` is non-negative. -/
theorem raycast_advance_fl_monotone (fl : ℚ → ℚ) (max_dist δ : ℚ) (hδ : 0 < δ)
    (c : RaySetup) (st : RayState)
    (hX : ∀ a : ℚ, 0 ≤ a → a ≤ max_dist →
      ((a + δ : ℚ) : WithTop ℚ) ≤ fl_top fl ((a : WithTop ℚ) + c.invX))
    (hY : ∀ a : ℚ, 0 ≤ a → a ≤ max_dist →
      ((a + δ : ℚ) : WithTop ℚ) ≤ fl_top fl ((a : WithTop ℚ) + c.invY))
    (hZ : ∀ a : ℚ, 0 ≤ a → a ≤ max_dist →
      ((a + δ : ℚ) : WithTop ℚ) ≤ fl_top fl ((a : WithTop ℚ) + c.invZ))
    (h0 : 0 ≤ st.tMaxX ∧ 0 ≤ st.tMaxY ∧ 0 ≤ st.tMaxZ)
    (h : st.t ≤ st.tMaxX ∧ st.t ≤ st.tMaxY ∧ st.t ≤ st.tMaxZ) :
    st.t ≤ (raycast_advance_fl fl c st).t ∧
    ((raycast_advance_fl fl c st).t ≤ (max_dist : WithTop ℚ) →
      (0 ≤ (raycast_advance_fl fl c st).tMaxX ∧ 0 ≤ (raycast_advance_fl fl c st).tMaxY ∧
        0 ≤ (raycast_advance_fl fl c st).tMaxZ) ∧
      ((raycast_advance_fl fl c st).t ≤ (raycast_advance_fl fl c st).tMaxX ∧
        (raycast_advance_fl fl c st).t ≤ (raycast_advance_fl fl c st).tMaxY ∧
        (raycast_advance_fl fl c st).t ≤ (raycast_advance_fl fl c st).tMaxZ)) := by
  obtain ⟨h0x, h0y, h0z⟩ := h0
  obtain ⟨hx, hy, hz⟩ := h
  have key : ∀ (x inv : WithTop ℚ), 0 ≤ x → x ≤ (max_dist : WithTop ℚ) →
      (∀ a : ℚ, 0 ≤ a → a ≤ max_dist →
        ((a + δ : ℚ) : WithTop ℚ) ≤ fl_top fl ((a : WithTop ℚ) + inv)) →
      0 ≤ fl_top fl (x + inv) ∧ x ≤ fl_top fl (x + inv) := by
    intro x inv hx0 hxm hp
    obtain ⟨τ, rfl, hτ⟩ := tMax_finite_of_le x max_dist hxm
    have hτ0 : 0 ≤ τ := by exact_mod_cast hx0
    have hstep := hp τ hτ0 hτ
    refine ⟨le_trans ?_ hstep, le_trans ?_ hstep⟩
    · exact_mod_cast (by linarith : (0 : ℚ) ≤ τ + δ)
    · exact WithTop.coe_le_coe.mpr (by linarith)
  unfold raycast_advance_fl
  by_cases h1 : st.tMaxX < st.tMaxY
  · rw [if_pos h1]
    by_cases h2 : st.tMaxX < st.tMaxZ
    · rw [if_pos h2]
      refine ⟨hx, fun ht => ?_⟩
      have k := key st.tMaxX c.invX h0x ht hX
      exact ⟨⟨k.1, h0y, h0z⟩, k.2, h1.le, h2.le⟩
    · rw [if_neg h2]
      have h3 : st.tMaxZ ≤ st.tMaxX := not_lt.mp h2
      refine ⟨hz, fun ht => ?_⟩
      have k := key st.tMaxZ c.invZ h0z ht hZ
      exact ⟨⟨h0x, h0y, k.1⟩, h3, le_trans h3 h1.le, k.2⟩
  · rw [if_neg h1]
    have h1' : st.tMaxY ≤ st.tMaxX := not_lt.mp h1
    by_cases h2 : st.tMaxY < st.tMaxZ
    · rw [if_pos h2]
      refine ⟨hy, fun ht => ?_⟩
      have k := key st.tMaxY c.invY h0y ht hY
      exact ⟨⟨h0x, k.1, h0z⟩, h1', k.2, h2.le⟩
    · rw [if_neg h2]
      have h3 : st.tMaxZ ≤ st.tMaxY := not_lt.mp h2
      refine ⟨hz, fun ht => ?_⟩
      have k := key st.tMaxZ c.invZ h0z ht hZ
      exact ⟨⟨h0x, h0y, k.1⟩, le_trans h3 h1', h3, k.2⟩

/-- Under the same progress condition, in every state the loop reaches with `t`
within `max_dist`, `t` is at most every `tMax`, so the next advance does not
lower `t`. -/
theorem raycast_visit_fl_monotone (fl : ℚ → ℚ) (max_dist δ : ℚ) (hδ : 0 < δ)
    (c : RaySetup) (st : RayState)
    (hX : ∀ a : ℚ, 0 ≤ a → a ≤ max_dist →
      ((a + δ : ℚ) : WithTop ℚ) ≤ fl_top fl ((a : WithTop ℚ) + c.invX))
    (hY : ∀ a : ℚ, 0 ≤ a → a ≤ max_dist →
      ((a + δ : ℚ) : WithTop ℚ) ≤ fl_top fl ((a : WithTop ℚ) + c.invY))
    (hZ : ∀ a : ℚ, 0 ≤ a → a ≤ max_dist →
      ((a + δ : ℚ) : WithTop ℚ) ≤ fl_top fl ((a : WithTop ℚ) + c.invZ))
    (h0 : 0 ≤ st.tMaxX ∧ 0 ≤ st.tMaxY ∧ 0 ≤ st.tMaxZ)
    (h : st.t ≤ st.tMaxX ∧ st.t ≤ st.tMaxY ∧ st.t ≤ st.tMaxZ) :
    ∀ n : ℕ,
      (∀ k : ℕ, 1 ≤ k → k ≤ n → (raycast_visit_fl fl c st k).t ≤ (max_dist : WithTop ℚ)) →
      (raycast_visit_fl fl c st n).t ≤ (raycast_visit_fl fl c st (n + 1)).t := by
  have inv : ∀ n : ℕ,
      (∀ k : ℕ, 1 ≤ k → k ≤ n → (raycast_visit_fl fl c st k).t ≤ (max_dist : WithTop ℚ)) →
      (0 ≤ (raycast_visit_fl fl c st n).tMaxX ∧ 0 ≤ (raycast_visit_fl fl c st n).tMaxY ∧
        0 ≤ (raycast_visit_fl fl c st n).tMaxZ) ∧
      ((raycast_visit_fl fl c st n).t ≤ (raycast_visit_fl fl c st n).tMaxX ∧
        (raycast_visit_fl fl c st n).t ≤ (raycast_visit_fl fl c st n).tMaxY ∧
        (raycast_visit_fl fl c st n).t ≤ (raycast_visit_fl fl c st n).tMaxZ) := by
    intro n
    induction n with
    | zero => intro _; exact ⟨h0, h⟩
    | succ m ih =>
      intro hk
      have im := ih (fun k h1 h2 => hk k h1 (by omega))
      have ht := hk (m + 1) (by omega) le_rfl
      rw [raycast_visit_fl_succ] at ht ⊢
      exact (raycast_advance_fl_monotone fl max_dist δ hδ c _ hX hY hZ im.1 im.2).2 ht
  intro n hk
  have im := inv n hk
  rw [raycast_visit_fl_succ]
  exact (raycast_advance_fl_monotone fl max_dist δ hδ c _ hX hY hZ im.1 im.2).1

/-- In binary32, under the conditions of `raycast_block_f32_returns`, the
parameter `t` does not decrease on any advance the loop executes. -/
theorem raycast_block_f32_monotone (demo : Demo) (origin dir : v3f) (max_dist : ℚ)
    (hgx : |gx_fl f32 demo origin| < 2 ^ 23) (hgy : |gy origin| < 2 ^ 23)
    (hgz : |gz_fl f32 demo origin| < 2 ^ 23)
    (hdx : dir.x = 0 ∨ ((2 : ℚ) ^ (-126 : ℤ) ≤ |dir.x| ∧ |dir.x| ≤ 2))
    (hdy : dir.y = 0 ∨ ((2 : ℚ) ^ (-126 : ℤ) ≤ |dir.y| ∧ |dir.y| ≤ 2))
    (hdz : dir.z = 0 ∨ ((2 : ℚ) ^ (-126 : ℤ) ≤ |dir.z| ∧ |dir.z| ≤ 2))
    (hmax : max_dist ≤ 2 ^ 21) :
    ∀ n : ℕ,
      (∀ k : ℕ, 1 ≤ k → k ≤ n →
        (raycast_visit_fl f32 (raycast_setup_fl f32 dir)
          (raycast_init_fl f32 demo origin dir) k).t ≤ (max_dist : WithTop ℚ)) →
      (raycast_visit_fl f32 (raycast_setup_fl f32 dir)
        (raycast_init_fl f32 demo origin dir) n).t ≤
        (raycast_visit_fl f32 (raycast_setup_fl f32 dir)
          (raycast_init_fl f32 demo origin dir) (n + 1)).t := by
  have hdy' : -dir.y = 0 ∨ ((2 : ℚ) ^ (-126 : ℤ) ≤ |(-dir.y)| ∧ |(-dir.y)| ≤ 2) := by
    rw [abs_neg, neg_eq_zero]
    exact hdy
  have h0 : 0 ≤ (raycast_init_fl f32 demo origin dir).tMaxX ∧
      0 ≤ (raycast_init_fl f32 demo origin dir).tMaxY ∧
      0 ≤ (raycast_init_fl f32 demo origin dir).tMaxZ :=
    ⟨tMax_of_f32_nonneg _ _ _ hgx, tMax_of_f32_nonneg _ _ _ hgy, tMax_of_f32_nonneg _ _ _ hgz⟩
  exact raycast_visit_fl_monotone f32 max_dist (1 / 16) (by norm_num)
    (raycast_setup_fl f32 dir) (raycast_init_fl f32 demo origin dir)
    (f32_advance_progress dir.x max_dist hdx hmax)
    (f32_advance_progress (-dir.y) max_dist hdy' hmax)
    (f32_advance_progress dir.z max_dist hdz hmax) h0 h0

/-- C25 (amended): whatever the rounding `fl` of the float operations,
`raycast_block` takes reciprocals only of non-zero components: a zero component
gives the infinite `inv` and `tMax`, a non-zero one finite values; on an axis
with a zero component `tMax` stays infinite in every state of the traversal,
and that axis is not stepped while another axis has a finite `tMax`.  In exact
arithmetic (`fl = id`) the call returns for every origin, direction and
`max_dist` (there is a fuel from which on the loop gives one and the same
result) and the parameter `t` does not decrease from one state to the next.  In
binary32 (`fl = f32`) the call returns, and `t` does not decrease on any advance
the loop executes, when the origin lies within `2 ^ 23` cells of the grid origin
on every axis, every direction component is zero or of magnitude in
`[2 ^ (-126), 2]`, and `max_dist <= 2 ^ 21`. -/
theorem raycast_block_terminates (fl : ℚ → ℚ) (demo : Demo) (origin dir : v3f)
    (max_dist : ℚ) :
    (∃ (fuel0 : ℕ) (r : Option RayHit), ∀ fuel : ℕ, fuel0 ≤ fuel →
      raycast_block_fl id fuel demo origin dir max_dist = some r) ∧
    (∀ gd : ℚ,
      (gd = 0 → inv_of_fl fl gd = ⊤ ∧ ∀ (g : ℚ) (i step : ℤ), tMax_of_fl fl gd g i step = ⊤) ∧
      (gd ≠ 0 → |gd| ≠ 0 ∧ inv_of_fl fl gd = ((fl (1 / |gd|) : ℚ) : WithTop ℚ) ∧
        ∀ (g : ℚ) (i step : ℤ), tMax_of_fl fl gd g i step ≠ ⊤)) ∧
    (∀ n : ℕ, dir.x = 0 →
      (raycast_setup_fl fl dir).invX = ⊤ ∧
      (raycast_visit_fl fl (raycast_setup_fl fl dir)
        (raycast_init_fl fl demo origin dir) n).tMaxX = ⊤ ∧
      (((raycast_visit_fl fl (raycast_setup_fl fl dir)
            (raycast_init_fl fl demo origin dir) n).tMaxY ≠ ⊤ ∨
          (raycast_visit_fl fl (raycast_setup_fl fl dir)
            (raycast_init_fl fl demo origin dir) n).tMaxZ ≠ ⊤) →
        (raycast_visit_fl fl (raycast_setup_fl fl dir)
          (raycast_init_fl fl demo origin dir) (n + 1)).ix =
          (raycast_visit_fl fl (raycast_setup_fl fl dir)
            (raycast_init_fl fl demo origin dir) n).ix)) ∧
    (∀ n : ℕ, dir.y = 0 →
      (raycast_setup_fl fl dir).invY = ⊤ ∧
      (raycast_visit_fl fl (raycast_setup_fl fl dir)
        (raycast_init_fl fl demo origin dir) n).tMaxY = ⊤ ∧
      (((raycast_visit_fl fl (raycast_setup_fl fl dir)
            (raycast_init_fl fl demo origin dir) n).tMaxX ≠ ⊤ ∨
          (raycast_visit_fl fl (raycast_setup_fl fl dir)
            (raycast_init_fl fl demo origin dir) n).tMaxZ ≠ ⊤) →
        (raycast_visit_fl fl (raycast_setup_fl fl dir)
          (raycast_init_fl fl demo origin dir) (n + 1)).iy =
          (raycast_visit_fl fl (raycast_setup_fl fl dir)
            (raycast_init_fl fl demo origin dir) n).iy)) ∧
    (∀ n : ℕ, dir.z = 0 →
      (raycast_setup_fl fl dir).invZ = ⊤ ∧
      (raycast_visit_fl fl (raycast_setup_fl fl dir)
        (raycast_init_fl fl demo origin dir) n).tMaxZ = ⊤ ∧
      (((raycast_visit_fl fl (raycast_setup_fl fl dir)
            (raycast_init_fl fl demo origin dir) n).tMaxX ≠ ⊤ ∨
          (raycast_visit_fl fl (raycast_setup_fl fl dir)
            (raycast_init_fl fl demo origin dir) n).tMaxY ≠ ⊤) →
        (raycast_visit_fl fl (raycast_setup_fl fl dir)
          (raycast_init_fl fl demo origin dir) (n + 1)).iz =
          (raycast_visit_fl fl (raycast_setup_fl fl dir)
            (raycast_init_fl fl demo origin dir) n).iz)) ∧
    (∀ n : ℕ,
      (raycast_visit_fl id (raycast_setup_fl id dir)
        (raycast_init_fl id demo origin dir) n).t ≤
        (raycast_visit_fl id (raycast_setup_fl id dir)
          (raycast_init_fl id demo origin dir) (n + 1)).t) ∧
    ((|gx_fl f32 demo origin| < 2 ^ 23 ∧ |gy origin| < 2 ^ 23 ∧
        |gz_fl f32 demo origin| < 2 ^ 23) →
      ((dir.x = 0 ∨ ((2 : ℚ) ^ (-126 : ℤ) ≤ |dir.x| ∧ |dir.x| ≤ 2)) ∧
        (dir.y = 0 ∨ ((2 : ℚ) ^ (-126 : ℤ) ≤ |dir.y| ∧ |dir.y| ≤ 2)) ∧
        (dir.z = 0 ∨ ((2 : ℚ) ^ (-126 : ℤ) ≤ |dir.z| ∧ |dir.z| ≤ 2))) →
      max_dist ≤ 2 ^ 21 →
      (∃ (fuel0 : ℕ) (r : Option RayHit), ∀ fuel : ℕ, fuel0 ≤ fuel →
        raycast_block_fl f32 fuel demo origin dir max_dist = some r) ∧
      (∀ n : ℕ,
        (∀ k : ℕ, 1 ≤ k → k ≤ n →
          (raycast_visit_fl f32 (raycast_setup_fl f32 dir)
            (raycast_init_fl f32 demo origin dir) k).t ≤ (max_dist : WithTop ℚ)) →
        (raycast_visit_fl f32 (raycast_setup_fl f32 dir)
          (raycast_init_fl f32 demo origin dir) n).t ≤
          (raycast_visit_fl f32 (raycast_setup_fl f32 dir)
            (raycast_init_fl f32 demo origin dir) (n + 1)).t)) := by
  refine ⟨?_, ?_, ?_, ?_, ?_, ?_, ?_⟩
  · have hne := raycast_loop_terminates demo max_dist (raycast_setup dir)
      (inv_of_valid _) (inv_of_valid _) (inv_of_valid _) _ (raycast_init demo origin dir)
      le_rfl _ le_rfl
    cases hres : raycast_loop demo max_dist (raycast_setup dir)
        (ray_steps max_dist (raycast_setup dir) (raycast_init demo origin dir) + 1)
        (raycast_init demo origin dir) with
    | none => exact absurd hres hne
    | some r =>
      refine ⟨ray_steps max_dist (raycast_setup dir) (raycast_init demo origin dir) + 1, r,
        fun fuel hf => ?_⟩
      rw [raycast_block_fl_id, raycast_block_eq_loop]
      exact raycast_loop_fuel_mono demo max_dist _ _ fuel hf _ r hres
  · intro gd
    refine ⟨fun h0 => ?_, fun hne => ?_⟩
    · unfold inv_of_fl tMax_of_fl
      refine ⟨?_, fun g i step => ?_⟩
      · rw [if_neg (not_not.mpr h0)]
      · rw [if_neg (not_not.mpr h0)]
    · unfold inv_of_fl tMax_of_fl
      refine ⟨abs_ne_zero.mpr hne, ?_, fun g i step => ?_⟩
      · rw [if_pos hne]
      · rw [if_pos hne]
        exact WithTop.coe_ne_top
  · intro n hd
    have hinv : (raycast_setup_fl fl dir).invX = ⊤ := by
      show inv_of_fl fl dir.x = ⊤
      unfold inv_of_fl
      rw [if_neg (not_not.mpr hd)]
    have htop : ∀ k : ℕ,
        (raycast_visit_fl fl (raycast_setup_fl fl dir)
          (raycast_init_fl fl demo origin dir) k).tMaxX = ⊤ := by
      intro k
      induction k with
      | zero =>
        show tMax_of_fl fl dir.x _ _ _ = ⊤
        unfold tMax_of_fl
        rw [if_neg (not_not.mpr hd)]
      | succ j ih =>
        rw [raycast_visit_fl_succ]
        exact (raycast_advance_fl_top_x fl _ _ ih).1
    refine ⟨hinv, htop n, fun _ => ?_⟩
    rw [raycast_visit_fl_succ]
    exact (raycast_advance_fl_top_x fl _ _ (htop n)).2
  · intro n hd
    have hd' : -dir.y = 0 := by rw [hd]; exact neg_zero
    have hinv : (raycast_setup_fl fl dir).invY = ⊤ := by
      show inv_of_fl fl (-dir.y) = ⊤
      unfold inv_of_fl
      rw [if_neg (not_not.mpr hd')]
    have htop : ∀ k : ℕ,
        (raycast_visit_fl fl (raycast_setup_fl fl dir)
          (raycast_init_fl fl demo origin dir) k).tMaxY = ⊤ := by
      intro k
      induction k with
      | zero =>
        show tMax_of_fl fl (-dir.y) _ _ _ = ⊤
        unfold tMax_of_fl
        rw [if_neg (not_not.mpr hd')]
      | succ j ih =>
        rw [raycast_visit_fl_succ]
        exact (raycast_advance_fl_top_y fl _ _ ih).1
    refine ⟨hinv, htop n, fun _ => ?_⟩
    rw [raycast_visit_fl_succ]
    exact (raycast_advance_fl_top_y fl _ _ (htop n)).2
  · intro n hd
    have hinv : (raycast_setup_fl fl dir).invZ = ⊤ := by
      show inv_of_fl fl dir.z = ⊤
      unfold inv_of_fl
      rw [if_neg (not_not.mpr hd)]
    have htop : ∀ k : ℕ,
        (raycast_visit_fl fl (raycast_setup_fl fl dir)
          (raycast_init_fl fl demo origin dir) k).tMaxZ = ⊤ := by
      intro k
      induction k with
      | zero =>
        show tMax_of_fl fl dir.z _ _ _ = ⊤
        unfold tMax_of_fl
        rw [if_neg (not_not.mpr hd)]
      | succ j ih =>
        rw [raycast_visit_fl_succ]
        exact (raycast_advance_fl_top_z fl _ _ ih).1
    refine ⟨hinv, htop n, fun hfin => ?_⟩
    rw [raycast_visit_fl_succ]
    exact (raycast_advance_fl_top_z fl _ _ (htop n)).2 hfin
  · intro n
    obtain ⟨hs, hi⟩ := raycast_setup_init_fl_id demo origin dir
    rw [hs, hi, raycast_visit_fl_id, raycast_visit_fl_id, raycast_visit_succ]
    exact (raycast_advance_monotone _ _ (inv_of_nonneg _) (inv_of_nonneg _)
      (inv_of_nonneg _) (raycast_visit_invariant demo origin dir n)).1
  · intro hg hd hmax
    exact ⟨raycast_block_f32_returns demo origin dir max_dist
        hg.1 hg.2.1 hg.2.2 hd.1 hd.2.1 hd.2.2 hmax,
      raycast_block_f32_monotone demo origin dir max_dist
        hg.1 hg.2.1 hg.2.2 hd.1 hd.2.1 hd.2.2 hmax⟩

/-- Witness for C25: in binary32, for the zero direction the x axis has an
infinite `inv` and its `tMax` is infinite on entry to the loop; and the call
from the initial camera position along -z in the 16x3x16 grid with
`max_dist = 6` returns. -/
theorem raycast_block_terminates_witness :
    ((raycast_setup_fl f32 ⟨0, 0, 0⟩).invX = ⊤ ∧
      (raycast_visit_fl f32 (raycast_setup_fl f32 ⟨0, 0, 0⟩)
        (raycast_init_fl f32 (sample_demo 16 3 16 all_air) ⟨0, 3 / 2, 6⟩ ⟨0, 0, 0⟩) 0).tMaxX
        = ⊤) ∧
    (∃ (fuel0 : ℕ) (r : Option RayHit), ∀ fuel : ℕ, fuel0 ≤ fuel →
      raycast_block_fl f32 fuel (sample_demo 16 3 16 all_air) ⟨0, 3 / 2, 6⟩ ⟨0, 0, -1⟩ 6
        = some r) :=
  ⟨⟨((raycast_block_terminates f32 (sample_demo 16 3 16 all_air) ⟨0, 3 / 2, 6⟩ ⟨0, 0, 0⟩
        6).2.2.1 0 rfl).1,
     ((raycast_block_terminates f32 (sample_demo 16 3 16 all_air) ⟨0, 3 / 2, 6⟩ ⟨0, 0, 0⟩
        6).2.2.1 0 rfl).2.1⟩,
   ((raycast_block_terminates f32 (sample_demo 16 3 16 all_air) ⟨0, 3 / 2, 6⟩ ⟨0, 0, -1⟩
      6).2.2.2.2.2.2
      ⟨by rw [sample_camera_grid_f32.1]; norm_num,
        by unfold gy; rw [abs_lt]; constructor <;> norm_num,
        by rw [sample_camera_grid_f32.2]; norm_num⟩
      ⟨Or.inl rfl, Or.inl rfl, Or.inr ⟨by norm_num, by norm_num⟩⟩
      (by norm_num)).1⟩

/-! ## Scan range of the collision resolver: completeness in binary32 -/

/-- In binary32 a number that is not positive does not round to a positive
value. -/
theorem f32_nonpos (y : ℚ) (h : y ≤ 0) : f32 y ≤ 0 := by
  unfold f32
  apply mul_nonpos_of_nonpos_of_nonneg
  · have hr := round_even_le_int (y / 2 ^ (max (Int.log 2 |y|) (-126) - 23)) 0
      (by
        push_cast
        exact div_nonpos_of_nonpos_of_nonneg h (zpow_pos (by norm_num) _).le)
    exact_mod_cast hr
  · exact (zpow_pos (by norm_num) _).le

/-- In binary32 the conversion of a grid size below `2 ^ 22` and its half are
exact. -/
theorem f32_half_size (size : ℤ) (h0 : 0 < size) (hs : size < 2 ^ 22) :
    f32 (f32 (size : ℚ) * (1 / 2)) = (size : ℚ) / 2 := by
  rw [f32_intCast size (by rw [abs_lt]; constructor <;> omega)]
  have h := f32_repr size (-1) (by rw [abs_lt]; constructor <;> omega) (by norm_num)
  have e : (size : ℚ) * 2 ^ (-1 : ℤ) = (size : ℚ) * (1 / 2) := by norm_num
  rw [e] at h
  rw [h]
  ring

/-- In binary32 the box of a cell with index in `[0, size)`, `size < 2 ^ 22`, is
computed exactly: `bmin = c - size / 2` and `bmax = bmin + 1`. -/
theorem f32_cell_box (size c : ℤ) (hc : 0 ≤ c ∧ c < size) (hs : size < 2 ^ 22) :
    f32 (f32 (c : ℚ) - f32 (f32 (size : ℚ) * (1 / 2))) = (c : ℚ) - (size : ℚ) / 2 ∧
    f32 (f32 (f32 (c : ℚ) - f32 (f32 (size : ℚ) * (1 / 2))) + 1) =
      (c : ℚ) - (size : ℚ) / 2 + 1 := by
  have hsz := f32_half_size size (by omega) hs
  have hcf : f32 (c : ℚ) = c := f32_intCast c (by rw [abs_lt]; constructor <;> omega)
  have h1 := f32_repr (2 * c - size) (-1) (by rw [abs_lt]; constructor <;> omega)
    (by norm_num)
  have e1 : ((2 * c - size : ℤ) : ℚ) * 2 ^ (-1 : ℤ) = (c : ℚ) - (size : ℚ) / 2 := by
    push_cast
    norm_num
    ring
  rw [e1] at h1
  have h2 := f32_repr (2 * c - size + 2) (-1) (by rw [abs_lt]; constructor <;> omega)
    (by norm_num)
  have e2 : ((2 * c - size + 2 : ℤ) : ℚ) * 2 ^ (-1 : ℤ) = (c : ℚ) - (size : ℚ) / 2 + 1 := by
    push_cast
    norm_num
    ring
  rw [e2] at h2
  rw [hsz, hcf, h1]
  exact ⟨rfl, h2⟩

/-- In binary32, along x or z: a cell of the grid whose computed overlap with
the interval `[p_lo, p_hi]` is positive has its index at most one below the
clamped lower loop bound and at most the clamped upper loop bound. -/
theorem f32_axis_range (p_lo p_hi : ℚ) (size c : ℤ) (hc : 0 ≤ c ∧ c < size)
    (hs : size < 2 ^ 22) (hlo : |p_lo| ≤ 2 ^ 22 + 1) (hhi : |p_hi| ≤ 2 ^ 22 + 1)
    (ho : 0 < f32 (min p_hi (f32 (f32 (f32 (c : ℚ) - f32 (f32 (size : ℚ) * (1 / 2))) + 1)) -
      max p_lo (f32 (f32 (c : ℚ) - f32 (f32 (size : ℚ) * (1 / 2)))))) :
    clamp_lo ⌊f32 (p_lo + f32 (f32 (size : ℚ) * (1 / 2)))⌋ ≤ c + 1 ∧
    c ≤ clamp_hi ⌊f32 (p_hi + f32 (f32 (size : ℚ) * (1 / 2)))⌋ size := by
  obtain ⟨hb0, hb1⟩ := f32_cell_box size c hc hs
  have hsz := f32_half_size size (by omega) hs
  rw [hb1, hb0] at ho
  rw [hsz]
  have hv : 0 < min p_hi ((c : ℚ) - (size : ℚ) / 2 + 1) - max p_lo ((c : ℚ) - (size : ℚ) / 2) := by
    by_contra hneg
    exact absurd ho (not_lt.mpr (f32_nonpos _ (not_lt.mp hneg)))
  have hlt := sub_pos.mp hv
  have h1 : p_lo < (c : ℚ) - (size : ℚ) / 2 + 1 :=
    lt_of_le_of_lt (le_max_left _ _) (lt_of_lt_of_le hlt (min_le_right _ _))
  have h2 : (c : ℚ) - (size : ℚ) / 2 < p_hi :=
    lt_of_le_of_lt (le_max_right _ _) (lt_of_lt_of_le hlt (min_le_left _ _))
  obtain ⟨hlo1, hlo2⟩ := abs_le.mp hlo
  obtain ⟨hhi1, hhi2⟩ := abs_le.mp hhi
  have hsq : (0 : ℚ) < (size : ℚ) ∧ (size : ℚ) < 2 ^ 22 := by
    constructor
    · exact_mod_cast (by omega : 0 < size)
    · exact_mod_cast hs
  have hcq : (0 : ℚ) ≤ (c : ℚ) := by exact_mod_cast hc.1
  constructor
  · have hb : |p_lo + (size : ℚ) / 2| < 2 ^ 24 := by
      rw [abs_lt]
      constructor <;> norm_num at hlo1 hlo2 hsq ⊢ <;> linarith
    have hle : f32 (p_lo + (size : ℚ) / 2) ≤ ((c + 1 : ℤ) : ℚ) :=
      f32_le_int _ _ hb (by push_cast; linarith)
    have hfl : ⌊f32 (p_lo + (size : ℚ) / 2)⌋ ≤ c + 1 := by
      have := Int.floor_le (f32 (p_lo + (size : ℚ) / 2))
      have h3 : ((⌊f32 (p_lo + (size : ℚ) / 2)⌋ : ℤ) : ℚ) ≤ ((c + 1 : ℤ) : ℚ) :=
        le_trans this hle
      exact_mod_cast h3
    unfold clamp_lo
    split_ifs <;> omega
  · have hb : |p_hi + (size : ℚ) / 2| < 2 ^ 24 := by
      rw [abs_lt]
      constructor <;> norm_num at hhi1 hhi2 hsq ⊢ <;> linarith
    have hge : (c : ℚ) ≤ f32 (p_hi + (size : ℚ) / 2) :=
      f32_ge_int _ _ hb (by linarith)
    have hfl : c ≤ ⌊f32 (p_hi + (size : ℚ) / 2)⌋ := Int.le_floor.mpr hge
    unfold clamp_hi
    split_ifs <;> omega

/-- In binary32, along y: a cell of the grid whose computed overlap with the
interval `[p_lo, p_hi]` is positive has its index inside the clamped loop
bounds. -/
theorem f32_axis_range_y (p_lo p_hi : ℚ) (size c : ℤ) (hc : 0 ≤ c ∧ c < size)
    (hs : size < 2 ^ 22)
    (ho : 0 < f32 (min p_hi (-f32 ((c : ℤ) : ℚ)) - max p_lo (-f32 (((c + 1 : ℤ)) : ℚ)))) :
    clamp_lo ⌊-p_hi⌋ ≤ c ∧ c ≤ clamp_hi ⌊-p_lo⌋ size := by
  have hcf : f32 ((c : ℤ) : ℚ) = c := f32_intCast c (by rw [abs_lt]; constructor <;> omega)
  have hcf1 : f32 (((c + 1 : ℤ)) : ℚ) = ((c + 1 : ℤ) : ℚ) :=
    f32_intCast (c + 1) (by rw [abs_lt]; constructor <;> omega)
  rw [hcf, hcf1] at ho
  have hv : 0 < min p_hi (-(c : ℚ)) - max p_lo (-(((c + 1 : ℤ)) : ℚ)) := by
    by_contra hneg
    exact absurd ho (not_lt.mpr (f32_nonpos _ (not_lt.mp hneg)))
  have hlt := sub_pos.mp hv
  have h1 : p_lo < -(c : ℚ) :=
    lt_of_le_of_lt (le_max_left _ _) (lt_of_lt_of_le hlt (min_le_right _ _))
  have h2 : -(((c + 1 : ℤ)) : ℚ) < p_hi :=
    lt_of_le_of_lt (le_max_right _ _) (lt_of_lt_of_le hlt (min_le_left _ _))
  push_cast at h2
  constructor
  · have hfl : ⌊-p_hi⌋ < c + 1 := by
      rw [Int.floor_lt]
      push_cast
      linarith
    unfold clamp_lo
    split_ifs <;> omega
  · have hfl : c ≤ ⌊-p_lo⌋ := by
      rw [Int.le_floor]
      linarith
    unfold clamp_hi
    split_ifs <;> omega

/-- In binary32 the x (or z) extent of the player box of a camera within
`2 ^ 22` of the origin has magnitude at most `2 ^ 22 + 1`. -/
theorem f32_box_extent (p : ℚ) (hp : |p| ≤ 2 ^ 22) :
    |f32 (p - f32 PLAYER_RADIUS)| ≤ 2 ^ 22 + 1 ∧ |f32 (p + f32 PLAYER_RADIUS)| ≤ 2 ^ 22 + 1 := by
  rw [f32_player_consts.1]
  obtain ⟨h1, h2⟩ := abs_le.mp hp
  have hN : (((2 ^ 22 + 1 : ℤ)) : ℚ) = 2 ^ 22 + 1 := by norm_num
  have hN' : (((-(2 ^ 22 + 1) : ℤ)) : ℚ) = -(2 ^ 22 + 1) := by norm_num
  constructor
  · have hb : |p - 5033165 / 16777216| < 2 ^ 24 := by
      rw [abs_lt]
      constructor <;> norm_num at h1 h2 ⊢ <;> linarith
    have ha := f32_le_int (p - 5033165 / 16777216) (2 ^ 22 + 1) hb
      (by rw [hN]; norm_num at h2 ⊢; linarith)
    have hb' := f32_ge_int (p - 5033165 / 16777216) (-(2 ^ 22 + 1)) hb
      (by rw [hN']; norm_num at h1 ⊢; linarith)
    rw [hN] at ha
    rw [hN'] at hb'
    exact abs_le.mpr ⟨hb', ha⟩
  · have hb : |p + 5033165 / 16777216| < 2 ^ 24 := by
      rw [abs_lt]
      constructor <;> norm_num at h1 h2 ⊢ <;> linarith
    have ha := f32_le_int (p + 5033165 / 16777216) (2 ^ 22 + 1) hb
      (by rw [hN]; norm_num at h2 ⊢; linarith)
    have hb' := f32_ge_int (p + 5033165 / 16777216) (-(2 ^ 22 + 1)) hb
      (by rw [hN']; norm_num at h1 ⊢; linarith)
    rw [hN] at ha
    rw [hN'] at hb'
    exact abs_le.mpr ⟨hb', ha⟩

/-- In binary32, for grid sizes below `2 ^ 22` and a camera within `2 ^ 22` of
the origin in x and z: a cell of the grid for which the overlaps `ox`, `oy`,
`oz` computed by the loop body are positive lies in the scanned range, or one
cell below its lower x bound or its lower z bound. -/
theorem scan_range_f32_complete (demo : Demo)
    (hsx : demo.size_x < 2 ^ 22) (hsy : demo.size_y < 2 ^ 22) (hsz : demo.size_z < 2 ^ 22)
    (hcx : |demo.camera.pos.x| ≤ 2 ^ 22) (hcz : |demo.camera.pos.z| ≤ 2 ^ 22)
    (x y z : ℤ) (hx : 0 ≤ x ∧ x < demo.size_x) (hy : 0 ≤ y ∧ y < demo.size_y)
    (hz : 0 ≤ z ∧ z < demo.size_z)
    (ho : 0 < overlap_x_fl f32 (resolve_init_fl f32 demo) x ∧
      0 < overlap_y_fl f32 (resolve_init_fl f32 demo) y ∧
      0 < overlap_z_fl f32 (resolve_init_fl f32 demo) z) :
    (ix_min_fl f32 demo ≤ x + 1 ∧ x ≤ ix_max_fl f32 demo) ∧
    (iy_min_fl f32 demo ≤ y ∧ y ≤ iy_max_fl f32 demo) ∧
    (iz_min_fl f32 demo ≤ z + 1 ∧ z ≤ iz_max_fl f32 demo) := by
  obtain ⟨ox, oy, oz⟩ := ho
  have ex := f32_box_extent demo.camera.pos.x hcx
  have ez := f32_box_extent demo.camera.pos.z hcz
  refine ⟨?_, ?_, ?_⟩
  · exact f32_axis_range _ _ demo.size_x x hx hsx ex.1 ex.2 ox
  · exact f32_axis_range_y _ _ demo.size_y y hy hsy oy
  · exact f32_axis_range _ _ demo.size_z z hz hsz ez.1 ez.2 oz

/-- C29 (amended): the loops of `resolve_collisions` scan `[ix_min..ix_max] x
[iy_min..iy_max] x [iz_min..iz_max]`.  Whatever the rounding `fl` of the float
operations that compute these bounds, every index triple of the range lies
inside the grid.  In exact arithmetic (`fl = id`) every cell inside the grid
whose box has positive overlap with the player's box at the start of the pass
on all three axes lies in the range.  In binary32 (`fl = f32`), for grid sizes
below `2 ^ 22` and a camera within `2 ^ 22` of the origin in x and z, every cell
inside the grid for which the overlaps `ox`, `oy`, `oz` computed by the loop
body are positive lies in `[ix_min - 1..ix_max] x [iy_min..iy_max] x
[iz_min - 1..iz_max]`. -/
theorem scan_range_sound_complete (fl : ℚ → ℚ) (demo : Demo) :
    resolve_collisions demo =
      (for_loop (ix_min demo) (ix_max demo + 1) (fun x =>
        for_loop (iz_min demo) (iz_max demo + 1) (fun z =>
          for_loop (iy_min demo) (iy_max demo + 1) (fun y =>
            resolve_collisions_body x z y))) (resolve_init demo)).demo ∧
    (ix_min_fl id demo = ix_min demo ∧ ix_max_fl id demo = ix_max demo ∧
      iy_min_fl id demo = iy_min demo ∧ iy_max_fl id demo = iy_max demo ∧
      iz_min_fl id demo = iz_min demo ∧ iz_max_fl id demo = iz_max demo) ∧
    (∀ x y z : ℤ, (ix_min_fl fl demo ≤ x ∧ x ≤ ix_max_fl fl demo) →
      (iy_min_fl fl demo ≤ y ∧ y ≤ iy_max_fl fl demo) →
      (iz_min_fl fl demo ≤ z ∧ z ≤ iz_max_fl fl demo) →
      (0 ≤ x ∧ x < demo.size_x) ∧ (0 ≤ y ∧ y < demo.size_y) ∧ (0 ≤ z ∧ z < demo.size_z)) ∧
    (∀ x y z : ℤ, (0 ≤ x ∧ x < demo.size_x) → (0 ≤ y ∧ y < demo.size_y) →
      (0 ≤ z ∧ z < demo.size_z) →
      (0 < overlap_x (resolve_init demo) x ∧ 0 < overlap_y (resolve_init demo) y ∧
        0 < overlap_z (resolve_init demo) z) →
      (ix_min demo ≤ x ∧ x ≤ ix_max demo) ∧ (iy_min demo ≤ y ∧ y ≤ iy_max demo) ∧
        (iz_min demo ≤ z ∧ z ≤ iz_max demo)) ∧
    ((demo.size_x < 2 ^ 22 ∧ demo.size_y < 2 ^ 22 ∧ demo.size_z < 2 ^ 22) →
      (|demo.camera.pos.x| ≤ 2 ^ 22 ∧ |demo.camera.pos.z| ≤ 2 ^ 22) →
      ∀ x y z : ℤ, (0 ≤ x ∧ x < demo.size_x) → (0 ≤ y ∧ y < demo.size_y) →
        (0 ≤ z ∧ z < demo.size_z) →
        (0 < overlap_x_fl f32 (resolve_init_fl f32 demo) x ∧
          0 < overlap_y_fl f32 (resolve_init_fl f32 demo) y ∧
          0 < overlap_z_fl f32 (resolve_init_fl f32 demo) z) →
        (ix_min_fl f32 demo ≤ x + 1 ∧ x ≤ ix_max_fl f32 demo) ∧
          (iy_min_fl f32 demo ≤ y ∧ y ≤ iy_max_fl f32 demo) ∧
          (iz_min_fl f32 demo ≤ z + 1 ∧ z ≤ iz_max_fl f32 demo)) := by
  refine ⟨rfl, ⟨rfl, rfl, rfl, rfl, rfl, rfl⟩, ?_, ?_, ?_⟩
  · intro x y z hx hy hz
    have bx0 := (clamp_bounds
      ⌊fl ((resolve_init_fl fl demo).pmin_x + fl (fl (demo.size_x : ℚ) * (1 / 2)))⌋
      demo.size_x).1
    have bx1 := (clamp_bounds
      ⌊fl ((resolve_init_fl fl demo).pmax_x + fl (fl (demo.size_x : ℚ) * (1 / 2)))⌋
      demo.size_x).2
    have by0 := (clamp_bounds ⌊-(resolve_init_fl fl demo).pmax_y⌋ demo.size_y).1
    have by1 := (clamp_bounds ⌊-(resolve_init_fl fl demo).pmin_y⌋ demo.size_y).2
    have bz0 := (clamp_bounds
      ⌊fl ((resolve_init_fl fl demo).pmin_z + fl (fl (demo.size_z : ℚ) * (1 / 2)))⌋
      demo.size_z).1
    have bz1 := (clamp_bounds
      ⌊fl ((resolve_init_fl fl demo).pmax_z + fl (fl (demo.size_z : ℚ) * (1 / 2)))⌋
      demo.size_z).2
    unfold ix_min_fl ix_max_fl at hx
    unfold iy_min_fl iy_max_fl at hy
    unfold iz_min_fl iz_max_fl at hz
    refine ⟨⟨?_, ?_⟩, ⟨?_, ?_⟩, ⟨?_, ?_⟩⟩ <;> omega
  · intro x y z hx hy hz ⟨ox, oy, oz⟩
    have hsx : (resolve_init demo).demo.size_x = demo.size_x := rfl
    have hsz : (resolve_init demo).demo.size_z = demo.size_z := rfl
    unfold overlap_x bmax_x bmin_x at ox
    unfold overlap_y bmax_y bmin_y at oy
    unfold overlap_z bmax_z bmin_z at oz
    rw [hsx] at ox
    rw [hsz] at oz
    have ox1 := lt_min_iff.mp (lt_of_lt_of_le (max_lt_iff.mp (sub_pos.mp ox)).1 le_rfl)
    have ox2 := lt_min_iff.mp (lt_of_lt_of_le (max_lt_iff.mp (sub_pos.mp ox)).2 le_rfl)
    have oy1 := lt_min_iff.mp (lt_of_lt_of_le (max_lt_iff.mp (sub_pos.mp oy)).1 le_rfl)
    have oy2 := lt_min_iff.mp (lt_of_lt_of_le (max_lt_iff.mp (sub_pos.mp oy)).2 le_rfl)
    have oz1 := lt_min_iff.mp (lt_of_lt_of_le (max_lt_iff.mp (sub_pos.mp oz)).1 le_rfl)
    have oz2 := lt_min_iff.mp (lt_of_lt_of_le (max_lt_iff.mp (sub_pos.mp oz)).2 le_rfl)
    have rx := scan_range_contains x demo.size_x
      ((resolve_init demo).pmin_x + (demo.size_x : ℚ) * (1 / 2))
      ((resolve_init demo).pmax_x + (demo.size_x : ℚ) * (1 / 2)) hx
      (by linarith [ox1.2]) (by linarith [ox2.1])
    have ry := scan_range_contains y demo.size_y (-(resolve_init demo).pmax_y)
      (-(resolve_init demo).pmin_y) hy
      (by push_cast at oy2; linarith [oy2.1]) (by linarith [oy1.2])
    have rz := scan_range_contains z demo.size_z
      ((resolve_init demo).pmin_z + (demo.size_z : ℚ) * (1 / 2))
      ((resolve_init demo).pmax_z + (demo.size_z : ℚ) * (1 / 2)) hz
      (by linarith [oz1.2]) (by linarith [oz2.1])
    unfold ix_min ix_max iy_min iy_max iz_min iz_max
    refine ⟨⟨rx.1, ?_⟩, ⟨ry.1, ?_⟩, ⟨rz.1, ?_⟩⟩ <;> omega
  · intro hs hc x y z hx hy hz ho
    exact scan_range_f32_complete demo hs.1 hs.2.1 hs.2.2 hc.1 hc.2 x y z hx hy hz ho

/-- Witness for C29: in exact arithmetic the player standing 1/10 deep in the
single cell of a 1 x 1 x 1 grid overlaps that cell, and the cell lies in the
scanned range; in binary32, with the camera at `(7.2999997, 0.5, 0)` in a
16x3x16 grid, the cell `(14, 0, 8)` has positive computed overlaps and lies at
most one cell below the lower x and z bounds of the range. -/
theorem scan_range_sound_complete_witness :
    ((ix_min (sample_player ⟨0, 3 / 2, 0⟩ 1 1 1 all_stone) ≤ 0 ∧
        0 ≤ ix_max (sample_player ⟨0, 3 / 2, 0⟩ 1 1 1 all_stone)) ∧
      (iy_min (sample_player ⟨0, 3 / 2, 0⟩ 1 1 1 all_stone) ≤ 0 ∧
        0 ≤ iy_max (sample_player ⟨0, 3 / 2, 0⟩ 1 1 1 all_stone)) ∧
      (iz_min (sample_player ⟨0, 3 / 2, 0⟩ 1 1 1 all_stone) ≤ 0 ∧
        0 ≤ iz_max (sample_player ⟨0, 3 / 2, 0⟩ 1 1 1 all_stone))) ∧
    ((ix_min_fl f32 (sample_player ⟨15309209 / 2097152, 1 / 2, 0⟩ 16 3 16 all_stone)
          ≤ 14 + 1 ∧
        14 ≤ ix_max_fl f32 (sample_player ⟨15309209 / 2097152, 1 / 2, 0⟩ 16 3 16 all_stone)) ∧
      (iy_min_fl f32 (sample_player ⟨15309209 / 2097152, 1 / 2, 0⟩ 16 3 16 all_stone) ≤ 0 ∧
        0 ≤ iy_max_fl f32 (sample_player ⟨15309209 / 2097152, 1 / 2, 0⟩ 16 3 16 all_stone)) ∧
      (iz_min_fl f32 (sample_player ⟨15309209 / 2097152, 1 / 2, 0⟩ 16 3 16 all_stone)
          ≤ 8 + 1 ∧
        8 ≤ iz_max_fl f32 (sample_player ⟨15309209 / 2097152, 1 / 2, 0⟩ 16 3 16
          all_stone))) :=
  ⟨(scan_range_sound_complete id (sample_player ⟨0, 3 / 2, 0⟩ 1 1 1 all_stone)).2.2.2.1 0 0 0
      (by decide) (by decide) (by decide)
      (by
        have h := landing_state_overlaps
        unfold landing_state at h
        rw [h.1, h.2.1, h.2.2]
        norm_num),
   (scan_range_sound_complete f32
      (sample_player ⟨15309209 / 2097152, 1 / 2, 0⟩ 16 3 16 all_stone)).2.2.2.2
      ⟨by decide, by decide, by decide⟩
      ⟨by
        show |(15309209 / 2097152 : ℚ)| ≤ 2 ^ 22
        rw [abs_of_pos (by norm_num)]
        norm_num,
       by
        show |(0 : ℚ)| ≤ 2 ^ 22
        norm_num⟩
      14 0 8 (by decide) (by decide) (by decide)
      (by
        have h := sample_scan_binary32
        rw [h.2.2.1, h.2.2.2.1, h.2.2.2.2.1]
        norm_num)⟩

/-! ## Near-clip interpolation: endpoints on the near plane -/

/-- In binary32 a number of magnitude at least `2 ^ (-149)`, the smallest
positive value, does not round to zero. -/
theorem f32_ne_zero_of_ge (y : ℚ) (h : (2 : ℚ) ^ (-149 : ℤ) ≤ |y|) : f32 y ≠ 0 := by
  have h2pos : ∀ j : ℤ, (0 : ℚ) < 2 ^ j := fun j => zpow_pos (by norm_num) j
  have hpos : 0 < |y| := lt_of_lt_of_le (h2pos _) h
  unfold f32
  generalize hE : max (Int.log 2 |y|) (-126) - 23 = E
  have hz : (1 : ℚ) ≤ |y| / 2 ^ E := by
    rw [le_div_iff₀ (h2pos E), one_mul]
    rcases max_cases (Int.log 2 |y|) (-126) with ⟨h', -⟩ | ⟨h', -⟩
    · rw [h'] at hE
      have h1 : (2 : ℚ) ^ (Int.log 2 |y|) ≤ |y| := by
        have := Int.zpow_log_le_self (by norm_num : 1 < 2) hpos
        exact_mod_cast this
      have h2 : (2 : ℚ) ^ E ≤ 2 ^ (Int.log 2 |y|) :=
        zpow_le_zpow_right₀ (by norm_num) (by omega)
      exact le_trans h2 h1
    · rw [h'] at hE
      have hE' : E = -149 := by omega
      rw [hE']
      exact h
  have hr : round_even (y / 2 ^ E) ≠ 0 := by
    rcases le_or_lt 0 y with hy | hy
    · rw [abs_of_nonneg hy] at hz
      have := round_even_ge_int (y / 2 ^ E) 1 (by exact_mod_cast hz)
      omega
    · rw [abs_of_neg hy, neg_div] at hz
      have := round_even_le_int (y / 2 ^ E) (-1) (by push_cast; linarith)
      omega
  exact mul_ne_zero (by exact_mod_cast hr) (h2pos E).ne'

/-- A binary32 value is an integer multiple of `2 ^ (-149)`. -/
theorem f32_fixed_multiple (q : ℚ) (h : f32 q = q) : ∃ n : ℤ, q = (n : ℚ) * 2 ^ (-149 : ℤ) := by
  unfold f32 at h
  generalize hE : max (Int.log 2 |q|) (-126) - 23 = E at h
  have hE' : -149 ≤ E := by
    rcases max_cases (Int.log 2 |q|) (-126) with ⟨h', h''⟩ | ⟨h', -⟩ <;>
      rw [h'] at hE <;> omega
  obtain ⟨m, hm⟩ : ∃ m : ℕ, E + 149 = (m : ℤ) := ⟨(E + 149).toNat, by omega⟩
  refine ⟨round_even (q / 2 ^ E) * 2 ^ m, ?_⟩
  have hEm : E = (m : ℤ) + -149 := by omega
  generalize round_even (q / 2 ^ E) = R at h
  rw [← h, hEm, zpow_add₀ (by norm_num : (2 : ℚ) ≠ 0), zpow_natCast]
  push_cast
  ring

/-- In binary32 the difference of two distinct values does not round to zero. -/
theorem f32_sub_ne_zero (p q : ℚ) (hp : f32 p = p) (hq : f32 q = q) (hne : p ≠ q) :
    f32 (p - q) ≠ 0 := by
  obtain ⟨n, hn⟩ := f32_fixed_multiple p hp
  obtain ⟨m, hm⟩ := f32_fixed_multiple q hq
  apply f32_ne_zero_of_ge
  have hnm : n ≠ m := by
    intro e
    apply hne
    rw [hn, hm, e]
  have h1 : (1 : ℤ) ≤ |n - m| := Int.one_le_abs (sub_ne_zero.mpr hnm)
  have hu : (0 : ℚ) < 2 ^ (-149 : ℤ) := zpow_pos (by norm_num) _
  have e : p - q = ((n - m : ℤ) : ℚ) * 2 ^ (-149 : ℤ) := by
    rw [hn, hm]
    push_cast
    ring
  rw [e, abs_mul, abs_of_pos hu]
  have h2 : (1 : ℚ) ≤ |((n - m : ℤ) : ℚ)| := by
    rw [← Int.cast_abs]
    exact_mod_cast h1
  nlinarith

/-- With operations rounded by a rounding `fl` that keeps 0 and 1 and does not
round the difference of the two view z to zero: an endpoint `a` on the near
plane gives `t = 0` and the vertex `a` (when the coordinates of `a` are values
of the rounding); an endpoint `b` on the near plane gives `t = 1` and the view
z of `b`. -/
theorem clip_inter_fl_on_plane (fl : ℚ → ℚ) (near_plane : ℚ) (a b : ClipVert)
    (h0 : fl 0 = 0) (h1 : fl 1 = 1) (hd : fl (b.view_pos.z - a.view_pos.z) ≠ 0) :
    (a.view_pos.z = -near_plane →
      clip_t_fl fl near_plane a b = 0 ∧
      (fl a.view_pos.x = a.view_pos.x → fl a.view_pos.y = a.view_pos.y →
        fl a.uv.x = a.uv.x → fl a.uv.y = a.uv.y →
        clip_inter_fl fl near_plane a b = a)) ∧
    (b.view_pos.z = -near_plane →
      clip_t_fl fl near_plane a b = 1 ∧
      (clip_inter_fl fl near_plane a b).view_pos.z = b.view_pos.z) := by
  refine ⟨?_, ?_⟩
  · intro ha
    have ht : clip_t_fl fl near_plane a b = 0 := by
      unfold clip_t_fl
      rw [ha, sub_self, h0, zero_div, h0]
    refine ⟨ht, fun hx hy hu hv => ?_⟩
    unfold clip_inter_fl
    simp only [ht, mul_zero, h0, add_zero, hx, hy, hu, hv]
    rw [← ha]
  · intro hb
    have ht : clip_t_fl fl near_plane a b = 1 := by
      unfold clip_t_fl
      rw [← hb, div_self hd, h1]
    refine ⟨ht, ?_⟩
    unfold clip_inter_fl
    simp only
    exact hb.symm

/-- C17 (amended): in the near-clip walk, for an edge `a → b` that crosses the
near plane and has an endpoint exactly on the plane (`view_z == -near_plane`).
In binary32 (`fl = f32`), when the two view z are binary32 values, the
denominator of `t` is not zero; if the endpoint is `a` then `t = 0` and the
interpolated vertex is `a` in position and in UV (the coordinates of `a` being
binary32 values); if the endpoint is `b` then `t = 1` and the interpolated
vertex has the view z of `b`.  The same holds for any rounding `fl` that keeps
0 and 1 and does not round the difference of the two view z to zero.  In exact
arithmetic (`fl = id`) the interpolated vertex is `a` in the first case and `b`
in the second, in position and in UV.  The interpolated vertex is the one the
walk emits for the edge. -/
theorem clip_inter_on_plane (fl : ℚ → ℚ) (near_plane : ℚ) (a b : ClipVert)
    (hcross : (a.view_pos.z ≤ -near_plane ∧ ¬ b.view_pos.z ≤ -near_plane) ∨
      (¬ a.view_pos.z ≤ -near_plane ∧ b.view_pos.z ≤ -near_plane)) :
    (f32 a.view_pos.z = a.view_pos.z → f32 b.view_pos.z = b.view_pos.z →
      f32 (b.view_pos.z - a.view_pos.z) ≠ 0 ∧
      (a.view_pos.z = -near_plane →
        clip_t_fl f32 near_plane a b = 0 ∧
        (f32 a.view_pos.x = a.view_pos.x → f32 a.view_pos.y = a.view_pos.y →
          f32 a.uv.x = a.uv.x → f32 a.uv.y = a.uv.y →
          clip_inter_fl f32 near_plane a b = a)) ∧
      (b.view_pos.z = -near_plane →
        clip_t_fl f32 near_plane a b = 1 ∧
        (clip_inter_fl f32 near_plane a b).view_pos.z = b.view_pos.z)) ∧
    (fl 0 = 0 → fl 1 = 1 → fl (b.view_pos.z - a.view_pos.z) ≠ 0 →
      (a.view_pos.z = -near_plane →
        clip_t_fl fl near_plane a b = 0 ∧
        (fl a.view_pos.x = a.view_pos.x → fl a.view_pos.y = a.view_pos.y →
          fl a.uv.x = a.uv.x → fl a.uv.y = a.uv.y →
          clip_inter_fl fl near_plane a b = a)) ∧
      (b.view_pos.z = -near_plane →
        clip_t_fl fl near_plane a b = 1 ∧
        (clip_inter_fl fl near_plane a b).view_pos.z = b.view_pos.z)) ∧
    (a.view_pos.z = -near_plane →
      clip_t_fl id near_plane a b = 0 ∧ clip_inter_fl id near_plane a b = a) ∧
    (b.view_pos.z = -near_plane →
      clip_t_fl id near_plane a b = 1 ∧ clip_inter_fl id near_plane a b = b) ∧
    clip_inter_fl fl near_plane a b ∈ clip_edge_fl fl near_plane a b := by
  have hzne : b.view_pos.z ≠ a.view_pos.z := by
    rcases hcross with ⟨h1, h2⟩ | ⟨h1, h2⟩
    · intro e
      rw [e] at h2
      exact h2 h1
    · intro e
      rw [e] at h2
      exact h1 h2
  refine ⟨?_, ?_, ?_, ?_, ?_⟩
  · intro hfa hfb
    have hd := f32_sub_ne_zero b.view_pos.z a.view_pos.z hfb hfa hzne
    exact ⟨hd, clip_inter_fl_on_plane f32 near_plane a b f32_zero f32_small_ints.2.2.2 hd⟩
  · intro h0 h1 hd
    exact clip_inter_fl_on_plane fl near_plane a b h0 h1 hd
  · exact (clip_inter_exact_on_plane near_plane a b hcross).1
  · exact (clip_inter_exact_on_plane near_plane a b hcross).2
  · unfold clip_edge_fl
    rcases hcross with ⟨h1, h2⟩ | ⟨h1, h2⟩
    · simp [h1, h2]
    · simp [h1, h2]

/-- Witness for C17: in binary32, the edge from a vertex on the near plane 0.5
to a vertex in front of it. -/
theorem clip_inter_on_plane_witness :
    clip_t_fl f32 (1 / 2) ⟨⟨1, 2, -1 / 2⟩, ⟨0, 1⟩⟩ ⟨⟨3, 4, 1⟩, ⟨1, 0⟩⟩ = 0 ∧
    clip_inter_fl f32 (1 / 2) ⟨⟨1, 2, -1 / 2⟩, ⟨0, 1⟩⟩ ⟨⟨3, 4, 1⟩, ⟨1, 0⟩⟩
      = ⟨⟨1, 2, -1 / 2⟩, ⟨0, 1⟩⟩ := by
  have h1 : f32 1 = 1 := f32_small_ints.2.2.2
  have h2 : f32 2 = 2 := by
    have h := f32_intCast 2 (by norm_num)
    norm_num at h
    exact h
  have hh : f32 (-1 / 2) = -1 / 2 := by
    have h := f32_repr (-1) (-1) (by norm_num) (by norm_num)
    norm_num at h
    norm_num
    exact h
  have h := ((clip_inter_on_plane f32 (1 / 2) ⟨⟨1, 2, -1 / 2⟩, ⟨0, 1⟩⟩ ⟨⟨3, 4, 1⟩, ⟨1, 0⟩⟩
    (Or.inl ⟨by norm_num, by norm_num⟩)).1 hh h1).2.1 (by norm_num)
  exact ⟨h.1, h.2 h1 h2 f32_zero h1⟩

end Soft3d
